import Mathlib

/-!
Path constraint solver of spine-cpp (`spine/PathConstraint.cpp`)

A shallow embedding of `PathConstraint::update`, `computeWorldPositions`,
`addBeforePosition`, `addAfterPosition` and `addCurvePosition`.

Conventions of the embedding.

* `float` values are elements of a linearly ordered field `K`; arithmetic is exact
  (no rounding, no infinities).  Decimal literals are read as the decimal fraction
  they spell (`0.3f` is `3 / 10`).
* From finite numbers the C code produces a special value in one place: the local `p`
  of the constant-speed sampling loop, by `fmod` with a zero divisor or by a division
  by zero.  The definitions of the namespace `Special` embed that loop with `p` and the
  cells it writes as floats with special values (`Flt K`: NaN, the infinities or a
  finite number; a comparison with NaN is false).  The other definitions read these
  operations in the field (`x / 0 = 0`, `fmod` as the environment gives it).
* The C library and `MathUtil` functions (`sqrt`, `atan2`, `cos`, `sin`, `fmod`,
  `isnan`) and the macros `SPINE_PI`, `SPINE_PI_2`, `DegRad` are not part of the
  file under study; they are the fields of `MathUtil K`.
* A `Vector<float>` is a `List K`.  Reading or writing outside the current size is a
  fault: the embedded functions return `none`.  `reserve(n); setSize(n)` keeps the
  first `n` old cells and exposes unspecified memory for the others, given by the
  parameter `fresh`.
* `int` variables that the source decrements below a possibly small value
  (`verticesLength`, `curveCount`, `prevCurve`) are `Int`; counters that start at 0
  and only grow are `Nat`.
-/

set_option linter.unusedSectionVars false

namespace Spine

/-- The math functions and constants the solver takes from `MathUtil.h` and `<math.h>`. -/
structure MathUtil (K : Type) where
  sqrt : K → K
  atan2 : K → K → K
  cos : K → K
  sin : K → K
  fmod : K → K → K
  isnan : K → Bool
  PI : K
  PI_2 : K
  DegRad : K

inductive SpacingMode where
  | Length
  | Fixed
  | Percent
deriving DecidableEq, Repr

inductive PositionMode where
  | Fixed
  | Percent
deriving DecidableEq, Repr

inductive RotateMode where
  | Tangent
  | Chain
  | ChainScale
deriving DecidableEq, Repr

/-- The fields of `Bone` the solver touches; `dataLength` is `bone._data.getLength()`. -/
structure Bone (K : Type) where
  _worldX : K
  _worldY : K
  _a : K
  _b : K
  _c : K
  _d : K
  _appliedValid : Bool
  dataLength : K

/-- The interface of `PathAttachment` used by the solver.  `vertices j` is the value
`computeWorldVertices` produces for the float of index `j` of the attachment. -/
structure PathAttachment (K : Type) where
  closed : Bool
  constantSpeed : Bool
  worldVerticesLength : Nat
  lengths : List K
  vertices : Nat → K

/-- The attachment of the target slot: a path attachment or an attachment of another kind. -/
inductive Attachment (K : Type) where
  | path (p : PathAttachment K)
  | other

/-- The target slot: its current attachment (`NULL` is `none`) and its bone. -/
structure Slot (K : Type) where
  attachment : Option (Attachment K)
  bone : Bone K

structure PathConstraintData (K : Type) where
  _spacingMode : SpacingMode
  _rotateMode : RotateMode
  _positionMode : PositionMode
  _offsetRotation : K

/-- The members of `PathConstraint`, scratch buffers included. -/
structure PathConstraint (K : Type) where
  _data : PathConstraintData K
  _target : Slot K
  _position : K
  _spacing : K
  _rotateMix : K
  _translateMix : K
  _bones : List (Bone K)
  _spaces : List K
  _positions : List K
  _world : List K
  _curves : List K
  _lengths : List K
  _segments : List K

section Defs

variable {K : Type} [LinearOrderedField K]

/-- `PathConstraint::EPSILON = 0.00001f`. -/
def EPSILON : K := 1 / 100000

/-- `PathConstraint::NONE`. -/
def NONE : Int := -1

/-- `PathConstraint::BEFORE`. -/
def BEFORE : Int := -2

/-- `PathConstraint::AFTER`. -/
def AFTER : Int := -3

/-- The literal `0.16666667f` of the forward-difference set-up. -/
def SIXTH : K := 16666667 / 100000000

/-- An `int` used as an index or a size: negative values are a fault. -/
def toIdx (z : Int) : Option Nat :=
  if 0 ≤ z then some z.toNat else none

/-- `v.reserve(n); v.setSize(n)`: the first `n` old cells are kept, the cells beyond the
old size hold unspecified memory `fresh`. -/
def Vector.setSize (fresh : Nat → K) (v : List K) (n : Nat) : List K :=
  (List.range n).map fun i => (v[i]?).getD (fresh i)

/-- `v[i] = x`. -/
def Vector.set (v : List K) (i : Nat) (x : K) : Option (List K) :=
  if i < v.length then some (List.set v i x) else none

/-- Modelled from the spec: `PathAttachment::computeWorldVertices(target, start, count,
world, offset)` is not in the file under study; it materializes the window of `count`
world-space floats starting at `start` into `world` from index `offset` on. -/
def PathAttachment.computeWorldVertices (path : PathAttachment K) (start count : Nat)
    (world : List K) (offset : Nat) : Option (List K) :=
  if offset + count ≤ world.length then
    some (world.take offset ++ (List.range count).map (fun j => path.vertices (start + j))
      ++ world.drop (offset + count))
  else none

/-- `PathConstraint::addBeforePosition`. -/
def addBeforePosition (M : MathUtil K) (p : K) (temp : List K) (i : Nat) (output : List K)
    (o : Nat) : Option (List K) := do
  let x1 ← temp[i]?
  let y1 ← temp[i + 1]?
  let t2 ← temp[i + 2]?
  let t3 ← temp[i + 3]?
  let dx := t2 - x1
  let dy := t3 - y1
  let r := M.atan2 dy dx
  let output ← Vector.set output o (x1 + p * M.cos r)
  let output ← Vector.set output (o + 1) (y1 + p * M.sin r)
  Vector.set output (o + 2) r

/-- `PathConstraint::addAfterPosition`. -/
def addAfterPosition (M : MathUtil K) (p : K) (temp : List K) (i : Nat) (output : List K)
    (o : Nat) : Option (List K) := do
  let x1 ← temp[i + 2]?
  let y1 ← temp[i + 3]?
  let t0 ← temp[i]?
  let t1 ← temp[i + 1]?
  let dx := x1 - t0
  let dy := y1 - t1
  let r := M.atan2 dy dx
  let output ← Vector.set output o (x1 + p * M.cos r)
  let output ← Vector.set output (o + 1) (y1 + p * M.sin r)
  Vector.set output (o + 2) r

/-- The clamp at the head of `addCurvePosition`: `if (p < EPSILON || isnan(p)) p = EPSILON`. -/
def clampP (M : MathUtil K) (p : K) : K :=
  if p < EPSILON ∨ M.isnan p = true then EPSILON else p

/-- The x (or y) coordinate `x1 * uuu + cx1 * uut3 + cx2 * utt3 + x2 * ttt` computed by
`addCurvePosition` at the already clamped parameter `p`. -/
def curvePoint (p x1 cx1 cx2 x2 : K) : K :=
  let tt := p * p
  let ttt := tt * p
  let u := 1 - p
  let uu := u * u
  let uuu := uu * u
  let ut := u * p
  let ut3 := ut * 3
  let uut3 := u * ut3
  let utt3 := ut3 * p
  x1 * uuu + cx1 * uut3 + cx2 * utt3 + x2 * ttt

/-- The subtrahend `x1 * uu + cx1 * ut * 2 + cx2 * tt` of the tangent computed by
`addCurvePosition` at the already clamped parameter `p`. -/
def curveLower (p x1 cx1 cx2 : K) : K :=
  let tt := p * p
  let u := 1 - p
  let uu := u * u
  let ut := u * p
  x1 * uu + cx1 * ut * 2 + cx2 * tt

/-- `PathConstraint::addCurvePosition`. -/
def addCurvePosition (M : MathUtil K) (p x1 y1 cx1 cy1 cx2 cy2 x2 y2 : K) (output : List K)
    (o : Nat) (tangents : Bool) : Option (List K) := do
  let p := clampP M p
  let x := curvePoint p x1 cx1 cx2 x2
  let y := curvePoint p y1 cy1 cy2 y2
  let output ← Vector.set output o x
  let output ← Vector.set output (o + 1) y
  if tangents then
    Vector.set output (o + 2) (M.atan2 (y - curveLower p y1 cy1 cy2) (x - curveLower p x1 cx1 cx2))
  else
    pure output

/-- The eight floats of one cubic segment held in the locals `x1, y1, cx1, cy1, cx2, cy2,
x2, y2` of `computeWorldPositions`. -/
structure Ctrl (K : Type) where
  x1 : K
  y1 : K
  cx1 : K
  cy1 : K
  cx2 : K
  cy2 : K
  x2 : K
  y2 : K

/-- The body of the search loops `for (;; k++) { length = table[k]; if (p > length) continue;
... break; }` over the cells `table[k], table[k+1], ...`: the index at which the loop breaks,
or a fault when it runs past the end of the table. -/
def scan (p : K) : List K → Nat → Option Nat
  | [], _ => none
  | l :: ls, k => if p > l then scan p ls (k + 1) else some k

/-- The search loop started at index `start`. -/
def search (table : List K) (p : K) (start : Nat) : Option Nat :=
  scan p (table.drop start) start

/-- The normalisation at the break of the curve search: `p /= length` for curve 0, else
`p = (p - prev) / (length - prev)`. -/
def curveParam (table : List K) (p : K) (curve : Nat) : Option K := do
  let length ← table[curve]?
  if curve = 0 then
    pure (p / length)
  else
    let prev ← table[curve - 1]?
    pure ((p - prev) / (length - prev))

/-- The normalisation at the break of the segment search: `p /= length` for segment 0, else
`p = segment + (p - prev) / (length - prev)`. -/
def segmentParam (table : List K) (p : K) (segment : Nat) : Option K := do
  let length ← table[segment]?
  if segment = 0 then
    pure (p / length)
  else
    let prev ← table[segment - 1]?
    pure ((segment : K) + (p - prev) / (length - prev))

/-- Lines 457-476: the four forward-difference chords of one curve added to `pathLength`.
`sixth` is the literal `0.16666667f`. -/
def addCurveLength (M : MathUtil K) (sixth pathLength : K) (c : Ctrl K) : K :=
  let tmpx := (c.x1 - c.cx1 * 2 + c.cx2) * (1875 / 10000)
  let tmpy := (c.y1 - c.cy1 * 2 + c.cy2) * (1875 / 10000)
  let dddfx := ((c.cx1 - c.cx2) * 3 - c.x1 + c.x2) * (9375 / 100000)
  let dddfy := ((c.cy1 - c.cy2) * 3 - c.y1 + c.y2) * (9375 / 100000)
  let ddfx := tmpx * 2 + dddfx
  let ddfy := tmpy * 2 + dddfy
  let dfx := (c.cx1 - c.x1) * (75 / 100) + tmpx + dddfx * sixth
  let dfy := (c.cy1 - c.y1) * (75 / 100) + tmpy + dddfy * sixth
  let pathLength := pathLength + M.sqrt (dfx * dfx + dfy * dfy)
  let dfx := dfx + ddfx
  let dfy := dfy + ddfy
  let ddfx := ddfx + dddfx
  let ddfy := ddfy + dddfy
  let pathLength := pathLength + M.sqrt (dfx * dfx + dfy * dfy)
  let dfx := dfx + ddfx
  let dfy := dfy + ddfy
  let pathLength := pathLength + M.sqrt (dfx * dfx + dfy * dfy)
  let dfx := dfx + (ddfx + dddfx)
  let dfy := dfy + (ddfy + dddfy)
  pathLength + M.sqrt (dfx * dfx + dfy * dfy)

/-- Lines 449-480: the loop `for (i = 0, w = 2; i < curveCount; i++, w += 6)` filling
`_curves`; `todo` is the number of iterations left.  Returns `pathLength`, the locals
`x1 .. y2` as the loop leaves them, and `_curves`. -/
def curveLengthsLoop (M : MathUtil K) (sixth : K) (world : List K) :
    Nat → Nat → Nat → K → Ctrl K → List K → Option (K × Ctrl K × List K)
  | 0, _, _, pathLength, c, curves => some (pathLength, c, curves)
  | todo + 1, i, w, pathLength, c, curves => do
    let cx1 ← world[w]?
    let cy1 ← world[w + 1]?
    let cx2 ← world[w + 2]?
    let cy2 ← world[w + 3]?
    let x2 ← world[w + 4]?
    let y2 ← world[w + 5]?
    let pathLength := addCurveLength M sixth pathLength ⟨c.x1, c.y1, cx1, cy1, cx2, cy2, x2, y2⟩
    let curves ← Vector.set curves i pathLength
    curveLengthsLoop M sixth world todo (i + 1) (w + 6) pathLength
      ⟨x2, y2, cx1, cy1, cx2, cy2, x2, y2⟩ curves

/-- The forward-difference locals `dfx, dfy, ddfx, ddfy, curveLength` of the segment loop. -/
structure FD (K : Type) where
  dfx : K
  dfy : K
  ddfx : K
  ddfy : K
  curveLength : K

/-- Lines 567-575: `for (ii = 1; ii < 8; ii++)`, `n` iterations left; the entries written to
`_segments` are appended to `acc`. -/
def segmentsLoop (M : MathUtil K) (dddfx dddfy : K) : Nat → FD K → List K → FD K × List K
  | 0, f, acc => (f, acc)
  | n + 1, f, acc =>
    let dfx := f.dfx + f.ddfx
    let dfy := f.dfy + f.ddfy
    let ddfx := f.ddfx + dddfx
    let ddfy := f.ddfy + dddfy
    let curveLength := f.curveLength + M.sqrt (dfx * dfx + dfy * dfy)
    segmentsLoop M dddfx dddfy n ⟨dfx, dfy, ddfx, ddfy, curveLength⟩ (acc ++ [curveLength])

/-- Lines 557-583: the ten entries written to `_segments[0..9]` for the curve `c`, and the
final `curveLength`.  `sixth` is the literal `0.16666667f`. -/
def segmentLengths (M : MathUtil K) (sixth : K) (c : Ctrl K) : List K × K :=
  let tmpx := (c.x1 - c.cx1 * 2 + c.cx2) * (3 / 100)
  let tmpy := (c.y1 - c.cy1 * 2 + c.cy2) * (3 / 100)
  let dddfx := ((c.cx1 - c.cx2) * 3 - c.x1 + c.x2) * (6 / 1000)
  let dddfy := ((c.cy1 - c.cy2) * 3 - c.y1 + c.y2) * (6 / 1000)
  let ddfx := tmpx * 2 + dddfx
  let ddfy := tmpy * 2 + dddfy
  let dfx := (c.cx1 - c.x1) * (3 / 10) + tmpx + dddfx * sixth
  let dfy := (c.cy1 - c.y1) * (3 / 10) + tmpy + dddfy * sixth
  let curveLength := M.sqrt (dfx * dfx + dfy * dfy)
  let r := segmentsLoop M dddfx dddfy 7 ⟨dfx, dfy, ddfx, ddfy, curveLength⟩ [curveLength]
  let f := r.1
  let dfx := f.dfx + f.ddfx
  let dfy := f.dfy + f.ddfy
  let curveLength8 := f.curveLength + M.sqrt (dfx * dfx + dfy * dfy)
  let dfx := dfx + (f.ddfx + dddfx)
  let dfy := dfy + (f.ddfy + dddfy)
  let curveLength9 := curveLength8 + M.sqrt (dfx * dfx + dfy * dfy)
  (r.2 ++ [curveLength8, curveLength9], curveLength9)

/-- The locals and members the constant-speed sampling loop (lines 495-609) carries from one
sample to the next. -/
structure Cursor (K : Type) where
  position : K
  curve : Nat
  segment : Nat
  prevCurve : Int
  curveLength : K
  c : Ctrl K
  segments : List K
  positions : List K

/-- Lines 545-585: when `curve != prevCurve`, load the control points of `curve` from
`_world`, rebuild `_segments` and reset `segment`.  `_segments` has the ten cells the
constructor gave it and is never resized, so the ten writes replace its content. -/
def loadCurve (M : MathUtil K) (world : List K) (curve : Nat) (s : Cursor K) :
    Option (Cursor K) :=
  if (curve : Int) ≠ s.prevCurve then do
    let ii := curve * 6
    let x1 ← world[ii]?
    let y1 ← world[ii + 1]?
    let cx1 ← world[ii + 2]?
    let cy1 ← world[ii + 3]?
    let cx2 ← world[ii + 4]?
    let cy2 ← world[ii + 5]?
    let x2 ← world[ii + 6]?
    let y2 ← world[ii + 7]?
    let c : Ctrl K := ⟨x1, y1, cx1, cy1, cx2, cy2, x2, y2⟩
    let t := segmentLengths M SIXTH c
    pure { s with curve := curve, prevCurve := curve, c := c, segments := t.1,
                  curveLength := t.2, segment := 0 }
  else
    pure { s with curve := curve }

/-- Lines 523-608: resolve the in-range distance `p` to a curve and a parameter and write the
sample at `positions[o ..]`. -/
def sampleCurve (M : MathUtil K) (world curves : List K) (o : Nat) (tangents : Bool)
    (s : Cursor K) (p : K) : Option (Cursor K) := do
  let curve ← search curves p s.curve
  let p ← curveParam curves p curve
  let s ← loadCurve M world curve s
  let p := p * s.curveLength
  let segment ← search s.segments p s.segment
  let p ← segmentParam s.segments p segment
  let positions ← addCurvePosition M (p * (1 / 10)) s.c.x1 s.c.y1 s.c.cx1 s.c.cy1 s.c.cx2 s.c.cy2
    s.c.x2 s.c.y2 s.positions o tangents
  pure { s with segment := segment, positions := positions }

/-- The closed-path wrap: `p = fmod(p, pathLength); if (p < 0) p += pathLength;`. -/
def wrap (M : MathUtil K) (p pathLength : K) : K :=
  let p := M.fmod p pathLength
  if p < 0 then p + pathLength else p

/-- One iteration of the constant-speed sampling loop (lines 496-609) for sample `i` written at
offset `o`; `verticesLength` is the adjusted value of the local of that name. -/
def sampleStep (M : MathUtil K) (closed tangents : Bool) (world curves spaces : List K)
    (pathLength : K) (verticesLength : Int) (i o : Nat) (s : Cursor K) : Option (Cursor K) := do
  let space ← spaces[i]?
  let position := s.position + space
  let p := position
  let tg := tangents || (decide (i > 0) && decide (space < EPSILON))
  if closed then
    sampleCurve M world curves o tg { s with position := position, curve := 0 } (wrap M p pathLength)
  else if p < 0 then do
    let positions ← addBeforePosition M p world 0 s.positions o
    pure { s with position := position, positions := positions }
  else if p > pathLength then do
    let idx ← toIdx (verticesLength - 4)
    let positions ← addAfterPosition M (p - pathLength) world idx s.positions o
    pure { s with position := position, positions := positions }
  else
    sampleCurve M world curves o tg { s with position := position } p

/-- A loop `for (i = 0, o = 0; i < spacesCount; i++, o += 3)` with body `step`; `todo` is the
number of iterations left. -/
def sampleLoop {σ : Type} (step : Nat → Nat → σ → Option σ) : Nat → Nat → Nat → σ → Option σ
  | 0, _, _, s => some s
  | todo + 1, i, o, s => do
    let s ← step i o s
    sampleLoop step todo (i + 1) (o + 3) s

/-- The loop `for (i = 0; i < spacesCount; ++i) _spaces[i] *= pathLength`. -/
def scaleSpaces (spaces : List K) (spacesCount : Nat) (pathLength : K) : Option (List K) :=
  if spacesCount ≤ spaces.length then
    some ((spaces.take spacesCount).map (fun x => x * pathLength) ++ spaces.drop spacesCount)
  else none

/-- The locals and members the sampling loop of the non-constant-speed branch (lines 342-419)
carries from one sample to the next. -/
structure NCursor (K : Type) where
  position : K
  curve : Nat
  prevCurve : Int
  world : List K
  positions : List K

/-- Lines 404-416 of the non-constant-speed branch: when `curve != prevCurve`, materialize
the control points of `curve` into `_world`. -/
def ncLoadCurve (path : PathAttachment K) (closed : Bool) (curveCount verticesLength : Int)
    (curve : Nat) (s : NCursor K) : Option (NCursor K) :=
  if (curve : Int) ≠ s.prevCurve then do
    let world ← (if closed && decide ((curve : Int) = curveCount) then do
        let start ← toIdx (verticesLength - 4)
        let w ← path.computeWorldVertices start 4 s.world 0
        path.computeWorldVertices 0 4 w 4
      else
        path.computeWorldVertices (curve * 6 + 2) 8 s.world 0)
    pure { s with curve := curve, prevCurve := curve, world := world }
  else
    pure { s with curve := curve }

/-- Line 418 of the non-constant-speed branch: the call of `addCurvePosition` on the eight
cells of `_world`. -/
def ncAddCurvePosition (M : MathUtil K) (p : K) (world output : List K) (o : Nat)
    (tangents : Bool) : Option (List K) := do
  let w0 ← world[0]?
  let w1 ← world[1]?
  let w2 ← world[2]?
  let w3 ← world[3]?
  let w4 ← world[4]?
  let w5 ← world[5]?
  let w6 ← world[6]?
  let w7 ← world[7]?
  addCurvePosition M p w0 w1 w2 w3 w4 w5 w6 w7 output o tangents

/-- Lines 383-418 of the non-constant-speed branch. -/
def ncSampleCurve (M : MathUtil K) (path : PathAttachment K) (closed : Bool)
    (curveCount verticesLength : Int) (o : Nat) (tangents : Bool) (s : NCursor K) (p : K) :
    Option (NCursor K) := do
  let curve ← search path.lengths p s.curve
  let p ← curveParam path.lengths p curve
  let s ← ncLoadCurve path closed curveCount verticesLength curve s
  let positions ← ncAddCurvePosition M p s.world s.positions o tangents
  pure { s with positions := positions }

/-- One iteration of the sampling loop of the non-constant-speed branch (lines 342-419). -/
def ncSampleStep (M : MathUtil K) (path : PathAttachment K) (closed tangents : Bool)
    (spaces : List K) (pathLength : K) (curveCount verticesLength : Int) (i o : Nat)
    (s : NCursor K) : Option (NCursor K) := do
  let space ← spaces[i]?
  let position := s.position + space
  let p := position
  let tg := tangents || (decide (i > 0) && decide (space < EPSILON))
  if closed then
    ncSampleCurve M path closed curveCount verticesLength o tg
      { s with position := position, curve := 0 } (wrap M p pathLength)
  else if p < 0 then do
    let world ← (if s.prevCurve ≠ BEFORE then path.computeWorldVertices 2 4 s.world 0
      else pure s.world)
    let positions ← addBeforePosition M p world 0 s.positions o
    pure { s with position := position, prevCurve := BEFORE, world := world,
                  positions := positions }
  else if p > pathLength then do
    let world ← (if s.prevCurve ≠ AFTER then do
        let start ← toIdx (verticesLength - 6)
        path.computeWorldVertices start 4 s.world 0
      else pure s.world)
    let positions ← addAfterPosition M (p - pathLength) world 0 s.positions o
    pure { s with position := position, prevCurve := AFTER, world := world,
                  positions := positions }
  else
    ncSampleCurve M path closed curveCount verticesLength o tg { s with position := position } p

/-- Lines 423-441: the `_world` buffer of the constant-speed branch, with the adjusted values
of the locals `verticesLength` and `curveCount`. -/
def worldVertices (fresh : Nat → K) (pc : PathConstraint K) (path : PathAttachment K) :
    Option (List K × Int × Int) :=
  let verticesLength : Int := path.worldVerticesLength
  let curveCount : Int := verticesLength / 6
  if path.closed then do
    let verticesLength := verticesLength + 2
    let size ← toIdx verticesLength
    let world := Vector.setSize fresh pc._world size
    let count ← toIdx (verticesLength - 4)
    let world ← path.computeWorldVertices 2 count world 0
    let world ← path.computeWorldVertices 0 2 world count
    let w0 ← world[0]?
    let i2 ← toIdx (verticesLength - 2)
    let world ← Vector.set world i2 w0
    let w1 ← world[1]?
    let i1 ← toIdx (verticesLength - 1)
    let world ← Vector.set world i1 w1
    pure (world, verticesLength, curveCount)
  else do
    let curveCount := curveCount - 1
    let verticesLength := verticesLength - 4
    let size ← toIdx verticesLength
    let world := Vector.setSize fresh pc._world size
    let world ← path.computeWorldVertices 2 size world 0
    pure (world, verticesLength, curveCount)

/-- Lines 443-480: `_curves` and `pathLength` of the constant-speed branch, with the locals
`x1 .. y2` as the loop leaves them. -/
def curveLengths (M : MathUtil K) (fresh : Nat → K) (pc : PathConstraint K) (world : List K)
    (curveCount : Int) : Option (K × Ctrl K × List K) := do
  let n ← toIdx curveCount
  let curves := Vector.setSize fresh pc._curves n
  let x1 ← world[0]?
  let y1 ← world[1]?
  curveLengthsLoop M SIXTH world n 0 2 0 ⟨x1, y1, 0, 0, 0, 0, 0, 0⟩ curves

/-- The content of `_world` after lines 424-441 of the constant-speed branch, for a path of at
least one point: the vertices from float 2 on, followed for a closed path by the first four
floats. -/
def worldOf (path : PathAttachment K) : List K :=
  if path.closed then
    (List.range (path.worldVerticesLength - 2)).map (fun j => path.vertices (2 + j)) ++
      [path.vertices 0, path.vertices 1, path.vertices 2, path.vertices 3]
  else
    (List.range (path.worldVerticesLength - 4)).map (fun j => path.vertices (2 + j))

/-- The locals `x1 .. y2` of curve `k` as the constant-speed branch reads them from `_world`
(cells `6 k .. 6 k + 7`). -/
def ctrlAt (world : List K) (k : Nat) : Ctrl K :=
  ⟨world.getD (k * 6) 0, world.getD (k * 6 + 1) 0, world.getD (k * 6 + 2) 0,
    world.getD (k * 6 + 3) 0, world.getD (k * 6 + 4) 0, world.getD (k * 6 + 5) 0,
    world.getD (k * 6 + 6) 0, world.getD (k * 6 + 7) 0⟩

/-- The value of `pathLength` after `n` iterations of the loop of lines 449-480. -/
def pathLengthUpTo (M : MathUtil K) (world : List K) : Nat → K
  | 0 => 0
  | n + 1 => addCurveLength M SIXTH (pathLengthUpTo M world n) (ctrlAt world n)

/-- The triple `addCurvePosition` writes for the curve `c` at parameter `p`. -/
def curveTriple (M : MathUtil K) (c : Ctrl K) (p : K) (tangents : Bool) : K × K × Option K :=
  (curvePoint (clampP M p) c.x1 c.cx1 c.cx2 c.x2,
   curvePoint (clampP M p) c.y1 c.cy1 c.cy2 c.y2,
   if tangents then
     some (M.atan2
       (curvePoint (clampP M p) c.y1 c.cy1 c.cy2 c.y2 - curveLower (clampP M p) c.y1 c.cy1 c.cy2)
       (curvePoint (clampP M p) c.x1 c.cx1 c.cx2 c.x2 - curveLower (clampP M p) c.x1 c.cx1 c.cx2))
   else none)

/-- The triple `addBeforePosition` writes for the amount `p` and the four floats of `temp` from
index `i` on. -/
def beforeTriple (M : MathUtil K) (temp : List K) (i : Nat) (p : K) : K × K × Option K :=
  let x1 := temp.getD i 0
  let y1 := temp.getD (i + 1) 0
  let dx := temp.getD (i + 2) 0 - x1
  let dy := temp.getD (i + 3) 0 - y1
  let r := M.atan2 dy dx
  (x1 + p * M.cos r, y1 + p * M.sin r, some r)

/-- The triple `addAfterPosition` writes for the amount `p` and the four floats of `temp` from
index `i` on. -/
def afterTriple (M : MathUtil K) (temp : List K) (i : Nat) (p : K) : K × K × Option K :=
  let x1 := temp.getD (i + 2) 0
  let y1 := temp.getD (i + 3) 0
  let dx := x1 - temp.getD i 0
  let dy := y1 - temp.getD (i + 1) 0
  let r := M.atan2 dy dx
  (x1 + p * M.cos r, y1 + p * M.sin r, some r)

/-- The cells a sample writes at offset `o` of `_positions`: `x`, `y` and, when an angle is
produced, the angle. -/
def write3 {K : Type} (P : List K) (o : Nat) (x y : K) (a : Option K) : List K :=
  match a with
  | some r => ((P.set o x).set (o + 1) y).set (o + 2) r
  | none => (P.set o x).set (o + 1) y

/-- The writes of consecutive samples, the first at offset `o`. -/
def applyWrites {K : Type} : List (K × K × Option K) → Nat → List K → List K
  | [], _, P => P
  | w :: ws, o, P => applyWrites ws (o + 3) (write3 P o w.1 w.2.1 w.2.2)

/-- The sub-segment table and `curveLength` of curve `k` (lines 545-583). -/
def segmentsOf (M : MathUtil K) (world : List K) (k : Nat) : List K × K :=
  segmentLengths M SIXTH (ctrlAt world k)

/-- The invariant of the constant-speed sampling loop: `curve` is an index of the curve table,
and once a curve has been loaded the cached control points and sub-segment table are those of
curve `prevCurve`. -/
structure Cursor.Valid (M : MathUtil K) (world curves : List K) (s : Cursor K) : Prop where
  curve_lt : s.curve < curves.length
  cached : s.prevCurve ≠ NONE → ∃ k : Nat, s.prevCurve = (k : Int) ∧ k < curves.length ∧
    s.c = ctrlAt world k ∧ s.segments = (segmentsOf M world k).1 ∧
    s.curveLength = (segmentsOf M world k).2 ∧ s.segment ≤ 9

/-- What one iteration of the constant-speed sampling loop does for sample `i` with spacing
entry `space`, from the cursor `s`: the triple `w` it writes and the cursor `s1` it leaves
(whose `positions` field is not meaningful).  Either the distance is before the start of an
open path, or beyond its end, or it is resolved to curve `k`, curve parameter `q`, sub-segment
`j` and final parameter `t * 0.1`. -/
def StepOutcome (M : MathUtil K) (closed tangents : Bool) (world curves : List K) (n i : Nat)
    (space : K) (s : Cursor K) (w : K × K × Option K) (s1 : Cursor K) : Prop :=
  (closed = false ∧ s.position + space < 0 ∧
    w = beforeTriple M world 0 (s.position + space) ∧
    s1 = { s with position := s.position + space }) ∨
  (closed = false ∧ ¬ s.position + space < 0 ∧
    s.position + space > pathLengthUpTo M world n ∧
    w = afterTriple M world (world.length - 4)
      (s.position + space - pathLengthUpTo M world n) ∧
    s1 = { s with position := s.position + space }) ∨
  (∃ (p : K) (k : Nat) (q : K) (j : Nat) (t : K),
    p = (if closed then wrap M (s.position + space) (pathLengthUpTo M world n)
      else s.position + space) ∧
    (closed = false → 0 ≤ s.position + space ∧ s.position + space ≤ pathLengthUpTo M world n) ∧
    search curves p (if closed then 0 else s.curve) = some k ∧ k < n ∧
    curveParam curves p k = some q ∧ q ≤ 1 ∧
    search (segmentsOf M world k).1 (q * (segmentsOf M world k).2)
      (if (k : Int) ≠ s.prevCurve then 0 else s.segment) = some j ∧ j ≤ 9 ∧
    segmentParam (segmentsOf M world k).1 (q * (segmentsOf M world k).2) j = some t ∧
    w = curveTriple M (ctrlAt world k) (t * (1 / 10))
      (tangents || decide (i > 0) && decide (space < EPSILON)) ∧
    s1 = ⟨s.position + space, k, j, (k : Int), (segmentsOf M world k).2, ctrlAt world k,
      (segmentsOf M world k).1, s.positions⟩)

/-- The number of curves of a constant-speed path (the adjusted local `curveCount`). -/
def curveCountOf (path : PathAttachment K) : Nat :=
  if path.closed then path.worldVerticesLength / 6 else path.worldVerticesLength / 6 - 1

/-- The spacing buffer as the sampling loop reads it: scaled by the path length in Percent
spacing mode (lines 487-493). -/
def spacesIn (spaces : List K) (spacesCount : Nat) (percentSpacing : Bool) (pathLength : K) :
    List K :=
  if percentSpacing then
    (spaces.take spacesCount).map (fun x => x * pathLength) ++ spaces.drop spacesCount
  else spaces

/-- The base position as the sampling loop reads it: scaled by the path length in Percent
position mode (lines 482-485). -/
def positionIn (position : K) (percentPosition : Bool) (pathLength : K) : K :=
  if percentPosition then position * pathLength else position

/-- The curve table `_curves` of a constant-speed path. -/
def curvesOf (M : MathUtil K) (path : PathAttachment K) : List K :=
  (List.range (curveCountOf path)).map (fun k => pathLengthUpTo M (worldOf path) (k + 1))

/-- The length `pathLength` of a constant-speed path. -/
def lengthOf (M : MathUtil K) (path : PathAttachment K) : K :=
  pathLengthUpTo M (worldOf path) (curveCountOf path)

/-- The value of the local `pathLength` of `computeWorldPositions`. -/
def pathLengthOf (M : MathUtil K) (fresh : Nat → K) (pc : PathConstraint K)
    (path : PathAttachment K) : Option K :=
  if !path.constantSpeed then do
    let cc ← toIdx ((path.worldVerticesLength : Int) / 6 - (if path.closed then 1 else 2))
    path.lengths[cc]?
  else do
    let (world, _, curveCount) ← worldVertices fresh pc path
    let (pathLength, _, _) ← curveLengths M fresh pc world curveCount
    pure pathLength

/-- `PathConstraint::computeWorldPositions`: the returned vector and the constraint with its
scratch buffers as the call leaves them. -/
def computeWorldPositions (M : MathUtil K) (fresh : Nat → K) (pc : PathConstraint K)
    (path : PathAttachment K) (spacesCount : Nat) (tangents percentPosition percentSpacing : Bool) :
    Option (List K × PathConstraint K) :=
  let position := pc._position
  let positions := Vector.setSize fresh pc._positions (spacesCount * 3 + 2)
  let closed := path.closed
  let verticesLength : Int := path.worldVerticesLength
  let curveCount : Int := verticesLength / 6
  let prevCurve := NONE
  if !path.constantSpeed then do
    let lengths := path.lengths
    let curveCount := curveCount - (if closed then 1 else 2)
    let cc ← toIdx curveCount
    let pathLength ← lengths[cc]?
    let position := if percentPosition then position * pathLength else position
    let spaces ← (if percentSpacing then scaleSpaces pc._spaces spacesCount pathLength
      else pure pc._spaces)
    let world := Vector.setSize fresh pc._world 8
    let s ← sampleLoop
      (ncSampleStep M path closed tangents spaces pathLength curveCount verticesLength)
      spacesCount 0 0 ⟨position, 0, prevCurve, world, positions⟩
    pure (s.world, { pc with _spaces := spaces, _positions := s.positions, _world := s.world })
  else do
    let (world, verticesLength, curveCount) ← worldVertices fresh pc path
    let (pathLength, c, curves) ← curveLengths M fresh pc world curveCount
    let position := if percentPosition then position * pathLength else position
    let spaces ← (if percentSpacing then scaleSpaces pc._spaces spacesCount pathLength
      else pure pc._spaces)
    let s ← sampleLoop
      (sampleStep M closed tangents world curves spaces pathLength verticesLength)
      spacesCount 0 0 ⟨position, 0, 0, prevCurve, 0, c, pc._segments, positions⟩
    pure (s.positions, { pc with _spaces := spaces, _positions := s.positions, _world := world,
                                 _curves := curves, _segments := s.segments })

/-- Lines 117-142: the loop `for (i = 0, n = spacesCount - 1; i < n;)` of the spacing
calculator; `todo` is the number of iterations left.  The division of line 140 is the
parameter `div`; `update` passes the division of `K`. -/
def spacesLoop (M : MathUtil K) (div : K → K → K) (bones : List (Bone K))
    (scale lengthSpacing : Bool) (spacing : K) :
    Nat → Nat → List K → List K → Option (List K × List K)
  | 0, _, spaces, lengths => some (spaces, lengths)
  | todo + 1, i, spaces, lengths => do
    let bone ← bones[i]?
    let setupLength := bone.dataLength
    if setupLength < EPSILON then do
      let lengths ← (if scale then Vector.set lengths i 0 else pure lengths)
      let spaces ← Vector.set spaces (i + 1) 0
      spacesLoop M div bones scale lengthSpacing spacing todo (i + 1) spaces lengths
    else do
      let x := setupLength * bone._a
      let y := setupLength * bone._c
      let length := M.sqrt (x * x + y * y)
      let lengths ← (if scale then Vector.set lengths i length else pure lengths)
      let spaces ← Vector.set spaces (i + 1)
        (div ((if lengthSpacing then setupLength + spacing else spacing) * length) setupLength)
      spacesLoop M div bones scale lengthSpacing spacing todo (i + 1) spaces lengths

/-- Lines 146-149: the loop `for (i = 1; i < spacesCount; ++i) _spaces[i] = spacing`. -/
def fillSpaces (spaces : List K) (spacing : K) : List K :=
  match spaces with
  | [] => []
  | s0 :: rest => s0 :: rest.map (fun _ => spacing)

/-- Lines 104-150: the spacing calculator; returns `_spaces` and `_lengths`. -/
def computeSpaces (M : MathUtil K) (div : K → K → K) (fresh : Nat → K) (pc : PathConstraint K) :
    Option (List K × List K) :=
  let lengthSpacing := decide (pc._data._spacingMode = SpacingMode.Length)
  let tangents := decide (pc._data._rotateMode = RotateMode.Tangent)
  let scale := decide (pc._data._rotateMode = RotateMode.ChainScale)
  let boneCount := pc._bones.length
  let spacesCount := if tangents then boneCount else boneCount + 1
  let spaces := Vector.setSize fresh pc._spaces spacesCount
  if scale || lengthSpacing then
    let lengths := if scale then Vector.setSize fresh pc._lengths boneCount else pc._lengths
    spacesLoop M div pc._bones scale lengthSpacing pc._spacing (spacesCount - 1) 0 spaces lengths
  else
    some (fillSpaces spaces pc._spacing, pc._lengths)

/-- Lines 178-187: the chain-scale step of one bone.  The division of line 183 is the
parameter `div`; `update` passes the division of `K`. -/
def scaleStep (M : MathUtil K) (div : K → K → K) (lengths : List K) (scale : Bool)
    (rotateMix : K) (i : Nat) (dx dy : K) (bone : Bone K) : Option (Bone K) :=
  if scale then do
    let length ← lengths[i]?
    if length ≥ EPSILON then
      let s := (div (M.sqrt (dx * dx + dy * dy)) length - 1) * rotateMix + 1
      pure { bone with _a := bone._a * s, _c := bone._c * s }
    else
      pure bone
  else
    pure bone

/-- Lines 223-230: the single-step wrap of the relative rotation. -/
def wrapAngle (M : MathUtil K) (r : K) : K :=
  if r > M.PI then r - M.PI_2 else if r < -M.PI then r + M.PI_2 else r

/-- Lines 192-239: the rotate step of one bone; `boneX, boneY` are the running point after
`boneX = x; boneY = y`.  Returns the bone and the running point. -/
def rotateStep (M : MathUtil K) (positions spaces : List K) (tangents tip : Bool)
    (rotateMix offsetRotation : K) (i p : Nat) (dx dy : K) (bone : Bone K) (boneX boneY : K) :
    Option (Bone K × K × K) := do
  let a := bone._a
  let b := bone._b
  let c := bone._c
  let d := bone._d
  let r ← (if tangents then positions[p - 1]?
    else do
      let sp ← spaces[i + 1]?
      if sp < EPSILON then positions[p + 2]? else pure (M.atan2 dy dx))
  let r := r - M.atan2 c a
  let cos := M.cos r
  let sin := M.sin r
  let length := bone.dataLength
  let boneX := if tip then boneX + (length * (cos * a - sin * c) - dx) * rotateMix else boneX
  let boneY := if tip then boneY + (length * (sin * a + cos * c) - dy) * rotateMix else boneY
  let r := if tip then r else r + offsetRotation
  let r := wrapAngle M r
  let r := r * rotateMix
  let cos := M.cos r
  let sin := M.sin r
  pure ({ bone with _a := cos * a - sin * c, _b := cos * b - sin * d,
                    _c := sin * a + cos * c, _d := sin * b + cos * d }, boneX, boneY)

/-- Lines 170-241: the body of the bone loop for bone `i` with `p = 3 * (i + 1)`; returns the
bone and the running point `boneX, boneY`. -/
def boneStep (M : MathUtil K) (div : K → K → K) (positions spaces lengths : List K)
    (scale rotate tangents tip : Bool) (rotateMix translateMix offsetRotation : K) (i p : Nat)
    (bone : Bone K) (boneX boneY : K) : Option (Bone K × K × K) := do
  let bone := { bone with _worldX := bone._worldX + (boneX - bone._worldX) * translateMix,
                          _worldY := bone._worldY + (boneY - bone._worldY) * translateMix }
  let x ← positions[p]?
  let y ← positions[p + 1]?
  let dx := x - boneX
  let dy := y - boneY
  let bone ← scaleStep M div lengths scale rotateMix i dx dy bone
  let boneX := x
  let boneY := y
  let (bone, boneX, boneY) ← (if rotate then
      rotateStep M positions spaces tangents tip rotateMix offsetRotation i p dx dy bone boneX boneY
    else pure (bone, boneX, boneY))
  pure ({ bone with _appliedValid := false }, boneX, boneY)

/-- Lines 168-242: the loop `for (i = 0, p = 3; i < boneCount; i++, p += 3)` over the bones
still to process; returns the bones as the loop leaves them. -/
def boneLoop (M : MathUtil K) (div : K → K → K) (positions spaces lengths : List K)
    (scale rotate tangents tip : Bool) (rotateMix translateMix offsetRotation : K) :
    List (Bone K) → Nat → Nat → K → K → Option (List (Bone K))
  | [], _, _, _, _ => some []
  | bone :: rest, i, p, boneX, boneY => do
    let (bone, boneX, boneY) ← boneStep M div positions spaces lengths scale rotate tangents tip
      rotateMix translateMix offsetRotation i p bone boneX boneY
    let rest ← boneLoop M div positions spaces lengths scale rotate tangents tip rotateMix
      translateMix offsetRotation rest (i + 1) (p + 3) boneX boneY
    pure (bone :: rest)

/-- Lines 155-166: the `tip` flag and the sign-corrected offset rotation. -/
def tipAndOffset (M : MathUtil K) (pc : PathConstraint K) : Bool × K :=
  let offsetRotation := pc._data._offsetRotation
  if offsetRotation = 0 then
    (decide (pc._data._rotateMode = RotateMode.Chain), offsetRotation)
  else
    let p := pc._target.bone
    (false, offsetRotation * (if p._a * p._d - p._b * p._c > 0 then M.DegRad else -M.DegRad))

/-- `PathConstraint::update` with the divisions of the spacing calculator and of the
chain-scale step passed as `div`. -/
def updateWith (M : MathUtil K) (div : K → K → K) (fresh : Nat → K) (pc : PathConstraint K) :
    Option (PathConstraint K) :=
  match pc._target.attachment with
  | none => some pc
  | some Attachment.other => some pc
  | some (Attachment.path attachment) =>
    let rotateMix := pc._rotateMix
    let translateMix := pc._translateMix
    let translate := decide (translateMix > 0)
    let rotate := decide (rotateMix > 0)
    if !translate && !rotate then some pc
    else do
      let data := pc._data
      let spacingMode := data._spacingMode
      let rotateMode := data._rotateMode
      let tangents := decide (rotateMode = RotateMode.Tangent)
      let scale := decide (rotateMode = RotateMode.ChainScale)
      let boneCount := pc._bones.length
      let spacesCount := if tangents then boneCount else boneCount + 1
      let (spaces, lengths) ← computeSpaces M div fresh pc
      let pc := { pc with _spaces := spaces, _lengths := lengths }
      let (positions, pc) ← computeWorldPositions M fresh pc attachment spacesCount tangents
        (decide (data._positionMode = PositionMode.Percent))
        (decide (spacingMode = SpacingMode.Percent))
      let boneX ← positions[0]?
      let boneY ← positions[1]?
      let (tip, offsetRotation) := tipAndOffset M pc
      let bones ← boneLoop M div positions pc._spaces pc._lengths scale rotate tangents tip
        rotateMix translateMix offsetRotation pc._bones 0 3 boneX boneY
      pure { pc with _bones := bones }

/-- `PathConstraint::update`. -/
def update (M : MathUtil K) (fresh : Nat → K) (pc : PathConstraint K) :
    Option (PathConstraint K) :=
  updateWith M (fun x y => x / y) fresh pc

/-- The value the spacing loop (lines 122-138) writes to `_lengths[i]` for `bone`. -/
def chainLength (M : MathUtil K) (bone : Bone K) : K :=
  if bone.dataLength < EPSILON then 0
  else
    let x := bone.dataLength * bone._a
    let y := bone.dataLength * bone._c
    M.sqrt (x * x + y * y)

/-- The value the spacing loop (lines 122-140) writes to `_spaces[i + 1]` for `bone`. -/
def boneSpace (M : MathUtil K) (div : K → K → K) (lengthSpacing : Bool) (spacing : K)
    (bone : Bone K) : K :=
  if bone.dataLength < EPSILON then 0
  else
    let x := bone.dataLength * bone._a
    let y := bone.dataLength * bone._c
    div ((if lengthSpacing then bone.dataLength + spacing else spacing) * M.sqrt (x * x + y * y))
      bone.dataLength

/-- The part of the cursor that the next sample depends on: the running distance, the cached
curve and sub-segment indices and `prevCurve`. -/
def Cursor.core (s : Cursor K) : K × Nat × Nat × Int :=
  (s.position, s.curve, s.segment, s.prevCurve)

/-- The cursors the constant-speed sampling loop can hold before sample `i`, started from the
distance `position` with `curve = 0`, `segment = 0`, `prevCurve = NONE`. -/
inductive Reach (M : MathUtil K) (closed tangents : Bool) (world curves : List K) (n : Nat)
    (spaces : List K) (position : K) : Nat → Cursor K → Prop where
  | start (s : Cursor K) : s.core = (position, 0, 0, NONE) →
      Reach M closed tangents world curves n spaces position 0 s
  | next (i : Nat) (space : K) (s : Cursor K) (w : K × K × Option K) (s1 : Cursor K) :
      Reach M closed tangents world curves n spaces position i s → spaces[i]? = some space →
      StepOutcome M closed tangents world curves n i space s w s1 →
      Reach M closed tangents world curves n spaces position (i + 1) s1

/-- The triples the constant-speed sampling loop can write for sample `i`. -/
def Emitted (M : MathUtil K) (closed tangents : Bool) (world curves : List K) (n : Nat)
    (spaces : List K) (position : K) (i : Nat) (w : K × K × Option K) : Prop :=
  ∃ (s s1 : Cursor K) (space : K),
    Reach M closed tangents world curves n spaces position i s ∧ spaces[i]? = some space ∧
    StepOutcome M closed tangents world curves n i space s w s1

/-- Lines 195-206: the angle the rotate step of bone `i` starts from, read from the positions
buffer or computed from `dx, dy`. -/
def angleSource (M : MathUtil K) (positions spaces : List K) (tangents : Bool) (i p : Nat)
    (dx dy : K) : Option K :=
  if tangents then positions[p - 1]?
  else do
    let sp ← spaces[i + 1]?
    if sp < EPSILON then positions[p + 2]? else pure (M.atan2 dy dx)

/-- An open constant-speed path of `n` cubic segments laid along one straight line in travel
order: endpoint `k` is `(x0, y0) + e k * (ux, uy)` with `(ux, uy)` a unit vector, `e 0 = 0` and
`e` not decreasing, and the control points of every segment are evenly spaced between its
endpoints, `C1 = P1 + (P2 - P1) / 3` and `C2 = P1 + 2 (P2 - P1) / 3`. -/
structure StraightPath (path : PathAttachment K) (n : Nat) (x0 y0 ux uy : K)
    (e : Nat → K) : Prop where
  isOpen : path.closed = false
  isConstantSpeed : path.constantSpeed = true
  size : path.worldVerticesLength = 6 * n + 6
  direction : ux * ux + uy * uy = 1
  origin : e 0 = 0
  ordered : ∀ k, k < n → e k ≤ e (k + 1)
  endX : ∀ k, k ≤ n → path.vertices (6 * k + 2) = x0 + e k * ux
  endY : ∀ k, k ≤ n → path.vertices (6 * k + 3) = y0 + e k * uy
  firstX : ∀ k, k < n → path.vertices (6 * k + 4) =
    path.vertices (6 * k + 2) + (path.vertices (6 * k + 8) - path.vertices (6 * k + 2)) / 3
  firstY : ∀ k, k < n → path.vertices (6 * k + 5) =
    path.vertices (6 * k + 3) + (path.vertices (6 * k + 9) - path.vertices (6 * k + 3)) / 3
  secondX : ∀ k, k < n → path.vertices (6 * k + 6) =
    path.vertices (6 * k + 2) + 2 * (path.vertices (6 * k + 8) - path.vertices (6 * k + 2)) / 3
  secondY : ∀ k, k < n → path.vertices (6 * k + 7) =
    path.vertices (6 * k + 3) + 2 * (path.vertices (6 * k + 9) - path.vertices (6 * k + 3)) / 3

/-- The cubic Bezier polynomial as the specification writes it:
`P1 (1 - p)^3 + 3 C1 p (1 - p)^2 + 3 C2 p^2 (1 - p) + P2 p^3`, for one coordinate. -/
def bezier (p x1 cx1 cx2 x2 : K) : K :=
  x1 * (1 - p) ^ 3 + 3 * cx1 * p * (1 - p) ^ 2 + 3 * cx2 * p ^ 2 * (1 - p) + x2 * p ^ 3

/-- The derivative of `bezier` in `p`:
`3 (1 - p)^2 (C1 - P1) + 6 (1 - p) p (C2 - C1) + 3 p^2 (P2 - C2)`, for one coordinate. -/
def bezierDeriv (p x1 cx1 cx2 x2 : K) : K :=
  3 * (1 - p) ^ 2 * (cx1 - x1) + 6 * (1 - p) * p * (cx2 - cx1) + 3 * p ^ 2 * (x2 - cx2)

/-- Lines 208-231: the relative rotation `r` of the rotate step as it stands after the wrap and
before `r *= rotateMix`, from the angle `θ` the step starts from. -/
def relativeRotation (M : MathUtil K) (tip : Bool) (offsetRotation θ : K) (bone : Bone K) : K :=
  let r := θ - M.atan2 bone._c bone._a
  let r := if tip then r else r + offsetRotation
  wrapAngle M r

/-- The length `||B(t) - B(s)||` of the chord of the cubic `bezier` over the control points `c`
between the parameters `s` and `t`, as the specification writes it. -/
def chord (M : MathUtil K) (c : Ctrl K) (s t : K) : K :=
  M.sqrt ((bezier t c.x1 c.cx1 c.cx2 c.x2 - bezier s c.x1 c.cx1 c.cx2 c.x2) ^ 2 +
    (bezier t c.y1 c.cy1 c.cy2 c.y2 - bezier s c.y1 c.cy1 c.cy2 c.y2) ^ 2)

/-- The direct chord sum of the specification: the sum over `k = 1 .. j` of
`||B(k / n) - B((k - 1) / n)||`. -/
def chordSum (M : MathUtil K) (c : Ctrl K) (n : Nat) : Nat → K
  | 0 => 0
  | j + 1 => chordSum M c n j + chord M c ((j : K) / (n : K)) (((j + 1 : Nat) : K) / (n : K))

/-- The from-scratch variant of one iteration of the constant-speed sampling loop, as the
specification describes it: the curve search restarts at curve 0, the sub-segment table of the
found curve is rebuilt (no curve counts as loaded), and the sub-segment search restarts at
segment 0. -/
def scratchStep (M : MathUtil K) (closed tangents : Bool) (world curves spaces : List K)
    (pathLength : K) (verticesLength : Int) (i o : Nat) (s : Cursor K) : Option (Cursor K) :=
  sampleStep M closed tangents world curves spaces pathLength verticesLength i o
    { s with curve := 0, segment := 0, prevCurve := NONE }

/-- The constant-speed branch of `computeWorldPositions` with the from-scratch iteration
`scratchStep` in the place of the caching one. -/
def computeWorldPositionsScratch (M : MathUtil K) (fresh : Nat → K) (pc : PathConstraint K)
    (path : PathAttachment K) (spacesCount : Nat) (tangents percentPosition percentSpacing : Bool) :
    Option (List K × PathConstraint K) := do
  let position := pc._position
  let positions := Vector.setSize fresh pc._positions (spacesCount * 3 + 2)
  let closed := path.closed
  let (world, verticesLength, curveCount) ← worldVertices fresh pc path
  let (pathLength, c, curves) ← curveLengths M fresh pc world curveCount
  let position := if percentPosition then position * pathLength else position
  let spaces ← (if percentSpacing then scaleSpaces pc._spaces spacesCount pathLength
    else pure pc._spaces)
  let s ← sampleLoop
    (scratchStep M closed tangents world curves spaces pathLength verticesLength)
    spacesCount 0 0 ⟨position, 0, 0, NONE, 0, c, pc._segments, positions⟩
  pure (s.positions, { pc with _spaces := spaces, _positions := s.positions, _world := world,
                               _curves := curves, _segments := s.segments })

/-- The resolved distance of sample `i`: the base position plus the spacing entries `0 .. i`,
wrapped into the path when the path is closed. -/
def resolvedDistance (M : MathUtil K) (closed : Bool) (pathLength position : K)
    (spaces : List K) (i : Nat) : K :=
  if closed then wrap M (position + (spaces.take (i + 1)).sum) pathLength
  else position + (spaces.take (i + 1)).sum

/-- The cached indices of the cursor are behind the distance `r`: on an open path every curve
before the cached curve ends before `r`, and every sub-segment of the loaded curve before the
cached sub-segment ends before the weighted curve parameter of `r`. -/
def Cursor.Behind (M : MathUtil K) (closed : Bool) (world curves : List K) (r : K)
    (s : Cursor K) : Prop :=
  (closed = false → s.curve = 0 ∨ ∃ v, curves[s.curve - 1]? = some v ∧ v < r) ∧
  (∀ k : Nat, s.prevCurve = (k : Int) → s.segment = 0 ∨
    ∃ v q0, (segmentsOf M world k).1[s.segment - 1]? = some v ∧
      curveParam curves r k = some q0 ∧ v < q0 * (segmentsOf M world k).2)

/-- The cached curve index of the cursor of the non-constant-speed branch is behind the
distance `r`: on an open path every entry of the lengths table before the cached curve is
smaller than `r`. -/
def NCursor.Behind (lengths : List K) (closed : Bool) (r : K) (s : NCursor K) : Prop :=
  closed = false → ∀ j, j < s.curve → ∃ v, lengths[j]? = some v ∧ v < r

/-- A `float` with its special values: NaN, the two infinities, or a finite number (exact, as
everywhere in this file).  Zero is unsigned and stands for `+0`. -/
inductive Flt (K : Type) where
  | nan : Flt K
  | ninf : Flt K
  | pinf : Flt K
  | fin (x : K) : Flt K

/-- Addition of floats: NaN propagates and `∞ + (-∞)` is NaN. -/
def Flt.add : Flt K → Flt K → Flt K
  | Flt.nan, _ => Flt.nan
  | Flt.ninf, Flt.nan => Flt.nan
  | Flt.ninf, Flt.ninf => Flt.ninf
  | Flt.ninf, Flt.pinf => Flt.nan
  | Flt.ninf, Flt.fin _ => Flt.ninf
  | Flt.pinf, Flt.nan => Flt.nan
  | Flt.pinf, Flt.ninf => Flt.nan
  | Flt.pinf, Flt.pinf => Flt.pinf
  | Flt.pinf, Flt.fin _ => Flt.pinf
  | Flt.fin _, Flt.nan => Flt.nan
  | Flt.fin _, Flt.ninf => Flt.ninf
  | Flt.fin _, Flt.pinf => Flt.pinf
  | Flt.fin a, Flt.fin b => Flt.fin (a + b)

/-- Subtraction of floats: NaN propagates and `∞ - ∞` is NaN. -/
def Flt.sub : Flt K → Flt K → Flt K
  | Flt.nan, _ => Flt.nan
  | Flt.ninf, Flt.nan => Flt.nan
  | Flt.ninf, Flt.ninf => Flt.nan
  | Flt.ninf, Flt.pinf => Flt.ninf
  | Flt.ninf, Flt.fin _ => Flt.ninf
  | Flt.pinf, Flt.nan => Flt.nan
  | Flt.pinf, Flt.ninf => Flt.pinf
  | Flt.pinf, Flt.pinf => Flt.nan
  | Flt.pinf, Flt.fin _ => Flt.pinf
  | Flt.fin _, Flt.nan => Flt.nan
  | Flt.fin _, Flt.ninf => Flt.pinf
  | Flt.fin _, Flt.pinf => Flt.ninf
  | Flt.fin a, Flt.fin b => Flt.fin (a - b)

/-- The product of an infinity of sign `positive` and the finite number `b`: NaN for zero. -/
def Flt.scaleInf (positive : Bool) (b : K) : Flt K :=
  if 0 < b then (if positive then Flt.pinf else Flt.ninf)
  else if b < 0 then (if positive then Flt.ninf else Flt.pinf)
  else Flt.nan

/-- Multiplication of floats: NaN propagates and `0 * ∞` is NaN. -/
def Flt.mul : Flt K → Flt K → Flt K
  | Flt.nan, _ => Flt.nan
  | Flt.ninf, Flt.nan => Flt.nan
  | Flt.ninf, Flt.ninf => Flt.pinf
  | Flt.ninf, Flt.pinf => Flt.ninf
  | Flt.ninf, Flt.fin b => Flt.scaleInf false b
  | Flt.pinf, Flt.nan => Flt.nan
  | Flt.pinf, Flt.ninf => Flt.ninf
  | Flt.pinf, Flt.pinf => Flt.pinf
  | Flt.pinf, Flt.fin b => Flt.scaleInf true b
  | Flt.fin _, Flt.nan => Flt.nan
  | Flt.fin a, Flt.ninf => Flt.scaleInf false a
  | Flt.fin a, Flt.pinf => Flt.scaleInf true a
  | Flt.fin a, Flt.fin b => Flt.fin (a * b)

/-- Division of floats: NaN propagates, `∞ / ∞` and `0 / 0` are NaN, a non-zero finite number
divided by zero is the infinity of its sign (the zero divisor is `+0`), and a finite number
divided by an infinity is zero. -/
def Flt.div : Flt K → Flt K → Flt K
  | Flt.nan, _ => Flt.nan
  | Flt.ninf, Flt.nan => Flt.nan
  | Flt.ninf, Flt.ninf => Flt.nan
  | Flt.ninf, Flt.pinf => Flt.nan
  | Flt.ninf, Flt.fin b => if b < 0 then Flt.pinf else Flt.ninf
  | Flt.pinf, Flt.nan => Flt.nan
  | Flt.pinf, Flt.ninf => Flt.nan
  | Flt.pinf, Flt.pinf => Flt.nan
  | Flt.pinf, Flt.fin b => if b < 0 then Flt.ninf else Flt.pinf
  | Flt.fin _, Flt.nan => Flt.nan
  | Flt.fin _, Flt.ninf => Flt.fin 0
  | Flt.fin _, Flt.pinf => Flt.fin 0
  | Flt.fin a, Flt.fin b =>
    if b = 0 then (if 0 < a then Flt.pinf else if a < 0 then Flt.ninf else Flt.nan)
    else Flt.fin (a / b)

instance : Add (Flt K) := ⟨Flt.add⟩

instance : Sub (Flt K) := ⟨Flt.sub⟩

instance : Mul (Flt K) := ⟨Flt.mul⟩

instance : Div (Flt K) := ⟨Flt.div⟩

/-- The comparison `a < b` of floats: false when either side is NaN. -/
def Flt.lt : Flt K → Flt K → Bool
  | Flt.nan, _ => false
  | Flt.ninf, Flt.nan => false
  | Flt.ninf, Flt.ninf => false
  | Flt.ninf, Flt.pinf => true
  | Flt.ninf, Flt.fin _ => true
  | Flt.pinf, _ => false
  | Flt.fin _, Flt.nan => false
  | Flt.fin _, Flt.ninf => false
  | Flt.fin _, Flt.pinf => true
  | Flt.fin a, Flt.fin b => decide (a < b)

/-- The comparison `a > b` of floats: false when either side is NaN. -/
def Flt.gt (a b : Flt K) : Bool := Flt.lt b a

/-- The macro `isnan`. -/
def Flt.isnan : Flt K → Bool
  | Flt.nan => true
  | _ => false

/-- The C library `fmod` on finite arguments: NaN for a zero divisor, else the finite value
the math library gives. -/
def Flt.fmod (M : MathUtil K) (x y : K) : Flt K :=
  if y = 0 then Flt.nan else Flt.fin (M.fmod x y)

/-- The C library `atan2` on floats: NaN propagates, finite arguments go to the math library,
and infinite arguments give the fixed angles of the C standard (`±0` is `0`). -/
def Flt.atan2 (M : MathUtil K) : Flt K → Flt K → Flt K
  | Flt.nan, _ => Flt.nan
  | Flt.ninf, Flt.nan => Flt.nan
  | Flt.ninf, Flt.ninf => Flt.fin (-(3 * M.PI / 4))
  | Flt.ninf, Flt.pinf => Flt.fin (-(M.PI / 4))
  | Flt.ninf, Flt.fin _ => Flt.fin (-(M.PI / 2))
  | Flt.pinf, Flt.nan => Flt.nan
  | Flt.pinf, Flt.ninf => Flt.fin (3 * M.PI / 4)
  | Flt.pinf, Flt.pinf => Flt.fin (M.PI / 4)
  | Flt.pinf, Flt.fin _ => Flt.fin (M.PI / 2)
  | Flt.fin _, Flt.nan => Flt.nan
  | Flt.fin y, Flt.ninf => if y < 0 then Flt.fin (-M.PI) else Flt.fin M.PI
  | Flt.fin _, Flt.pinf => Flt.fin 0
  | Flt.fin y, Flt.fin x => Flt.fin (M.atan2 y x)

namespace Special

/-- The locals and members the constant-speed sampling loop (lines 495-609) carries from one
sample to the next, with the cells of `_positions` as floats with special values. -/
structure Cursor (K : Type) where
  position : K
  curve : Nat
  segment : Nat
  prevCurve : Int
  curveLength : K
  c : Ctrl K
  segments : List K
  positions : List (Flt K)

/-- `output[i] = x` on a buffer of floats with special values. -/
def set (v : List (Flt K)) (i : Nat) (x : Flt K) : Option (List (Flt K)) :=
  if i < v.length then some (List.set v i x) else none

/-- `PathConstraint::addBeforePosition` for a finite amount `p`. -/
def addBeforePosition (M : MathUtil K) (p : K) (temp : List K) (i : Nat)
    (output : List (Flt K)) (o : Nat) : Option (List (Flt K)) := do
  let x1 ← temp[i]?
  let y1 ← temp[i + 1]?
  let t2 ← temp[i + 2]?
  let t3 ← temp[i + 3]?
  let dx := t2 - x1
  let dy := t3 - y1
  let r := M.atan2 dy dx
  let output ← set output o (Flt.fin (x1 + p * M.cos r))
  let output ← set output (o + 1) (Flt.fin (y1 + p * M.sin r))
  set output (o + 2) (Flt.fin r)

/-- `PathConstraint::addAfterPosition` for a finite amount `p`. -/
def addAfterPosition (M : MathUtil K) (p : K) (temp : List K) (i : Nat)
    (output : List (Flt K)) (o : Nat) : Option (List (Flt K)) := do
  let x1 ← temp[i + 2]?
  let y1 ← temp[i + 3]?
  let t0 ← temp[i]?
  let t1 ← temp[i + 1]?
  let dx := x1 - t0
  let dy := y1 - t1
  let r := M.atan2 dy dx
  let output ← set output o (Flt.fin (x1 + p * M.cos r))
  let output ← set output (o + 1) (Flt.fin (y1 + p * M.sin r))
  set output (o + 2) (Flt.fin r)

/-- `PathConstraint::addCurvePosition` for a parameter `p` that may be a special value. -/
def addCurvePosition (M : MathUtil K) (p : Flt K) (x1 y1 cx1 cy1 cx2 cy2 x2 y2 : K)
    (output : List (Flt K)) (o : Nat) (tangents : Bool) : Option (List (Flt K)) := do
  let p := if Flt.lt p (Flt.fin EPSILON) || Flt.isnan p then Flt.fin EPSILON else p
  let tt := p * p
  let ttt := tt * p
  let u := Flt.fin 1 - p
  let uu := u * u
  let uuu := uu * u
  let ut := u * p
  let ut3 := ut * Flt.fin 3
  let uut3 := u * ut3
  let utt3 := ut3 * p
  let x := Flt.fin x1 * uuu + Flt.fin cx1 * uut3 + Flt.fin cx2 * utt3 + Flt.fin x2 * ttt
  let y := Flt.fin y1 * uuu + Flt.fin cy1 * uut3 + Flt.fin cy2 * utt3 + Flt.fin y2 * ttt
  let output ← set output o x
  let output ← set output (o + 1) y
  if tangents then
    set output (o + 2)
      (Flt.atan2 M (y - (Flt.fin y1 * uu + Flt.fin cy1 * ut * Flt.fin 2 + Flt.fin cy2 * tt))
        (x - (Flt.fin x1 * uu + Flt.fin cx1 * ut * Flt.fin 2 + Flt.fin cx2 * tt)))
  else
    pure output

/-- The body of the search loops `for (;; k++) { length = table[k]; if (p > length) continue;
... break; }` for a `p` that may be a special value: the index at which the loop breaks, or a
fault when it runs past the end of the table. -/
def scan (p : Flt K) : List K → Nat → Option Nat
  | [], _ => none
  | l :: ls, k => if Flt.gt p (Flt.fin l) then scan p ls (k + 1) else some k

/-- The search loop started at index `start`. -/
def search (table : List K) (p : Flt K) (start : Nat) : Option Nat :=
  scan p (table.drop start) start

/-- The normalisation at the break of the curve search: `p /= length` for curve 0, else
`p = (p - prev) / (length - prev)`. -/
def curveParam (table : List K) (p : Flt K) (curve : Nat) : Option (Flt K) := do
  let length ← table[curve]?
  if curve = 0 then
    pure (p / Flt.fin length)
  else
    let prev ← table[curve - 1]?
    pure ((p - Flt.fin prev) / (Flt.fin length - Flt.fin prev))

/-- The normalisation at the break of the segment search: `p /= length` for segment 0, else
`p = segment + (p - prev) / (length - prev)`. -/
def segmentParam (table : List K) (p : Flt K) (segment : Nat) : Option (Flt K) := do
  let length ← table[segment]?
  if segment = 0 then
    pure (p / Flt.fin length)
  else
    let prev ← table[segment - 1]?
    pure (Flt.fin (segment : K) + (p - Flt.fin prev) / (Flt.fin length - Flt.fin prev))

/-- Lines 545-585: when `curve != prevCurve`, load the control points of `curve` from
`_world`, rebuild `_segments` and reset `segment`. -/
def loadCurve (M : MathUtil K) (world : List K) (curve : Nat) (s : Cursor K) :
    Option (Cursor K) :=
  if (curve : Int) ≠ s.prevCurve then do
    let ii := curve * 6
    let x1 ← world[ii]?
    let y1 ← world[ii + 1]?
    let cx1 ← world[ii + 2]?
    let cy1 ← world[ii + 3]?
    let cx2 ← world[ii + 4]?
    let cy2 ← world[ii + 5]?
    let x2 ← world[ii + 6]?
    let y2 ← world[ii + 7]?
    let c : Ctrl K := ⟨x1, y1, cx1, cy1, cx2, cy2, x2, y2⟩
    let t := segmentLengths M SIXTH c
    pure { s with curve := curve, prevCurve := curve, c := c, segments := t.1,
                  curveLength := t.2, segment := 0 }
  else
    pure { s with curve := curve }

/-- Lines 523-608: resolve the distance `p`, which may be a special value, to a curve and a
parameter and write the sample at `positions[o ..]`. -/
def sampleCurve (M : MathUtil K) (world curves : List K) (o : Nat) (tangents : Bool)
    (s : Cursor K) (p : Flt K) : Option (Cursor K) := do
  let curve ← search curves p s.curve
  let p ← curveParam curves p curve
  let s ← loadCurve M world curve s
  let p := p * Flt.fin s.curveLength
  let segment ← search s.segments p s.segment
  let p ← segmentParam s.segments p segment
  let positions ← addCurvePosition M (p * Flt.fin (1 / 10)) s.c.x1 s.c.y1 s.c.cx1 s.c.cy1
    s.c.cx2 s.c.cy2 s.c.x2 s.c.y2 s.positions o tangents
  pure { s with segment := segment, positions := positions }

/-- The closed-path wrap `p = fmod(p, pathLength); if (p < 0) p += pathLength;` with the
special value of `fmod`. -/
def wrap (M : MathUtil K) (p pathLength : K) : Flt K :=
  let p := Flt.fmod M p pathLength
  if Flt.lt p (Flt.fin 0) then p + Flt.fin pathLength else p

/-- One iteration of the constant-speed sampling loop (lines 496-609) for sample `i` written at
offset `o`, with the special values of the local `p`; `verticesLength` is the adjusted value
of the local of that name. -/
def sampleStep (M : MathUtil K) (closed tangents : Bool) (world curves spaces : List K)
    (pathLength : K) (verticesLength : Int) (i o : Nat) (s : Cursor K) : Option (Cursor K) := do
  let space ← spaces[i]?
  let position := s.position + space
  let p := position
  let tg := tangents || (decide (i > 0) && decide (space < EPSILON))
  if closed then
    sampleCurve M world curves o tg { s with position := position, curve := 0 }
      (wrap M p pathLength)
  else if p < 0 then do
    let positions ← addBeforePosition M p world 0 s.positions o
    pure { s with position := position, positions := positions }
  else if p > pathLength then do
    let idx ← toIdx (verticesLength - 4)
    let positions ← addAfterPosition M (p - pathLength) world idx s.positions o
    pure { s with position := position, positions := positions }
  else
    sampleCurve M world curves o tg { s with position := position } (Flt.fin p)

/-- Lines 421-611: the branch of `computeWorldPositions` taken for a constant-speed path, with
the special values of the local `p`; returns the vector `_positions` and `_segments`. -/
def constantSpeedBranch (M : MathUtil K) (fresh : Nat → K) (pc : PathConstraint K)
    (path : PathAttachment K) (spacesCount : Nat)
    (tangents percentPosition percentSpacing : Bool) : Option (List (Flt K) × List K) := do
  let position := pc._position
  let positions := (Vector.setSize fresh pc._positions (spacesCount * 3 + 2)).map Flt.fin
  let closed := path.closed
  let prevCurve := NONE
  let (world, verticesLength, curveCount) ← worldVertices fresh pc path
  let (pathLength, c, curves) ← curveLengths M fresh pc world curveCount
  let position := if percentPosition then position * pathLength else position
  let spaces ← (if percentSpacing then scaleSpaces pc._spaces spacesCount pathLength
    else pure pc._spaces)
  let s ← sampleLoop
    (sampleStep M closed tangents world curves spaces pathLength verticesLength)
    spacesCount 0 0 ⟨position, 0, 0, prevCurve, 0, c, pc._segments, positions⟩
  pure (s.positions, s.segments)

/-- The invariant of the constant-speed sampling loop: `curve` is an index of the curve table,
and once a curve has been loaded the cached control points and sub-segment table are those of
curve `prevCurve`. -/
structure Cursor.Valid (M : MathUtil K) (world curves : List K) (s : Cursor K) : Prop where
  curve_lt : s.curve < curves.length
  cached : s.prevCurve ≠ NONE → ∃ k : Nat, s.prevCurve = (k : Int) ∧ k < curves.length ∧
    s.c = ctrlAt world k ∧ s.segments = (segmentsOf M world k).1 ∧
    s.curveLength = (segmentsOf M world k).2 ∧ s.segment ≤ 9

end Special

/-- An arbitrary computable environment over `ℚ`, used to instantiate statements that hold
for every environment. -/
def plainMath : MathUtil ℚ :=
  ⟨fun x => x, fun y _ => y, fun _ => 1, fun x => x, fun x _ => x, fun _ => false, 3, 6, 1⟩

end Defs

/-- The environment over the reals in which every function is the exact mathematical one:
`atan2 y x` is the argument of `x + y i`, `fmod` is the remainder of the truncated division,
no value is a NaN, `SPINE_PI` is `π` and `SPINE_PI_2` is `2 π`. -/
structure MathUtil.Exact (M : MathUtil ℝ) : Prop where
  sqrt_eq : M.sqrt = Real.sqrt
  atan2_eq : M.atan2 = fun y x => Complex.arg ⟨x, y⟩
  cos_eq : M.cos = Real.cos
  sin_eq : M.sin = Real.sin
  fmod_eq : M.fmod = fun x y => x - y * ((if 0 ≤ x / y then ⌊x / y⌋ else ⌈x / y⌉ : ℤ) : ℝ)
  isnan_eq : M.isnan = fun _ => false
  PI_eq : M.PI = Real.pi
  PI_2_eq : M.PI_2 = 2 * Real.pi
  DegRad_eq : M.DegRad = Real.pi / 180

/-- A constraint whose target slot has no attachment. -/
def idlePc : PathConstraint ℚ :=
  { _data := ⟨SpacingMode.Fixed, RotateMode.Tangent, PositionMode.Fixed, 0⟩,
    _target := ⟨none, ⟨0, 0, 1, 0, 0, 1, true, 0⟩⟩,
    _position := 0, _spacing := 50, _rotateMix := 1, _translateMix := 1,
    _bones := [⟨7, 7, 1, 0, 0, 1, true, 10⟩],
    _spaces := [], _positions := [], _world := [], _curves := [], _lengths := [],
    _segments := [0, 0, 0, 0, 0, 0, 0, 0, 0, 0] }

/-- A ChainScale constraint with one bone of setup length 0 and one of setup length 10. -/
def degeneratePc : PathConstraint ℚ :=
  { _data := ⟨SpacingMode.Length, RotateMode.ChainScale, PositionMode.Fixed, 0⟩,
    _target := ⟨none, ⟨0, 0, 1, 0, 0, 1, true, 0⟩⟩,
    _position := 0, _spacing := 50, _rotateMix := 1, _translateMix := 1,
    _bones := [⟨7, 7, 1, 0, 0, 1, true, 0⟩, ⟨7, 7, 1, 0, 0, 1, true, 10⟩],
    _spaces := [], _positions := [], _world := [], _curves := [], _lengths := [],
    _segments := [0, 0, 0, 0, 0, 0, 0, 0, 0, 0] }

/-- An open, non-constant-speed path of one straight curve from `(0, 0)` to `(30, 0)` with
control points `(10, 0)` and `(20, 0)`. -/
def ncPath (K : Type) [LinearOrderedField K] : PathAttachment K :=
  { closed := false, constantSpeed := false, worldVerticesLength := 12, lengths := [30],
    vertices := fun j => [0, 0, 0, 0, 10, 0, 20, 0, 30, 0, 30, 0].getD j 0 }

/-- Two bones constrained to `ncPath` in Tangent mode with Fixed spacing 15. -/
def ncPc (K : Type) [LinearOrderedField K] : PathConstraint K :=
  { _data := ⟨SpacingMode.Fixed, RotateMode.Tangent, PositionMode.Fixed, 0⟩,
    _target := ⟨some (Attachment.path (ncPath K)), ⟨0, 0, 1, 0, 0, 1, true, 0⟩⟩,
    _position := 6, _spacing := 15, _rotateMix := 0, _translateMix := 1,
    _bones := [⟨7, 7, 1, 0, 0, 1, true, 10⟩, ⟨8, 8, 1, 0, 0, 1, true, 10⟩],
    _spaces := [0, 0], _positions := [], _world := [], _curves := [], _lengths := [],
    _segments := [0, 0, 0, 0, 0, 0, 0, 0, 0, 0] }

/-- A closed, non-constant-speed path of two curves whose cumulative lengths are 30 and 60. -/
def loopPath (K : Type) [LinearOrderedField K] : PathAttachment K :=
  { closed := true, constantSpeed := false, worldVerticesLength := 12, lengths := [30, 60],
    vertices := fun j => [-10, 0, 0, 0, 10, 0, 20, 0, 30, 0, 40, 0].getD j 0 }

/-- The open constant-speed path of three straight segments of length 30 from `(0, 0)` to
`(90, 0)`, every segment with evenly spaced control points. -/
def straightPath (K : Type) [LinearOrderedField K] : PathAttachment K :=
  { closed := false, constantSpeed := true, worldVerticesLength := 24, lengths := [],
    vertices := fun j => [-10, 0, 0, 0, 10, 0, 20, 0, 30, 0, 40, 0, 50, 0, 60, 0, 70, 0, 80, 0,
      90, 0, 100, 0].getD j 0 }

/-- Two bones constrained to `straightPath`: Tangent mode, Fixed spacing 50, position 0,
`translateMix = 1`, `rotateMix = 0`. -/
def straightPc (K : Type) [LinearOrderedField K] : PathConstraint K :=
  { _data := ⟨SpacingMode.Fixed, RotateMode.Tangent, PositionMode.Fixed, 0⟩,
    _target := ⟨some (Attachment.path (straightPath K)), ⟨0, 0, 1, 0, 0, 1, true, 0⟩⟩,
    _position := 0, _spacing := 50, _rotateMix := 0, _translateMix := 1,
    _bones := [⟨7, 7, 1, 0, 0, 1, true, 10⟩, ⟨8, 8, 1, 0, 0, 1, true, 10⟩],
    _spaces := [], _positions := [], _world := [], _curves := [], _lengths := [],
    _segments := [0, 0, 0, 0, 0, 0, 0, 0, 0, 0] }

/-- The constraint `straightPc` with a spacing buffer left by an earlier use: cell 0 holds 7. -/
def residualPc (K : Type) [LinearOrderedField K] : PathConstraint K :=
  { straightPc K with _spaces := [7, 0] }

/-- Two bones of setup lengths 10 and 20 constrained to `straightPath`: ChainScale mode, Fixed
spacing 2, position 0, `translateMix = 1`, `rotateMix = 1`. -/
def chainPc (K : Type) [LinearOrderedField K] : PathConstraint K :=
  { _data := ⟨SpacingMode.Fixed, RotateMode.ChainScale, PositionMode.Fixed, 0⟩,
    _target := ⟨some (Attachment.path (straightPath K)), ⟨0, 0, 1, 0, 0, 1, true, 0⟩⟩,
    _position := 0, _spacing := 2, _rotateMix := 1, _translateMix := 1,
    _bones := [⟨7, 7, 1, 0, 0, 1, true, 10⟩, ⟨8, 8, 1, 0, 0, 1, true, 20⟩],
    _spaces := [], _positions := [], _world := [], _curves := [], _lengths := [],
    _segments := [0, 0, 0, 0, 0, 0, 0, 0, 0, 0] }

/-- One bone of setup length `1e-6` and world scale 100 constrained to `straightPath`:
ChainScale mode, Fixed spacing 50, position 10, `translateMix = 1`, `rotateMix = 1`. -/
def tinyBonePc (K : Type) [LinearOrderedField K] : PathConstraint K :=
  { _data := ⟨SpacingMode.Fixed, RotateMode.ChainScale, PositionMode.Fixed, 0⟩,
    _target := ⟨some (Attachment.path (straightPath K)), ⟨0, 0, 1, 0, 0, 1, true, 0⟩⟩,
    _position := 10, _spacing := 50, _rotateMix := 1, _translateMix := 1,
    _bones := [⟨0, 0, 100, 0, 0, 100, true, 1 / 1000000⟩],
    _spaces := [], _positions := [], _world := [], _curves := [], _lengths := [],
    _segments := [0, 0, 0, 0, 0, 0, 0, 0, 0, 0] }

/-- One bone of setup length 10 constrained to `straightPath`: ChainScale mode, Fixed spacing
12, position 10, `translateMix = 1`, `rotateMix = 1`. -/
def scalePc (K : Type) [LinearOrderedField K] : PathConstraint K :=
  { _data := ⟨SpacingMode.Fixed, RotateMode.ChainScale, PositionMode.Fixed, 0⟩,
    _target := ⟨some (Attachment.path (straightPath K)), ⟨0, 0, 1, 0, 0, 1, true, 0⟩⟩,
    _position := 10, _spacing := 12, _rotateMix := 1, _translateMix := 1,
    _bones := [⟨0, 0, 1, 0, 0, 1, true, 10⟩],
    _spaces := [], _positions := [], _world := [], _curves := [], _lengths := [],
    _segments := [0, 0, 0, 0, 0, 0, 0, 0, 0, 0] }

/-- One bone whose x-axis is zero constrained to `straightPath`: Chain mode with offset rotation
90 degrees, Fixed spacing 12, position 10, `translateMix = 1`, `rotateMix = 1`. -/
def flatPc (K : Type) [LinearOrderedField K] : PathConstraint K :=
  { _data := ⟨SpacingMode.Fixed, RotateMode.Chain, PositionMode.Fixed, 90⟩,
    _target := ⟨some (Attachment.path (straightPath K)), ⟨0, 0, 1, 0, 0, 1, true, 0⟩⟩,
    _position := 10, _spacing := 12, _rotateMix := 1, _translateMix := 1,
    _bones := [⟨0, 0, 0, 1, 0, 0, true, 10⟩],
    _spaces := [], _positions := [], _world := [], _curves := [], _lengths := [],
    _segments := [0, 0, 0, 0, 0, 0, 0, 0, 0, 0] }

/-- Two bones constrained to `straightPath`: Chain mode, Percent spacing 1 / 4, Percent position
1 / 10, `translateMix = 1`, `rotateMix = 1`. -/
def fullMixPc (K : Type) [LinearOrderedField K] : PathConstraint K :=
  { _data := ⟨SpacingMode.Percent, RotateMode.Chain, PositionMode.Percent, 0⟩,
    _target := ⟨some (Attachment.path (straightPath K)), ⟨0, 0, 1, 0, 0, 1, true, 0⟩⟩,
    _position := 1 / 10, _spacing := 1 / 4, _rotateMix := 1, _translateMix := 1,
    _bones := [⟨7, 7, 1, 0, 0, 1, true, 10⟩, ⟨8, 8, 0, 1, 2, 0, true, 20⟩],
    _spaces := [], _positions := [], _world := [], _curves := [], _lengths := [],
    _segments := [0, 0, 0, 0, 0, 0, 0, 0, 0, 0] }

/-- One bone constrained to `straightPath`: Tangent mode, Percent spacing 0.5, position 0,
`translateMix = 1`, `rotateMix = 0`. -/
def percentPc (K : Type) [LinearOrderedField K] : PathConstraint K :=
  { _data := ⟨SpacingMode.Percent, RotateMode.Tangent, PositionMode.Fixed, 0⟩,
    _target := ⟨some (Attachment.path (straightPath K)), ⟨0, 0, 1, 0, 0, 1, true, 0⟩⟩,
    _position := 0, _spacing := 1 / 2, _rotateMix := 0, _translateMix := 1,
    _bones := [⟨7, 7, 1, 0, 0, 1, true, 10⟩],
    _spaces := [], _positions := [], _world := [], _curves := [], _lengths := [],
    _segments := [0, 0, 0, 0, 0, 0, 0, 0, 0, 0] }

/-- The constraint `flatPc` with an offset rotation of 720 degrees and a bone along the x-axis. -/
def turnsPc (K : Type) [LinearOrderedField K] : PathConstraint K :=
  { flatPc K with
    _data := ⟨SpacingMode.Fixed, RotateMode.Chain, PositionMode.Fixed, 720⟩,
    _bones := [⟨0, 0, 1, 0, 0, 1, true, 10⟩] }

/-- The constraint `chainPc` (ChainScale mode) with `rotateMix = 0`. -/
def chainTranslatePc (K : Type) [LinearOrderedField K] : PathConstraint K :=
  { chainPc K with _rotateMix := 0 }

/-- Two bones of setup length 10 along the x-axis constrained to `straightPath`: Chain mode,
offset rotation 0, Fixed spacing 12, position 10, `translateMix = 1`, `rotateMix = 1`. -/
def tipPc (K : Type) [LinearOrderedField K] : PathConstraint K :=
  { _data := ⟨SpacingMode.Fixed, RotateMode.Chain, PositionMode.Fixed, 0⟩,
    _target := ⟨some (Attachment.path (straightPath K)), ⟨0, 0, 1, 0, 0, 1, true, 0⟩⟩,
    _position := 10, _spacing := 12, _rotateMix := 1, _translateMix := 1,
    _bones := [⟨0, 0, 1, 0, 0, 1, true, 10⟩, ⟨0, 0, 1, 0, 0, 1, true, 10⟩],
    _spaces := [], _positions := [], _world := [], _curves := [], _lengths := [],
    _segments := [0, 0, 0, 0, 0, 0, 0, 0, 0, 0] }

/-- The constraint `straightPc` with base position 40 and a spacing buffer `[0, -20]`: the
second sample lies 20 behind the first. -/
def backwardPc (K : Type) [LinearOrderedField K] : PathConstraint K :=
  { straightPc K with _position := 40, _spaces := [0, -20] }

/-- The constraint `straightPc` with base position 40 and a spacing buffer `[0, 20]`. -/
def forwardPc (K : Type) [LinearOrderedField K] : PathConstraint K :=
  { straightPc K with _position := 40, _spaces := [0, 20] }

/-- A closed constant-speed path of one curve whose four control points all lie at `(5, 0)`:
its length is zero. -/
def pointPath (K : Type) [LinearOrderedField K] : PathAttachment K :=
  { closed := true, constantSpeed := true, worldVerticesLength := 6, lengths := [],
    vertices := fun j => [5, 0, 5, 0, 5, 0].getD j 0 }

/-- The constraint `straightPc` on the path `pointPath`, with base position 3 and the spacing
buffer `[0, 7]`. -/
def pointPc (K : Type) [LinearOrderedField K] : PathConstraint K :=
  { straightPc K with
    _target := ⟨some (Attachment.path (pointPath K)), ⟨0, 0, 1, 0, 0, 1, true, 0⟩⟩,
    _position := 3, _spaces := [0, 7] }

section Lemmas

variable {K : Type} [LinearOrderedField K]

theorem Vector.setSize_length (fresh : Nat → K) (v : List K) (n : Nat) :
    (Vector.setSize fresh v n).length = n := by
  simp [Vector.setSize]

theorem Vector.setSize_getElem? (fresh : Nat → K) (v : List K) (n i : Nat) (h : i < n) :
    (Vector.setSize fresh v n)[i]? = some ((v[i]?).getD (fresh i)) := by
  simp [Vector.setSize, List.getElem?_map, List.getElem?_range h]

theorem Vector.setSize_self (fresh : Nat → K) (v : List K) :
    Vector.setSize fresh v v.length = v := by
  apply List.ext_getElem?
  intro i
  by_cases h : i < v.length
  · rw [Vector.setSize_getElem? fresh v _ i h]
    simp [List.getElem?_eq_getElem h]
  · have h1 : (Vector.setSize fresh v v.length).length ≤ i := by
      rw [Vector.setSize_length]; omega
    rw [List.getElem?_eq_none h1, List.getElem?_eq_none (by omega)]

theorem Vector.set_eq_some (v : List K) (i : Nat) (x : K) (h : i < v.length) :
    Vector.set v i x = some (List.set v i x) := by
  simp [Vector.set, h]

theorem update_skip (M : MathUtil K) (fresh : Nat → K) (pc : PathConstraint K)
    (h : pc._target.attachment = none ∨ pc._target.attachment = some Attachment.other ∨
      (pc._translateMix = 0 ∧ pc._rotateMix = 0)) :
    update M fresh pc = some pc := by
  unfold update updateWith
  rcases h with h | h | ⟨h1, h2⟩
  · rw [h]
  · rw [h]
  · cases hA : pc._target.attachment with
    | none => rfl
    | some att =>
      cases att with
      | other => rfl
      | path p => simp [h1, h2]

/-- One iteration of the spacing loop. -/
theorem spacesLoop_succ (M : MathUtil K) (div : K → K → K) (bones : List (Bone K))
    (scale lengthSpacing : Bool) (spacing : K) (todo i : Nat) (spaces lengths : List K)
    (bone : Bone K) (hb : bones[i]? = some bone) (hs : i + 1 < spaces.length)
    (hl : scale = true → i < lengths.length) :
    spacesLoop M div bones scale lengthSpacing spacing (todo + 1) i spaces lengths =
      spacesLoop M div bones scale lengthSpacing spacing todo (i + 1)
        (spaces.set (i + 1) (boneSpace M div lengthSpacing spacing bone))
        (if scale then lengths.set i (chainLength M bone) else lengths) := by
  rw [spacesLoop]
  simp only [hb, Option.some_bind, Option.bind_eq_bind, boneSpace, chainLength]
  by_cases hd : bone.dataLength < EPSILON
  · simp only [hd, if_true]
    cases scale with
    | false => simp [Vector.set_eq_some _ _ _ hs]
    | true => simp [Vector.set_eq_some _ _ _ hs, Vector.set_eq_some _ _ _ (hl rfl)]
  · simp only [hd, if_false]
    cases scale with
    | false => simp [Vector.set_eq_some _ _ _ hs]
    | true => simp [Vector.set_eq_some _ _ _ hs, Vector.set_eq_some _ _ _ (hl rfl)]

/-- The spacing loop returns, and writes `boneSpace` to `_spaces[j + 1]` and (when scaling)
`chainLength` to `_lengths[j]` for every bone `j` it processes, leaving the other cells. -/
theorem spacesLoop_spec (M : MathUtil K) (div : K → K → K) (bones : List (Bone K))
    (scale lengthSpacing : Bool) (spacing : K) :
    ∀ (todo i : Nat) (spaces lengths : List K), i + todo ≤ bones.length →
      i + todo < spaces.length → (scale = true → i + todo ≤ lengths.length) →
      ∃ sp ln, spacesLoop M div bones scale lengthSpacing spacing todo i spaces lengths
          = some (sp, ln) ∧
        sp.length = spaces.length ∧ ln.length = lengths.length ∧
        (∀ j, (j ≤ i ∨ i + todo < j) → sp[j]? = spaces[j]?) ∧
        (∀ j, (j < i ∨ i + todo ≤ j ∨ scale = false) → ln[j]? = lengths[j]?) ∧
        (∀ j bone, i ≤ j → j < i + todo → bones[j]? = some bone →
          sp[j + 1]? = some (boneSpace M div lengthSpacing spacing bone) ∧
          (scale = true → ln[j]? = some (chainLength M bone))) := by
  intro todo
  induction todo with
  | zero =>
    intro i spaces lengths _ _ _
    refine ⟨spaces, lengths, rfl, rfl, rfl, fun _ _ => rfl, fun _ _ => rfl, ?_⟩
    intro j bone h1 h2
    omega
  | succ todo ih =>
    intro i spaces lengths hb hs hl
    have hib : i < bones.length := by omega
    have hbi : bones[i]? = some bones[i] := List.getElem?_eq_getElem hib
    rw [spacesLoop_succ M div bones scale lengthSpacing spacing todo i spaces lengths _ hbi
      (by omega) (fun h => by have := hl h; omega)]
    obtain ⟨sp, ln, heq, hsl, hll, hsp, hln, hw⟩ := ih (i + 1)
      (spaces.set (i + 1) (boneSpace M div lengthSpacing spacing bones[i]))
      (if scale then lengths.set i (chainLength M bones[i]) else lengths)
      (by omega) (by simp; omega) (fun h => by have := hl h; simp [h]; omega)
    refine ⟨sp, ln, heq, by simpa using hsl, ?_, ?_, ?_, ?_⟩
    · rw [hll]; split <;> simp
    · intro j hj
      rw [hsp j (by omega), List.getElem?_set]
      have : i + 1 ≠ j := by omega
      simp [this]
    · intro j hj
      rcases hj with hj | hj | hj
      · rw [hln j (Or.inl (by omega))]
        split
        · rw [List.getElem?_set]
          have : i ≠ j := by omega
          simp [this]
        · rfl
      · rw [hln j (Or.inr (Or.inl (by omega)))]
        split
        · rw [List.getElem?_set]
          have : i ≠ j := by omega
          simp [this]
        · rfl
      · rw [hln j (Or.inr (Or.inr hj))]
        simp [hj]
    · intro j bone h1 h2 hbj
      by_cases hji : j = i
      · subst hji
        rw [hbi] at hbj
        cases hbj
        constructor
        · rw [hsp (j + 1) (Or.inl (le_refl _)), List.getElem?_set]
          simp; omega
        · intro hsc
          rw [hln j (Or.inl (by omega))]
          simp [hsc, List.getElem?_set]
          have := hl hsc; omega
      · exact hw j bone (by omega) (by omega) hbj

/-- The spacing loop does not depend on what the division returns for divisors below
`EPSILON`. -/
theorem spacesLoop_div_congr (M : MathUtil K) (div1 div2 : K → K → K)
    (hdiv : ∀ x y, EPSILON ≤ y → div1 x y = div2 x y) (bones : List (Bone K))
    (scale lengthSpacing : Bool) (spacing : K) :
    ∀ (todo i : Nat) (spaces lengths : List K),
      spacesLoop M div1 bones scale lengthSpacing spacing todo i spaces lengths =
      spacesLoop M div2 bones scale lengthSpacing spacing todo i spaces lengths := by
  intro todo
  induction todo with
  | zero => intro i spaces lengths; rfl
  | succ todo ih =>
    intro i spaces lengths
    rw [spacesLoop, spacesLoop]
    cases hb : bones[i]? with
    | none => rfl
    | some bone =>
      simp only [Option.some_bind, Option.bind_eq_bind]
      by_cases hd : bone.dataLength < EPSILON
      · simp only [hd, if_true, ih]
      · simp only [hd, if_false, ih, hdiv _ _ (not_lt.mp hd)]

theorem scaleStep_div_congr (M : MathUtil K) (div1 div2 : K → K → K)
    (hdiv : ∀ x y, EPSILON ≤ y → div1 x y = div2 x y) (lengths : List K) (scale : Bool)
    (rotateMix : K) (i : Nat) (dx dy : K) (bone : Bone K) :
    scaleStep M div1 lengths scale rotateMix i dx dy bone =
      scaleStep M div2 lengths scale rotateMix i dx dy bone := by
  unfold scaleStep
  cases scale with
  | false => rfl
  | true =>
    simp only [if_true]
    cases hl : lengths[i]? with
    | none => rfl
    | some length =>
      simp only [Option.some_bind, Option.bind_eq_bind]
      by_cases hge : length ≥ EPSILON
      · simp only [hge, if_true, hdiv _ _ hge]
      · simp only [hge, if_false]

theorem boneLoop_div_congr (M : MathUtil K) (div1 div2 : K → K → K)
    (hdiv : ∀ x y, EPSILON ≤ y → div1 x y = div2 x y) (positions spaces lengths : List K)
    (scale rotate tangents tip : Bool) (rotateMix translateMix offsetRotation : K) :
    ∀ (bones : List (Bone K)) (i p : Nat) (boneX boneY : K),
      boneLoop M div1 positions spaces lengths scale rotate tangents tip rotateMix translateMix
          offsetRotation bones i p boneX boneY =
        boneLoop M div2 positions spaces lengths scale rotate tangents tip rotateMix translateMix
          offsetRotation bones i p boneX boneY := by
  intro bones
  induction bones with
  | nil => intro i p boneX boneY; rfl
  | cons bone rest ih =>
    intro i p boneX boneY
    simp only [boneLoop, boneStep, scaleStep_div_congr M div1 div2 hdiv, ih]

theorem computeSpaces_div_congr (M : MathUtil K) (div1 div2 : K → K → K)
    (hdiv : ∀ x y, EPSILON ≤ y → div1 x y = div2 x y) (fresh : Nat → K) (pc : PathConstraint K) :
    computeSpaces M div1 fresh pc = computeSpaces M div2 fresh pc := by
  simp only [computeSpaces, spacesLoop_div_congr M div1 div2 hdiv]

theorem updateWith_div_congr (M : MathUtil K) (div1 div2 : K → K → K)
    (hdiv : ∀ x y, EPSILON ≤ y → div1 x y = div2 x y) (fresh : Nat → K) (pc : PathConstraint K) :
    updateWith M div1 fresh pc = updateWith M div2 fresh pc := by
  simp only [updateWith, computeSpaces_div_congr M div1 div2 hdiv,
    boneLoop_div_congr M div1 div2 hdiv]

/-- The spacing calculator in Length spacing or ChainScale mode returns, and its buffers hold
`boneSpace` and `chainLength` of the processed bones. -/
theorem computeSpaces_loop_spec (M : MathUtil K) (div : K → K → K) (fresh : Nat → K)
    (pc : PathConstraint K)
    (hmode : pc._data._rotateMode = RotateMode.ChainScale ∨
      pc._data._spacingMode = SpacingMode.Length) :
    ∃ sp ln, computeSpaces M div fresh pc = some (sp, ln) ∧
      sp.length = (if pc._data._rotateMode = RotateMode.Tangent then pc._bones.length
        else pc._bones.length + 1) ∧
      sp[0]? = (Vector.setSize fresh pc._spaces (if pc._data._rotateMode = RotateMode.Tangent
        then pc._bones.length else pc._bones.length + 1))[0]? ∧
      (pc._data._rotateMode = RotateMode.ChainScale → ln.length = pc._bones.length) ∧
      (pc._data._rotateMode ≠ RotateMode.ChainScale → ln = pc._lengths) ∧
      ∀ i bone, i + 1 < (if pc._data._rotateMode = RotateMode.Tangent then pc._bones.length
          else pc._bones.length + 1) → pc._bones[i]? = some bone →
        sp[i + 1]? = some (boneSpace M div
          (decide (pc._data._spacingMode = SpacingMode.Length)) pc._spacing bone) ∧
        (pc._data._rotateMode = RotateMode.ChainScale → ln[i]? = some (chainLength M bone)) := by
  have hor : (decide (pc._data._rotateMode = RotateMode.ChainScale) ||
      decide (pc._data._spacingMode = SpacingMode.Length)) = true := by
    rcases hmode with h | h <;> simp [h]
  simp only [computeSpaces, hor, if_true]
  set n := (if decide (pc._data._rotateMode = RotateMode.Tangent) = true then pc._bones.length
    else pc._bones.length + 1) with hn
  have hn' : (if pc._data._rotateMode = RotateMode.Tangent then pc._bones.length
      else pc._bones.length + 1) = n := by
    rw [hn]; simp
  rw [hn']
  by_cases hzero : n = 0
  · -- no bone, tangent mode
    have hb : pc._bones.length = 0 := by
      rw [hn] at hzero
      split at hzero <;> omega
    have ht : pc._data._rotateMode = RotateMode.Tangent := by
      rw [hn] at hzero
      split at hzero
      · rename_i h; simpa using h
      · omega
    simp only [hzero, spacesLoop]
    refine ⟨_, _, rfl, by simp [Vector.setSize], rfl, ?_, ?_, ?_⟩
    · intro h; rw [ht] at h; cases h
    · intro _; simp [ht]
    · intro i bone hi; omega
  · obtain ⟨sp, ln, heq, hsl, hll, hsp, hln, hw⟩ := spacesLoop_spec M div pc._bones
      (decide (pc._data._rotateMode = RotateMode.ChainScale))
      (decide (pc._data._spacingMode = SpacingMode.Length)) pc._spacing (n - 1) 0
      (Vector.setSize fresh pc._spaces n)
      (if decide (pc._data._rotateMode = RotateMode.ChainScale) = true then
        Vector.setSize fresh pc._lengths pc._bones.length else pc._lengths)
      (by rw [hn]; split <;> omega)
      (by rw [Vector.setSize_length]; omega)
      (by intro h; simp only [h, if_true]; rw [Vector.setSize_length, hn]; split <;> omega)
    refine ⟨sp, ln, heq, ?_, ?_, ?_, ?_, ?_⟩
    · rw [hsl, Vector.setSize_length]
    · exact hsp 0 (Or.inl (le_refl _))
    · intro h
      rw [hll]; simp [h, Vector.setSize_length]
    · intro h
      apply List.ext_getElem?
      intro j
      rw [hln j (Or.inr (Or.inr (by simpa using h)))]
      simp [h]
    · intro i bone hi hb
      obtain ⟨h1, h2⟩ := hw i bone (Nat.zero_le _) (by omega) hb
      exact ⟨h1, fun h => h2 (by simpa using h)⟩

/-- The cells `addCurvePosition` writes. -/
theorem addCurvePosition_eq (M : MathUtil K) (p x1 y1 cx1 cy1 cx2 cy2 x2 y2 : K)
    (output : List K) (o : Nat) (tangents : Bool) (ho : o + 2 < output.length) :
    addCurvePosition M p x1 y1 cx1 cy1 cx2 cy2 x2 y2 output o tangents =
      some (if tangents then
          ((output.set o (curvePoint (clampP M p) x1 cx1 cx2 x2)).set (o + 1)
            (curvePoint (clampP M p) y1 cy1 cy2 y2)).set (o + 2)
            (M.atan2 (curvePoint (clampP M p) y1 cy1 cy2 y2 - curveLower (clampP M p) y1 cy1 cy2)
              (curvePoint (clampP M p) x1 cx1 cx2 x2 - curveLower (clampP M p) x1 cx1 cx2))
        else
          (output.set o (curvePoint (clampP M p) x1 cx1 cx2 x2)).set (o + 1)
            (curvePoint (clampP M p) y1 cy1 cy2 y2)) := by
  unfold addCurvePosition
  dsimp only
  rw [Vector.set_eq_some _ _ _ (by omega)]
  simp only [Option.some_bind, Option.bind_eq_bind]
  rw [Vector.set_eq_some _ _ _ (by simp; omega)]
  simp only [Option.some_bind]
  cases tangents with
  | false => simp
  | true =>
    simp only [if_true]
    rw [Vector.set_eq_some _ _ _ (by simp; omega)]

/-- `update` as the composition of its three stages, when it does not skip. -/
theorem updateWith_eq {K : Type} [LinearOrderedField K] (M : MathUtil K) (div : K → K → K)
    (fresh : Nat → K) (pc pc2 : PathConstraint K) (att : PathAttachment K)
    (sp ln positions : List K) (bx bY : K) (bones : List (Bone K))
    (hA : pc._target.attachment = some (Attachment.path att))
    (hmix : 0 < pc._translateMix ∨ 0 < pc._rotateMix)
    (hsp : computeSpaces M div fresh pc = some (sp, ln))
    (hcw : computeWorldPositions M fresh { pc with _spaces := sp, _lengths := ln } att
      (if pc._data._rotateMode = RotateMode.Tangent then pc._bones.length
        else pc._bones.length + 1)
      (decide (pc._data._rotateMode = RotateMode.Tangent))
      (decide (pc._data._positionMode = PositionMode.Percent))
      (decide (pc._data._spacingMode = SpacingMode.Percent)) = some (positions, pc2))
    (hx : positions[0]? = some bx) (hy : positions[1]? = some bY)
    (hbl : boneLoop M div positions pc2._spaces pc2._lengths
      (decide (pc._data._rotateMode = RotateMode.ChainScale)) (decide (pc._rotateMix > 0))
      (decide (pc._data._rotateMode = RotateMode.Tangent)) (tipAndOffset M pc2).1
      pc._rotateMix pc._translateMix (tipAndOffset M pc2).2 pc2._bones 0 3 bx bY = some bones) :
    updateWith M div fresh pc = some { pc2 with _bones := bones } := by
  unfold updateWith
  rw [hA]
  have hskip : (!decide (pc._translateMix > 0) && !decide (pc._rotateMix > 0)) = false := by
    rcases hmix with h | h <;> simp [h]
  have hcw' : computeWorldPositions M fresh
      { _data := pc._data, _target := pc._target, _position := pc._position,
        _spacing := pc._spacing, _rotateMix := pc._rotateMix, _translateMix := pc._translateMix,
        _bones := pc._bones, _spaces := sp, _positions := pc._positions, _world := pc._world,
        _curves := pc._curves, _lengths := ln, _segments := pc._segments } att
      (if decide (pc._data._rotateMode = RotateMode.Tangent) = true then pc._bones.length
        else pc._bones.length + 1)
      (decide (pc._data._rotateMode = RotateMode.Tangent))
      (decide (pc._data._positionMode = PositionMode.Percent))
      (decide (pc._data._spacingMode = SpacingMode.Percent)) = some (positions, pc2) := by
    rw [← hcw]
    congr 1
    simp
  simp only [hskip, Bool.false_eq_true, if_false, hsp, Option.some_bind, Option.bind_eq_bind,
    hcw', hx, hy, hbl, Option.pure_def]

end Lemmas

theorem Exact.abs_mk (x y : ℝ) : Complex.abs ⟨x, y⟩ = Real.sqrt (x * x + y * y) := by
  rw [Complex.abs_apply, Complex.normSq_mk]

theorem Exact.cos_atan2 (M : MathUtil ℝ) (hM : M.Exact) (x y : ℝ) (h : x ≠ 0 ∨ y ≠ 0) :
    M.cos (M.atan2 y x) = x / Real.sqrt (x * x + y * y) := by
  rw [hM.cos_eq, hM.atan2_eq]
  have hz : (⟨x, y⟩ : ℂ) ≠ 0 := by
    intro h0
    have h1 := congrArg Complex.re h0
    have h2 := congrArg Complex.im h0
    simp at h1 h2
    rcases h with h | h
    · exact h h1
    · exact h h2
  simp only []
  rw [Complex.cos_arg hz, Exact.abs_mk]

theorem Exact.sin_atan2 (M : MathUtil ℝ) (hM : M.Exact) (x y : ℝ) :
    M.sin (M.atan2 y x) = y / Real.sqrt (x * x + y * y) := by
  rw [hM.sin_eq, hM.atan2_eq]
  simp only []
  rw [Complex.sin_arg, Exact.abs_mk]

theorem Exact.atan2_scale (M : MathUtil ℝ) (hM : M.Exact) (x y r : ℝ) (hr : 0 < r) :
    M.atan2 (y / r) (x / r) = M.atan2 y x := by
  rw [hM.atan2_eq]
  simp only []
  have : (⟨x / r, y / r⟩ : ℂ) = ((r⁻¹ : ℝ) : ℂ) * ⟨x, y⟩ := by
    apply Complex.ext <;> simp <;> ring
  rw [this, Complex.arg_real_mul _ (inv_pos.mpr hr)]

theorem sqrt_sq_pos_of_ne (x y : ℝ) (h : x ≠ 0 ∨ y ≠ 0) : 0 < Real.sqrt (x * x + y * y) := by
  apply Real.sqrt_pos.mpr
  rcases h with h | h
  · have := mul_self_pos.mpr h
    nlinarith [mul_self_nonneg y]
  · have := mul_self_pos.mpr h
    nlinarith [mul_self_nonneg x]

/-- The three cells an extrapolation writes at `o`: the endpoint `(ex, ey)` moved by `p` along the
unit tangent, and the angle of that tangent. -/
theorem extrapolate_writes (M : MathUtil ℝ) (hM : M.Exact) (p ex ey dx dy : ℝ) (output : List ℝ)
    (o : ℕ) (ho : o + 2 < output.length) (h : dx ≠ 0 ∨ dy ≠ 0) :
    ∃ out, (do
        let output ← Vector.set output o (ex + p * M.cos (M.atan2 dy dx))
        let output ← Vector.set output (o + 1) (ey + p * M.sin (M.atan2 dy dx))
        Vector.set output (o + 2) (M.atan2 dy dx)) = some out ∧
      out.length = output.length ∧
      out[o]? = some (ex + p * (dx / Real.sqrt (dx * dx + dy * dy))) ∧
      out[o + 1]? = some (ey + p * (dy / Real.sqrt (dx * dx + dy * dy))) ∧
      out[o + 2]? = some (M.atan2 (dy / Real.sqrt (dx * dx + dy * dy))
        (dx / Real.sqrt (dx * dx + dy * dy))) := by
  have hn := sqrt_sq_pos_of_ne dx dy h
  rw [Exact.atan2_scale M hM dx dy _ hn, Exact.cos_atan2 M hM dx dy h, Exact.sin_atan2 M hM dx dy]
  rw [Vector.set_eq_some _ _ _ (by omega)]
  simp only [Option.some_bind, Option.bind_eq_bind]
  rw [Vector.set_eq_some _ _ _ (by simp; omega)]
  simp only [Option.some_bind]
  rw [Vector.set_eq_some _ _ _ (by simp; omega)]
  refine ⟨_, rfl, by simp, ?_, ?_, ?_⟩
  · simp [List.getElem?_set]
    omega
  · simp [List.getElem?_set]
    omega
  · simp [List.getElem?_set]
    omega


section Lemmas

variable {K : Type} [LinearOrderedField K]

theorem loadCurve_position (M : MathUtil K) (world : List K) (curve : Nat) (s : Cursor K) (q : K) :
    loadCurve M world curve { s with position := q } =
      (loadCurve M world curve s).map (fun r => { r with position := q }) := by
  unfold loadCurve
  dsimp only
  split
  · cases world[curve * 6]? <;> try rfl
    cases world[curve * 6 + 1]? <;> try rfl
    cases world[curve * 6 + 2]? <;> try rfl
    cases world[curve * 6 + 3]? <;> try rfl
    cases world[curve * 6 + 4]? <;> try rfl
    cases world[curve * 6 + 5]? <;> try rfl
    cases world[curve * 6 + 6]? <;> try rfl
    cases world[curve * 6 + 7]? <;> rfl
  · rfl

theorem sampleCurve_position (M : MathUtil K) (world curves : List K) (o : Nat) (tg : Bool)
    (s : Cursor K) (p q : K) :
    sampleCurve M world curves o tg { s with position := q } p =
      (sampleCurve M world curves o tg s p).map (fun r => { r with position := q }) := by
  unfold sampleCurve
  dsimp only
  cases search curves p s.curve with
  | none => rfl
  | some curve =>
    simp only [Option.some_bind, Option.bind_eq_bind]
    cases curveParam curves p curve with
    | none => rfl
    | some p1 =>
      simp only [Option.some_bind]
      rw [loadCurve_position]
      cases loadCurve M world curve s with
      | none => rfl
      | some s1 =>
        simp only [Option.map_some', Option.some_bind]
        cases search s1.segments (p1 * s1.curveLength) s1.segment with
        | none => rfl
        | some seg =>
          simp only [Option.some_bind]
          cases segmentParam s1.segments (p1 * s1.curveLength) seg with
          | none => rfl
          | some p2 =>
            simp only [Option.some_bind]
            cases addCurvePosition M (p2 * (1 / 10)) s1.c.x1 s1.c.y1 s1.c.cx1 s1.c.cy1 s1.c.cx2
              s1.c.cy2 s1.c.x2 s1.c.y2 s1.positions o tg with
            | none => rfl
            | some pos => rfl

theorem ncLoadCurve_position (path : PathAttachment K) (closed : Bool)
    (curveCount verticesLength : Int) (curve : Nat) (s : NCursor K) (q : K) :
    ncLoadCurve path closed curveCount verticesLength curve { s with position := q } =
      (ncLoadCurve path closed curveCount verticesLength curve s).map
        (fun r => { r with position := q }) := by
  unfold ncLoadCurve
  dsimp only
  split
  · split
    · cases toIdx (verticesLength - 4) with
      | none => rfl
      | some start =>
        simp only [Option.some_bind, Option.bind_eq_bind]
        cases path.computeWorldVertices start 4 s.world 0 with
        | none => rfl
        | some w =>
          simp only [Option.some_bind]
          cases path.computeWorldVertices 0 4 w 4 <;> rfl
    · cases path.computeWorldVertices (curve * 6 + 2) 8 s.world 0 <;> rfl
  · rfl

theorem ncSampleCurve_position (M : MathUtil K) (path : PathAttachment K) (closed : Bool)
    (curveCount verticesLength : Int) (o : Nat) (tg : Bool) (s : NCursor K) (p q : K) :
    ncSampleCurve M path closed curveCount verticesLength o tg { s with position := q } p =
      (ncSampleCurve M path closed curveCount verticesLength o tg s p).map
        (fun r => { r with position := q }) := by
  unfold ncSampleCurve
  dsimp only
  cases search path.lengths p s.curve with
  | none => rfl
  | some curve =>
    simp only [Option.some_bind, Option.bind_eq_bind]
    cases curveParam path.lengths p curve with
    | none => rfl
    | some p1 =>
      simp only [Option.some_bind]
      rw [ncLoadCurve_position]
      cases ncLoadCurve path closed curveCount verticesLength curve s with
      | none => rfl
      | some s1 =>
        simp only [Option.map_some', Option.some_bind]
        cases ncAddCurvePosition M p1 s1.world s1.positions o tg <;> rfl

/-- A loop commutes with a map of its state that every iteration commutes with. -/
theorem sampleLoop_map {σ : Type} (step : Nat → Nat → σ → Option σ) (f : σ → σ)
    (h : ∀ i o s, step i o (f s) = (step i o s).map f) :
    ∀ (todo i o : Nat) (s : σ),
      sampleLoop step todo i o (f s) = (sampleLoop step todo i o s).map f := by
  intro todo
  induction todo with
  | zero => intro i o s; rfl
  | succ todo ih =>
    intro i o s
    simp only [sampleLoop, Option.bind_eq_bind]
    rw [h]
    cases step i o s with
    | none => rfl
    | some s1 =>
      simp only [Option.map_some', Option.some_bind]
      exact ih _ _ _

theorem sampleCurve_position_eq (M : MathUtil K) (world curves : List K) (o : Nat) (tg : Bool)
    (s r : Cursor K) (p : K) (h : sampleCurve M world curves o tg s p = some r) :
    r.position = s.position := by
  have h1 := sampleCurve_position M world curves o tg s p s.position
  have h2 : ({ s with position := s.position } : Cursor K) = s := rfl
  rw [h2, h] at h1
  simp only [Option.map_some', Option.some.injEq] at h1
  rw [h1]

theorem ncSampleCurve_position_eq (M : MathUtil K) (path : PathAttachment K) (closed : Bool)
    (curveCount verticesLength : Int) (o : Nat) (tg : Bool) (s r : NCursor K) (p : K)
    (h : ncSampleCurve M path closed curveCount verticesLength o tg s p = some r) :
    r.position = s.position := by
  have h1 := ncSampleCurve_position M path closed curveCount verticesLength o tg s p s.position
  have h2 : ({ s with position := s.position } : NCursor K) = s := rfl
  rw [h2, h] at h1
  simp only [Option.map_some', Option.some.injEq] at h1
  rw [h1]

end Lemmas

/-- With exact `fmod` and a positive length, the closed-path wrap is `p - L * ⌊p / L⌋`. -/
theorem Exact.wrap_eq (M : MathUtil ℝ) (hM : M.Exact) (p L : ℝ) (hL : 0 < L) :
    wrap M p L = p - L * (⌊p / L⌋ : ℝ) := by
  unfold wrap
  rw [hM.fmod_eq]
  dsimp only
  have hfl : (⌊p / L⌋ : ℝ) ≤ p / L := Int.floor_le _
  have hlt : p / L < (⌊p / L⌋ : ℝ) + 1 := Int.lt_floor_add_one _
  by_cases h0 : 0 ≤ p / L
  · rw [if_pos h0]
    have : ¬ (p - L * (⌊p / L⌋ : ℝ) < 0) := by
      have : L * (⌊p / L⌋ : ℝ) ≤ L * (p / L) := mul_le_mul_of_nonneg_left hfl hL.le
      rw [mul_div_cancel₀ _ hL.ne'] at this
      linarith
    rw [if_neg this]
  · rw [if_neg h0]
    by_cases hint : ((⌊p / L⌋ : ℤ) : ℝ) = p / L
    · have hc : ⌈p / L⌉ = ⌊p / L⌋ := by
        rw [Int.ceil_eq_iff]
        constructor
        · rw [hint]; linarith
        · rw [hint]
      rw [hc]
      have : p - L * (⌊p / L⌋ : ℝ) = 0 := by
        rw [hint, mul_div_cancel₀ _ hL.ne']; ring
      rw [this]
      simp
    · have hlt' : (⌊p / L⌋ : ℝ) < p / L := lt_of_le_of_ne hfl hint
      have hc : ⌈p / L⌉ = ⌊p / L⌋ + 1 := by
        rw [Int.ceil_eq_iff]
        constructor
        · push_cast; linarith
        · push_cast; linarith
      rw [hc]
      push_cast
      have h1 : L * (p / L) = p := mul_div_cancel₀ _ hL.ne'
      have : p - L * ((⌊p / L⌋ : ℝ) + 1) < 0 := by
        have : L * (p / L) < L * ((⌊p / L⌋ : ℝ) + 1) := mul_lt_mul_of_pos_left hlt hL
        linarith
      rw [if_pos this]
      ring

theorem Exact.wrap_add (M : MathUtil ℝ) (hM : M.Exact) (p L : ℝ) (hL : 0 < L) :
    wrap M (p + L) L = wrap M p L := by
  rw [Exact.wrap_eq M hM _ _ hL, Exact.wrap_eq M hM _ _ hL]
  have : (p + L) / L = p / L + 1 := by
    field_simp
  rw [this, Int.floor_add_one]
  push_cast
  ring

theorem Exact.wrap_range (M : MathUtil ℝ) (hM : M.Exact) (p L : ℝ) (hL : 0 < L) :
    0 ≤ wrap M p L ∧ wrap M p L < L := by
  rw [Exact.wrap_eq M hM _ _ hL]
  have hfl : (⌊p / L⌋ : ℝ) ≤ p / L := Int.floor_le _
  have hlt : p / L < (⌊p / L⌋ : ℝ) + 1 := Int.lt_floor_add_one _
  have h1 : L * (p / L) = p := mul_div_cancel₀ _ hL.ne'
  have h2 : L * (⌊p / L⌋ : ℝ) ≤ L * (p / L) := mul_le_mul_of_nonneg_left hfl hL.le
  have h3 : L * (p / L) < L * ((⌊p / L⌋ : ℝ) + 1) := mul_lt_mul_of_pos_left hlt hL
  constructor <;> linarith


/-- On a closed path a sampling step started one path length further along the path ends one
path length further along the path, with the same writes. -/
theorem sampleStep_shift (M : MathUtil ℝ) (hM : M.Exact) (tg : Bool)
    (world curves spaces : List ℝ) (L : ℝ) (hL : 0 < L) (verticesLength : Int) (i o : Nat)
    (s : Cursor ℝ) :
    sampleStep M true tg world curves spaces L verticesLength i o
        { s with position := s.position + L } =
      (sampleStep M true tg world curves spaces L verticesLength i o s).map
        (fun r => { r with position := r.position + L }) := by
  unfold sampleStep
  cases spaces[i]? with
  | none => rfl
  | some space =>
    simp only [Option.some_bind, Option.bind_eq_bind, if_true]
    have e : s.position + L + space = s.position + space + L := by ring
    rw [e, Exact.wrap_add M hM _ _ hL]
    have := sampleCurve_position M world curves o
      (tg || decide (i > 0) && decide (space < EPSILON))
      { s with position := s.position + space, curve := 0 } (wrap M (s.position + space) L)
      (s.position + space + L)
    dsimp only at this
    rw [this]
    cases hr : sampleCurve M world curves o (tg || decide (i > 0) && decide (space < EPSILON))
      { s with position := s.position + space, curve := 0 }
      (wrap M (s.position + space) L) with
    | none => rfl
    | some r =>
      have h2 := sampleCurve_position_eq M world curves o _ _ _ _ hr
      dsimp only at h2
      simp only [Option.map_some', h2]

theorem ncSampleStep_shift (M : MathUtil ℝ) (hM : M.Exact) (path : PathAttachment ℝ) (tg : Bool)
    (spaces : List ℝ) (L : ℝ) (hL : 0 < L) (curveCount verticesLength : Int) (i o : Nat)
    (s : NCursor ℝ) :
    ncSampleStep M path true tg spaces L curveCount verticesLength i o
        { s with position := s.position + L } =
      (ncSampleStep M path true tg spaces L curveCount verticesLength i o s).map
        (fun r => { r with position := r.position + L }) := by
  unfold ncSampleStep
  cases spaces[i]? with
  | none => rfl
  | some space =>
    simp only [Option.some_bind, Option.bind_eq_bind, if_true]
    have e : s.position + L + space = s.position + space + L := by ring
    rw [e, Exact.wrap_add M hM _ _ hL]
    have := ncSampleCurve_position M path true curveCount verticesLength o
      (tg || decide (i > 0) && decide (space < EPSILON))
      { s with position := s.position + space, curve := 0 } (wrap M (s.position + space) L)
      (s.position + space + L)
    dsimp only at this
    rw [this]
    cases hr : ncSampleCurve M path true curveCount verticesLength o
      (tg || decide (i > 0) && decide (space < EPSILON))
      { s with position := s.position + space, curve := 0 }
      (wrap M (s.position + space) L) with
    | none => rfl
    | some r =>
      have h2 := ncSampleCurve_position_eq M path true curveCount verticesLength o _ _ _ _ hr
      dsimp only at h2
      simp only [Option.map_some', h2]

/-- Closed-path periodicity of the sampler: moving the base position by one path length
changes nothing in the returned vector and in the buffers. -/
theorem computeWorldPositions_shift (M : MathUtil ℝ) (hM : M.Exact) (fresh : ℕ → ℝ)
    (pc : PathConstraint ℝ) (path : PathAttachment ℝ) (spacesCount : ℕ)
    (tangents percentSpacing : Bool) (hclosed : path.closed = true) (L : ℝ)
    (hlen : pathLengthOf M fresh pc path = some L) (hL : 0 < L) :
    computeWorldPositions M fresh { pc with _position := pc._position + L } path spacesCount
        tangents false percentSpacing =
      (computeWorldPositions M fresh pc path spacesCount tangents false percentSpacing).map
        (fun r => (r.1, { r.2 with _position := pc._position + L })) := by
  unfold computeWorldPositions
  unfold pathLengthOf at hlen
  dsimp only
  dsimp only at hlen
  by_cases hcs : path.constantSpeed = true
  · simp only [hcs, Bool.not_true, Bool.false_eq_true, if_false] at hlen ⊢
    have hwv : worldVertices fresh { pc with _position := pc._position + L } path
        = worldVertices fresh pc path := rfl
    rw [hwv]
    cases hw : worldVertices fresh pc path with
    | none => rfl
    | some w =>
      obtain ⟨world, verticesLength, curveCount⟩ := w
      rw [hw] at hlen
      simp only [Option.some_bind, Option.bind_eq_bind] at hlen ⊢
      have hcl : curveLengths M fresh { pc with _position := pc._position + L } world curveCount
          = curveLengths M fresh pc world curveCount := rfl
      rw [hcl]
      cases hc : curveLengths M fresh pc world curveCount with
      | none => rfl
      | some cl =>
        obtain ⟨pathLength, c, curves⟩ := cl
        rw [hc] at hlen
        simp only [Option.some_bind, Option.pure_def, Option.some.injEq] at hlen
        subst hlen
        simp only [Option.some_bind]
        cases hsp : (if percentSpacing = true then scaleSpaces pc._spaces spacesCount pathLength
            else pure pc._spaces) with
        | none => rfl
        | some spaces =>
          simp only [Option.some_bind]
          have := sampleLoop_map
            (sampleStep M path.closed tangents world curves spaces pathLength verticesLength)
            (fun r => { r with position := r.position + pathLength })
            (by
              intro i o s
              rw [hclosed]
              exact sampleStep_shift M hM tangents world curves spaces pathLength hL
                verticesLength i o s)
            spacesCount 0 0
            ⟨pc._position, 0, 0, NONE, 0, c, pc._segments,
              Vector.setSize fresh pc._positions (spacesCount * 3 + 2)⟩
          dsimp only at this
          rw [this]
          cases sampleLoop
            (sampleStep M path.closed tangents world curves spaces pathLength verticesLength)
            spacesCount 0 0 ⟨pc._position, 0, 0, NONE, 0, c, pc._segments,
              Vector.setSize fresh pc._positions (spacesCount * 3 + 2)⟩ <;> rfl
  · have hcs' : path.constantSpeed = false := by simpa using hcs
    simp only [hcs', Bool.not_false, if_true, hclosed, Bool.false_eq_true, if_false] at hlen ⊢
    cases hcc : toIdx ((path.worldVerticesLength : ℤ) / 6 - 1) with
    | none => rfl
    | some cc =>
      rw [hcc] at hlen
      simp only [Option.some_bind, Option.bind_eq_bind] at hlen ⊢
      rw [hlen]
      simp only [Option.some_bind]
      cases hsp : (if percentSpacing = true then scaleSpaces pc._spaces spacesCount L
          else pure pc._spaces) with
      | none => rfl
      | some spaces =>
        simp only [Option.some_bind]
        have := sampleLoop_map
          (ncSampleStep M path true tangents spaces L ((path.worldVerticesLength : ℤ) / 6 - 1)
            path.worldVerticesLength)
          (fun r => { r with position := r.position + L })
          (fun i o s => ncSampleStep_shift M hM path tangents spaces L hL _ _ i o s)
          spacesCount 0 0
          ⟨pc._position, 0, NONE, Vector.setSize fresh pc._world 8,
            Vector.setSize fresh pc._positions (spacesCount * 3 + 2)⟩
        dsimp only at this
        rw [this]
        cases sampleLoop
          (ncSampleStep M path true tangents spaces L ((path.worldVerticesLength : ℤ) / 6 - 1)
            path.worldVerticesLength)
          spacesCount 0 0 ⟨pc._position, 0, NONE, Vector.setSize fresh pc._world 8,
            Vector.setSize fresh pc._positions (spacesCount * 3 + 2)⟩ <;> rfl

section Lemmas

variable {K : Type} [LinearOrderedField K]

/-- What a successful scan found. -/
theorem scan_some (p : K) : ∀ (l : List K) (k0 k : Nat), scan p l k0 = some k →
    k0 ≤ k ∧ (∃ v, l[k - k0]? = some v ∧ p ≤ v) ∧
      ∀ j, j < k - k0 → ∃ v, l[j]? = some v ∧ v < p := by
  intro l
  induction l with
  | nil => intro k0 k h; simp [scan] at h
  | cons x xs ih =>
    intro k0 k h
    rw [scan] at h
    by_cases hx : p > x
    · rw [if_pos hx] at h
      obtain ⟨h1, ⟨v, hv, hpv⟩, h3⟩ := ih (k0 + 1) k h
      refine ⟨by omega, ⟨v, ?_, hpv⟩, ?_⟩
      · have : k - k0 = (k - (k0 + 1)) + 1 := by omega
        rw [this, List.getElem?_cons_succ]; exact hv
      · intro j hj
        cases j with
        | zero => exact ⟨x, by simp, hx⟩
        | succ j =>
          rw [List.getElem?_cons_succ]
          exact h3 j (by omega)
    · rw [if_neg hx] at h
      cases h
      refine ⟨le_refl _, ⟨x, by simp, not_lt.mp hx⟩, ?_⟩
      intro j hj
      omega

/-- A scan succeeds when some cell is not below `p`. -/
theorem scan_exists (p : K) : ∀ (l : List K) (k0 m : Nat) (v : K), l[m]? = some v → p ≤ v →
    ∃ k, scan p l k0 = some k ∧ k ≤ k0 + m := by
  intro l
  induction l with
  | nil => intro k0 m v h; simp at h
  | cons x xs ih =>
    intro k0 m v h hpv
    rw [scan]
    by_cases hx : p > x
    · rw [if_pos hx]
      cases m with
      | zero =>
        simp at h
        rw [h] at hx
        exact absurd hpv (not_le.mpr hx)
      | succ m =>
        rw [List.getElem?_cons_succ] at h
        obtain ⟨k, hk, hle⟩ := ih (k0 + 1) m v h hpv
        exact ⟨k, hk, by omega⟩
    · rw [if_neg hx]
      exact ⟨k0, rfl, by omega⟩

/-- What a successful search found: the first index from `start` on whose cell is not below
`p`. -/
theorem search_some (table : List K) (p : K) (start k : Nat)
    (h : search table p start = some k) :
    start ≤ k ∧ k < table.length ∧ (∃ v, table[k]? = some v ∧ p ≤ v) ∧
      ∀ j, start ≤ j → j < k → ∃ v, table[j]? = some v ∧ v < p := by
  unfold search at h
  obtain ⟨h1, ⟨v, hv, hpv⟩, h3⟩ := scan_some p _ _ _ h
  rw [List.getElem?_drop] at hv
  have e : start + (k - start) = k := by omega
  rw [e] at hv
  refine ⟨h1, ?_, ⟨v, hv, hpv⟩, ?_⟩
  · by_contra hcon
    rw [List.getElem?_eq_none (by omega)] at hv
    cases hv
  · intro j hj1 hj2
    obtain ⟨w, hw, hwp⟩ := h3 (j - start) (by omega)
    rw [List.getElem?_drop] at hw
    have e2 : start + (j - start) = j := by omega
    rw [e2] at hw
    exact ⟨w, hw, hwp⟩

/-- A search succeeds when some cell from `start` on is not below `p`. -/
theorem search_exists (table : List K) (p : K) (start m : Nat) (v : K) (hm : start ≤ m)
    (hv : table[m]? = some v) (hpv : p ≤ v) :
    ∃ k, search table p start = some k ∧ k ≤ m := by
  unfold search
  have : (table.drop start)[m - start]? = some v := by
    rw [List.getElem?_drop]
    have e : start + (m - start) = m := by omega
    rw [e]; exact hv
  obtain ⟨k, hk, hle⟩ := scan_exists p _ start _ v this hpv
  exact ⟨k, hk, by omega⟩

theorem toIdx_natCast (n : Nat) : toIdx (n : Int) = some n := by
  simp [toIdx]

theorem toIdx_sub (a b : Nat) (h : b ≤ a) : toIdx ((a : Int) - (b : Int)) = some (a - b) := by
  rw [← Int.ofNat_sub h]
  exact toIdx_natCast _

theorem worldVertices_open (fresh : Nat → K) (pc : PathConstraint K) (path : PathAttachment K)
    (hclosed : path.closed = false) (hvl : 4 ≤ path.worldVerticesLength) :
    worldVertices fresh pc path = some (worldOf path, (path.worldVerticesLength : Int) - 4,
      (path.worldVerticesLength : Int) / 6 - 1) := by
  unfold worldVertices worldOf
  simp only [hclosed, Bool.false_eq_true, if_false]
  have h4 : toIdx ((path.worldVerticesLength : Int) - 4) = some (path.worldVerticesLength - 4) :=
    toIdx_sub _ 4 hvl
  simp only [h4, Option.some_bind, Option.bind_eq_bind]
  unfold PathAttachment.computeWorldVertices
  rw [if_pos (by simp [Vector.setSize_length])]
  simp [Vector.setSize_length]

theorem worldVertices_closed (fresh : Nat → K) (pc : PathConstraint K) (path : PathAttachment K)
    (hclosed : path.closed = true) (hvl : 6 ≤ path.worldVerticesLength) :
    worldVertices fresh pc path = some (worldOf path, (path.worldVerticesLength : Int) + 2,
      (path.worldVerticesLength : Int) / 6) := by
  unfold worldVertices worldOf
  simp only [hclosed, if_true]
  have h1 : toIdx ((path.worldVerticesLength : Int) + 2) = some (path.worldVerticesLength + 2) :=
    toIdx_natCast (path.worldVerticesLength + 2)
  have h2 : toIdx ((path.worldVerticesLength : Int) + 2 - 4)
      = some (path.worldVerticesLength - 2) := by
    have : (path.worldVerticesLength : Int) + 2 - 4 = ((path.worldVerticesLength - 2 : Nat) : Int) := by
      omega
    rw [this]; exact toIdx_natCast _
  have h3 : toIdx ((path.worldVerticesLength : Int) + 2 - 2)
      = some path.worldVerticesLength := by
    have : (path.worldVerticesLength : Int) + 2 - 2 = ((path.worldVerticesLength : Nat) : Int) := by
      omega
    rw [this]; exact toIdx_natCast _
  have h4 : toIdx ((path.worldVerticesLength : Int) + 2 - 1)
      = some (path.worldVerticesLength + 1) := by
    have : (path.worldVerticesLength : Int) + 2 - 1 = ((path.worldVerticesLength + 1 : Nat) : Int) := by
      omega
    rw [this]; exact toIdx_natCast _
  simp only [h1, h2, h3, h4, Option.some_bind, Option.bind_eq_bind]
  obtain ⟨n, hn⟩ : ∃ n, path.worldVerticesLength = n + 6 := ⟨path.worldVerticesLength - 6, by omega⟩
  rw [hn]
  have e1 : n + 6 - 2 = n + 4 := by omega
  rw [e1]
  obtain ⟨d0, d1, d2, d3, hD⟩ : ∃ d0 d1 d2 d3,
      List.drop (n + 4) (Vector.setSize fresh pc._world (n + 6 + 2)) = [d0, d1, d2, d3] := by
    have hl : (List.drop (n + 4) (Vector.setSize fresh pc._world (n + 6 + 2))).length = 4 := by
      simp [Vector.setSize_length]
    match hm : List.drop (n + 4) (Vector.setSize fresh pc._world (n + 6 + 2)), hl with
    | [a, b, c, d], _ => exact ⟨a, b, c, d, rfl⟩
  set A := List.map (fun j => path.vertices (2 + j)) (List.range (n + 4)) with hA
  have hAl : A.length = n + 4 := by simp [hA]
  have hw1 : path.computeWorldVertices 2 (n + 4) (Vector.setSize fresh pc._world (n + 6 + 2)) 0
      = some (A ++ [d0, d1, d2, d3]) := by
    unfold PathAttachment.computeWorldVertices
    rw [if_pos (by simp [Vector.setSize_length])]
    simp [hD, hA]
  have hw2 : path.computeWorldVertices 0 2 (A ++ [d0, d1, d2, d3]) (n + 4)
      = some (A ++ [path.vertices 0, path.vertices 1, d2, d3]) := by
    unfold PathAttachment.computeWorldVertices
    rw [if_pos (by simp [hAl])]
    have t1 : List.take (n + 4) (A ++ [d0, d1, d2, d3]) = A := by
      rw [List.take_append_of_le_length (by omega), List.take_of_length_le (by omega)]
    have t2 : List.drop (n + 4 + 2) (A ++ [d0, d1, d2, d3]) = [d2, d3] := by
      rw [List.drop_append_eq_append_drop, List.drop_of_length_le (by omega)]
      simp [hAl]
    rw [t1, t2]
    simp [List.range_succ]
  have a0 : (A ++ [path.vertices 0, path.vertices 1, d2, d3])[0]? = some (path.vertices 2) := by
    rw [List.getElem?_append_left (by omega)]
    simp [hA, List.getElem?_range]
  rw [hw1]
  simp only [Option.some_bind]
  rw [hw2]
  simp only [Option.some_bind, a0]
  rw [Vector.set_eq_some _ _ _ (by simp [hAl])]
  simp only [Option.some_bind]
  have s1 : (A ++ [path.vertices 0, path.vertices 1, d2, d3]).set (n + 6) (path.vertices 2)
      = A ++ [path.vertices 0, path.vertices 1, path.vertices 2, d3] := by
    rw [List.set_append_right _ _ (by omega)]
    simp [hAl]
  rw [s1]
  have a1 : (A ++ [path.vertices 0, path.vertices 1, path.vertices 2, d3])[1]?
      = some (path.vertices 3) := by
    rw [List.getElem?_append_left (by omega)]
    simp [hA, List.getElem?_range]
  rw [a1]
  simp only [Option.some_bind]
  rw [Vector.set_eq_some _ _ _ (by simp [hAl])]
  have s2 : (A ++ [path.vertices 0, path.vertices 1, path.vertices 2, d3]).set (n + 6 + 1)
      (path.vertices 3) = A ++ [path.vertices 0, path.vertices 1, path.vertices 2, path.vertices 3] := by
    rw [List.set_append_right _ _ (by omega)]
    simp [hAl]
  rw [s2]
  simp

theorem getElem?_eq_some_getD (l : List K) (i : Nat) (h : i < l.length) :
    l[i]? = some (l.getD i 0) := by
  rw [List.getD_eq_getElem?_getD, List.getElem?_eq_getElem h]
  rfl

theorem curveLengthsLoop_spec (M : MathUtil K) (world : List K) :
    ∀ (todo i w : Nat) (pathLength : K) (c : Ctrl K) (curves : List K),
      w = i * 6 + 2 → w + 6 * todo ≤ world.length → i + todo ≤ curves.length →
      pathLength = pathLengthUpTo M world i →
      c.x1 = world.getD (i * 6) 0 → c.y1 = world.getD (i * 6 + 1) 0 →
      ∃ c' curves', curveLengthsLoop M SIXTH world todo i w pathLength c curves
          = some (pathLengthUpTo M world (i + todo), c', curves') ∧
        curves'.length = curves.length ∧
        (∀ j, j < i → curves'[j]? = curves[j]?) ∧
        (∀ j, i ≤ j → j < i + todo → curves'[j]? = some (pathLengthUpTo M world (j + 1))) ∧
        (∀ j, i + todo ≤ j → curves'[j]? = curves[j]?) := by
  intro todo
  induction todo with
  | zero =>
    intro i w pathLength c curves _ _ _ hp _ _
    refine ⟨c, curves, ?_, rfl, fun _ _ => rfl, ?_, fun _ _ => rfl⟩
    · rw [curveLengthsLoop, hp]; rfl
    · intro j h1 h2; omega
  | succ todo ih =>
    intro i w pathLength c curves hw hwl hcl hp hx hy
    rw [curveLengthsLoop]
    rw [getElem?_eq_some_getD world w (by omega), getElem?_eq_some_getD world (w + 1) (by omega),
      getElem?_eq_some_getD world (w + 2) (by omega), getElem?_eq_some_getD world (w + 3) (by omega),
      getElem?_eq_some_getD world (w + 4) (by omega), getElem?_eq_some_getD world (w + 5) (by omega)]
    simp only [Option.some_bind, Option.bind_eq_bind]
    rw [Vector.set_eq_some _ _ _ (by omega)]
    simp only [Option.some_bind]
    have hctrl : (⟨c.x1, c.y1, world.getD w 0, world.getD (w + 1) 0, world.getD (w + 2) 0,
        world.getD (w + 3) 0, world.getD (w + 4) 0, world.getD (w + 5) 0⟩ : Ctrl K)
        = ctrlAt world i := by
      rw [hx, hy, hw]
      rfl
    rw [hctrl, hp]
    have hnext : addCurveLength M SIXTH (pathLengthUpTo M world i) (ctrlAt world i)
        = pathLengthUpTo M world (i + 1) := rfl
    rw [hnext]
    obtain ⟨c', curves', heq, hl, hlow, hmid, hhigh⟩ := ih (i + 1) (w + 6)
      (pathLengthUpTo M world (i + 1))
      ⟨world.getD (w + 4) 0, world.getD (w + 5) 0, world.getD w 0, world.getD (w + 1) 0,
        world.getD (w + 2) 0, world.getD (w + 3) 0, world.getD (w + 4) 0, world.getD (w + 5) 0⟩
      (curves.set i (pathLengthUpTo M world (i + 1)))
      (by omega) (by omega) (by simp; omega) rfl
      (by
        show world.getD (w + 4) 0 = _
        congr 1; omega)
      (by
        show world.getD (w + 5) 0 = _
        congr 1; omega)
    refine ⟨c', curves', ?_, by simpa using hl, ?_, ?_, ?_⟩
    · rw [heq]
      have : i + 1 + todo = i + (todo + 1) := by omega
      rw [this]
    · intro j hj
      rw [hlow j (by omega), List.getElem?_set]
      have : i ≠ j := by omega
      simp [this]
    · intro j h1 h2
      by_cases hji : j = i
      · subst hji
        rw [hlow j (by omega), List.getElem?_set]
        simp; omega
      · exact hmid j (by omega) (by omega)
    · intro j hj
      rw [hhigh j (by omega), List.getElem?_set]
      have : i ≠ j := by omega
      simp [this]

/-- The curve table of the constant-speed branch: entry `k` is the path length up to and
including curve `k`. -/
theorem curveLengths_spec (M : MathUtil K) (fresh : Nat → K) (pc : PathConstraint K)
    (world : List K) (n : Nat) (hw : n * 6 + 2 ≤ world.length) :
    ∃ c, curveLengths M fresh pc world (n : Int) =
      some (pathLengthUpTo M world n, c,
        (List.range n).map (fun k => pathLengthUpTo M world (k + 1))) := by
  unfold curveLengths
  rw [toIdx_natCast]
  simp only [Option.some_bind, Option.bind_eq_bind]
  rw [getElem?_eq_some_getD world 0 (by omega), getElem?_eq_some_getD world 1 (by omega)]
  simp only [Option.some_bind]
  obtain ⟨c', curves', heq, hl, -, hmid, -⟩ := curveLengthsLoop_spec M world n 0 2 0
    ⟨world.getD 0 0, world.getD 1 0, 0, 0, 0, 0, 0, 0⟩ (Vector.setSize fresh pc._curves n)
    rfl (by omega) (by simp [Vector.setSize_length]) rfl rfl rfl
  refine ⟨c', ?_⟩
  rw [heq]
  simp only [Nat.zero_add]
  congr 3
  apply List.ext_getElem?
  intro j
  by_cases hj : j < n
  · rw [hmid j (Nat.zero_le _) (by omega)]
    simp [List.getElem?_map, List.getElem?_range hj]
  · rw [List.getElem?_eq_none (by rw [hl, Vector.setSize_length]; omega),
      List.getElem?_eq_none (by simp; omega)]

theorem segmentsLoop_spec (M : MathUtil K) (hsqrt : ∀ x, 0 ≤ M.sqrt x) (dddfx dddfy : K) :
    ∀ (n : Nat) (f : FD K) (acc : List K),
      (segmentsLoop M dddfx dddfy n f acc).2.length = acc.length + n ∧
      (0 ≤ f.curveLength → 0 ≤ (segmentsLoop M dddfx dddfy n f acc).1.curveLength) := by
  intro n
  induction n with
  | zero => intro f acc; exact ⟨rfl, fun h => h⟩
  | succ n ih =>
    intro f acc
    rw [segmentsLoop]
    obtain ⟨h1, h2⟩ := ih
      ⟨f.dfx + f.ddfx, f.dfy + f.ddfy, f.ddfx + dddfx, f.ddfy + dddfy,
        f.curveLength + M.sqrt ((f.dfx + f.ddfx) * (f.dfx + f.ddfx) +
          (f.dfy + f.ddfy) * (f.dfy + f.ddfy))⟩
      (acc ++ [f.curveLength + M.sqrt ((f.dfx + f.ddfx) * (f.dfx + f.ddfx) +
          (f.dfy + f.ddfy) * (f.dfy + f.ddfy))])
    refine ⟨?_, ?_⟩
    · rw [h1]; simp; omega
    · intro h
      exact h2 (add_nonneg h (hsqrt _))

/-- The sub-segment table has ten entries, the last of which is `curveLength`, and
`curveLength` is not negative. -/
theorem segmentLengths_spec (M : MathUtil K) (hsqrt : ∀ x, 0 ≤ M.sqrt x) (sixth : K)
    (c : Ctrl K) :
    (segmentLengths M sixth c).1.length = 10 ∧
      (segmentLengths M sixth c).1[9]? = some (segmentLengths M sixth c).2 ∧
      0 ≤ (segmentLengths M sixth c).2 := by
  unfold segmentLengths
  dsimp only
  set tmpx := (c.x1 - c.cx1 * 2 + c.cx2) * (3 / 100) with htx
  set tmpy := (c.y1 - c.cy1 * 2 + c.cy2) * (3 / 100) with hty
  set dddfx := ((c.cx1 - c.cx2) * 3 - c.x1 + c.x2) * (6 / 1000) with hdx
  set dddfy := ((c.cy1 - c.cy2) * 3 - c.y1 + c.y2) * (6 / 1000) with hdy
  set f0 : FD K := ⟨(c.cx1 - c.x1) * (3 / 10) + tmpx + dddfx * sixth,
    (c.cy1 - c.y1) * (3 / 10) + tmpy + dddfy * sixth, tmpx * 2 + dddfx, tmpy * 2 + dddfy,
    M.sqrt (((c.cx1 - c.x1) * (3 / 10) + tmpx + dddfx * sixth) *
      ((c.cx1 - c.x1) * (3 / 10) + tmpx + dddfx * sixth) +
      ((c.cy1 - c.y1) * (3 / 10) + tmpy + dddfy * sixth) *
      ((c.cy1 - c.y1) * (3 / 10) + tmpy + dddfy * sixth))⟩ with hf0
  obtain ⟨h1, h2⟩ := segmentsLoop_spec M hsqrt dddfx dddfy 7 f0 [f0.curveLength]
  have h3 := h2 (hsqrt _)
  refine ⟨?_, ?_, ?_⟩
  · rw [List.length_append, h1]; rfl
  · rw [List.getElem?_append_right (by rw [h1]; simp)]
    rw [h1]
    simp
  · exact add_nonneg (add_nonneg h3 (hsqrt _)) (hsqrt _)

theorem addCurvePosition_write3 (M : MathUtil K) (p : K) (c : Ctrl K)
    (output : List K) (o : Nat) (tangents : Bool) (ho : o + 2 < output.length) :
    addCurvePosition M p c.x1 c.y1 c.cx1 c.cy1 c.cx2 c.cy2 c.x2 c.y2 output o tangents =
      some (write3 output o (curveTriple M c p tangents).1 (curveTriple M c p tangents).2.1
        (curveTriple M c p tangents).2.2) := by
  rw [addCurvePosition_eq M _ _ _ _ _ _ _ _ _ _ _ _ ho]
  cases tangents <;> rfl

theorem write3_length (P : List K) (o : Nat) (x y : K) (a : Option K) :
    (write3 P o x y a).length = P.length := by
  cases a <;> simp [write3]

theorem addCurveLength_ge (M : MathUtil K) (hsqrt : ∀ x, 0 ≤ M.sqrt x) (sixth pl : K)
    (c : Ctrl K) : pl ≤ addCurveLength M sixth pl c := by
  unfold addCurveLength
  dsimp only
  exact le_trans (le_trans (le_trans (le_add_of_nonneg_right (hsqrt _))
    (le_add_of_nonneg_right (hsqrt _))) (le_add_of_nonneg_right (hsqrt _)))
    (le_add_of_nonneg_right (hsqrt _))

theorem pathLengthUpTo_mono (M : MathUtil K) (hsqrt : ∀ x, 0 ≤ M.sqrt x) (world : List K)
    (k : Nat) : pathLengthUpTo M world k ≤ pathLengthUpTo M world (k + 1) :=
  addCurveLength_ge M hsqrt SIXTH _ _

theorem pathLengthUpTo_le (M : MathUtil K) (hsqrt : ∀ x, 0 ≤ M.sqrt x) (world : List K)
    (j k : Nat) (h : j ≤ k) : pathLengthUpTo M world j ≤ pathLengthUpTo M world k := by
  induction k with
  | zero =>
    have : j = 0 := by omega
    rw [this]
  | succ k ih =>
    by_cases hj : j = k + 1
    · rw [hj]
    · exact le_trans (ih (by omega)) (pathLengthUpTo_mono M hsqrt world k)

theorem pathLengthUpTo_nonneg (M : MathUtil K) (hsqrt : ∀ x, 0 ≤ M.sqrt x) (world : List K)
    (k : Nat) : 0 ≤ pathLengthUpTo M world k :=
  pathLengthUpTo_le M hsqrt world 0 k (Nat.zero_le _)

/-- The normalised parameter of a distance `p` that is not beyond the end of curve `k` is at
most 1. -/
theorem curveParam_le_one (M : MathUtil K) (hsqrt : ∀ x, 0 ≤ M.sqrt x) (world curves : List K)
    (n : Nat) (hcurves : curves = (List.range n).map (fun k => pathLengthUpTo M world (k + 1)))
    (k : Nat) (hk : k < n) (p : K) (hp : p ≤ pathLengthUpTo M world (k + 1)) :
    ∃ q, curveParam curves p k = some q ∧ q ≤ 1 ∧
      q = (p - pathLengthUpTo M world k) /
        (pathLengthUpTo M world (k + 1) - pathLengthUpTo M world k) := by
  have hget : ∀ j, j < n → curves[j]? = some (pathLengthUpTo M world (j + 1)) := by
    intro j hj
    rw [hcurves]
    simp [List.getElem?_map, List.getElem?_range hj]
  have hmono := pathLengthUpTo_mono M hsqrt world k
  have hq : (p - pathLengthUpTo M world k) /
      (pathLengthUpTo M world (k + 1) - pathLengthUpTo M world k) ≤ 1 := by
    by_cases hz : pathLengthUpTo M world (k + 1) - pathLengthUpTo M world k = 0
    · rw [hz, div_zero]; exact zero_le_one
    · have hpos : 0 < pathLengthUpTo M world (k + 1) - pathLengthUpTo M world k :=
        lt_of_le_of_ne (sub_nonneg.mpr hmono) (Ne.symm hz)
      rw [div_le_one hpos]
      linarith
  refine ⟨_, ?_, hq, rfl⟩
  unfold curveParam
  rw [hget k hk]
  simp only [Option.some_bind, Option.bind_eq_bind]
  cases k with
  | zero =>
    simp only [if_true, Option.pure_def]
    have : pathLengthUpTo M world 0 = 0 := rfl
    rw [this, sub_zero, sub_zero]
  | succ k =>
    rw [if_neg (by omega)]
    have : k + 1 - 1 = k := by omega
    rw [this, hget k (by omega)]
    rfl

/-- Loading curve `k` leaves the cursor with the control points and the sub-segment table of
curve `k`, whatever the buffers held. -/
theorem loadCurve_char (M : MathUtil K) (world curves : List K) (n : Nat)
    (_hlen : curves.length = n) (hworld : n * 6 + 2 ≤ world.length)
    (s : Cursor K) (hv : s.Valid M world curves) (k : Nat) (hk : k < n) :
    (if (k : Int) ≠ s.prevCurve then 0 else s.segment) ≤ 9 ∧
    ∀ P S, (s.prevCurve ≠ NONE → S = s.segments) →
      loadCurve M world k { s with positions := P, segments := S } =
        some ⟨s.position, k, if (k : Int) ≠ s.prevCurve then 0 else s.segment, (k : Int),
          (segmentsOf M world k).2, ctrlAt world k, (segmentsOf M world k).1, P⟩ := by
  by_cases hne : (k : Int) ≠ s.prevCurve
  · rw [if_pos hne]
    refine ⟨by omega, ?_⟩
    intro P S _
    unfold loadCurve
    dsimp only
    rw [if_pos hne]
    rw [getElem?_eq_some_getD world (k * 6) (by omega),
      getElem?_eq_some_getD world (k * 6 + 1) (by omega),
      getElem?_eq_some_getD world (k * 6 + 2) (by omega),
      getElem?_eq_some_getD world (k * 6 + 3) (by omega),
      getElem?_eq_some_getD world (k * 6 + 4) (by omega),
      getElem?_eq_some_getD world (k * 6 + 5) (by omega),
      getElem?_eq_some_getD world (k * 6 + 6) (by omega),
      getElem?_eq_some_getD world (k * 6 + 7) (by omega)]
    rfl
  · rw [if_neg hne]
    have heq : s.prevCurve = (k : Int) := by
      simp only [ne_eq, not_not] at hne; exact hne.symm
    have hnn : s.prevCurve ≠ NONE := by
      rw [heq]; unfold NONE; omega
    obtain ⟨k', hk1, hk2, hc, hsg, hcl, hseg⟩ := hv.cached hnn
    have hkk : k' = k := by
      rw [heq] at hk1; exact_mod_cast hk1.symm
    subst hkk
    refine ⟨hseg, ?_⟩
    intro P S hS
    unfold loadCurve
    dsimp only
    rw [if_neg hne, hS hnn, heq, hc, hsg, hcl]
    rfl

theorem segmentParam_some (table : List K) (p : K) (j : Nat) (hj : j < table.length) :
    ∃ t, segmentParam table p j = some t := by
  unfold segmentParam
  rw [getElem?_eq_some_getD table j hj]
  simp only [Option.some_bind, Option.bind_eq_bind]
  by_cases h0 : j = 0
  · rw [if_pos h0]; exact ⟨_, rfl⟩
  · rw [if_neg h0, getElem?_eq_some_getD table (j - 1) (by omega)]
    exact ⟨_, rfl⟩

/-- An in-range sample: the curve search, the sub-segment search and the write all succeed,
and the written triple and the cursor left do not depend on the content of `_positions` nor,
before the first load, of `_segments`. -/
theorem sampleCurve_char (M : MathUtil K) (hsqrt : ∀ x, 0 ≤ M.sqrt x) (world curves : List K)
    (n : Nat) (hn : 1 ≤ n)
    (hcurves : curves = (List.range n).map (fun k => pathLengthUpTo M world (k + 1)))
    (hworld : n * 6 + 2 ≤ world.length) (o : Nat) (tg : Bool) (s : Cursor K)
    (hv : s.Valid M world curves) (p : K) (hp : p ≤ pathLengthUpTo M world n) :
    ∃ k q j t, search curves p s.curve = some k ∧ k < n ∧ curveParam curves p k = some q ∧
      q ≤ 1 ∧
      search (segmentsOf M world k).1 (q * (segmentsOf M world k).2)
        (if (k : Int) ≠ s.prevCurve then 0 else s.segment) = some j ∧ j ≤ 9 ∧
      segmentParam (segmentsOf M world k).1 (q * (segmentsOf M world k).2) j = some t ∧
      ∀ P S, o + 2 < P.length → (s.prevCurve ≠ NONE → S = s.segments) →
        sampleCurve M world curves o tg { s with positions := P, segments := S } p =
          some ⟨s.position, k, j, (k : Int), (segmentsOf M world k).2, ctrlAt world k,
            (segmentsOf M world k).1,
            write3 P o (curveTriple M (ctrlAt world k) (t * (1 / 10)) tg).1
              (curveTriple M (ctrlAt world k) (t * (1 / 10)) tg).2.1
              (curveTriple M (ctrlAt world k) (t * (1 / 10)) tg).2.2⟩ := by
  have hlen : curves.length = n := by rw [hcurves]; simp
  have hget : ∀ j, j < n → curves[j]? = some (pathLengthUpTo M world (j + 1)) := by
    intro j hj
    rw [hcurves]
    simp [List.getElem?_map, List.getElem?_range hj]
  have hcl := hv.curve_lt
  rw [hlen] at hcl
  have hlast : curves[n - 1]? = some (pathLengthUpTo M world n) := by
    rw [hget (n - 1) (by omega)]
    congr 2; omega
  obtain ⟨k, hk, hkle⟩ := search_exists curves p s.curve (n - 1) _ (by omega) hlast hp
  have hkn : k < n := by omega
  obtain ⟨-, -, ⟨v, hv1, hpv⟩, -⟩ := search_some curves p s.curve k hk
  rw [hget k hkn] at hv1
  cases hv1
  obtain ⟨q, hq, hq1, -⟩ := curveParam_le_one M hsqrt world curves n hcurves k hkn p hpv
  obtain ⟨hseg0, hload⟩ := loadCurve_char M world curves n hlen hworld s hv k hkn
  obtain ⟨hsl, hs9, hsnn⟩ := segmentLengths_spec M hsqrt SIXTH (ctrlAt world k)
  have hqcl : q * (segmentsOf M world k).2 ≤ (segmentsOf M world k).2 :=
    mul_le_of_le_one_left hsnn hq1
  obtain ⟨j, hj, hj9⟩ := search_exists (segmentsOf M world k).1 (q * (segmentsOf M world k).2)
    (if (k : Int) ≠ s.prevCurve then 0 else s.segment) 9 _ hseg0 hs9 hqcl
  obtain ⟨t, ht⟩ := segmentParam_some (segmentsOf M world k).1 (q * (segmentsOf M world k).2) j
    (by
      have : (segmentsOf M world k).1.length = 10 := hsl
      omega)
  refine ⟨k, q, j, t, hk, hkn, hq, hq1, hj, hj9, ht, ?_⟩
  intro P S hP hS
  unfold sampleCurve
  dsimp only
  rw [hk]
  simp only [Option.some_bind, Option.bind_eq_bind]
  rw [hq]
  simp only [Option.some_bind]
  rw [hload P S hS]
  simp only [Option.some_bind]
  rw [hj]
  simp only [Option.some_bind]
  rw [ht]
  simp only [Option.some_bind]
  rw [addCurvePosition_write3 M _ _ _ _ _ hP]
  rfl

theorem addBeforePosition_write3 (M : MathUtil K) (p : K) (temp : List K) (i : Nat)
    (output : List K) (o : Nat) (ht : i + 3 < temp.length) (ho : o + 2 < output.length) :
    addBeforePosition M p temp i output o =
      some (write3 output o (beforeTriple M temp i p).1 (beforeTriple M temp i p).2.1
        (beforeTriple M temp i p).2.2) := by
  unfold addBeforePosition
  rw [getElem?_eq_some_getD temp i (by omega), getElem?_eq_some_getD temp (i + 1) (by omega),
    getElem?_eq_some_getD temp (i + 2) (by omega), getElem?_eq_some_getD temp (i + 3) (by omega)]
  simp only [Option.some_bind, Option.bind_eq_bind]
  rw [Vector.set_eq_some _ _ _ (by omega)]
  simp only [Option.some_bind]
  rw [Vector.set_eq_some _ _ _ (by simp; omega)]
  simp only [Option.some_bind]
  rw [Vector.set_eq_some _ _ _ (by simp; omega)]
  rfl

theorem addAfterPosition_write3 (M : MathUtil K) (p : K) (temp : List K) (i : Nat)
    (output : List K) (o : Nat) (ht : i + 3 < temp.length) (ho : o + 2 < output.length) :
    addAfterPosition M p temp i output o =
      some (write3 output o (afterTriple M temp i p).1 (afterTriple M temp i p).2.1
        (afterTriple M temp i p).2.2) := by
  unfold addAfterPosition
  rw [getElem?_eq_some_getD temp i (by omega), getElem?_eq_some_getD temp (i + 1) (by omega),
    getElem?_eq_some_getD temp (i + 2) (by omega), getElem?_eq_some_getD temp (i + 3) (by omega)]
  simp only [Option.some_bind, Option.bind_eq_bind]
  rw [Vector.set_eq_some _ _ _ (by omega)]
  simp only [Option.some_bind]
  rw [Vector.set_eq_some _ _ _ (by simp; omega)]
  simp only [Option.some_bind]
  rw [Vector.set_eq_some _ _ _ (by simp; omega)]
  rfl

/-- One step of the constant-speed sampler returns; the triple it writes and the cursor it
leaves do not depend on the content of `_positions` nor, before the first load, of
`_segments`. -/
theorem sampleStep_char (M : MathUtil K) (hsqrt : ∀ x, 0 ≤ M.sqrt x) (closed tangents : Bool)
    (world curves spaces : List K) (n : Nat) (hn : 1 ≤ n)
    (hcurves : curves = (List.range n).map (fun k => pathLengthUpTo M world (k + 1)))
    (hworld : n * 6 + 2 ≤ world.length) (verticesLength : Int)
    (hvl : closed = false → verticesLength = (world.length : Int))
    (hwrap : closed = true → ∀ x, wrap M x (pathLengthUpTo M world n) ≤ pathLengthUpTo M world n)
    (i o : Nat) (space : K) (hspace : spaces[i]? = some space)
    (s : Cursor K) (hv : s.Valid M world curves) :
    ∃ (w : K × K × Option K) (s1 : Cursor K), s1.Valid M world curves ∧
      StepOutcome M closed tangents world curves n i space s w s1 ∧
      ∀ P S, o + 2 < P.length → (s.prevCurve ≠ NONE → S = s.segments) →
        ∃ S', sampleStep M closed tangents world curves spaces (pathLengthUpTo M world n)
            verticesLength i o { s with positions := P, segments := S } =
          some { s1 with positions := write3 P o w.1 w.2.1 w.2.2, segments := S' } ∧
          (s1.prevCurve ≠ NONE → S' = s1.segments) := by
  have hlen : curves.length = n := by rw [hcurves]; simp
  have curveCase : ∀ (s0 : Cursor K), s0.Valid M world curves → s0.prevCurve = s.prevCurve →
      s0.segments = s.segments → s0.segment = s.segment → s0.positions = s.positions →
      s0.position = s.position + space → ∀ p, p ≤ pathLengthUpTo M world n →
      ∃ (w : K × K × Option K) (s1 : Cursor K), s1.Valid M world curves ∧
        (∃ (k : Nat) (q : K) (j : Nat) (t : K),
          search curves p s0.curve = some k ∧ k < n ∧
          curveParam curves p k = some q ∧ q ≤ 1 ∧
          search (segmentsOf M world k).1 (q * (segmentsOf M world k).2)
            (if (k : Int) ≠ s.prevCurve then 0 else s.segment) = some j ∧ j ≤ 9 ∧
          segmentParam (segmentsOf M world k).1 (q * (segmentsOf M world k).2) j = some t ∧
          w = curveTriple M (ctrlAt world k) (t * (1 / 10))
            (tangents || decide (i > 0) && decide (space < EPSILON)) ∧
          s1 = ⟨s.position + space, k, j, (k : Int), (segmentsOf M world k).2, ctrlAt world k,
            (segmentsOf M world k).1, s.positions⟩) ∧
        ∀ P S, o + 2 < P.length → (s.prevCurve ≠ NONE → S = s.segments) →
          ∃ S', sampleCurve M world curves o
              (tangents || decide (i > 0) && decide (space < EPSILON))
              { s0 with positions := P, segments := S } p =
            some { s1 with positions := write3 P o w.1 w.2.1 w.2.2, segments := S' } ∧
            (s1.prevCurve ≠ NONE → S' = s1.segments) := by
    intro s0 hv0 hprev hsegs hsegm hposs hposn p hp
    obtain ⟨k, q, j, t, hk, hkn, hq, hq1, hj, hj9, ht, hall⟩ := sampleCurve_char M hsqrt world
      curves n hn hcurves hworld o (tangents || decide (i > 0) && decide (space < EPSILON)) s0
      hv0 p hp
    rw [hprev, hsegm] at hj
    refine ⟨curveTriple M (ctrlAt world k) (t * (1 / 10))
        (tangents || decide (i > 0) && decide (space < EPSILON)),
      ⟨s.position + space, k, j, (k : Int), (segmentsOf M world k).2, ctrlAt world k,
        (segmentsOf M world k).1, s.positions⟩, ?_, ?_, ?_⟩
    · refine ⟨by rw [hlen]; exact hkn, ?_⟩
      intro _
      exact ⟨k, rfl, by rw [hlen]; exact hkn, rfl, rfl, rfl, hj9⟩
    · exact ⟨k, q, j, t, hk, hkn, hq, hq1, hj, hj9, ht, rfl, rfl⟩
    · intro P S hP hS
      refine ⟨(segmentsOf M world k).1, ?_, fun _ => rfl⟩
      rw [hall P S hP (by rw [hprev, hsegs]; exact hS), hposn]
  unfold sampleStep
  simp only [hspace, Option.some_bind, Option.bind_eq_bind]
  cases closed with
  | true =>
    simp only [if_true]
    obtain ⟨w, s1, hv1, ⟨k, q, j, t, h1, h2, h3, h4, h5, h6, h7, h8, h9⟩, hall⟩ :=
      curveCase { s with position := s.position + space, curve := 0 }
      ⟨by show 0 < curves.length; rw [hlen]; omega, hv.cached⟩ rfl rfl rfl rfl rfl _ (hwrap rfl _)
    refine ⟨w, s1, hv1, Or.inr (Or.inr ⟨_, k, q, j, t, rfl, ?_, ?_, h2, h3, h4, h5, h6, h7, h8, h9⟩),
      hall⟩
    · intro h; cases h
    · simpa using h1
  | false =>
    simp only [Bool.false_eq_true, if_false]
    have hvl' := hvl rfl
    by_cases h0 : s.position + space < 0
    · simp only [h0, if_true]
      refine ⟨beforeTriple M world 0 (s.position + space),
        { s with position := s.position + space }, ⟨hv.curve_lt, hv.cached⟩,
        Or.inl ⟨rfl, h0, rfl, rfl⟩, ?_⟩
      intro P S hP hS
      refine ⟨S, ?_, hS⟩
      rw [addBeforePosition_write3 M _ _ _ _ _ (by omega) hP]
      rfl
    · simp only [h0, if_false]
      by_cases h1 : s.position + space > pathLengthUpTo M world n
      · simp only [h1, if_true]
        have hidx : toIdx (verticesLength - 4) = some (world.length - 4) := by
          rw [hvl']
          exact toIdx_sub _ 4 (by omega)
        refine ⟨afterTriple M world (world.length - 4)
            (s.position + space - pathLengthUpTo M world n),
          { s with position := s.position + space }, ⟨hv.curve_lt, hv.cached⟩,
          Or.inr (Or.inl ⟨rfl, h0, h1, rfl, rfl⟩), ?_⟩
        intro P S hP hS
        refine ⟨S, ?_, hS⟩
        rw [hidx]
        simp only [Option.some_bind]
        rw [addAfterPosition_write3 M _ _ _ _ _ (by omega) hP]
        rfl
      · simp only [h1, if_false]
        obtain ⟨w, s1, hv1, ⟨k, q, j, t, e1, e2, e3, e4, e5, e6, e7, e8, e9⟩, hall⟩ :=
          curveCase { s with position := s.position + space }
          ⟨hv.curve_lt, hv.cached⟩ rfl rfl rfl rfl rfl _ (not_lt.mp h1)
        refine ⟨w, s1, hv1, Or.inr (Or.inr ⟨_, k, q, j, t, rfl,
          fun _ => ⟨not_lt.mp h0, not_lt.mp h1⟩, ?_, e2, e3, e4, e5, e6, e7, e8, e9⟩), hall⟩
        simpa using e1

/-- A sampling loop whose every iteration writes one triple that does not depend on the
buffers writes a list of triples that does not depend on the buffers. -/
theorem sampleLoop_char (step : Nat → Nat → Cursor K → Option (Cursor K)) (sc : Nat)
    (Inv : Nat → Cursor K → Prop) (Good : Nat → K × K × Option K → Prop)
    (hstep : ∀ i o s, Inv i s → i < sc →
      ∃ (w : K × K × Option K) (s1 : Cursor K), Inv (i + 1) s1 ∧ Good i w ∧
        ∀ P S, o + 2 < P.length → (s.prevCurve ≠ NONE → S = s.segments) →
          ∃ S', step i o { s with positions := P, segments := S } =
            some { s1 with positions := write3 P o w.1 w.2.1 w.2.2, segments := S' } ∧
            (s1.prevCurve ≠ NONE → S' = s1.segments)) :
    ∀ (todo i o : Nat) (s : Cursor K), Inv i s → i + todo ≤ sc →
      ∃ (ws : List (K × K × Option K)) (sfin : Cursor K), ws.length = todo ∧
        Inv (i + todo) sfin ∧ (∀ m w, ws[m]? = some w → Good (i + m) w) ∧
        ∀ P S, o + 3 * todo ≤ P.length → (s.prevCurve ≠ NONE → S = s.segments) →
          ∃ S', sampleLoop step todo i o { s with positions := P, segments := S } =
            some { sfin with positions := applyWrites ws o P, segments := S' } ∧
            (sfin.prevCurve ≠ NONE → S' = sfin.segments) := by
  intro todo
  induction todo with
  | zero =>
    intro i o s hinv _
    refine ⟨[], s, rfl, hinv, ?_, ?_⟩
    · intro m w h; simp at h
    · intro P S _ hS
      exact ⟨S, rfl, hS⟩
  | succ todo ih =>
    intro i o s hinv hle
    obtain ⟨w, s1, hinv1, hgood, hall⟩ := hstep i o s hinv (by omega)
    obtain ⟨ws, sfin, hlen, hinvf, hgoods, hallf⟩ := ih (i + 1) (o + 3) s1 hinv1 (by omega)
    refine ⟨w :: ws, sfin, by simp [hlen], ?_, ?_, ?_⟩
    · have : i + (todo + 1) = i + 1 + todo := by omega
      rw [this]; exact hinvf
    · intro m w' h
      cases m with
      | zero =>
        simp at h
        rw [← h]; exact hgood
      | succ m =>
        rw [List.getElem?_cons_succ] at h
        have := hgoods m w' h
        have e : i + (m + 1) = i + 1 + m := by omega
        rw [e]; exact this
    · intro P S hP hS
      obtain ⟨S1, hs1, hS1⟩ := hall P S (by omega) hS
      obtain ⟨S2, hs2, hS2⟩ := hallf (write3 P o w.1 w.2.1 w.2.2) S1
        (by rw [write3_length]; omega) hS1
      refine ⟨S2, ?_, hS2⟩
      rw [sampleLoop]
      simp only [Option.bind_eq_bind]
      rw [hs1]
      simp only [Option.some_bind]
      exact hs2

theorem spacesIn_length (spaces : List K) (sc : Nat) (ps : Bool) (L : K) :
    (spacesIn spaces sc ps L).length = spaces.length := by
  unfold spacesIn
  cases ps with
  | false => rfl
  | true =>
    simp only [if_true, List.length_append, List.length_map, List.length_take, List.length_drop]
    omega

theorem scaleSpaces_eq (spaces : List K) (sc : Nat) (ps : Bool) (L : K)
    (h : sc ≤ spaces.length) :
    (if ps = true then scaleSpaces spaces sc L else pure spaces) = some (spacesIn spaces sc ps L) := by
  unfold spacesIn scaleSpaces
  cases ps with
  | false => rfl
  | true => simp [h]

/-- The constant-speed branch of the sampler returns `_positions`, and the buffer it returns is
the buffer it started from with one triple written per sample; what the triples are is
determined step by step by `StepOutcome`. -/
theorem computeWorldPositions_char (M : MathUtil K) (hsqrt : ∀ x, 0 ≤ M.sqrt x)
    (fresh : Nat → K) (pc : PathConstraint K) (path : PathAttachment K) (sc : Nat)
    (tangents pp ps : Bool) (hcs : path.constantSpeed = true) (hn : 1 ≤ curveCountOf path)
    (hwrap : path.closed = true → ∀ x, wrap M x (lengthOf M path) ≤ lengthOf M path)
    (hsp : sc ≤ pc._spaces.length)
    (Inv : Nat → Cursor K → Prop) (Good : Nat → K × K × Option K → Prop)
    (hinit : ∀ c, Inv 0 ⟨positionIn pc._position pp (lengthOf M path), 0, 0, NONE, 0, c,
      pc._segments, Vector.setSize fresh pc._positions (sc * 3 + 2)⟩)
    (hpres : ∀ i s w s1 space, i < sc →
      (spacesIn pc._spaces sc ps (lengthOf M path))[i]? = some space → Inv i s →
      s.Valid M (worldOf path) (curvesOf M path) →
      StepOutcome M path.closed tangents (worldOf path) (curvesOf M path) (curveCountOf path)
        i space s w s1 → Inv (i + 1) s1 ∧ Good i w) :
    ∃ (ws : List (K × K × Option K)) (segs : List K), ws.length = sc ∧
      (∀ m w, ws[m]? = some w → Good m w) ∧
      computeWorldPositions M fresh pc path sc tangents pp ps =
        some (applyWrites ws 0 (Vector.setSize fresh pc._positions (sc * 3 + 2)),
          { pc with _spaces := spacesIn pc._spaces sc ps (lengthOf M path),
                    _positions := applyWrites ws 0 (Vector.setSize fresh pc._positions (sc * 3 + 2)),
                    _world := worldOf path, _curves := curvesOf M path, _segments := segs }) := by
  -- the world buffer
  have hwv : ∃ vlAdj : Int, worldVertices fresh pc path
      = some (worldOf path, vlAdj, (curveCountOf path : Int)) ∧
      (path.closed = false → vlAdj = ((worldOf path).length : Int)) ∧
      curveCountOf path * 6 + 2 ≤ (worldOf path).length := by
    cases hclosed : path.closed with
    | true =>
      have h6 : 6 ≤ path.worldVerticesLength := by
        unfold curveCountOf at hn
        rw [hclosed] at hn
        simp only [if_true] at hn
        omega
      refine ⟨(path.worldVerticesLength : Int) + 2, ?_, ?_, ?_⟩
      · rw [worldVertices_closed fresh pc path hclosed h6]
        unfold curveCountOf
        rw [hclosed]
        simp only [if_true, Int.natCast_ediv, Nat.cast_ofNat]
        rfl
      · intro h; cases h
      · unfold curveCountOf worldOf
        rw [hclosed]
        simp only [if_true, List.length_append, List.length_map, List.length_range,
          List.length_cons, List.length_nil]
        omega
    | false =>
      have h12 : 12 ≤ path.worldVerticesLength := by
        unfold curveCountOf at hn
        rw [hclosed] at hn
        simp only [Bool.false_eq_true, if_false] at hn
        omega
      refine ⟨(path.worldVerticesLength : Int) - 4, ?_, ?_, ?_⟩
      · rw [worldVertices_open fresh pc path hclosed (by omega)]
        unfold curveCountOf
        rw [hclosed]
        simp only [Bool.false_eq_true, if_false]
        congr 3
        have : 1 ≤ path.worldVerticesLength / 6 := by omega
        rw [Int.ofNat_sub this]
        simp
      · intro _
        unfold worldOf
        rw [hclosed]
        simp only [Bool.false_eq_true, if_false, List.length_map, List.length_range]
        omega
      · unfold curveCountOf worldOf
        rw [hclosed]
        simp only [Bool.false_eq_true, if_false, List.length_map, List.length_range]
        omega
  obtain ⟨vlAdj, hwv, hvl, hworld⟩ := hwv
  obtain ⟨c, hcl⟩ := curveLengths_spec M fresh pc (worldOf path) (curveCountOf path) hworld
  have hspl := spacesIn_length pc._spaces sc ps (lengthOf M path)
  -- the loop
  obtain ⟨ws, sfin, hlen, -, hgood, hall⟩ := sampleLoop_char
    (sampleStep M path.closed tangents (worldOf path) (curvesOf M path)
      (spacesIn pc._spaces sc ps (lengthOf M path)) (lengthOf M path) vlAdj) sc
    (fun i s => Inv i s ∧ s.Valid M (worldOf path) (curvesOf M path)) Good
    (by
      intro i o s ⟨hinv, hval⟩ hi
      have hex : ∃ space, (spacesIn pc._spaces sc ps (lengthOf M path))[i]? = some space :=
        ⟨_, List.getElem?_eq_getElem (by omega)⟩
      obtain ⟨space, hspace⟩ := hex
      obtain ⟨w, s1, hv1, hout, hall⟩ := sampleStep_char M hsqrt path.closed tangents
        (worldOf path) (curvesOf M path) (spacesIn pc._spaces sc ps (lengthOf M path))
        (curveCountOf path) hn rfl hworld vlAdj hvl hwrap i o space hspace s hval
      obtain ⟨hinv1, hg⟩ := hpres i s w s1 space hi hspace hinv hval hout
      exact ⟨w, s1, ⟨hinv1, hv1⟩, hg, hall⟩)
    sc 0 0
    ⟨positionIn pc._position pp (lengthOf M path), 0, 0, NONE, 0, c, pc._segments,
      Vector.setSize fresh pc._positions (sc * 3 + 2)⟩
    ⟨hinit c, ⟨by
        show 0 < (curvesOf M path).length
        unfold curvesOf
        simp only [List.length_map, List.length_range]
        omega, fun h => absurd rfl h⟩⟩
    (by omega)
  obtain ⟨S', hloop, -⟩ := hall (Vector.setSize fresh pc._positions (sc * 3 + 2)) pc._segments
    (by rw [Vector.setSize_length]; omega) (fun _ => rfl)
  refine ⟨ws, S', hlen, ?_, ?_⟩
  · intro m w h
    have := hgood m w h
    rwa [Nat.zero_add] at this
  · unfold computeWorldPositions
    simp only [hcs, Bool.not_true, Bool.false_eq_true, if_false]
    rw [hwv]
    simp only [Option.some_bind, Option.bind_eq_bind]
    rw [hcl]
    simp only [Option.some_bind]
    rw [scaleSpaces_eq pc._spaces sc ps _ hsp]
    simp only [Option.some_bind]
    have hloop' : sampleLoop
        (sampleStep M path.closed tangents (worldOf path)
          (List.map (fun k => pathLengthUpTo M (worldOf path) (k + 1))
            (List.range (curveCountOf path)))
          (spacesIn pc._spaces sc ps (pathLengthUpTo M (worldOf path) (curveCountOf path)))
          (pathLengthUpTo M (worldOf path) (curveCountOf path)) vlAdj) sc 0 0
        ⟨if pp = true then pc._position * pathLengthUpTo M (worldOf path) (curveCountOf path)
          else pc._position, 0, 0, NONE, 0, c, pc._segments,
          Vector.setSize fresh pc._positions (sc * 3 + 2)⟩ = _ := hloop
    rw [hloop']
    rfl

theorem write3_getElem?_of_lt (P : List K) (o : Nat) (x y : K) (a : Option K) (j : Nat)
    (h : j < o) : (write3 P o x y a)[j]? = P[j]? := by
  have a1 : o ≠ j := by omega
  have a2 : o + 1 ≠ j := by omega
  have a3 : o + 2 ≠ j := by omega
  cases a <;> simp [write3, List.getElem?_set, a1, a2, a3]

theorem write3_getElem?_of_ge (P : List K) (o : Nat) (x y : K) (a : Option K) (j : Nat)
    (h : o + 3 ≤ j) : (write3 P o x y a)[j]? = P[j]? := by
  have a1 : o ≠ j := by omega
  have a2 : o + 1 ≠ j := by omega
  have a3 : o + 2 ≠ j := by omega
  cases a <;> simp [write3, List.getElem?_set, a1, a2, a3]

theorem write3_getElem?_x (P : List K) (o : Nat) (x y : K) (a : Option K)
    (h : o + 2 < P.length) : (write3 P o x y a)[o]? = some x := by
  cases a <;> simp [write3, List.getElem?_set] <;> omega

theorem write3_getElem?_y (P : List K) (o : Nat) (x y : K) (a : Option K)
    (h : o + 2 < P.length) : (write3 P o x y a)[o + 1]? = some y := by
  cases a <;> simp [write3, List.getElem?_set] <;> omega

theorem write3_getElem?_angle (P : List K) (o : Nat) (x y : K) (a : Option K)
    (h : o + 2 < P.length) :
    (write3 P o x y a)[o + 2]? = (match a with | some r => some r | none => P[o + 2]?) := by
  cases a with
  | none => simp [write3, List.getElem?_set]
  | some r => simp [write3, List.getElem?_set]; omega

theorem applyWrites_length : ∀ (ws : List (K × K × Option K)) (o : Nat) (P : List K),
    (applyWrites ws o P).length = P.length := by
  intro ws
  induction ws with
  | nil => intro o P; rfl
  | cons w ws ih =>
    intro o P
    rw [applyWrites, ih, write3_length]

theorem applyWrites_getElem?_of_lt : ∀ (ws : List (K × K × Option K)) (o : Nat) (P : List K)
    (j : Nat), j < o → (applyWrites ws o P)[j]? = P[j]? := by
  intro ws
  induction ws with
  | nil => intro o P j _; rfl
  | cons w ws ih =>
    intro o P j hj
    rw [applyWrites, ih _ _ _ (by omega), write3_getElem?_of_lt _ _ _ _ _ _ hj]

theorem applyWrites_getElem?_of_ge : ∀ (ws : List (K × K × Option K)) (o : Nat) (P : List K)
    (j : Nat), o + 3 * ws.length ≤ j → (applyWrites ws o P)[j]? = P[j]? := by
  intro ws
  induction ws with
  | nil => intro o P j _; rfl
  | cons w ws ih =>
    intro o P j hj
    simp only [List.length_cons] at hj
    rw [applyWrites, ih _ _ _ (by omega), write3_getElem?_of_ge _ _ _ _ _ _ (by omega)]

/-- The cells of sample `m` after the writes of all samples. -/
theorem applyWrites_getElem? : ∀ (ws : List (K × K × Option K)) (o : Nat) (P : List K)
    (m : Nat) (w : K × K × Option K), ws[m]? = some w → o + 3 * ws.length ≤ P.length →
    (applyWrites ws o P)[o + 3 * m]? = some w.1 ∧
    (applyWrites ws o P)[o + 3 * m + 1]? = some w.2.1 ∧
    (applyWrites ws o P)[o + 3 * m + 2]? =
      (match w.2.2 with | some r => some r | none => P[o + 3 * m + 2]?) := by
  intro ws
  induction ws with
  | nil => intro o P m w h; simp at h
  | cons w0 ws ih =>
    intro o P m w h hP
    simp only [List.length_cons] at hP
    rw [applyWrites]
    cases m with
    | zero =>
      simp only [List.getElem?_cons_zero, Option.some.injEq] at h
      subst h
      simp only [Nat.mul_zero, Nat.add_zero]
      rw [applyWrites_getElem?_of_lt _ _ _ _ (by omega),
        applyWrites_getElem?_of_lt _ _ _ _ (by omega),
        applyWrites_getElem?_of_lt _ _ _ _ (by omega)]
      exact ⟨write3_getElem?_x _ _ _ _ _ (by omega), write3_getElem?_y _ _ _ _ _ (by omega),
        write3_getElem?_angle _ _ _ _ _ (by omega)⟩
    | succ m =>
      rw [List.getElem?_cons_succ] at h
      have := ih (o + 3) (write3 P o w0.1 w0.2.1 w0.2.2) m w h
        (by rw [write3_length]; omega)
      have e : o + 3 * (m + 1) = o + 3 + 3 * m := by omega
      rw [e]
      obtain ⟨h1, h2, h3⟩ := this
      refine ⟨h1, h2, ?_⟩
      rw [h3]
      cases w.2.2 with
      | some r => rfl
      | none =>
        simp only
        rw [write3_getElem?_of_ge _ _ _ _ _ _ (by omega)]

theorem scaleStep_some (M : MathUtil K) (div : K → K → K) (lengths : List K) (scale : Bool)
    (rotateMix : K) (i : Nat) (dx dy : K) (bone : Bone K)
    (hl : scale = true → i < lengths.length) :
    ∃ b, scaleStep M div lengths scale rotateMix i dx dy bone = some b ∧
      b._worldX = bone._worldX ∧ b._worldY = bone._worldY ∧ b._b = bone._b ∧ b._d = bone._d ∧
      b._appliedValid = bone._appliedValid ∧ b.dataLength = bone.dataLength ∧
      (scale = false → b = bone) := by
  unfold scaleStep
  cases scale with
  | false => exact ⟨bone, rfl, rfl, rfl, rfl, rfl, rfl, rfl, fun _ => rfl⟩
  | true =>
    simp only [if_true]
    rw [getElem?_eq_some_getD lengths i (hl rfl)]
    simp only [Option.some_bind, Option.bind_eq_bind]
    split
    · exact ⟨_, rfl, rfl, rfl, rfl, rfl, rfl, rfl, fun h => by cases h⟩
    · exact ⟨_, rfl, rfl, rfl, rfl, rfl, rfl, rfl, fun h => by cases h⟩

/-- The bone loop when nothing rotates: every bone is moved toward the sample of its index by
`translateMix`; `b`, `d` are kept, and so are `a`, `c` outside ChainScale mode. -/
theorem boneLoop_translate_only (M : MathUtil K) (div : K → K → K)
    (positions spaces lengths : List K) (scale tangents tip : Bool)
    (rotateMix translateMix offsetRotation : K) :
    ∀ (bones : List (Bone K)) (i p : Nat) (boneX boneY : K), p = 3 * i + 3 →
      positions[3 * i]? = some boneX → positions[3 * i + 1]? = some boneY →
      3 * (i + bones.length) + 2 ≤ positions.length →
      (scale = true → i + bones.length ≤ lengths.length) →
      ∃ bones', boneLoop M div positions spaces lengths scale false tangents tip rotateMix
          translateMix offsetRotation bones i p boneX boneY = some bones' ∧
        bones'.length = bones.length ∧
        ∀ j bone, bones[j]? = some bone → ∃ bone' X Y, bones'[j]? = some bone' ∧
          positions[3 * (i + j)]? = some X ∧ positions[3 * (i + j) + 1]? = some Y ∧
          bone'._worldX = bone._worldX + (X - bone._worldX) * translateMix ∧
          bone'._worldY = bone._worldY + (Y - bone._worldY) * translateMix ∧
          bone'._b = bone._b ∧ bone'._d = bone._d ∧ bone'._appliedValid = false ∧
          (scale = false → bone'._a = bone._a ∧ bone'._c = bone._c) := by
  intro bones
  induction bones with
  | nil =>
    intro i p boneX boneY _ _ _ _ _
    refine ⟨[], rfl, rfl, ?_⟩
    intro j bone h; simp at h
  | cons bone rest ih =>
    intro i p boneX boneY hp hx hy hlen hl
    simp only [List.length_cons] at hlen hl
    have hxp : positions[p]? = some (positions.getD p 0) :=
      getElem?_eq_some_getD positions p (by omega)
    have hyp : positions[p + 1]? = some (positions.getD (p + 1) 0) :=
      getElem?_eq_some_getD positions (p + 1) (by omega)
    obtain ⟨b, hb, hb1, hb2, hb3, hb4, hb5, hb6, hb7⟩ := scaleStep_some M div lengths scale
      rotateMix i (positions.getD p 0 - boneX) (positions.getD (p + 1) 0 - boneY)
      { bone with _worldX := bone._worldX + (boneX - bone._worldX) * translateMix,
                  _worldY := bone._worldY + (boneY - bone._worldY) * translateMix }
      (fun h => by have := hl h; omega)
    obtain ⟨rest', hrest, hrl, hrw⟩ := ih (i + 1) (p + 3) (positions.getD p 0)
      (positions.getD (p + 1) 0) (by omega)
      (by rw [← hxp]; congr 1; omega) (by rw [← hyp]; congr 1; omega) (by omega)
      (fun h => by have := hl h; omega)
    refine ⟨{ b with _appliedValid := false } :: rest', ?_, by simp [hrl], ?_⟩
    · rw [boneLoop]
      unfold boneStep
      simp only [hxp, hyp, Option.some_bind, Option.bind_eq_bind, hb, Bool.false_eq_true,
        if_false, Option.pure_def, hrest]
    · intro j bone0 hj
      cases j with
      | zero =>
        simp only [List.getElem?_cons_zero, Option.some.injEq] at hj
        subst hj
        refine ⟨{ b with _appliedValid := false }, boneX, boneY, List.getElem?_cons_zero,
          by simpa using hx, by simpa using hy, hb1, hb2, hb3, hb4, rfl, ?_⟩
        intro hs
        rw [hb7 hs]
        exact ⟨rfl, rfl⟩
      | succ j =>
        rw [List.getElem?_cons_succ] at hj
        obtain ⟨bone', X, Y, h1, h2, h3, h4⟩ := hrw j bone0 hj
        refine ⟨bone', X, Y, by rw [List.getElem?_cons_succ]; exact h1, ?_, ?_, h4⟩
        · rw [← h2]; congr 2; omega
        · rw [← h3]; congr 2; omega

theorem fillSpaces_spec (spaces : List K) (spacing : K) :
    (fillSpaces spaces spacing).length = spaces.length ∧
    (fillSpaces spaces spacing)[0]? = spaces[0]? ∧
    ∀ j, j + 1 < spaces.length → (fillSpaces spaces spacing)[j + 1]? = some spacing := by
  cases spaces with
  | nil => exact ⟨rfl, rfl, fun j h => by simp at h⟩
  | cons s0 rest =>
    refine ⟨by simp [fillSpaces], by simp [fillSpaces], ?_⟩
    intro j hj
    simp only [List.length_cons] at hj
    simp only [fillSpaces, List.getElem?_cons_succ, List.getElem?_map]
    rw [List.getElem?_eq_getElem (by omega)]
    rfl

/-- The spacing calculator always returns; `_spaces` has `spacesCount` cells, cell 0 is the
cell the buffer held, and `_lengths` has `boneCount` cells in ChainScale mode. -/
theorem computeSpaces_total (M : MathUtil K) (div : K → K → K) (fresh : Nat → K)
    (pc : PathConstraint K) :
    ∃ sp ln, computeSpaces M div fresh pc = some (sp, ln) ∧
      sp.length = (if pc._data._rotateMode = RotateMode.Tangent then pc._bones.length
        else pc._bones.length + 1) ∧
      sp[0]? = (Vector.setSize fresh pc._spaces (if pc._data._rotateMode = RotateMode.Tangent
        then pc._bones.length else pc._bones.length + 1))[0]? ∧
      (pc._data._rotateMode = RotateMode.ChainScale → ln.length = pc._bones.length) ∧
      (pc._data._rotateMode ≠ RotateMode.ChainScale →
        pc._data._spacingMode ≠ SpacingMode.Length →
        ∀ j, j + 1 < (if pc._data._rotateMode = RotateMode.Tangent then pc._bones.length
          else pc._bones.length + 1) → sp[j + 1]? = some pc._spacing) := by
  by_cases hmode : pc._data._rotateMode = RotateMode.ChainScale ∨
      pc._data._spacingMode = SpacingMode.Length
  · obtain ⟨sp, ln, heq, h1, h2, h3, -, -⟩ := computeSpaces_loop_spec M div fresh pc hmode
    refine ⟨sp, ln, heq, h1, h2, h3, ?_⟩
    intro ha hb
    rcases hmode with h | h
    · exact absurd h ha
    · exact absurd h hb
  · have ha : pc._data._rotateMode ≠ RotateMode.ChainScale := fun h => hmode (Or.inl h)
    have hb : pc._data._spacingMode ≠ SpacingMode.Length := fun h => hmode (Or.inr h)
    obtain ⟨f1, f2, f3⟩ := fillSpaces_spec (Vector.setSize fresh pc._spaces
      (if pc._data._rotateMode = RotateMode.Tangent then pc._bones.length
        else pc._bones.length + 1)) pc._spacing
    refine ⟨_, pc._lengths, ?_, ?_, f2, fun h => absurd h ha, ?_⟩
    · unfold computeSpaces
      simp [ha, hb]
    · rw [f1, Vector.setSize_length]
    · intro _ _ j hj
      exact f3 j (by rw [Vector.setSize_length]; exact hj)

/-- `update` on a constant-speed path when only the translate mix is positive: the call
returns, and bone `j` is moved toward the sample written for index `j` by `translateMix`. -/
theorem update_translate_only (M : MathUtil K) (hsqrt : ∀ x, 0 ≤ M.sqrt x) (fresh : Nat → K)
    (pc : PathConstraint K) (path : PathAttachment K)
    (hA : pc._target.attachment = some (Attachment.path path))
    (hcs : path.constantSpeed = true) (hn : 1 ≤ curveCountOf path)
    (hwrap : path.closed = true → ∀ x, wrap M x (lengthOf M path) ≤ lengthOf M path)
    (htm : 0 < pc._translateMix) (hrm : ¬ 0 < pc._rotateMix)
    (Inv : Nat → Cursor K → Prop) (Good : Nat → K × K × Option K → Prop)
    (H : ∀ sp ln, computeSpaces M (fun x y => x / y) fresh pc = some (sp, ln) →
      (∀ c, Inv 0 ⟨positionIn pc._position
          (decide (pc._data._positionMode = PositionMode.Percent)) (lengthOf M path), 0, 0, NONE,
          0, c, pc._segments, Vector.setSize fresh pc._positions
            ((if pc._data._rotateMode = RotateMode.Tangent then pc._bones.length
              else pc._bones.length + 1) * 3 + 2)⟩) ∧
      (∀ i s w s1 space,
        i < (if pc._data._rotateMode = RotateMode.Tangent then pc._bones.length
          else pc._bones.length + 1) →
        (spacesIn sp (if pc._data._rotateMode = RotateMode.Tangent then pc._bones.length
          else pc._bones.length + 1) (decide (pc._data._spacingMode = SpacingMode.Percent))
          (lengthOf M path))[i]? = some space →
        Inv i s → s.Valid M (worldOf path) (curvesOf M path) →
        StepOutcome M path.closed (decide (pc._data._rotateMode = RotateMode.Tangent))
          (worldOf path) (curvesOf M path) (curveCountOf path) i space s w s1 →
        Inv (i + 1) s1 ∧ Good i w)) :
    ∃ (pc' : PathConstraint K) (ws : List (K × K × Option K)),
      update M fresh pc = some pc' ∧
      ws.length = (if pc._data._rotateMode = RotateMode.Tangent then pc._bones.length
        else pc._bones.length + 1) ∧
      (∀ m w, ws[m]? = some w → Good m w) ∧
      pc'._bones.length = pc._bones.length ∧
      ∀ (j : Nat) (bone : Bone K), pc._bones[j]? = some bone →
        ∃ (bone' : Bone K) (w : K × K × Option K), pc'._bones[j]? = some bone' ∧
        ws[j]? = some w ∧
        bone'._worldX = bone._worldX + (w.1 - bone._worldX) * pc._translateMix ∧
        bone'._worldY = bone._worldY + (w.2.1 - bone._worldY) * pc._translateMix ∧
        bone'._b = bone._b ∧ bone'._d = bone._d ∧ bone'._appliedValid = false ∧
        (pc._data._rotateMode ≠ RotateMode.ChainScale →
          bone'._a = bone._a ∧ bone'._c = bone._c) := by
  set sc := (if pc._data._rotateMode = RotateMode.Tangent then pc._bones.length
    else pc._bones.length + 1) with hsc
  have hbc : pc._bones.length ≤ sc := by rw [hsc]; split <;> omega
  obtain ⟨sp, ln, hsp, hspl, -, hlnl, -⟩ := computeSpaces_total M (fun x y => x / y) fresh pc
  obtain ⟨hinit, hpres⟩ := H sp ln hsp
  obtain ⟨ws, segs, hwl, hgood, hcw⟩ := computeWorldPositions_char M hsqrt fresh
    { pc with _spaces := sp, _lengths := ln } path sc
    (decide (pc._data._rotateMode = RotateMode.Tangent))
    (decide (pc._data._positionMode = PositionMode.Percent))
    (decide (pc._data._spacingMode = SpacingMode.Percent)) hcs hn hwrap (by rw [hspl]) Inv Good
    hinit hpres
  set P := applyWrites ws 0 (Vector.setSize fresh pc._positions (sc * 3 + 2)) with hP
  have hPl : P.length = sc * 3 + 2 := by
    rw [hP, applyWrites_length, Vector.setSize_length]
  set spc := spacesIn sp sc (decide (pc._data._spacingMode = SpacingMode.Percent))
    (lengthOf M path) with hspc
  set pc2 : PathConstraint K := { pc with _spaces := spc, _lengths := ln, _positions := P, _world := worldOf path, _curves := curvesOf M path, _segments := segs } with hpc2
  obtain ⟨bones', hbl, hbl1, hbl2⟩ := boneLoop_translate_only M (fun x y => x / y) P spc ln
    (decide (pc._data._rotateMode = RotateMode.ChainScale))
    (decide (pc._data._rotateMode = RotateMode.Tangent)) (tipAndOffset M pc2).1
    pc._rotateMix pc._translateMix (tipAndOffset M pc2).2
    pc._bones 0 3 (P.getD 0 0) (P.getD 1 0) rfl
    (getElem?_eq_some_getD P 0 (by omega)) (getElem?_eq_some_getD P 1 (by omega))
    (by rw [hPl]; omega)
    (fun h => by
      have := hlnl (by simpa using h)
      omega)
  have hrot : decide (pc._rotateMix > 0) = false := by simpa using hrm
  have hupd := updateWith_eq M (fun x y => x / y) fresh pc pc2 path sp ln P (P.getD 0 0)
    (P.getD 1 0) bones' hA (Or.inl htm) hsp hcw (getElem?_eq_some_getD P 0 (by omega))
    (getElem?_eq_some_getD P 1 (by omega)) (by rw [hrot]; exact hbl)
  refine ⟨_, ws, hupd, hwl, hgood, hbl1, ?_⟩
  intro j bone hj
  obtain ⟨bone', X, Y, h1, h2, h3, h4, h5, h6, h7, h8, h9⟩ := hbl2 j bone hj
  have hjlt : j < pc._bones.length := by
    by_contra hcon
    rw [List.getElem?_eq_none (by omega)] at hj
    cases hj
  have hwj : ws[j]? = some ws[j] := List.getElem?_eq_getElem (by omega)
  obtain ⟨g1, g2, -⟩ := applyWrites_getElem? ws 0 (Vector.setSize fresh pc._positions (sc * 3 + 2))
    j ws[j] hwj (by rw [Vector.setSize_length]; omega)
  simp only [Nat.zero_add] at g1 g2 h2 h3
  rw [← hP] at g1 g2
  rw [g1] at h2
  rw [g2] at h3
  cases h2
  cases h3
  refine ⟨bone', ws[j], h1, hwj, h4, h5, h6, h7, h8, ?_⟩
  intro hns
  exact h9 (by simpa using hns)

theorem search_at_start (table : List K) (p : K) (start : Nat) (v : K)
    (hv : table[start]? = some v) (hp : p ≤ v) : search table p start = some start := by
  obtain ⟨k, hk, hle⟩ := search_exists table p start start v (le_refl _) hv hp
  obtain ⟨h1, -⟩ := search_some table p start k hk
  have : k = start := by omega
  rw [hk, this]

theorem segmentsLoop_getElem?_lt (M : MathUtil K) (dddfx dddfy : K) :
    ∀ (n : Nat) (f : FD K) (acc : List K) (j : Nat), j < acc.length →
      (segmentsLoop M dddfx dddfy n f acc).2[j]? = acc[j]? := by
  intro n
  induction n with
  | zero => intro f acc j _; rfl
  | succ n ih =>
    intro f acc j hj
    rw [segmentsLoop, ih _ _ j (by simp; omega), List.getElem?_append_left hj]

/-- The first entry of the sub-segment table is not negative. -/
theorem segmentLengths_head (M : MathUtil K) (hsqrt : ∀ x, 0 ≤ M.sqrt x) (sixth : K)
    (c : Ctrl K) : ∃ v, (segmentLengths M sixth c).1[0]? = some v ∧ 0 ≤ v := by
  unfold segmentLengths
  dsimp only
  rw [List.getElem?_append_left (by
    rw [(segmentsLoop_spec M hsqrt _ _ 7 _ _).1]; simp)]
  rw [segmentsLoop_getElem?_lt M _ _ 7 _ _ 0 (by simp)]
  exact ⟨_, List.getElem?_cons_zero, hsqrt _⟩

theorem EPSILON_pos : (0 : K) < EPSILON := by
  unfold EPSILON
  positivity

theorem clampP_zero (M : MathUtil K) : clampP M 0 = EPSILON := by
  unfold clampP
  rw [if_pos (Or.inl EPSILON_pos)]

/-- A sample at distance 0 of an open path, taken before any curve was loaded, is the first
curve evaluated at the clamped parameter `EPSILON`. -/
theorem stepOutcome_at_zero (M : MathUtil K) (hsqrt : ∀ x, 0 ≤ M.sqrt x) (world curves : List K)
    (n : Nat) (hn : 1 ≤ n)
    (hcurves : curves = (List.range n).map (fun k => pathLengthUpTo M world (k + 1)))
    (tangents : Bool) (i : Nat) (space : K) (s : Cursor K) (w : K × K × Option K)
    (s1 : Cursor K) (hzero : s.position + space = 0) (hc : s.curve = 0)
    (hp : s.prevCurve = NONE)
    (hout : StepOutcome M false tangents world curves n i space s w s1) :
    w.1 = curvePoint EPSILON (ctrlAt world 0).x1 (ctrlAt world 0).cx1 (ctrlAt world 0).cx2
      (ctrlAt world 0).x2 ∧
    w.2.1 = curvePoint EPSILON (ctrlAt world 0).y1 (ctrlAt world 0).cy1 (ctrlAt world 0).cy2
      (ctrlAt world 0).y2 := by
  have hL := pathLengthUpTo_nonneg M hsqrt world n
  have hc0 : curves[0]? = some (pathLengthUpTo M world 1) := by
    rw [hcurves]
    simp [List.getElem?_map, List.getElem?_range (show 0 < n by omega)]
  rcases hout with ⟨-, hlt, -, -⟩ | ⟨-, -, hgt, -, -⟩ | ⟨p, k, q, j, t, hpe, -, hk, -, hq, -, hj, -,
    ht, hw, -⟩
  · rw [hzero] at hlt; exact absurd hlt (lt_irrefl _)
  · rw [hzero] at hgt; exact absurd hgt (not_lt.mpr hL)
  · simp only [Bool.false_eq_true, if_false] at hpe hk
    rw [hzero] at hpe
    subst hpe
    rw [hc, search_at_start curves 0 0 _ hc0 (pathLengthUpTo_nonneg M hsqrt world 1)] at hk
    cases hk
    have hq0 : q = 0 := by
      unfold curveParam at hq
      rw [hc0] at hq
      simp only [Option.some_bind, Option.bind_eq_bind, if_true, Option.pure_def,
        Option.some.injEq] at hq
      rw [← hq, zero_div]
    subst hq0
    obtain ⟨v, hv, hv0⟩ := segmentLengths_head M hsqrt SIXTH (ctrlAt world 0)
    have hne : ((0 : Nat) : Int) ≠ s.prevCurve := by
      rw [hp]; unfold NONE; omega
    rw [if_pos hne, zero_mul, search_at_start (segmentsOf M world 0).1 0 0 v hv hv0] at hj
    cases hj
    have ht0 : t = 0 := by
      unfold segmentParam at ht
      rw [zero_mul] at ht
      have hv' : (segmentsOf M world 0).1[0]? = some v := hv
      rw [hv'] at ht
      simp only [Option.some_bind, Option.bind_eq_bind, if_true, Option.pure_def,
        Option.some.injEq] at ht
      rw [← ht, zero_div]
    subst ht0
    rw [hw]
    simp only [curveTriple, zero_mul, clampP_zero, and_self]

theorem spacesIn_getElem? (spaces : List K) (sc : Nat) (ps : Bool) (L : K) (i : Nat) (v : K)
    (hi : i < sc) (hv : spaces[i]? = some v) :
    (spacesIn spaces sc ps L)[i]? = some (if ps then v * L else v) := by
  have hil : i < spaces.length := by
    by_contra hcon
    rw [List.getElem?_eq_none (by omega)] at hv
    cases hv
  unfold spacesIn
  cases ps with
  | false => simpa using hv
  | true =>
    simp only [if_true]
    rw [List.getElem?_append_left (by simp; omega)]
    simp [List.getElem?_map, List.getElem?_take, hi, hv]

theorem worldOf_open_getD (path : PathAttachment K) (hopen : path.closed = false) (j : Nat)
    (hj : j + 4 < path.worldVerticesLength) :
    (worldOf path).getD j 0 = path.vertices (2 + j) := by
  unfold worldOf
  rw [hopen]
  simp only [Bool.false_eq_true, if_false]
  rw [List.getD_eq_getElem?_getD, List.getElem?_map, List.getElem?_range (by omega)]
  rfl

/-- `update` on an open constant-speed path with `position = 0`, `translateMix = 1`,
`rotateMix = 0` and a spacing buffer whose cell 0 holds 0: the call returns and the first bone
lands on the first curve at the clamped parameter `EPSILON`. -/
theorem update_first_bone (M : MathUtil K) (hsqrt : ∀ x, 0 ≤ M.sqrt x) (fresh : Nat → K)
    (pc : PathConstraint K) (path : PathAttachment K)
    (hA : pc._target.attachment = some (Attachment.path path))
    (hcs : path.constantSpeed = true) (hopen : path.closed = false)
    (hn : 1 ≤ curveCountOf path) (htm : pc._translateMix = 1) (hrm : pc._rotateMix = 0)
    (hpos : pc._position = 0) (h0 : (pc._spaces[0]?).getD (fresh 0) = 0)
    (bone : Bone K) (hb : pc._bones[0]? = some bone) :
    ∃ (pc' : PathConstraint K) (bone' : Bone K), update M fresh pc = some pc' ∧
      pc'._bones[0]? = some bone' ∧
      bone'._worldX = curvePoint EPSILON (path.vertices 2) (path.vertices 4) (path.vertices 6)
        (path.vertices 8) ∧
      bone'._worldY = curvePoint EPSILON (path.vertices 3) (path.vertices 5) (path.vertices 7)
        (path.vertices 9) ∧
      pc'._bones.length = pc._bones.length := by
  have hbl : 0 < pc._bones.length := by
    by_contra hcon
    rw [List.getElem?_eq_none (by omega)] at hb
    cases hb
  have hvl : 12 ≤ path.worldVerticesLength := by
    unfold curveCountOf at hn
    rw [hopen] at hn
    simp only [Bool.false_eq_true, if_false] at hn
    omega
  obtain ⟨pc', ws, hupd, hwl, hgood, hlen', hbones⟩ := update_translate_only M hsqrt fresh pc path hA
    hcs hn (fun h => by rw [hopen] at h; cases h) (by rw [htm]; exact zero_lt_one)
    (by rw [hrm]; exact lt_irrefl _)
    (fun i s => i = 0 → s.position = 0 ∧ s.curve = 0 ∧ s.prevCurve = NONE)
    (fun m w => m = 0 →
      w.1 = curvePoint EPSILON (ctrlAt (worldOf path) 0).x1 (ctrlAt (worldOf path) 0).cx1
        (ctrlAt (worldOf path) 0).cx2 (ctrlAt (worldOf path) 0).x2 ∧
      w.2.1 = curvePoint EPSILON (ctrlAt (worldOf path) 0).y1 (ctrlAt (worldOf path) 0).cy1
        (ctrlAt (worldOf path) 0).cy2 (ctrlAt (worldOf path) 0).y2)
    (by
      intro sp ln hsp
      obtain ⟨sp', ln', hsp', hspl, hsp0, -, -⟩ := computeSpaces_total M (fun x y => x / y) fresh pc
      rw [hsp] at hsp'
      cases hsp'
      constructor
      · intro c _
        refine ⟨?_, rfl, rfl⟩
        show positionIn pc._position _ _ = 0
        rw [hpos]
        unfold positionIn
        split
        · exact zero_mul _
        · rfl
      · intro i s w s1 space hi hspace hinv _ hout
        constructor
        · intro h; omega
        · intro hi0
          subst hi0
          obtain ⟨h1, h2, h3⟩ := hinv rfl
          have hsp00 : sp[0]? = some 0 := by
            rw [hsp0, Vector.setSize_getElem? _ _ _ _ hi, h0]
          rw [spacesIn_getElem? sp _ _ _ 0 0 hi hsp00] at hspace
          have hs0 : space = 0 := by
            simp only [Option.some.injEq] at hspace
            rw [← hspace]
            split
            · exact zero_mul _
            · rfl
          rw [hopen] at hout
          exact stepOutcome_at_zero M hsqrt (worldOf path) (curvesOf M path) (curveCountOf path)
            hn rfl _ 0 space s w s1 (by rw [h1, hs0, add_zero]) h2 h3 hout)
  obtain ⟨bone', w, hb', hw, hx, hy, -⟩ := hbones 0 bone hb
  obtain ⟨g1, g2⟩ := hgood 0 w hw rfl
  refine ⟨pc', bone', hupd, hb', ?_, ?_, hlen'⟩
  · rw [hx, htm, g1]
    simp only [ctrlAt, Nat.zero_mul, Nat.zero_add]
    rw [worldOf_open_getD path hopen 0 (by omega), worldOf_open_getD path hopen 2 (by omega),
      worldOf_open_getD path hopen 4 (by omega), worldOf_open_getD path hopen 6 (by omega)]
    ring
  · rw [hy, htm, g2]
    simp only [ctrlAt, Nat.zero_mul, Nat.zero_add]
    rw [worldOf_open_getD path hopen 1 (by omega), worldOf_open_getD path hopen 3 (by omega),
      worldOf_open_getD path hopen 5 (by omega), worldOf_open_getD path hopen 7 (by omega)]
    ring

end Lemmas

section Lemmas
variable {K : Type} [LinearOrderedField K]

/-- A cubic whose control points are evenly spaced between its endpoints is traversed
linearly. -/
theorem curvePoint_even (p a d : K) :
    curvePoint p a (a + d / 3) (a + 2 * d / 3) (a + d) = a + p * d := by
  unfold curvePoint
  field_simp
  ring

/-- With vanishing second and third differences the four chords of `addCurveLength` are
equal. -/
theorem addCurveLength_even (M : MathUtil K) (sixth pl : K) (c : Ctrl K)
    (hx2 : c.x1 - c.cx1 * 2 + c.cx2 = 0) (hy2 : c.y1 - c.cy1 * 2 + c.cy2 = 0)
    (hx3 : (c.cx1 - c.cx2) * 3 - c.x1 + c.x2 = 0) (hy3 : (c.cy1 - c.cy2) * 3 - c.y1 + c.y2 = 0) :
    addCurveLength M sixth pl c = pl +
      M.sqrt ((c.cx1 - c.x1) * (75 / 100) * ((c.cx1 - c.x1) * (75 / 100)) +
        (c.cy1 - c.y1) * (75 / 100) * ((c.cy1 - c.y1) * (75 / 100))) * 4 := by
  unfold addCurveLength
  simp only [hx2, hy2, hx3, hy3, zero_mul, mul_zero, add_zero, zero_add]
  ring

theorem segmentLengths_even (M : MathUtil K) (sixth : K) (c : Ctrl K)
    (hx2 : c.x1 - c.cx1 * 2 + c.cx2 = 0) (hy2 : c.y1 - c.cy1 * 2 + c.cy2 = 0)
    (hx3 : (c.cx1 - c.cx2) * 3 - c.x1 + c.x2 = 0) (hy3 : (c.cy1 - c.cy2) * 3 - c.y1 + c.y2 = 0)
    (h : K) (hh : h = M.sqrt ((c.cx1 - c.x1) * (3 / 10) * ((c.cx1 - c.x1) * (3 / 10)) +
        (c.cy1 - c.y1) * (3 / 10) * ((c.cy1 - c.y1) * (3 / 10)))) :
    segmentLengths M sixth c = ((List.range 10).map (fun (j : Nat) => ((j : K) + 1) * h), 10 * h) := by
  unfold segmentLengths
  simp only [hx2, hy2, hx3, hy3, zero_mul, mul_zero, add_zero, zero_add, segmentsLoop, ← hh]
  simp only [List.range_succ, List.range_zero, List.nil_append, List.map_cons, List.map_nil,
    List.cons_append, Prod.mk.injEq, List.cons.injEq, and_true]
  norm_num
  refine ⟨⟨?_, ?_, ?_, ?_, ?_, ?_, ?_, ?_, ?_⟩, ?_⟩ <;> ring

end Lemmas

section Straight

variable {K : Type} [LinearOrderedField K]

theorem StraightPath.ctrlAt_eq {path : PathAttachment K} {n : Nat} {x0 y0 ux uy : K}
    {e : Nat → K} (hS : StraightPath path n x0 y0 ux uy e) (k : Nat) (hk : k < n) :
    ctrlAt (worldOf path) k = ⟨x0 + e k * ux, y0 + e k * uy,
      x0 + e k * ux + (e (k + 1) - e k) * ux / 3, y0 + e k * uy + (e (k + 1) - e k) * uy / 3,
      x0 + e k * ux + 2 * ((e (k + 1) - e k) * ux) / 3,
      y0 + e k * uy + 2 * ((e (k + 1) - e k) * uy) / 3,
      x0 + e k * ux + (e (k + 1) - e k) * ux, y0 + e k * uy + (e (k + 1) - e k) * uy⟩ := by
  have hvl := hS.size
  have e2 := hS.endX k (by omega)
  have e3 := hS.endY k (by omega)
  have e8 := hS.endX (k + 1) (by omega)
  have e9 := hS.endY (k + 1) (by omega)
  rw [show 6 * (k + 1) + 2 = 6 * k + 8 by ring] at e8
  rw [show 6 * (k + 1) + 3 = 6 * k + 9 by ring] at e9
  have e4 := hS.firstX k hk
  have e5 := hS.firstY k hk
  have e6 := hS.secondX k hk
  have e7 := hS.secondY k hk
  rw [e2, e8] at e4 e6
  rw [e3, e9] at e5 e7
  unfold ctrlAt
  rw [worldOf_open_getD path hS.isOpen _ (by omega), worldOf_open_getD path hS.isOpen _ (by omega),
    worldOf_open_getD path hS.isOpen _ (by omega), worldOf_open_getD path hS.isOpen _ (by omega),
    worldOf_open_getD path hS.isOpen _ (by omega), worldOf_open_getD path hS.isOpen _ (by omega),
    worldOf_open_getD path hS.isOpen _ (by omega), worldOf_open_getD path hS.isOpen _ (by omega)]
  rw [show 2 + k * 6 = 6 * k + 2 by ring, show 2 + (k * 6 + 1) = 6 * k + 3 by ring,
    show 2 + (k * 6 + 2) = 6 * k + 4 by ring, show 2 + (k * 6 + 3) = 6 * k + 5 by ring,
    show 2 + (k * 6 + 4) = 6 * k + 6 by ring, show 2 + (k * 6 + 5) = 6 * k + 7 by ring,
    show 2 + (k * 6 + 6) = 6 * k + 8 by ring, show 2 + (k * 6 + 7) = 6 * k + 9 by ring]
  rw [e2, e3, e4, e5, e6, e7, e8, e9]
  congr 1 <;> ring

theorem segmentParam_even (h x : K) (hh : h ≠ 0) (j : Nat) (hj : j ≤ 9) :
    segmentParam ((List.range 10).map (fun (j : Nat) => ((j : K) + 1) * h)) x j = some (x / h) := by
  unfold segmentParam
  rw [List.getElem?_map, List.getElem?_range (by omega)]
  cases j with
  | zero =>
    simp only [Option.map_some', Option.bind_eq_bind, Option.some_bind, if_true, Nat.cast_zero,
      zero_add, one_mul]
    rfl
  | succ m =>
    simp only [Option.map_some', Option.bind_eq_bind, Option.some_bind, Nat.succ_ne_zero,
      if_false, Nat.add_sub_cancel]
    rw [List.getElem?_map, List.getElem?_range (by omega)]
    simp only [Option.map_some', Option.some_bind]
    show some _ = some _
    congr 1
    push_cast
    rw [show ((m : K) + 1 + 1) * h - ((m : K) + 1) * h = h by ring]
    field_simp

theorem curveParam_of_table (table : List K) (p : K) (k : Nat) (a b q : K)
    (hb : table[k]? = some b) (ha : k = 0 → a = 0)
    (ha1 : ∀ m, k = m + 1 → table[m]? = some a)
    (hq : curveParam table p k = some q) : q = (p - a) / (b - a) := by
  unfold curveParam at hq
  rw [hb] at hq
  cases k with
  | zero =>
    simp only [Option.bind_eq_bind, Option.some_bind, if_true] at hq
    cases hq
    rw [ha rfl, sub_zero, sub_zero]
  | succ m =>
    simp only [Option.bind_eq_bind, Option.some_bind, Nat.succ_ne_zero, if_false,
      Nat.add_sub_cancel] at hq
    rw [ha1 m rfl] at hq
    simp only [Option.some_bind] at hq
    cases hq
    rfl

end Straight

section StraightReal

theorem sqrt_scaled_unit (l c ux uy x y : ℝ) (hl : 0 ≤ l) (hc : 0 ≤ c)
    (hu : ux * ux + uy * uy = 1) (hx : x = l * c * ux) (hy : y = l * c * uy) :
    Real.sqrt (x * x + y * y) = l * c := by
  have : x * x + y * y = (l * c) ^ 2 := by
    rw [hx, hy]
    linear_combination (l * c) ^ 2 * hu
  rw [this, Real.sqrt_sq (mul_nonneg hl hc)]

theorem StraightPath.pathLengthUpTo_eq (M : MathUtil ℝ) (hsq : M.sqrt = Real.sqrt)
    {path : PathAttachment ℝ} {n : Nat} {x0 y0 ux uy : ℝ}
    {e : Nat → ℝ} (hS : StraightPath path n x0 y0 ux uy e) :
    ∀ k, k ≤ n → pathLengthUpTo M (worldOf path) k = e k := by
  intro k
  induction k with
  | zero => intro _; rw [hS.origin]; rfl
  | succ k ih =>
    intro hk
    rw [pathLengthUpTo, ih (by omega), hS.ctrlAt_eq k (by omega),
      addCurveLength_even M _ _ _ (by simp only; ring) (by simp only; ring) (by simp only; ring)
        (by simp only; ring)]
    simp only [hsq]
    rw [sqrt_scaled_unit (e (k + 1) - e k) (1 / 4) ux uy _ _
      (sub_nonneg.mpr (hS.ordered k (by omega))) (by norm_num) hS.direction (by ring) (by ring)]
    ring

theorem StraightPath.segmentsOf_eq (M : MathUtil ℝ) (hsq : M.sqrt = Real.sqrt)
    {path : PathAttachment ℝ} {n : Nat} {x0 y0 ux uy : ℝ}
    {e : Nat → ℝ} (hS : StraightPath path n x0 y0 ux uy e) (k : Nat) (hk : k < n) :
    segmentsOf M (worldOf path) k =
      ((List.range 10).map (fun (j : Nat) => ((j : ℝ) + 1) * ((e (k + 1) - e k) * (1 / 10))),
        10 * ((e (k + 1) - e k) * (1 / 10))) := by
  unfold segmentsOf
  rw [hS.ctrlAt_eq k hk]
  apply segmentLengths_even M _ _ (by simp only; ring) (by simp only; ring) (by simp only; ring)
        (by simp only; ring)
  simp only [hsq]
  rw [sqrt_scaled_unit (e (k + 1) - e k) (1 / 10) ux uy _ _
      (sub_nonneg.mpr (hS.ordered k (by omega))) (by norm_num) hS.direction (by ring) (by ring)]

theorem StraightPath.curveCountOf_eq {K : Type} [LinearOrderedField K]
    {path : PathAttachment K} {n : Nat} {x0 y0 ux uy : K} {e : Nat → K}
    (hS : StraightPath path n x0 y0 ux uy e) : curveCountOf path = n := by
  unfold curveCountOf
  rw [hS.isOpen, hS.size]
  simp only [Bool.false_eq_true, if_false]
  omega

theorem StraightPath.curvesOf_getElem? (M : MathUtil ℝ) (hsq : M.sqrt = Real.sqrt)
    {path : PathAttachment ℝ} {n : Nat} {x0 y0 ux uy : ℝ}
    {e : Nat → ℝ} (hS : StraightPath path n x0 y0 ux uy e) (k : Nat) (hk : k < n) :
    (curvesOf M path)[k]? = some (e (k + 1)) := by
  unfold curvesOf
  rw [hS.curveCountOf_eq, List.getElem?_map, List.getElem?_range hk]
  simp only [Option.map_some']
  rw [hS.pathLengthUpTo_eq M hsq (k + 1) (by omega)]

/-- One iteration of the sampling loop on a straight path: the cursor keeps the first curve
whose cumulative length reaches the distance, and an in-range distance whose curve parameter
is not clamped is sampled on the line. -/
theorem StraightPath.step (M : MathUtil ℝ) (hM : M.Exact)
    {path : PathAttachment ℝ} {n : Nat} {x0 y0 ux uy : ℝ}
    {e : Nat → ℝ} (hS : StraightPath path n x0 y0 ux uy e)
    (tangents : Bool) (i : Nat) (space : ℝ) (s : Cursor ℝ) (w : ℝ × ℝ × Option ℝ)
    (s1 : Cursor ℝ)
    (hlow : s.curve = 0 ∨ ∃ v, (curvesOf M path)[s.curve - 1]? = some v ∧
      v < s.position + space)
    (hout : StepOutcome M false tangents (worldOf path) (curvesOf M path) n i space s w s1) :
    s1.position = s.position + space ∧
    (s1.curve = 0 ∨ ∃ v, (curvesOf M path)[s1.curve - 1]? = some v ∧ v < s.position + space) ∧
    (0 ≤ s.position + space → s.position + space ≤ e n →
      (∀ k, k < n → s.position + space ≤ e (k + 1) → (k = 0 ∨ e k < s.position + space) →
        EPSILON * (e (k + 1) - e k) ≤ s.position + space - e k) →
      w.1 = x0 + (s.position + space) * ux ∧ w.2.1 = y0 + (s.position + space) * uy) := by
  have hsq := hM.sqrt_eq
  rcases hout with ⟨-, hlt, -, hs1⟩ | ⟨-, -, hgt, -, hs1⟩ | ⟨p, k, q, j, t, hp, -, hsearch, hkn, hq,
    -, hj, hj9, ht, hw, hs1⟩
  · rw [hs1]
    exact ⟨rfl, hlow, fun h0 => absurd hlt (not_lt.mpr h0)⟩
  · rw [hs1]
    rw [hS.pathLengthUpTo_eq M hsq n (le_refl _)] at hgt
    exact ⟨rfl, hlow, fun _ h1 => absurd hgt (not_lt.mpr h1)⟩
  · simp only [Bool.false_eq_true, if_false] at hp hsearch
    subst hp
    obtain ⟨hsk, -, ⟨v, hv, hpv⟩, hbelow⟩ := search_some _ _ _ _ hsearch
    rw [hS.curvesOf_getElem? M hsq k hkn] at hv
    cases hv
    have hlow1 : k = 0 ∨ ∃ v, (curvesOf M path)[k - 1]? = some v ∧ v < s.position + space := by
      rcases Nat.eq_or_lt_of_le hsk with h | h
      · rw [← h]; exact hlow
      · right
        exact hbelow (k - 1) (by omega) (by omega)
    rw [hs1]
    refine ⟨rfl, hlow1, ?_⟩
    intro h0 _ hres
    have hek : k = 0 ∨ e k < s.position + space := by
      rcases hlow1 with h | ⟨v, hv, hvp⟩
      · exact Or.inl h
      · right
        have hk1 : k - 1 < n := by omega
        rw [hS.curvesOf_getElem? M hsq (k - 1) hk1] at hv
        cases hv
        by_cases hk0 : k = 0
        · subst hk0
          rw [hS.origin]
          rcases lt_or_eq_of_le h0 with h | h
          · exact h
          · exfalso
            simp only [Nat.zero_sub, Nat.zero_add] at hvp
            have := hS.ordered 0 hkn
            rw [hS.origin] at this
            simp only [Nat.zero_add] at this
            linarith
        · rw [show k - 1 + 1 = k by omega] at hvp
          exact hvp
    have hek0 : e k ≤ s.position + space := by
      rcases hek with h | h
      · rw [h, hS.origin]; exact h0
      · exact le_of_lt h
    have hre := hres k hkn hpv hek
    have hl := hS.ordered k hkn
    have hqe : q = (s.position + space - e k) / (e (k + 1) - e k) := by
      refine curveParam_of_table _ _ k (e k) (e (k + 1)) q (hS.curvesOf_getElem? M hsq k hkn)
        (fun h => by rw [h, hS.origin]) (fun m hm => ?_) hq
      rw [hS.curvesOf_getElem? M hsq m (by omega), hm]
    have hkey : clampP M (t * (1 / 10)) * (e (k + 1) - e k) = s.position + space - e k := by
      rcases eq_or_lt_of_le hl with h | h
      · rw [← h, sub_self, mul_zero]
        linarith
      · have hpos : 0 < e (k + 1) - e k := sub_pos.mpr h
        rw [hS.segmentsOf_eq M hsq k hkn] at ht
        simp only at ht
        rw [segmentParam_even _ _ (by positivity) j hj9] at ht
        cases ht
        have ht1 : q * (10 * ((e (k + 1) - e k) * (1 / 10))) / ((e (k + 1) - e k) * (1 / 10)) *
            (1 / 10) = q := by
          field_simp
          ring
        rw [ht1]
        have hqE : EPSILON ≤ q := by
          rw [hqe, le_div_iff₀ hpos]
          exact hre
        unfold clampP
        rw [hM.isnan_eq, if_neg (by simp [not_lt.mpr hqE])]
        rw [hqe]
        field_simp
    rw [hw, hS.ctrlAt_eq k hkn]
    unfold curveTriple
    simp only
    rw [curvePoint_even, curvePoint_even]
    constructor
    · linear_combination ux * hkey
    · linear_combination uy * hkey

end StraightReal

/-- The sampling loop on a straight path with spacing entries that are not negative from
index 1 on: sample `i` is taken at distance `pos` plus the sum of the entries `0 .. i`, and an
in-range distance whose curve parameter is not clamped is sampled on the line. -/
theorem StraightPath.samples (M : MathUtil ℝ) (hM : M.Exact)
    {path : PathAttachment ℝ} {n : Nat} {x0 y0 ux uy : ℝ}
    {e : Nat → ℝ} (hS : StraightPath path n x0 y0 ux uy e)
    (tangents : Bool) (pos : ℝ) (spaces : List ℝ)
    (hnn : ∀ i v, spaces[i + 1]? = some v → 0 ≤ v)
    (i : Nat) (space : ℝ) (s : Cursor ℝ) (w : ℝ × ℝ × Option ℝ) (s1 : Cursor ℝ)
    (hspace : spaces[i]? = some space)
    (hinv : s.position = pos + (spaces.take i).sum ∧ (i = 0 → s.curve = 0) ∧
      (s.curve = 0 ∨ ∃ v, (curvesOf M path)[s.curve - 1]? = some v ∧ v < s.position))
    (hout : StepOutcome M false tangents (worldOf path) (curvesOf M path) n i space s w s1) :
    (s1.position = pos + (spaces.take (i + 1)).sum ∧ (i + 1 = 0 → s1.curve = 0) ∧
      (s1.curve = 0 ∨ ∃ v, (curvesOf M path)[s1.curve - 1]? = some v ∧ v < s1.position)) ∧
    (0 ≤ pos + (spaces.take (i + 1)).sum → pos + (spaces.take (i + 1)).sum ≤ e n →
      (∀ k, k < n → pos + (spaces.take (i + 1)).sum ≤ e (k + 1) →
        (k = 0 ∨ e k < pos + (spaces.take (i + 1)).sum) →
        EPSILON * (e (k + 1) - e k) ≤ pos + (spaces.take (i + 1)).sum - e k) →
      w.1 = x0 + (pos + (spaces.take (i + 1)).sum) * ux ∧
      w.2.1 = y0 + (pos + (spaces.take (i + 1)).sum) * uy) := by
  obtain ⟨h1, h2, h3⟩ := hinv
  have hil : i < spaces.length := by
    by_contra hcon
    rw [List.getElem?_eq_none (by omega)] at hspace
    cases hspace
  have hsum : pos + (spaces.take (i + 1)).sum = s.position + space := by
    rw [List.sum_take_succ spaces i hil, h1]
    rw [List.getElem?_eq_getElem hil] at hspace
    cases hspace
    ring
  have hlow : s.curve = 0 ∨ ∃ v, (curvesOf M path)[s.curve - 1]? = some v ∧
      v < s.position + space := by
    rcases h3 with h | ⟨v, hv, hvp⟩
    · exact Or.inl h
    · cases i with
      | zero => exact Or.inl (h2 rfl)
      | succ m =>
        have := hnn m space hspace
        exact Or.inr ⟨v, hv, by linarith⟩
  obtain ⟨g1, g2, g3⟩ := hS.step M hM tangents i space s w s1 hlow hout
  rw [hsum]
  refine ⟨⟨g1, fun h => by omega, ?_⟩, g3⟩
  rw [g1]
  exact g2


/-- `update` on a straight path with Fixed position and spacing modes, spacing `s ≥ 0`,
rotate mode Tangent or Chain, `translateMix = 1` and `rotateMix = 0`, where `r` is the content
of cell 0 of the spacing buffer: the call returns, and bone `i` lands on the line at distance
`r + position + i * s` from the start whenever that distance lies in `[0, pathLength]` and the
curve parameter it resolves to is at least `EPSILON`. -/
theorem straight_path_bones (M : MathUtil ℝ) (hM : M.Exact) (fresh : Nat → ℝ)
    (pc : PathConstraint ℝ) (path : PathAttachment ℝ) (n : Nat) (x0 y0 ux uy : ℝ)
    (e : Nat → ℝ) (hS : StraightPath path n x0 y0 ux uy e) (hn : 1 ≤ n)
    (hA : pc._target.attachment = some (Attachment.path path))
    (hpm : pc._data._positionMode = PositionMode.Fixed)
    (hsm : pc._data._spacingMode = SpacingMode.Fixed)
    (hrot : pc._data._rotateMode = RotateMode.Tangent ∨ pc._data._rotateMode = RotateMode.Chain)
    (hs : 0 ≤ pc._spacing) (htm : pc._translateMix = 1) (hrm : pc._rotateMix = 0)
    (r : ℝ) (hr : (pc._spaces[0]?).getD (fresh 0) = r) :
    ∃ pc' : PathConstraint ℝ, update M fresh pc = some pc' ∧
      pc'._bones.length = pc._bones.length ∧
      ∀ (i : Nat) (bone : Bone ℝ), pc._bones[i]? = some bone →
        0 ≤ r + pc._position + i * pc._spacing → r + pc._position + i * pc._spacing ≤ e n →
        (∀ k, k < n → r + pc._position + i * pc._spacing ≤ e (k + 1) →
          (k = 0 ∨ e k < r + pc._position + i * pc._spacing) →
          EPSILON * (e (k + 1) - e k) ≤ r + pc._position + i * pc._spacing - e k) →
        ∃ bone' : Bone ℝ, pc'._bones[i]? = some bone' ∧
          bone'._worldX = x0 + (r + pc._position + i * pc._spacing) * ux ∧
          bone'._worldY = y0 + (r + pc._position + i * pc._spacing) * uy := by
  have hsq := hM.sqrt_eq
  have hsqrt : ∀ x, 0 ≤ M.sqrt x := fun x => by rw [hsq]; exact Real.sqrt_nonneg x
  have hnc : pc._data._rotateMode ≠ RotateMode.ChainScale := by
    rcases hrot with h | h <;> rw [h] <;> decide
  have hnl : pc._data._spacingMode ≠ SpacingMode.Length := by rw [hsm]; decide
  have hps : decide (pc._data._spacingMode = SpacingMode.Percent) = false := by
    rw [hsm]; decide
  have hpp : decide (pc._data._positionMode = PositionMode.Percent) = false := by
    rw [hpm]; decide
  obtain ⟨pc', ws, hupd, -, hgood, hlen, hbones⟩ := update_translate_only M hsqrt fresh pc path hA
    hS.isConstantSpeed (by rw [hS.curveCountOf_eq]; exact hn)
    (fun h => by rw [hS.isOpen] at h; cases h) (by rw [htm]; exact zero_lt_one)
    (by rw [hrm]; exact lt_irrefl _)
    (fun i s => (i = 0 → s.position = pc._position ∧ s.curve = 0) ∧
      ∀ m : Nat, i = m + 1 → s.position = r + pc._position + m * pc._spacing ∧
        (s.curve = 0 ∨ ∃ v, (curvesOf M path)[s.curve - 1]? = some v ∧
          v < r + pc._position + m * pc._spacing))
    (fun i w => 0 ≤ r + pc._position + i * pc._spacing →
      r + pc._position + i * pc._spacing ≤ e n →
      (∀ k, k < n → r + pc._position + i * pc._spacing ≤ e (k + 1) →
        (k = 0 ∨ e k < r + pc._position + i * pc._spacing) →
        EPSILON * (e (k + 1) - e k) ≤ r + pc._position + i * pc._spacing - e k) →
      w.1 = x0 + (r + pc._position + i * pc._spacing) * ux ∧
      w.2.1 = y0 + (r + pc._position + i * pc._spacing) * uy)
    (by
      intro sp ln hsp
      obtain ⟨sp', ln', hsp', -, hsp0, -, hspj⟩ := computeSpaces_total M (fun x y => x / y) fresh pc
      rw [hsp] at hsp'
      cases hsp'
      constructor
      · intro c
        refine ⟨fun _ => ⟨?_, rfl⟩, fun m hm => by omega⟩
        show positionIn pc._position _ _ = pc._position
        rw [hpp]
        rfl
      · intro i s w s1 space hi hspace hinv _ hout
        rw [hps] at hspace
        have hspace' : sp[i]? = some space := hspace
        rw [hS.isOpen, hS.curveCountOf_eq] at hout
        have hpe : s.position + space = r + pc._position + i * pc._spacing := by
          cases i with
          | zero =>
            rw [hsp0, Vector.setSize_getElem? _ _ _ _ hi, hr] at hspace'
            cases hspace'
            rw [(hinv.1 rfl).1]
            push_cast
            ring
          | succ m =>
            rw [hspj hnc hnl m hi] at hspace'
            cases hspace'
            rw [(hinv.2 m rfl).1]
            push_cast
            ring
        have hlow : s.curve = 0 ∨ ∃ v, (curvesOf M path)[s.curve - 1]? = some v ∧
            v < s.position + space := by
          cases i with
          | zero => exact Or.inl (hinv.1 rfl).2
          | succ m =>
            rcases (hinv.2 m rfl).2 with h | ⟨v, hv, hvp⟩
            · exact Or.inl h
            · refine Or.inr ⟨v, hv, ?_⟩
              rw [hpe]
              push_cast
              linarith
        obtain ⟨g1, g2, g3⟩ := hS.step M hM _ i space s w s1 hlow hout
        rw [hpe] at g1 g2 g3
        refine ⟨⟨fun h => by omega, fun m hm => ?_⟩, g3⟩
        have : i = m := by omega
        subst this
        exact ⟨g1, g2⟩)
  refine ⟨pc', hupd, hlen, ?_⟩
  intro i bone hb h0 h1 hres
  obtain ⟨bone', w, hb', hw, hx, hy, -⟩ := hbones i bone hb
  obtain ⟨g1, g2⟩ := hgood i w hw h0 h1 hres
  refine ⟨bone', hb', ?_, ?_⟩
  · rw [hx, htm, g1]; ring
  · rw [hy, htm, g2]; ring


theorem straightPath_isStraight :
    StraightPath (straightPath ℝ) 3 0 0 1 0 (fun k => 30 * (k : ℝ)) := by
  refine ⟨rfl, rfl, rfl, by norm_num, by norm_num, ?_, ?_, ?_, ?_, ?_, ?_, ?_⟩
  · intro k _
    push_cast
    linarith
  all_goals
    intro k hk
    interval_cases k <;> simp [straightPath] <;> norm_num

theorem straight_residual_resolved (d : ℝ) (h57 : 31 ≤ d) (h60 : d ≤ 60) :
    ∀ k, k < 3 → d ≤ (fun k : Nat => 30 * (k : ℝ)) (k + 1) →
      (k = 0 ∨ (fun k : Nat => 30 * (k : ℝ)) k < d) →
      (EPSILON : ℝ) * ((fun k : Nat => 30 * (k : ℝ)) (k + 1) - (fun k : Nat => 30 * (k : ℝ)) k)
        ≤ d - (fun k : Nat => 30 * (k : ℝ)) k := by
  intro k hk
  interval_cases k
  · intro h; norm_num at h; linarith
  · intro _ _
    simp only [EPSILON]
    norm_num
    linarith
  · intro _ h
    norm_num at h
    linarith


section Lemmas
variable {K : Type} [LinearOrderedField K]

/-- The bone loop, from an invariant `Inv` of the running point and a property `Good` of each
processed bone that every call of `boneStep` establishes. -/
theorem boneLoop_char (M : MathUtil K) (div : K → K → K) (P spaces lengths : List K)
    (scale rotate tangents tip : Bool) (rm tm off : K)
    (Inv : Nat → K → K → Prop) (Good : Nat → Bone K → Bone K → Prop) :
    ∀ (bones : List (Bone K)) (i p : Nat) (bx bY : K), p = 3 * (i + 1) → Inv i bx bY →
      (∀ (j : Nat) (bone : Bone K) (x y : K), bones[j]? = some bone → Inv (i + j) x y →
        ∃ (bone' : Bone K) (X Y : K),
          boneStep M div P spaces lengths scale rotate tangents tip rm tm off (i + j)
            (3 * (i + j + 1)) bone x y = some (bone', X, Y) ∧
          Inv (i + j + 1) X Y ∧ Good (i + j) bone bone') →
      ∃ bones', boneLoop M div P spaces lengths scale rotate tangents tip rm tm off bones i p
          bx bY = some bones' ∧ bones'.length = bones.length ∧
        ∀ (j : Nat) (bone : Bone K), bones[j]? = some bone →
          ∃ bone' : Bone K, bones'[j]? = some bone' ∧ Good (i + j) bone bone' := by
  intro bones
  induction bones with
  | nil =>
    intro i p bx bY _ _ _
    exact ⟨[], rfl, rfl, fun j bone h => by simp at h⟩
  | cons b rest ih =>
    intro i p bx bY hp hinv hstep
    obtain ⟨b', X, Y, hb, hinv', hgood⟩ := hstep 0 b bx bY (by simp) hinv
    simp only [Nat.add_zero] at hb hinv' hgood
    obtain ⟨rest', hr, hrl, hrg⟩ := ih (i + 1) (p + 3) X Y (by omega) hinv'
      (fun j bone x y hj hx => by
        have := hstep (j + 1) bone x y (by simpa using hj) (by rw [← Nat.add_assoc, Nat.add_right_comm]; exact hx)
        rw [show i + (j + 1) = i + 1 + j by omega] at this
        exact this)
    refine ⟨b' :: rest', ?_, by simp [hrl], ?_⟩
    · rw [boneLoop, hp, hb]
      simp only [Option.bind_eq_bind, Option.some_bind]
      rw [show 3 * (i + 1) + 3 = p + 3 by omega, hr]
      rfl
    · intro j bone hj
      cases j with
      | zero =>
        simp only [List.getElem?_cons_zero, Option.some.injEq] at hj
        subst hj
        exact ⟨b', by simp, hgood⟩
      | succ j =>
        simp only [List.getElem?_cons_succ] at hj
        obtain ⟨bone', h1, h2⟩ := hrg j bone hj
        refine ⟨bone', by simpa using h1, ?_⟩
        rw [show i + (j + 1) = i + 1 + j by omega]
        exact h2

/-- `update` on a constant-speed path, from invariants of the sampling loop and of the bone
loop: the call returns, the buffers are those the spacing calculator and the sampler leave,
and every bone satisfies the property `BGood` that each call of `boneStep` establishes. -/
theorem update_char (M : MathUtil K) (hsqrt : ∀ x, 0 ≤ M.sqrt x) (fresh : Nat → K)
    (pc : PathConstraint K) (path : PathAttachment K)
    (hA : pc._target.attachment = some (Attachment.path path))
    (hcs : path.constantSpeed = true) (hn : 1 ≤ curveCountOf path)
    (hwrap : path.closed = true → ∀ x, wrap M x (lengthOf M path) ≤ lengthOf M path)
    (hmix : 0 < pc._translateMix ∨ 0 < pc._rotateMix)
    (Inv : Nat → Cursor K → Prop) (Good : Nat → K × K × Option K → Prop)
    (BInv : List K → Nat → K → K → Prop) (BGood : List K → Nat → Bone K → Bone K → Prop)
    (H : ∀ sp ln, computeSpaces M (fun x y => x / y) fresh pc = some (sp, ln) →
      (∀ c, Inv 0 ⟨positionIn pc._position
          (decide (pc._data._positionMode = PositionMode.Percent)) (lengthOf M path), 0, 0, NONE,
          0, c, pc._segments, Vector.setSize fresh pc._positions
            ((if pc._data._rotateMode = RotateMode.Tangent then pc._bones.length
              else pc._bones.length + 1) * 3 + 2)⟩) ∧
      (∀ i s w s1 space,
        i < (if pc._data._rotateMode = RotateMode.Tangent then pc._bones.length
          else pc._bones.length + 1) →
        (spacesIn sp (if pc._data._rotateMode = RotateMode.Tangent then pc._bones.length
          else pc._bones.length + 1) (decide (pc._data._spacingMode = SpacingMode.Percent))
          (lengthOf M path))[i]? = some space →
        Inv i s → s.Valid M (worldOf path) (curvesOf M path) →
        StepOutcome M path.closed (decide (pc._data._rotateMode = RotateMode.Tangent))
          (worldOf path) (curvesOf M path) (curveCountOf path) i space s w s1 →
        Inv (i + 1) s1 ∧ Good i w))
    (HB : ∀ sp ln ws, computeSpaces M (fun x y => x / y) fresh pc = some (sp, ln) →
      ws.length = (if pc._data._rotateMode = RotateMode.Tangent then pc._bones.length
          else pc._bones.length + 1) →
      (∀ m w, ws[m]? = some w → Good m w) →
      BInv (applyWrites ws 0 (Vector.setSize fresh pc._positions
          ((if pc._data._rotateMode = RotateMode.Tangent then pc._bones.length
            else pc._bones.length + 1) * 3 + 2))) 0
          ((applyWrites ws 0 (Vector.setSize fresh pc._positions
            ((if pc._data._rotateMode = RotateMode.Tangent then pc._bones.length
              else pc._bones.length + 1) * 3 + 2))).getD 0 0)
          ((applyWrites ws 0 (Vector.setSize fresh pc._positions
            ((if pc._data._rotateMode = RotateMode.Tangent then pc._bones.length
              else pc._bones.length + 1) * 3 + 2))).getD 1 0) ∧
      ∀ (j : Nat) (bone : Bone K) (x y : K), pc._bones[j]? = some bone →
        BInv (applyWrites ws 0 (Vector.setSize fresh pc._positions
          ((if pc._data._rotateMode = RotateMode.Tangent then pc._bones.length
            else pc._bones.length + 1) * 3 + 2))) j x y →
        ∃ (bone' : Bone K) (X Y : K),
          boneStep M (fun x y => x / y) (applyWrites ws 0 (Vector.setSize fresh pc._positions
              ((if pc._data._rotateMode = RotateMode.Tangent then pc._bones.length
                else pc._bones.length + 1) * 3 + 2)))
            (spacesIn sp (if pc._data._rotateMode = RotateMode.Tangent then pc._bones.length
              else pc._bones.length + 1) (decide (pc._data._spacingMode = SpacingMode.Percent))
              (lengthOf M path)) ln
            (decide (pc._data._rotateMode = RotateMode.ChainScale)) (decide (pc._rotateMix > 0))
            (decide (pc._data._rotateMode = RotateMode.Tangent)) (tipAndOffset M pc).1
            pc._rotateMix pc._translateMix (tipAndOffset M pc).2 j (3 * (j + 1)) bone x y
            = some (bone', X, Y) ∧
          BInv (applyWrites ws 0 (Vector.setSize fresh pc._positions
            ((if pc._data._rotateMode = RotateMode.Tangent then pc._bones.length
              else pc._bones.length + 1) * 3 + 2))) (j + 1) X Y ∧
          BGood (applyWrites ws 0 (Vector.setSize fresh pc._positions
            ((if pc._data._rotateMode = RotateMode.Tangent then pc._bones.length
              else pc._bones.length + 1) * 3 + 2))) j bone bone') :
    ∃ (sp ln : List K) (ws : List (K × K × Option K)) (segs : List K) (bones' : List (Bone K)),
      computeSpaces M (fun x y => x / y) fresh pc = some (sp, ln) ∧
      ws.length = (if pc._data._rotateMode = RotateMode.Tangent then pc._bones.length
        else pc._bones.length + 1) ∧
      (∀ m w, ws[m]? = some w → Good m w) ∧
      bones'.length = pc._bones.length ∧
      update M fresh pc = some { pc with _spaces := spacesIn sp (if pc._data._rotateMode = RotateMode.Tangent then pc._bones.length else pc._bones.length + 1) (decide (pc._data._spacingMode = SpacingMode.Percent)) (lengthOf M path), _lengths := ln, _positions := applyWrites ws 0 (Vector.setSize fresh pc._positions ((if pc._data._rotateMode = RotateMode.Tangent then pc._bones.length else pc._bones.length + 1) * 3 + 2)), _world := worldOf path, _curves := curvesOf M path, _segments := segs, _bones := bones' } ∧
      ∀ (j : Nat) (bone : Bone K), pc._bones[j]? = some bone →
        ∃ bone' : Bone K, bones'[j]? = some bone' ∧
          BGood (applyWrites ws 0 (Vector.setSize fresh pc._positions
            ((if pc._data._rotateMode = RotateMode.Tangent then pc._bones.length
              else pc._bones.length + 1) * 3 + 2))) j bone bone' := by
  set sc := (if pc._data._rotateMode = RotateMode.Tangent then pc._bones.length
    else pc._bones.length + 1) with hsc
  obtain ⟨sp, ln, hsp, hspl, -, -, -⟩ := computeSpaces_total M (fun x y => x / y) fresh pc
  obtain ⟨hinit, hpres⟩ := H sp ln hsp
  obtain ⟨ws, segs, hwl, hgood, hcw⟩ := computeWorldPositions_char M hsqrt fresh
    { pc with _spaces := sp, _lengths := ln } path sc
    (decide (pc._data._rotateMode = RotateMode.Tangent))
    (decide (pc._data._positionMode = PositionMode.Percent))
    (decide (pc._data._spacingMode = SpacingMode.Percent)) hcs hn hwrap (by rw [hspl]) Inv Good
    hinit hpres
  obtain ⟨hb0, hbstep⟩ := HB sp ln ws hsp hwl hgood
  set P := applyWrites ws 0 (Vector.setSize fresh pc._positions (sc * 3 + 2)) with hP
  have hPl : P.length = sc * 3 + 2 := by
    rw [hP, applyWrites_length, Vector.setSize_length]
  set spc := spacesIn sp sc (decide (pc._data._spacingMode = SpacingMode.Percent))
    (lengthOf M path) with hspc
  set pc2 : PathConstraint K := { pc with _spaces := spc, _lengths := ln, _positions := P, _world := worldOf path, _curves := curvesOf M path, _segments := segs } with hpc2
  obtain ⟨bones', hbl, hbl1, hbl2⟩ := boneLoop_char M (fun x y => x / y) P spc ln
    (decide (pc._data._rotateMode = RotateMode.ChainScale)) (decide (pc._rotateMix > 0))
    (decide (pc._data._rotateMode = RotateMode.Tangent)) (tipAndOffset M pc).1
    pc._rotateMix pc._translateMix (tipAndOffset M pc).2 (BInv P) (BGood P)
    pc._bones 0 3 _ _ rfl hb0
    (fun j bone x y hj hx => by
      simp only [Nat.zero_add] at hx ⊢
      exact hbstep j bone x y hj hx)
  have hupd := updateWith_eq M (fun x y => x / y) fresh pc pc2 path sp ln P _ _ bones' hA hmix
    hsp hcw (getElem?_eq_some_getD P 0 (by omega)) (getElem?_eq_some_getD P 1 (by omega)) hbl
  refine ⟨sp, ln, ws, segs, bones', hsp, hwl, hgood, hbl1, hupd, ?_⟩
  intro j bone hj
  obtain ⟨bone', h1, h2⟩ := hbl2 j bone hj
  simp only [Nat.zero_add] at h2
  exact ⟨bone', h1, h2⟩


/-- One call of `boneStep` in ChainScale mode with rotation on: the bone is translated, its
`a` and `c` are multiplied by the scale factor when `_lengths[i]` is at least `EPSILON`, and
then its axes are rotated by some angle `r`; the running point becomes the next sample. -/
theorem boneStep_chain_scale (M : MathUtil K) (div : K → K → K) (P spaces lengths : List K)
    (tip : Bool) (rm tm off : K) (i p : Nat) (bone : Bone K) (bx bY x y ang sp len : K)
    (hx : P[p]? = some x) (hy : P[p + 1]? = some y) (hang : P[p + 2]? = some ang)
    (hsp : spaces[i + 1]? = some sp) (hlen : lengths[i]? = some len) :
    ∃ (bone' : Bone K) (r X Y : K),
      boneStep M div P spaces lengths true true false tip rm tm off i p bone bx bY
        = some (bone', X, Y) ∧
      (tip = false → X = x ∧ Y = y) ∧
      bone'._worldX = bone._worldX + (bx - bone._worldX) * tm ∧
      bone'._worldY = bone._worldY + (bY - bone._worldY) * tm ∧
      bone'._a = M.cos r * (bone._a * (if len ≥ EPSILON then
          (div (M.sqrt ((x - bx) * (x - bx) + (y - bY) * (y - bY))) len - 1) * rm + 1 else 1)) -
        M.sin r * (bone._c * (if len ≥ EPSILON then
          (div (M.sqrt ((x - bx) * (x - bx) + (y - bY) * (y - bY))) len - 1) * rm + 1 else 1)) ∧
      bone'._c = M.sin r * (bone._a * (if len ≥ EPSILON then
          (div (M.sqrt ((x - bx) * (x - bx) + (y - bY) * (y - bY))) len - 1) * rm + 1 else 1)) +
        M.cos r * (bone._c * (if len ≥ EPSILON then
          (div (M.sqrt ((x - bx) * (x - bx) + (y - bY) * (y - bY))) len - 1) * rm + 1 else 1)) ∧
      bone'._b = M.cos r * bone._b - M.sin r * bone._d ∧
      bone'._d = M.sin r * bone._b + M.cos r * bone._d ∧
      bone'._appliedValid = false ∧ bone'.dataLength = bone.dataLength := by
  unfold boneStep scaleStep rotateStep
  simp only [hx, hy, hang, hsp, hlen, Option.bind_eq_bind, Option.some_bind, if_true,
    Bool.false_eq_true, if_false, Option.pure_def]
  by_cases hl : len ≥ EPSILON
  · simp only [hl, if_true, Option.some_bind]
    by_cases hs : sp < EPSILON
    · simp only [hs, if_true, Option.some_bind]
      refine ⟨_, _, _, _, rfl, ?_, rfl, rfl, rfl, rfl, rfl, rfl, rfl, rfl⟩
      intro h; simp [h]
    · simp only [hs, if_false, Option.some_bind]
      refine ⟨_, _, _, _, rfl, ?_, rfl, rfl, rfl, rfl, rfl, rfl, rfl, rfl⟩
      intro h; simp [h]
  · simp only [hl, if_false, Option.some_bind, mul_one]
    by_cases hs : sp < EPSILON
    · simp only [hs, if_true, Option.some_bind]
      refine ⟨_, _, _, _, rfl, ?_, rfl, rfl, rfl, rfl, rfl, rfl, rfl, rfl⟩
      intro h; simp [h]
    · simp only [hs, if_false, Option.some_bind]
      refine ⟨_, _, _, _, rfl, ?_, rfl, rfl, rfl, rfl, rfl, rfl, rfl, rfl⟩
      intro h; simp [h]

theorem tipAndOffset_chainScale (M : MathUtil K) (pc : PathConstraint K)
    (hmode : pc._data._rotateMode = RotateMode.ChainScale) : (tipAndOffset M pc).1 = false := by
  unfold tipAndOffset
  simp only [hmode]
  split <;> simp

/-- `update` in ChainScale mode with rotation on, on a constant-speed path: the call returns,
and bone `j` is translated to sample `j`, scaled by the factor of line 183 computed from the
samples `j` and `j + 1` and from the chain length the spacing calculator stored, and
rotated. -/
theorem update_chain_scale (M : MathUtil K) (hsqrt : ∀ x, 0 ≤ M.sqrt x) (fresh : Nat → K)
    (pc : PathConstraint K) (path : PathAttachment K)
    (hA : pc._target.attachment = some (Attachment.path path))
    (hcs : path.constantSpeed = true) (hn : 1 ≤ curveCountOf path)
    (hwrap : path.closed = true → ∀ x, wrap M x (lengthOf M path) ≤ lengthOf M path)
    (hmode : pc._data._rotateMode = RotateMode.ChainScale) (hrm : 0 < pc._rotateMix)
    (Inv : Nat → Cursor K → Prop) (Good : Nat → K × K × Option K → Prop)
    (H : ∀ sp ln, computeSpaces M (fun x y => x / y) fresh pc = some (sp, ln) →
      (∀ c, Inv 0 ⟨positionIn pc._position
          (decide (pc._data._positionMode = PositionMode.Percent)) (lengthOf M path), 0, 0, NONE,
          0, c, pc._segments, Vector.setSize fresh pc._positions
            ((if pc._data._rotateMode = RotateMode.Tangent then pc._bones.length
              else pc._bones.length + 1) * 3 + 2)⟩) ∧
      (∀ i s w s1 space,
        i < (if pc._data._rotateMode = RotateMode.Tangent then pc._bones.length
          else pc._bones.length + 1) →
        (spacesIn sp (if pc._data._rotateMode = RotateMode.Tangent then pc._bones.length
          else pc._bones.length + 1) (decide (pc._data._spacingMode = SpacingMode.Percent))
          (lengthOf M path))[i]? = some space →
        Inv i s → s.Valid M (worldOf path) (curvesOf M path) →
        StepOutcome M path.closed (decide (pc._data._rotateMode = RotateMode.Tangent))
          (worldOf path) (curvesOf M path) (curveCountOf path) i space s w s1 →
        Inv (i + 1) s1 ∧ Good i w)) :
    ∃ (pc' : PathConstraint K) (ws : List (K × K × Option K)),
      update M fresh pc = some pc' ∧ ws.length = pc._bones.length + 1 ∧
      (∀ m w, ws[m]? = some w → Good m w ∧ pc'._positions[3 * m]? = some w.1 ∧
        pc'._positions[3 * m + 1]? = some w.2.1) ∧
      pc'._bones.length = pc._bones.length ∧
      ∀ (j : Nat) (bone : Bone K), pc._bones[j]? = some bone →
        ∃ (bone' : Bone K) (r x0 y0 x1 y1 : K), pc'._bones[j]? = some bone' ∧
          pc'._positions[3 * j]? = some x0 ∧ pc'._positions[3 * j + 1]? = some y0 ∧
          pc'._positions[3 * j + 3]? = some x1 ∧ pc'._positions[3 * j + 4]? = some y1 ∧
          bone'._worldX = bone._worldX + (x0 - bone._worldX) * pc._translateMix ∧
          bone'._worldY = bone._worldY + (y0 - bone._worldY) * pc._translateMix ∧
          bone'._a = M.cos r * (bone._a * (if chainLength M bone ≥ EPSILON then
              (M.sqrt ((x1 - x0) * (x1 - x0) + (y1 - y0) * (y1 - y0)) / chainLength M bone - 1) *
                pc._rotateMix + 1 else 1)) -
            M.sin r * (bone._c * (if chainLength M bone ≥ EPSILON then
              (M.sqrt ((x1 - x0) * (x1 - x0) + (y1 - y0) * (y1 - y0)) / chainLength M bone - 1) *
                pc._rotateMix + 1 else 1)) ∧
          bone'._c = M.sin r * (bone._a * (if chainLength M bone ≥ EPSILON then
              (M.sqrt ((x1 - x0) * (x1 - x0) + (y1 - y0) * (y1 - y0)) / chainLength M bone - 1) *
                pc._rotateMix + 1 else 1)) +
            M.cos r * (bone._c * (if chainLength M bone ≥ EPSILON then
              (M.sqrt ((x1 - x0) * (x1 - x0) + (y1 - y0) * (y1 - y0)) / chainLength M bone - 1) *
                pc._rotateMix + 1 else 1)) ∧
          bone'._b = M.cos r * bone._b - M.sin r * bone._d ∧
          bone'._d = M.sin r * bone._b + M.cos r * bone._d ∧
          bone'._appliedValid = false ∧ bone'.dataLength = bone.dataLength := by
  have hnt : pc._data._rotateMode ≠ RotateMode.Tangent := by rw [hmode]; decide
  have hsc : (if pc._data._rotateMode = RotateMode.Tangent then pc._bones.length
      else pc._bones.length + 1) = pc._bones.length + 1 := if_neg hnt
  obtain ⟨sp, ln, ws, segs, bones', hsp, hwl, hgood, hbl, hupd, hbones⟩ :=
    update_char M hsqrt fresh pc path hA hcs hn hwrap (Or.inr hrm) Inv Good
      (fun P j x y => P[3 * j]? = some x ∧ P[3 * j + 1]? = some y)
      (fun P j bone bone' => ∃ (r x0 y0 x1 y1 : K),
          P[3 * j]? = some x0 ∧ P[3 * j + 1]? = some y0 ∧
          P[3 * j + 3]? = some x1 ∧ P[3 * j + 4]? = some y1 ∧
          bone'._worldX = bone._worldX + (x0 - bone._worldX) * pc._translateMix ∧
          bone'._worldY = bone._worldY + (y0 - bone._worldY) * pc._translateMix ∧
          bone'._a = M.cos r * (bone._a * (if chainLength M bone ≥ EPSILON then
              (M.sqrt ((x1 - x0) * (x1 - x0) + (y1 - y0) * (y1 - y0)) / chainLength M bone - 1) *
                pc._rotateMix + 1 else 1)) -
            M.sin r * (bone._c * (if chainLength M bone ≥ EPSILON then
              (M.sqrt ((x1 - x0) * (x1 - x0) + (y1 - y0) * (y1 - y0)) / chainLength M bone - 1) *
                pc._rotateMix + 1 else 1)) ∧
          bone'._c = M.sin r * (bone._a * (if chainLength M bone ≥ EPSILON then
              (M.sqrt ((x1 - x0) * (x1 - x0) + (y1 - y0) * (y1 - y0)) / chainLength M bone - 1) *
                pc._rotateMix + 1 else 1)) +
            M.cos r * (bone._c * (if chainLength M bone ≥ EPSILON then
              (M.sqrt ((x1 - x0) * (x1 - x0) + (y1 - y0) * (y1 - y0)) / chainLength M bone - 1) *
                pc._rotateMix + 1 else 1)) ∧
          bone'._b = M.cos r * bone._b - M.sin r * bone._d ∧
          bone'._d = M.sin r * bone._b + M.cos r * bone._d ∧
          bone'._appliedValid = false ∧ bone'.dataLength = bone.dataLength)
      H
      (by
        intro sp ln ws hsp hwl _
        rw [hsc] at hwl ⊢
        set P := applyWrites ws 0 (Vector.setSize fresh pc._positions
          ((pc._bones.length + 1) * 3 + 2)) with hP
        have hPl : P.length = (pc._bones.length + 1) * 3 + 2 := by
          rw [hP, applyWrites_length, Vector.setSize_length]
        obtain ⟨sp', ln', hsp', hspl, -, -, -, hloop⟩ :=
          computeSpaces_loop_spec M (fun x y => x / y) fresh pc (Or.inl hmode)
        rw [hsp] at hsp'
        cases hsp'
        rw [hsc] at hspl hloop
        refine ⟨⟨getElem?_eq_some_getD P 0 (by omega), getElem?_eq_some_getD P 1 (by omega)⟩, ?_⟩
        intro j bone x y hj hxy
        have hjl : j < pc._bones.length := by
          by_contra hcon
          rw [List.getElem?_eq_none (by omega)] at hj
          cases hj
        obtain ⟨-, hlen⟩ := hloop j bone (by omega) hj
        have hlen' := hlen hmode
        have hspj : (spacesIn sp (pc._bones.length + 1)
            (decide (pc._data._spacingMode = SpacingMode.Percent)) (lengthOf M path))[j + 1]? =
            some ((spacesIn sp (pc._bones.length + 1)
              (decide (pc._data._spacingMode = SpacingMode.Percent)) (lengthOf M path)).getD
                (j + 1) 0) :=
          getElem?_eq_some_getD _ _ (by rw [spacesIn_length, hspl]; omega)
        obtain ⟨bone', r, X, Y, hstep, hXY, g1, g2, g3, g4, g5, g6, g7, g8⟩ :=
          boneStep_chain_scale M (fun x y => x / y) P _ ln (tipAndOffset M pc).1 pc._rotateMix
            pc._translateMix (tipAndOffset M pc).2 j (3 * (j + 1)) bone x y _ _ _ _ _
            (getElem?_eq_some_getD P (3 * (j + 1)) (by omega))
            (getElem?_eq_some_getD P (3 * (j + 1) + 1) (by omega))
            (getElem?_eq_some_getD P (3 * (j + 1) + 2) (by omega)) hspj hlen'
        obtain ⟨hX, hY⟩ := hXY (tipAndOffset_chainScale M pc hmode)
        refine ⟨bone', X, Y, ?_, ?_, ?_⟩
        · have d1 : decide (pc._data._rotateMode = RotateMode.ChainScale) = true := by
            simp [hmode]
          have d2 : decide (pc._rotateMix > 0) = true := by simpa using hrm
          have d3 : decide (pc._data._rotateMode = RotateMode.Tangent) = false := by
            simp [hnt]
          rw [d1, d2, d3]
          exact hstep
        · rw [hX, hY]
          exact ⟨getElem?_eq_some_getD P _ (by omega), getElem?_eq_some_getD P _ (by omega)⟩
        · exact ⟨r, x, y, _, _, hxy.1, hxy.2,
            getElem?_eq_some_getD P (3 * (j + 1)) (by omega),
            getElem?_eq_some_getD P (3 * (j + 1) + 1) (by omega), g1, g2, g3, g4, g5, g6, g7, g8⟩)
  rw [hsc] at hwl hupd hbones
  refine ⟨_, ws, hupd, hwl, ?_, hbl, ?_⟩
  · intro m w hw
    obtain ⟨g1, g2, -⟩ := applyWrites_getElem? ws 0
      (Vector.setSize fresh pc._positions ((pc._bones.length + 1) * 3 + 2)) m w hw
      (by rw [Vector.setSize_length]; omega)
    simp only [Nat.zero_add] at g1 g2
    exact ⟨hgood m w hw, g1, g2⟩
  · intro j bone hj
    obtain ⟨bone', hb', r, x0, y0, x1, y1, h⟩ := hbones j bone hj
    exact ⟨bone', r, x0, y0, x1, y1, hb', h⟩


end Lemmas

theorem Exact.chainLength_eq (M : MathUtil ℝ) (hM : M.Exact) (bone : Bone ℝ)
    (h : EPSILON ≤ bone.dataLength) :
    chainLength M bone = bone.dataLength * Real.sqrt (bone._a ^ 2 + bone._c ^ 2) := by
  have hpos : (0 : ℝ) ≤ bone.dataLength := le_trans (le_of_lt EPSILON_pos) h
  unfold chainLength
  rw [if_neg (not_lt.mpr h), hM.sqrt_eq]
  simp only
  rw [show bone.dataLength * bone._a * (bone.dataLength * bone._a) +
      bone.dataLength * bone._c * (bone.dataLength * bone._c) =
      bone.dataLength ^ 2 * (bone._a ^ 2 + bone._c ^ 2) by ring,
    Real.sqrt_mul (sq_nonneg _), Real.sqrt_sq hpos]

theorem rotated_scaled_norm (a c s co si : ℝ) (hs : 0 ≤ s) (hcs : co ^ 2 + si ^ 2 = 1) :
    Real.sqrt ((co * (a * s) - si * (c * s)) ^ 2 + (si * (a * s) + co * (c * s)) ^ 2) =
      s * Real.sqrt (a ^ 2 + c ^ 2) := by
  rw [show (co * (a * s) - si * (c * s)) ^ 2 + (si * (a * s) + co * (c * s)) ^ 2 =
      s ^ 2 * (a ^ 2 + c ^ 2) by linear_combination (s ^ 2 * (a ^ 2 + c ^ 2)) * hcs,
    Real.sqrt_mul (sq_nonneg _), Real.sqrt_sq hs]

theorem Exact.wrap_le (M : MathUtil ℝ) (hM : M.Exact) (path : PathAttachment ℝ)
    (hpl : path.closed = true → 0 < lengthOf M path) :
    path.closed = true → ∀ x, wrap M x (lengthOf M path) ≤ lengthOf M path :=
  fun h x => le_of_lt (Exact.wrap_range M hM x _ (hpl h)).2

theorem straight_resolved_first (d : ℝ) (h1 : 1 ≤ d) (h30 : d ≤ 30) :
    ∀ k, k < 3 → d ≤ (fun k : Nat => 30 * (k : ℝ)) (k + 1) →
      (k = 0 ∨ (fun k : Nat => 30 * (k : ℝ)) k < d) →
      (EPSILON : ℝ) * ((fun k : Nat => 30 * (k : ℝ)) (k + 1) - (fun k : Nat => 30 * (k : ℝ)) k)
        ≤ d - (fun k : Nat => 30 * (k : ℝ)) k := by
  intro k hk
  interval_cases k
  · intro _ _
    simp only [EPSILON]
    norm_num
    linarith
  · intro _ h
    norm_num at h
    linarith
  · intro _ h
    norm_num at h
    linarith


section Lemmas
variable {K : Type} [LinearOrderedField K]

/-- What an iteration of the sampling loop writes, and the cursor it leaves, are functions of
the core of the cursor it starts from. -/
theorem StepOutcome.functional (M : MathUtil K) (closed tangents : Bool) (world curves : List K)
    (n i : Nat) (space : K) (sA sB : Cursor K) (wA wB : K × K × Option K) (sA1 sB1 : Cursor K)
    (hA : StepOutcome M closed tangents world curves n i space sA wA sA1)
    (hB : StepOutcome M closed tangents world curves n i space sB wB sB1)
    (hcore : sA.core = sB.core) : wA = wB ∧ sA1.core = sB1.core := by
  simp only [Cursor.core, Prod.mk.injEq] at hcore
  obtain ⟨e1, e2, e3, e4⟩ := hcore
  unfold StepOutcome at hA hB
  rw [e1, e2, e3, e4] at hA
  rcases hA with ⟨ac, alt, aw, as1⟩ | ⟨ac, anlt, agt, aw, as1⟩ |
    ⟨p, k, q, j, t, ap, ar, ak, -, aq, -, aj, -, at1, aw, as1⟩
  · rcases hB with ⟨-, -, bw, bs1⟩ | ⟨-, bnlt, -, -, -⟩ |
      ⟨p', k', q', j', t', -, br, -⟩
    · rw [aw, bw, as1, bs1]
      exact ⟨rfl, by simp [Cursor.core, e2, e3, e4]⟩
    · exact absurd alt bnlt
    · exact absurd alt (not_lt.mpr (br ac).1)
  · rcases hB with ⟨-, blt, -, -⟩ | ⟨-, -, -, bw, bs1⟩ |
      ⟨p', k', q', j', t', -, br, -⟩
    · exact absurd blt anlt
    · rw [aw, bw, as1, bs1]
      exact ⟨rfl, by simp [Cursor.core, e2, e3, e4]⟩
    · exact absurd agt (not_lt.mpr (br ac).2)
  · rcases hB with ⟨bc, blt, -, -⟩ | ⟨bc, -, bgt, -, -⟩ |
      ⟨p', k', q', j', t', bp, -, bk, -, bq, -, bj, -, bt1, bw, bs1⟩
    · exact absurd blt (not_lt.mpr (ar bc).1)
    · exact absurd bgt (not_lt.mpr (ar bc).2)
    · rw [← bp] at ap
      subst ap
      rw [ak] at bk
      cases bk
      rw [aq] at bq
      cases bq
      rw [aj] at bj
      cases bj
      rw [at1] at bt1
      cases bt1
      rw [aw, bw, as1, bs1]
      exact ⟨rfl, rfl⟩

theorem Reach.core_unique (M : MathUtil K) (closed tangents : Bool) (world curves : List K)
    (n : Nat) (spaces : List K) (position : K) :
    ∀ (i : Nat) (sA sB : Cursor K),
      Reach M closed tangents world curves n spaces position i sA →
      Reach M closed tangents world curves n spaces position i sB → sA.core = sB.core := by
  intro i
  induction i with
  | zero =>
    intro sA sB hA hB
    cases hA with
    | start _ ha =>
      cases hB with
      | start _ hb => rw [ha, hb]
  | succ i ih =>
    intro sA sB hA hB
    cases hA with
    | next _ spA sA0 wA _ hrA hsA hoA =>
      cases hB with
      | next _ spB sB0 wB _ hrB hsB hoB =>
        rw [hsA] at hsB
        cases hsB
        exact (StepOutcome.functional M closed tangents world curves n i spA sA0 sB0 wA wB sA sB
          hoA hoB (ih sA0 sB0 hrA hrB)).2

/-- The triple written for sample `i` is determined by the path, the spacing entries and the
start distance. -/
theorem Emitted.unique (M : MathUtil K) (closed tangents : Bool) (world curves : List K)
    (n : Nat) (spaces : List K) (position : K) (i : Nat) (wA wB : K × K × Option K)
    (hA : Emitted M closed tangents world curves n spaces position i wA)
    (hB : Emitted M closed tangents world curves n spaces position i wB) : wA = wB := by
  obtain ⟨sA, sA1, spA, hrA, hsA, hoA⟩ := hA
  obtain ⟨sB, sB1, spB, hrB, hsB, hoB⟩ := hB
  rw [hsA] at hsB
  cases hsB
  exact (StepOutcome.functional M closed tangents world curves n i spA sA sB wA wB sA1 sB1
    hoA hoB (Reach.core_unique M closed tangents world curves n spaces position i sA sB hrA
      hrB)).1

/-- One call of `boneStep` without chain scaling and with rotation on. -/
theorem boneStep_rotate (M : MathUtil K) (div : K → K → K) (P spaces lengths : List K)
    (tangents tip : Bool) (rm tm off : K) (i p : Nat) (bone : Bone K) (bx bY x y θ : K)
    (hx : P[p]? = some x) (hy : P[p + 1]? = some y)
    (hθ : angleSource M P spaces tangents i p (x - bx) (y - bY) = some θ) :
    boneStep M div P spaces lengths false true tangents tip rm tm off i p bone bx bY =
      some ({ _worldX := bone._worldX + (bx - bone._worldX) * tm,
              _worldY := bone._worldY + (bY - bone._worldY) * tm,
              _a := M.cos (wrapAngle M (if tip then θ - M.atan2 bone._c bone._a
                  else θ - M.atan2 bone._c bone._a + off) * rm) * bone._a -
                M.sin (wrapAngle M (if tip then θ - M.atan2 bone._c bone._a
                  else θ - M.atan2 bone._c bone._a + off) * rm) * bone._c,
              _b := M.cos (wrapAngle M (if tip then θ - M.atan2 bone._c bone._a
                  else θ - M.atan2 bone._c bone._a + off) * rm) * bone._b -
                M.sin (wrapAngle M (if tip then θ - M.atan2 bone._c bone._a
                  else θ - M.atan2 bone._c bone._a + off) * rm) * bone._d,
              _c := M.sin (wrapAngle M (if tip then θ - M.atan2 bone._c bone._a
                  else θ - M.atan2 bone._c bone._a + off) * rm) * bone._a +
                M.cos (wrapAngle M (if tip then θ - M.atan2 bone._c bone._a
                  else θ - M.atan2 bone._c bone._a + off) * rm) * bone._c,
              _d := M.sin (wrapAngle M (if tip then θ - M.atan2 bone._c bone._a
                  else θ - M.atan2 bone._c bone._a + off) * rm) * bone._b +
                M.cos (wrapAngle M (if tip then θ - M.atan2 bone._c bone._a
                  else θ - M.atan2 bone._c bone._a + off) * rm) * bone._d,
              _appliedValid := false, dataLength := bone.dataLength },
        if tip then x + (bone.dataLength * (M.cos (θ - M.atan2 bone._c bone._a) * bone._a -
            M.sin (θ - M.atan2 bone._c bone._a) * bone._c) - (x - bx)) * rm else x,
        if tip then y + (bone.dataLength * (M.sin (θ - M.atan2 bone._c bone._a) * bone._a +
            M.cos (θ - M.atan2 bone._c bone._a) * bone._c) - (y - bY)) * rm else y) := by
  unfold angleSource at hθ
  unfold boneStep scaleStep rotateStep
  simp only [hx, hy, Option.bind_eq_bind, Option.some_bind, if_true,
    Bool.false_eq_true, if_false, Option.pure_def] at hθ ⊢
  rw [hθ]
  rfl

/-- Writing the same triples twice is writing them once. -/
theorem applyWrites_idem (ws : List (K × K × Option K)) (P : List K)
    (hP : 3 * ws.length ≤ P.length) :
    applyWrites ws 0 (applyWrites ws 0 P) = applyWrites ws 0 P := by
  have hP' : 0 + 3 * ws.length ≤ (applyWrites ws 0 P).length := by
    rw [applyWrites_length]; omega
  apply List.ext_getElem?
  intro j
  by_cases hj : j < 3 * ws.length
  · have hm : j / 3 < ws.length := by omega
    have hw : ws[j / 3]? = some ws[j / 3] := List.getElem?_eq_getElem hm
    obtain ⟨a1, a2, a3⟩ := applyWrites_getElem? ws 0 P (j / 3) _ hw (by omega)
    obtain ⟨b1, b2, b3⟩ := applyWrites_getElem? ws 0 (applyWrites ws 0 P) (j / 3) _ hw hP'
    have hk : j % 3 = 0 ∨ j % 3 = 1 ∨ j % 3 = 2 := by omega
    rcases hk with h | h | h
    · have e : j = 0 + 3 * (j / 3) := by omega
      rw [e, a1, b1]
    · have e : j = 0 + 3 * (j / 3) + 1 := by omega
      rw [e, a2, b2]
    · have e : j = 0 + 3 * (j / 3) + 2 := by omega
      rw [e, b3]
      cases hopt : (ws[j / 3]).2.2 with
      | none => rfl
      | some r =>
        rw [a3, hopt]
  · rw [applyWrites_getElem?_of_ge ws 0 _ j (by omega)]

theorem boneStep_lengths_irrelevant (M : MathUtil K) (div : K → K → K)
    (P spaces l1 l2 : List K) (rotate tangents tip : Bool) (rm tm off : K) (i p : Nat)
    (bone : Bone K) (bx bY : K) :
    boneStep M div P spaces l1 false rotate tangents tip rm tm off i p bone bx bY =
      boneStep M div P spaces l2 false rotate tangents tip rm tm off i p bone bx bY := by
  unfold boneStep scaleStep
  rfl

theorem boneLoop_lengths_irrelevant (M : MathUtil K) (div : K → K → K)
    (P spaces l1 l2 : List K) (rotate tangents tip : Bool) (rm tm off : K) :
    ∀ (bones : List (Bone K)) (i p : Nat) (bx bY : K),
      boneLoop M div P spaces l1 false rotate tangents tip rm tm off bones i p bx bY =
        boneLoop M div P spaces l2 false rotate tangents tip rm tm off bones i p bx bY := by
  intro bones
  induction bones with
  | nil => intro i p bx bY; rfl
  | cons b rest ih =>
    intro i p bx bY
    rw [boneLoop, boneLoop, boneStep_lengths_irrelevant M div P spaces l1 l2]
    cases boneStep M div P spaces l2 false rotate tangents tip rm tm off i p b bx bY with
    | none => rfl
    | some res =>
      obtain ⟨b1, X, Y⟩ := res
      simp only [Option.bind_eq_bind, Option.some_bind]
      rw [ih]

/-- Without chain scaling and with rotation on, the bone loop returns whenever the positions
and spacing buffers have the sizes `update` gives them. -/
theorem boneLoop_rotate_total (M : MathUtil K) (div : K → K → K) (P spaces lengths : List K)
    (tangents tip : Bool) (rm tm off : K) (bones : List (Bone K)) (bx bY : K)
    (hP : (if tangents then bones.length else bones.length + 1) * 3 + 2 ≤ P.length)
    (hS : tangents = false → bones.length + 1 ≤ spaces.length) :
    ∃ bones1, boneLoop M div P spaces lengths false true tangents tip rm tm off bones 0 3 bx bY
      = some bones1 := by
  obtain ⟨bones1, h, -, -⟩ := boneLoop_char M div P spaces lengths false true tangents tip rm tm
    off (fun _ _ _ => True) (fun _ _ _ => True) bones 0 3 bx bY rfl trivial
    (by
      intro j bone x y hj _
      have hjl : j < bones.length := by
        by_contra hcon
        rw [List.getElem?_eq_none (by omega)] at hj
        cases hj
      simp only [Nat.zero_add]
      have hsc : bones.length ≤ (if tangents then bones.length else bones.length + 1) := by
        split <;> omega
      have hθ : ∃ θ, angleSource M P spaces tangents j (3 * (j + 1))
          (P.getD (3 * (j + 1)) 0 - x) (P.getD (3 * (j + 1) + 1) 0 - y) = some θ := by
        unfold angleSource
        cases tangents with
        | true =>
          simp only [if_true] at hP ⊢
          exact ⟨_, getElem?_eq_some_getD P _ (by omega)⟩
        | false =>
          simp only [Bool.false_eq_true, if_false] at hP ⊢
          have := hS rfl
          rw [getElem?_eq_some_getD spaces (j + 1) (by omega)]
          simp only [Option.bind_eq_bind, Option.some_bind]
          split
          · exact ⟨_, getElem?_eq_some_getD P _ (by omega)⟩
          · exact ⟨_, rfl⟩
      obtain ⟨θ, hθ⟩ := hθ
      exact ⟨_, _, _, boneStep_rotate M div P spaces lengths tangents tip rm tm off j
        (3 * (j + 1)) bone x y _ _ θ (getElem?_eq_some_getD P _ (by omega))
        (getElem?_eq_some_getD P _ (by omega)) hθ, trivial, trivial⟩)
  exact ⟨bones1, h⟩

theorem boneSpace_congr (M : MathUtil K) (div : K → K → K) (ls : Bool) (spacing : K)
    (b b1 : Bone K) (hdl : b1.dataLength = b.dataLength)
    (hnorm : b1._a * b1._a + b1._c * b1._c = b._a * b._a + b._c * b._c) :
    boneSpace M div ls spacing b1 = boneSpace M div ls spacing b := by
  unfold boneSpace
  rw [hdl]
  have : b.dataLength * b1._a * (b.dataLength * b1._a) +
      b.dataLength * b1._c * (b.dataLength * b1._c) =
      b.dataLength * b._a * (b.dataLength * b._a) + b.dataLength * b._c * (b.dataLength * b._c) := by
    linear_combination b.dataLength * b.dataLength * hnorm
  simp only [this]

/-- The spacing calculator outside ChainScale mode computes the same spacing entries for two
constraints that differ only in their buffers and in bones of equal setup length and equal
x-axis length, when cell 0 of the spacing buffer is read the same. -/
theorem computeSpaces_congr (M : MathUtil K) (div : K → K → K) (fresh : Nat → K)
    (pcA pcB : PathConstraint K) (hdata : pcB._data = pcA._data)
    (hspacing : pcB._spacing = pcA._spacing)
    (hmode : pcA._data._rotateMode ≠ RotateMode.ChainScale)
    (hlen : pcB._bones.length = pcA._bones.length)
    (hbones : ∀ (j : Nat) (b : Bone K), pcA._bones[j]? = some b →
      ∃ b1 : Bone K, pcB._bones[j]? = some b1 ∧ b1.dataLength = b.dataLength ∧
        b1._a * b1._a + b1._c * b1._c = b._a * b._a + b._c * b._c)
    (hcell : 0 < (if pcA._data._rotateMode = RotateMode.Tangent then pcA._bones.length
      else pcA._bones.length + 1) →
      (pcB._spaces[0]?).getD (fresh 0) = (pcA._spaces[0]?).getD (fresh 0))
    (sp lnA : List K) (hA : computeSpaces M div fresh pcA = some (sp, lnA)) :
    ∃ lnB, computeSpaces M div fresh pcB = some (sp, lnB) := by
  obtain ⟨spB, lnB, hB, hBl, hB0, -, hBj⟩ := computeSpaces_total M div fresh pcB
  obtain ⟨spA, lnA', hA', hAl, hA0, -, hAj⟩ := computeSpaces_total M div fresh pcA
  rw [hA] at hA'
  cases hA'
  rw [hdata, hlen] at hBl hB0 hBj
  set sc := (if pcA._data._rotateMode = RotateMode.Tangent then pcA._bones.length
    else pcA._bones.length + 1) with hsc
  refine ⟨lnB, ?_⟩
  rw [hB]
  congr 2
  apply List.ext_getElem?
  intro j
  by_cases hj : j < sc
  · cases j with
    | zero =>
      rw [hB0, hA0, Vector.setSize_getElem? _ _ _ _ hj, Vector.setSize_getElem? _ _ _ _ hj,
        hcell hj]
    | succ m =>
      by_cases hL : pcA._data._spacingMode = SpacingMode.Length
      · obtain ⟨spA2, lnA2, hA2, -, -, -, -, hloopA⟩ :=
          computeSpaces_loop_spec M div fresh pcA (Or.inr hL)
        obtain ⟨spB2, lnB2, hB2, -, -, -, -, hloopB⟩ := computeSpaces_loop_spec M div fresh pcB
          (Or.inr (by rw [hdata]; exact hL))
        rw [hA] at hA2
        cases hA2
        rw [hB] at hB2
        cases hB2
        rw [hdata, hlen] at hloopB
        have hm : m < pcA._bones.length := by
          rw [hsc] at hj
          split at hj <;> omega
        have hbm : pcA._bones[m]? = some pcA._bones[m] := List.getElem?_eq_getElem hm
        obtain ⟨b1, hb1, hdl, hnorm⟩ := hbones m _ hbm
        rw [(hloopA m _ hj hbm).1, (hloopB m b1 hj hb1).1, hspacing,
          boneSpace_congr M div _ _ _ b1 hdl hnorm]
      · rw [hBj hmode hL m hj, hAj hmode hL m hj, hspacing]
  · rw [List.getElem?_eq_none (by omega), List.getElem?_eq_none (by omega)]

end Lemmas

theorem Exact.cos_sin_wrap (M : MathUtil ℝ) (hM : M.Exact) (x β a c : ℝ)
    (hne : a ≠ 0 ∨ c ≠ 0) (hx : x = β - M.atan2 c a) :
    M.cos (wrapAngle M x * 1) = (a * Real.cos β + c * Real.sin β) / Real.sqrt (a * a + c * c) ∧
    M.sin (wrapAngle M x * 1) = (a * Real.sin β - c * Real.cos β) / Real.sqrt (a * a + c * c) ∧
    M.cos x = (a * Real.cos β + c * Real.sin β) / Real.sqrt (a * a + c * c) ∧
    M.sin x = (a * Real.sin β - c * Real.cos β) / Real.sqrt (a * a + c * c) := by
  have hca := Exact.cos_atan2 M hM a c hne
  have hsa := Exact.sin_atan2 M hM a c
  rw [hM.cos_eq] at hca
  rw [hM.sin_eq] at hsa
  have hc : Real.cos x = (a * Real.cos β + c * Real.sin β) / Real.sqrt (a * a + c * c) := by
    rw [hx, Real.cos_sub, hca, hsa]
    ring
  have hs : Real.sin x = (a * Real.sin β - c * Real.cos β) / Real.sqrt (a * a + c * c) := by
    rw [hx, Real.sin_sub, hca, hsa]
    ring
  have hw : Real.cos (wrapAngle M x * 1) = Real.cos x ∧
      Real.sin (wrapAngle M x * 1) = Real.sin x := by
    unfold wrapAngle
    rw [hM.PI_2_eq, mul_one]
    split
    · exact ⟨Real.cos_sub_two_pi x, Real.sin_sub_two_pi x⟩
    · split
      · exact ⟨Real.cos_add_two_pi x, Real.sin_add_two_pi x⟩
      · exact ⟨rfl, rfl⟩
  rw [hM.cos_eq, hM.sin_eq]
  exact ⟨hw.1.trans hc, hw.2.trans hs, hc, hs⟩

/-- The vector `(a, c)` turned to the direction `β`, and the second turn to the same direction:
the first gives `N (cos β, sin β)`, the second changes nothing. -/
theorem turn_to_direction (a c β : ℝ) (hne : a ≠ 0 ∨ c ≠ 0) :
    (a * Real.cos β + c * Real.sin β) / Real.sqrt (a * a + c * c) * a -
      (a * Real.sin β - c * Real.cos β) / Real.sqrt (a * a + c * c) * c =
        Real.sqrt (a * a + c * c) * Real.cos β ∧
    (a * Real.sin β - c * Real.cos β) / Real.sqrt (a * a + c * c) * a +
      (a * Real.cos β + c * Real.sin β) / Real.sqrt (a * a + c * c) * c =
        Real.sqrt (a * a + c * c) * Real.sin β := by
  have hN := sqrt_sq_pos_of_ne a c hne
  have hNN : Real.sqrt (a * a + c * c) * Real.sqrt (a * a + c * c) = a * a + c * c :=
    Real.mul_self_sqrt (by nlinarith [mul_self_nonneg a, mul_self_nonneg c])
  constructor
  · field_simp
    linear_combination (-Real.cos β) * hNN
  · field_simp
    linear_combination (-Real.sin β) * hNN

theorem turned_direction (N β : ℝ) (hN : 0 < N) :
    (N * Real.cos β ≠ 0 ∨ N * Real.sin β ≠ 0) ∧
    Real.sqrt (N * Real.cos β * (N * Real.cos β) + N * Real.sin β * (N * Real.sin β)) = N ∧
    (N * Real.cos β * Real.cos β + N * Real.sin β * Real.sin β) /
      Real.sqrt (N * Real.cos β * (N * Real.cos β) + N * Real.sin β * (N * Real.sin β)) = 1 ∧
    (N * Real.cos β * Real.sin β - N * Real.sin β * Real.cos β) /
      Real.sqrt (N * Real.cos β * (N * Real.cos β) + N * Real.sin β * (N * Real.sin β)) = 0 := by
  have h1 := Real.cos_sq_add_sin_sq β
  have hs : Real.sqrt (N * Real.cos β * (N * Real.cos β) + N * Real.sin β * (N * Real.sin β))
      = N := by
    rw [show N * Real.cos β * (N * Real.cos β) + N * Real.sin β * (N * Real.sin β) = N ^ 2 by
      linear_combination N ^ 2 * h1]
    exact Real.sqrt_sq hN.le
  refine ⟨?_, hs, ?_, ?_⟩
  · by_contra hcon
    push_neg at hcon
    obtain ⟨e1, e2⟩ := hcon
    have e1' : Real.cos β = 0 := by
      rcases mul_eq_zero.mp e1 with h | h
      · exact absurd h hN.ne'
      · exact h
    have e2' : Real.sin β = 0 := by
      rcases mul_eq_zero.mp e2 with h | h
      · exact absurd h hN.ne'
      · exact h
    rw [e1', e2'] at h1
    norm_num at h1
  · rw [hs]
    field_simp
    linear_combination N * h1
  · rw [hs]
    field_simp
    ring

theorem boneStep_some_inv {K : Type} [LinearOrderedField K] (M : MathUtil K) (div : K → K → K)
    (P spaces lengths : List K) (tangents tip : Bool) (rm tm off : K) (i p : Nat)
    (bone : Bone K) (bx bY : K) (res : Bone K × K × K)
    (h : boneStep M div P spaces lengths false true tangents tip rm tm off i p bone bx bY
      = some res) :
    ∃ x y θ, P[p]? = some x ∧ P[p + 1]? = some y ∧
      angleSource M P spaces tangents i p (x - bx) (y - bY) = some θ := by
  unfold boneStep scaleStep rotateStep at h
  unfold angleSource
  cases hx : P[p]? with
  | none => simp [hx] at h
  | some x =>
    cases hy : P[p + 1]? with
    | none => simp [hx, hy] at h
    | some y =>
      simp only [hx, hy, Option.bind_eq_bind, Option.some_bind, if_true, Bool.false_eq_true,
        if_false, Option.pure_def] at h
      cases hθ : (if tangents = true then P[p - 1]?
          else (spaces[i + 1]?).bind fun sp =>
            if sp < EPSILON then P[p + 2]? else some (M.atan2 (y - bY) (x - bx))) with
      | none =>
        rw [hθ] at h
        simp at h
      | some θ => exact ⟨x, y, θ, rfl, rfl, hθ⟩

/-- At `rotateMix = 1` and `translateMix = 1`, without chain scaling, `boneStep` applied to the
bone it has produced, from the same running point, returns the same bone and the same next
running point. -/
theorem boneStep_idempotent (M : MathUtil ℝ) (hM : M.Exact) (div : ℝ → ℝ → ℝ)
    (P spaces lengths : List ℝ) (tangents tip : Bool) (off : ℝ) (i p : Nat)
    (bone bone1 : Bone ℝ) (bx bY X Y : ℝ) (hne : bone._a ≠ 0 ∨ bone._c ≠ 0)
    (h : boneStep M div P spaces lengths false true tangents tip 1 1 off i p bone bx bY
      = some (bone1, X, Y)) :
    boneStep M div P spaces lengths false true tangents tip 1 1 off i p bone1 bx bY
      = some (bone1, X, Y) := by
  obtain ⟨x, y, θ, hx, hy, hθ⟩ := boneStep_some_inv M div P spaces lengths tangents tip 1 1 off
    i p bone bx bY _ h
  rw [boneStep_rotate M div P spaces lengths tangents tip 1 1 off i p bone bx bY x y θ hx hy hθ]
    at h
  simp only [Option.some.injEq, Prod.mk.injEq] at h
  obtain ⟨hb1, hX, hY⟩ := h
  rw [boneStep_rotate M div P spaces lengths tangents tip 1 1 off i p bone1 bx bY x y θ hx hy hθ]
  -- the direction the bone is turned to
  obtain ⟨β, hβ, hβ'⟩ : ∃ β : ℝ, (∀ α : ℝ, (if tip = true then θ - α else θ - α + off) = β - α) ∧
      (tip = true → β = θ) := by
    cases tip with
    | true => exact ⟨θ, fun α => by simp, fun _ => rfl⟩
    | false => exact ⟨θ + off, fun α => by simp; ring, fun h => by cases h⟩
  obtain ⟨c1, s1, c1', s1'⟩ := Exact.cos_sin_wrap M hM _ β bone._a bone._c hne
    (hβ (M.atan2 bone._c bone._a))
  obtain ⟨t1, t2⟩ := turn_to_direction bone._a bone._c β hne
  have hN := sqrt_sq_pos_of_ne bone._a bone._c hne
  have ha1 : bone1._a = Real.sqrt (bone._a * bone._a + bone._c * bone._c) * Real.cos β := by
    rw [← hb1]
    simp only
    rw [c1, s1, t1]
  have hc1 : bone1._c = Real.sqrt (bone._a * bone._a + bone._c * bone._c) * Real.sin β := by
    rw [← hb1]
    simp only
    rw [c1, s1, t2]
  obtain ⟨d1, d2, d3, d4⟩ := turned_direction _ β hN
  rw [← ha1, ← hc1] at d1 d2 d3 d4
  obtain ⟨c2, s2, c3, s3⟩ := Exact.cos_sin_wrap M hM _ β bone1._a bone1._c d1
    (hβ (M.atan2 bone1._c bone1._a))
  have C2 := c2.trans d3
  have S2 := s2.trans d4
  have C3 := c3.trans d3
  have S3 := s3.trans d4
  rw [C2, S2]
  have hwx : bone1._worldX = bx := by rw [← hb1]; simp only; ring
  have hwy : bone1._worldY = bY := by rw [← hb1]; simp only; ring
  have hdl : bone1.dataLength = bone.dataLength := by rw [← hb1]
  have hav : bone1._appliedValid = false := by rw [← hb1]
  simp only [Option.some.injEq, Prod.mk.injEq]
  refine ⟨?_, ?_, ?_⟩
  · obtain ⟨wx, wy, a, b, c, d, av, dl⟩ := bone1
    simp only at hwx hwy hav
    subst hwx hwy hav
    simp only [Bone.mk.injEq, and_true, true_and]
    refine ⟨by ring, by ring, by ring, by ring, by ring, by ring⟩
  · rw [← hX]
    cases tip with
    | false => rfl
    | true =>
      simp only [if_true] at C3 S3 c1' s1' ⊢
      rw [C3, S3, c1', s1', t1, ← ha1, hdl]
      ring
  · rw [← hY]
    cases tip with
    | false => rfl
    | true =>
      simp only [if_true] at C3 S3 c1' s1' ⊢
      rw [C3, S3, c1', s1', t2, ← hc1, hdl]
      ring

/-- The rotate step keeps the setup length of the bone and the length of its x-axis. -/
theorem boneStep_keeps_length (M : MathUtil ℝ) (hM : M.Exact) (div : ℝ → ℝ → ℝ)
    (P spaces lengths : List ℝ) (tangents tip : Bool) (rm tm off : ℝ) (i p : Nat)
    (bone bone1 : Bone ℝ) (bx bY X Y : ℝ)
    (h : boneStep M div P spaces lengths false true tangents tip rm tm off i p bone bx bY
      = some (bone1, X, Y)) :
    bone1.dataLength = bone.dataLength ∧
    bone1._a * bone1._a + bone1._c * bone1._c = bone._a * bone._a + bone._c * bone._c := by
  obtain ⟨x, y, θ, hx, hy, hθ⟩ := boneStep_some_inv M div P spaces lengths tangents tip rm tm
    off i p bone bx bY _ h
  rw [boneStep_rotate M div P spaces lengths tangents tip rm tm off i p bone bx bY x y θ hx hy
    hθ] at h
  simp only [Option.some.injEq, Prod.mk.injEq] at h
  obtain ⟨hb1, -, -⟩ := h
  rw [← hb1]
  refine ⟨rfl, ?_⟩
  simp only [hM.cos_eq, hM.sin_eq]
  generalize wrapAngle M (if tip = true then θ - M.atan2 bone._c bone._a
    else θ - M.atan2 bone._c bone._a + off) * rm = r
  linear_combination (bone._a * bone._a + bone._c * bone._c) * Real.cos_sq_add_sin_sq r

/-- At `rotateMix = 1` and `translateMix = 1`, without chain scaling, the bone loop run again
on the bones it has produced, over the same buffers, returns the same bones. -/
theorem boneLoop_idempotent (M : MathUtil ℝ) (hM : M.Exact) (div : ℝ → ℝ → ℝ)
    (P spaces lengths : List ℝ) (tangents tip : Bool) (off : ℝ) :
    ∀ (bones : List (Bone ℝ)) (i p : Nat) (bx bY : ℝ) (bones1 : List (Bone ℝ)),
      (∀ b, b ∈ bones → b._a ≠ 0 ∨ b._c ≠ 0) →
      boneLoop M div P spaces lengths false true tangents tip 1 1 off bones i p bx bY
        = some bones1 →
      boneLoop M div P spaces lengths false true tangents tip 1 1 off bones1 i p bx bY
        = some bones1 ∧
      bones1.length = bones.length ∧
      ∀ (j : Nat) (b : Bone ℝ), bones[j]? = some b → ∃ b1 : Bone ℝ, bones1[j]? = some b1 ∧
        b1.dataLength = b.dataLength ∧ b1._a * b1._a + b1._c * b1._c = b._a * b._a + b._c * b._c := by
  intro bones
  induction bones with
  | nil =>
    intro i p bx bY bones1 _ h
    rw [boneLoop] at h
    cases h
    exact ⟨rfl, rfl, fun j b hj => by simp at hj⟩
  | cons b rest ih =>
    intro i p bx bY bones1 hne h
    rw [boneLoop] at h
    cases hs : boneStep M div P spaces lengths false true tangents tip 1 1 off i p b bx bY with
    | none => rw [hs] at h; simp at h
    | some res =>
      obtain ⟨b1, X, Y⟩ := res
      rw [hs] at h
      simp only [Option.bind_eq_bind, Option.some_bind] at h
      cases hr : boneLoop M div P spaces lengths false true tangents tip 1 1 off rest (i + 1)
          (p + 3) X Y with
      | none => rw [hr] at h; simp at h
      | some rest1 =>
        rw [hr] at h
        simp only [Option.some_bind, Option.pure_def, Option.some.injEq] at h
        subst h
        obtain ⟨g1, g2, g3⟩ := ih (i + 1) (p + 3) X Y rest1
          (fun b' hb' => hne b' (List.mem_cons_of_mem _ hb')) hr
        have hstep := boneStep_idempotent M hM div P spaces lengths tangents tip off i p b b1
          bx bY X Y (hne b (List.mem_cons_self _ _)) hs
        refine ⟨?_, by simp [g2], ?_⟩
        · rw [boneLoop, hstep]
          simp only [Option.bind_eq_bind, Option.some_bind]
          rw [g1]
          rfl
        · intro j b' hj
          cases j with
          | zero =>
            simp only [List.getElem?_cons_zero, Option.some.injEq] at hj
            subst hj
            exact ⟨b1, by simp, boneStep_keeps_length M hM div P spaces lengths tangents tip 1 1
              off i p _ b1 bx bY X Y hs⟩
          | succ j =>
            simp only [List.getElem?_cons_succ] at hj
            obtain ⟨b1', h1, h2⟩ := g3 j b' hj
            exact ⟨b1', by simpa using h1, h2⟩


/-- `update` on the straight path `straightPath` for a single bone outside Tangent mode, Fixed
position 10 and spacing entries `[0, v]` with `0 ≤ v ≤ 20`: the samples are `(10, 0)` and
`(10 + v, 0)`, and the call returns what the bone step returns. -/
theorem straightPath_pair (M : MathUtil ℝ) (hM : M.Exact) (fresh : ℕ → ℝ)
    (pc : PathConstraint ℝ)
    (hA : pc._target.attachment = some (Attachment.path (straightPath ℝ)))
    (hpm : pc._data._positionMode = PositionMode.Fixed)
    (hsm : pc._data._spacingMode = SpacingMode.Fixed)
    (hnt : pc._data._rotateMode ≠ RotateMode.Tangent) (hb1 : pc._bones.length = 1)
    (hmix : 0 < pc._translateMix ∨ 0 < pc._rotateMix) (hpos : pc._position = 10)
    (v : ℝ) (hv0 : 0 ≤ v) (hv1 : v ≤ 20) (sp ln : List ℝ)
    (hsp : computeSpaces M (fun x y => x / y) fresh pc = some (sp, ln)) (hspv : sp = [0, v])
    (BGood : List ℝ → Bone ℝ → Bone ℝ → Prop)
    (HB : ∀ (P : List ℝ) (bone : Bone ℝ), P.length = 8 → P[0]? = some 10 → P[1]? = some 0 →
      P[3]? = some (10 + v) → P[4]? = some 0 → pc._bones[0]? = some bone →
      ∃ (bone' : Bone ℝ) (X Y : ℝ),
        boneStep M (fun x y => x / y) P sp ln
          (decide (pc._data._rotateMode = RotateMode.ChainScale)) (decide (pc._rotateMix > 0))
          false (tipAndOffset M pc).1 pc._rotateMix pc._translateMix (tipAndOffset M pc).2 0 3
          bone 10 0 = some (bone', X, Y) ∧ BGood P bone bone') :
    ∃ (P segs : List ℝ) (bone bone' : Bone ℝ), P.length = 8 ∧ pc._bones = [bone] ∧
      BGood P bone bone' ∧
      update M fresh pc = some { pc with _spaces := sp, _lengths := ln, _positions := P, _world := worldOf (straightPath ℝ), _curves := curvesOf M (straightPath ℝ), _segments := segs, _bones := [bone'] } := by
  have hsqrt : ∀ x, 0 ≤ M.sqrt x := fun x => by rw [hM.sqrt_eq]; exact Real.sqrt_nonneg x
  have hS := straightPath_isStraight
  have hsc : (if pc._data._rotateMode = RotateMode.Tangent then pc._bones.length
      else pc._bones.length + 1) = 2 := by rw [if_neg hnt, hb1]
  have hps : decide (pc._data._spacingMode = SpacingMode.Percent) = false := by rw [hsm]; decide
  have hpp : decide (pc._data._positionMode = PositionMode.Percent) = false := by
    rw [hpm]; decide
  have htg : decide (pc._data._rotateMode = RotateMode.Tangent) = false := by simp [hnt]
  obtain ⟨bone, hbone⟩ : ∃ bone, pc._bones = [bone] := by
    match hq : pc._bones, hb1 with
    | [b], _ => exact ⟨b, rfl⟩
  obtain ⟨sp', ln', ws, segs, bones', hsp', hwl, hgood, hbl, hupd, hbones⟩ :=
    update_char M hsqrt fresh pc (straightPath ℝ) hA rfl (by decide) (fun h => by cases h) hmix
    (fun i s => s.position = 10 + (sp.take i).sum ∧ (i = 0 → s.curve = 0) ∧
      (s.curve = 0 ∨ ∃ v, (curvesOf M (straightPath ℝ))[s.curve - 1]? = some v ∧
        v < s.position))
    (fun i w => 0 ≤ 10 + (sp.take (i + 1)).sum →
      10 + (sp.take (i + 1)).sum ≤ (fun k : Nat => 30 * (k : ℝ)) 3 →
      (∀ k, k < 3 → 10 + (sp.take (i + 1)).sum ≤ (fun k : Nat => 30 * (k : ℝ)) (k + 1) →
        (k = 0 ∨ (fun k : Nat => 30 * (k : ℝ)) k < 10 + (sp.take (i + 1)).sum) →
        EPSILON * ((fun k : Nat => 30 * (k : ℝ)) (k + 1) - (fun k : Nat => 30 * (k : ℝ)) k) ≤
          10 + (sp.take (i + 1)).sum - (fun k : Nat => 30 * (k : ℝ)) k) →
      w.1 = 0 + (10 + (sp.take (i + 1)).sum) * 1 ∧
      w.2.1 = 0 + (10 + (sp.take (i + 1)).sum) * 0)
    (fun P j x y => j = 0 → x = 10 ∧ y = 0)
    (fun P j b b' => j = 0 → BGood P b b')
    (by
      intro sp' ln' hsp'
      rw [hsp] at hsp'
      cases hsp'
      constructor
      · intro c
        refine ⟨?_, fun _ => rfl, Or.inl rfl⟩
        show positionIn pc._position _ _ = _
        rw [hpp, hpos]
        simp [positionIn]
      · intro i s w s1 space _ hspace hinv _ hout
        rw [hps] at hspace
        have hspace' : sp[i]? = some space := hspace
        rw [htg] at hout
        exact hS.samples M hM _ 10 sp
          (fun j u hu => by
            rw [hspv] at hu
            cases j with
            | zero =>
              simp only [Nat.zero_add, List.getElem?_cons_succ, List.getElem?_cons_zero,
                Option.some.injEq] at hu
              rw [← hu]; exact hv0
            | succ j => simp at hu)
          i space s w s1 hspace' hinv hout)
    (by
      intro sp' ln' ws hsp' hwl hgood
      rw [hsp] at hsp'
      cases hsp'
      rw [hsc] at hwl ⊢
      rw [hps, htg]
      set P := applyWrites ws 0 (Vector.setSize fresh pc._positions (2 * 3 + 2)) with hP
      have hPl : P.length = 8 := by
        rw [hP, applyWrites_length, Vector.setSize_length]
      have hl0 : 0 < ws.length := by rw [hwl]; decide
      have hl1 : 1 < ws.length := by rw [hwl]; decide
      have hw0 : ws[0]? = some ws[0] := List.getElem?_eq_getElem hl0
      have hw1 : ws[1]? = some ws[1] := List.getElem?_eq_getElem hl1
      obtain ⟨p0, p1, -⟩ := applyWrites_getElem? ws 0
        (Vector.setSize fresh pc._positions (2 * 3 + 2)) 0 _ hw0
        (by rw [Vector.setSize_length, hwl]; omega)
      obtain ⟨p3, p4, -⟩ := applyWrites_getElem? ws 0
        (Vector.setSize fresh pc._positions (2 * 3 + 2)) 1 _ hw1
        (by rw [Vector.setSize_length, hwl]; omega)
      rw [← hP] at p0 p1 p3 p4
      have e1 : (10 : ℝ) + (sp.take (0 + 1)).sum = 10 := by rw [hspv]; simp
      have e2 : (10 : ℝ) + (sp.take (1 + 1)).sum = 10 + v := by rw [hspv]; simp
      have g0 := hgood 0 _ hw0
      have g1 := hgood 1 _ hw1
      beta_reduce at g0 g1
      rw [e1] at g0
      rw [e2] at g1
      obtain ⟨a0, b0⟩ := g0 (by norm_num) (by norm_num)
        (straight_resolved_first 10 (by norm_num) (by norm_num))
      obtain ⟨a1, b1⟩ := g1 (by linarith) (by norm_num; linarith)
        (straight_resolved_first (10 + v) (by linarith) (by linarith))
      rw [a0] at p0
      rw [b0] at p1
      rw [a1] at p3
      rw [b1] at p4
      have q0 : P[0]? = some 10 := by simpa using p0
      have q1 : P[1]? = some 0 := by simpa using p1
      have q3 : P[3]? = some (10 + v) := by simpa using p3
      have q4 : P[4]? = some 0 := by simpa using p4
      constructor
      · intro _
        rw [List.getD_eq_getElem?_getD, List.getD_eq_getElem?_getD, q0, q1]
        exact ⟨rfl, rfl⟩
      · intro j b x y hj hxy
        have hj0 : j = 0 := by
          by_contra hcon
          rw [List.getElem?_eq_none (by omega)] at hj
          cases hj
        subst hj0
        obtain ⟨hx, hy⟩ := hxy rfl
        subst hx hy
        obtain ⟨b', X, Y, hstep, hg⟩ := HB P b hPl q0 q1 q3 q4 hj
        refine ⟨b', X, Y, ?_, fun h => by omega, fun _ => hg⟩
        have hsi : spacesIn sp 2 false (lengthOf M (straightPath ℝ)) = sp := rfl
        rw [hsi]
        exact hstep)
  rw [hsp] at hsp'
  cases hsp'
  rw [hsc, hps] at hupd
  rw [hsc] at hbones
  have hb0 : pc._bones[0]? = some bone := by rw [hbone]; rfl
  obtain ⟨bone', hb', hg⟩ := hbones 0 bone hb0
  have hbs : bones' = [bone'] := by
    rw [hb1] at hbl
    match hq : bones', hbl, hb' with
    | [b], _, hb =>
      simp only [List.getElem?_cons_zero, Option.some.injEq] at hb
      rw [hb]
  rw [hbs] at hupd
  exact ⟨_, segs, bone, bone', by rw [applyWrites_length, Vector.setSize_length], hbone,
    hg rfl, hupd⟩


/-- One call of `update` in ChainScale mode on `straightPath`, Fixed spacing 12 and position 10,
for a single bone of setup length 10 whose x-axis has length `n`: the x-axis of the bone it
leaves has length `6 / 5 * n`. -/
theorem chain_scale_grows (M : MathUtil ℝ) (hM : M.Exact) (fresh : ℕ → ℝ)
    (pc : PathConstraint ℝ)
    (hA : pc._target.attachment = some (Attachment.path (straightPath ℝ)))
    (hdata : pc._data = ⟨SpacingMode.Fixed, RotateMode.ChainScale, PositionMode.Fixed, 0⟩)
    (hpos : pc._position = 10) (hspacing : pc._spacing = 12) (hrm : pc._rotateMix = 1)
    (htm : pc._translateMix = 1) (b : Bone ℝ) (hb : pc._bones = [b])
    (hdl : b.dataLength = 10) (n : ℝ) (hn1 : 1 ≤ n) (hn2 : n ≤ 3 / 2)
    (hnorm : b._a * b._a + b._c * b._c = n * n)
    (hcell : (pc._spaces[0]?).getD (fresh 0) = 0) :
    ∃ (pc1 : PathConstraint ℝ) (b1 : Bone ℝ), update M fresh pc = some pc1 ∧
      pc1._target = pc._target ∧ pc1._data = pc._data ∧ pc1._position = 10 ∧
      pc1._spacing = 12 ∧ pc1._rotateMix = 1 ∧ pc1._translateMix = 1 ∧ pc1._bones = [b1] ∧
      b1.dataLength = 10 ∧ b1._a * b1._a + b1._c * b1._c = (6 / 5 * n) * (6 / 5 * n) ∧
      (pc1._spaces[0]?).getD (fresh 0) = 0 := by
  have hmode : pc._data._rotateMode = RotateMode.ChainScale := by rw [hdata]
  have hE : ¬ ((10 : ℝ) < EPSILON) := by simp only [EPSILON]; norm_num
  have hsq : M.sqrt (10 * b._a * (10 * b._a) + 10 * b._c * (10 * b._c)) = 10 * n := by
    rw [hM.sqrt_eq, show 10 * b._a * (10 * b._a) + 10 * b._c * (10 * b._c) = (10 * n) ^ 2 by
      linear_combination 100 * hnorm]
    exact Real.sqrt_sq (by linarith)
  obtain ⟨sp, ln, hsp, hspl, hsp0, -, -, hloop⟩ :=
    computeSpaces_loop_spec M (fun x y => x / y) fresh pc (Or.inl hmode)
  have hsc : (if pc._data._rotateMode = RotateMode.Tangent then pc._bones.length
      else pc._bones.length + 1) = 2 := by rw [hdata, hb]; rfl
  rw [hsc] at hspl hsp0 hloop
  have h0 : sp[0]? = some 0 := by
    rw [hsp0, Vector.setSize_getElem? _ _ _ _ (by decide), hcell]
  obtain ⟨h1, h2⟩ := hloop 0 b (by decide) (by rw [hb]; rfl)
  have hln : ln[0]? = some (10 * n) := by
    rw [h2 hmode]
    unfold chainLength
    rw [hdl, if_neg hE]
    simp only [hsq]
  have h1' : sp[1]? = some (12 * n) := by
    rw [h1]
    unfold boneSpace
    rw [hdl, if_neg hE, hdata, hspacing]
    simp only [hsq]
    congr 1
    simp
    ring
  have hspeq : sp = [0, 12 * n] := by
    match sp, hspl, h0, h1' with
    | [a, b], _, ha, hb =>
      simp only [List.getElem?_cons_zero, List.getElem?_cons_succ, Option.some.injEq] at ha hb
      rw [ha, hb]
  obtain ⟨P, segs, bone, bone', hPl, hbone, hg, hupd⟩ := straightPath_pair M hM fresh pc hA
    (by rw [hdata]) (by rw [hdata]) (by rw [hmode]; decide) (by rw [hb]; rfl)
    (Or.inl (by rw [htm]; exact zero_lt_one)) hpos (12 * n) (by linarith) (by linarith) sp ln
    hsp hspeq
    (fun _ _ b' => b'.dataLength = 10 ∧
      b'._a * b'._a + b'._c * b'._c = (6 / 5 * n) * (6 / 5 * n))
    (by
      intro P bone hPl q0 q1 q3 q4 hb0
      rw [hb] at hb0
      simp only [List.getElem?_cons_zero, Option.some.injEq] at hb0
      subst hb0
      obtain ⟨bone', r, X, Y, hstep, -, -, -, ha, hc, -, -, -, hdl'⟩ :=
        boneStep_chain_scale M (fun x y => x / y) P sp ln (tipAndOffset M pc).1 pc._rotateMix
          pc._translateMix (tipAndOffset M pc).2 0 3 b 10 0 _ _ _ _ _ q3 q4
          (getElem?_eq_some_getD P 5 (by omega)) h1' hln
      have d1 : decide (pc._data._rotateMode = RotateMode.ChainScale) = true := by simp [hmode]
      have d2 : decide (pc._rotateMix > 0) = true := by rw [hrm]; simp
      refine ⟨bone', X, Y, by rw [d1, d2]; exact hstep, by rw [hdl', hdl], ?_⟩
      have hlen : (10 : ℝ) * n ≥ EPSILON := by
        simp only [EPSILON]
        have : (1 : ℝ) / 100000 ≤ 10 := by norm_num
        nlinarith
      have hs : M.sqrt ((10 + 12 * n - 10) * (10 + 12 * n - 10) + (0 - 0) * (0 - 0)) = 12 * n := by
        rw [hM.sqrt_eq, show (10 + 12 * n - 10) * (10 + 12 * n - 10) + (0 - 0) * (0 - 0) =
          (12 * n) ^ 2 by ring]
        exact Real.sqrt_sq (by linarith)
      rw [if_pos hlen, hs, hrm] at ha hc
      have hfac : (12 * n / (10 * n) - 1) * 1 + 1 = 6 / 5 := by
        have : n ≠ 0 := by linarith
        field_simp
        ring
      rw [hfac, hM.cos_eq, hM.sin_eq] at ha hc
      rw [ha, hc]
      linear_combination (36 / 25 * (b._a * b._a + b._c * b._c)) * Real.cos_sq_add_sin_sq r +
        36 / 25 * hnorm)
  refine ⟨_, bone', hupd, rfl, rfl, hpos, hspacing, hrm, htm, rfl, hg.1, hg.2, ?_⟩
  show (sp[0]?).getD (fresh 0) = 0
  rw [h0]
  rfl

theorem Exact.atan2_zero_nonneg (M : MathUtil ℝ) (hM : M.Exact) (x : ℝ) (hx : 0 ≤ x) :
    M.atan2 0 x = 0 := by
  rw [hM.atan2_eq]
  show Complex.arg ⟨x, 0⟩ = 0
  have : (⟨x, 0⟩ : ℂ) = ((x : ℝ) : ℂ) := rfl
  rw [this]
  exact Complex.arg_ofReal_of_nonneg hx

/-- One call of `update` in Chain mode with offset rotation 90 degrees on `straightPath`, Fixed
spacing 12 and position 10, for a single bone whose x-axis is zero: the y-axis `(b, d)` of the
bone is turned by a quarter turn. -/
theorem flat_bone_quarter_turn (M : MathUtil ℝ) (hM : M.Exact) (fresh : ℕ → ℝ)
    (pc : PathConstraint ℝ)
    (hA : pc._target.attachment = some (Attachment.path (straightPath ℝ)))
    (hdata : pc._data = ⟨SpacingMode.Fixed, RotateMode.Chain, PositionMode.Fixed, 90⟩)
    (htb : pc._target.bone = ⟨0, 0, 1, 0, 0, 1, true, 0⟩)
    (hpos : pc._position = 10) (hspacing : pc._spacing = 12) (hrm : pc._rotateMix = 1)
    (htm : pc._translateMix = 1) (b : Bone ℝ) (hb : pc._bones = [b])
    (ha : b._a = 0) (hc : b._c = 0)
    (hcell : (pc._spaces[0]?).getD (fresh 0) = 0) :
    ∃ (pc1 : PathConstraint ℝ) (b1 : Bone ℝ), update M fresh pc = some pc1 ∧
      pc1._target = pc._target ∧ pc1._data = pc._data ∧ pc1._position = 10 ∧
      pc1._spacing = 12 ∧ pc1._rotateMix = 1 ∧ pc1._translateMix = 1 ∧ pc1._bones = [b1] ∧
      b1._a = 0 ∧ b1._c = 0 ∧ b1._b = -b._d ∧ b1._d = b._b ∧
      (pc1._spaces[0]?).getD (fresh 0) = 0 := by
  have hmode : pc._data._rotateMode = RotateMode.Chain := by rw [hdata]
  have hnc : pc._data._rotateMode ≠ RotateMode.ChainScale := by rw [hmode]; decide
  have hnl : pc._data._spacingMode ≠ SpacingMode.Length := by rw [hdata]; decide
  obtain ⟨sp, ln, hsp, hspl, hsp0, -, hspj⟩ :=
    computeSpaces_total M (fun x y => x / y) fresh pc
  have hsc : (if pc._data._rotateMode = RotateMode.Tangent then pc._bones.length
      else pc._bones.length + 1) = 2 := by rw [hdata, hb]; rfl
  rw [hsc] at hspl hsp0 hspj
  have h0 : sp[0]? = some 0 := by
    rw [hsp0, Vector.setSize_getElem? _ _ _ _ (by decide), hcell]
  have h1 : sp[1]? = some 12 := by
    rw [hspj hnc hnl 0 (by decide), hspacing]
  have hspeq : sp = [0, 12] := by
    match sp, hspl, h0, h1 with
    | [a, b], _, ha, hb =>
      simp only [List.getElem?_cons_zero, List.getElem?_cons_succ, Option.some.injEq] at ha hb
      rw [ha, hb]
  have htip : tipAndOffset M pc = (false, 90 * (Real.pi / 180)) := by
    unfold tipAndOffset
    rw [hdata, htb]
    simp only
    rw [if_neg (by norm_num), if_pos (by norm_num), hM.DegRad_eq]
  obtain ⟨P, segs, bone, bone', hPl, hbone, hg, hupd⟩ := straightPath_pair M hM fresh pc hA
    (by rw [hdata]) (by rw [hdata]) (by rw [hmode]; decide) (by rw [hb]; rfl)
    (Or.inl (by rw [htm]; exact zero_lt_one)) hpos 12 (by norm_num) (by norm_num) sp ln
    hsp hspeq
    (fun _ b0 b' => b'._a = 0 ∧ b'._c = 0 ∧ b'._b = -b0._d ∧ b'._d = b0._b)
    (by
      intro P bone hPl q0 q1 q3 q4 hb0
      rw [hb] at hb0
      simp only [List.getElem?_cons_zero, Option.some.injEq] at hb0
      subst hb0
      have hθ : angleSource M P sp false 0 3 (10 + 12 - 10) (0 - 0) =
          some (M.atan2 (0 - 0) (10 + 12 - 10)) := by
        unfold angleSource
        simp only [Bool.false_eq_true, if_false, Nat.zero_add, h1, Option.bind_eq_bind,
          Option.some_bind]
        rw [if_neg (by simp only [EPSILON]; norm_num)]
        rfl
      have hstep := boneStep_rotate M (fun x y => x / y) P sp ln false (tipAndOffset M pc).1
        pc._rotateMix pc._translateMix (tipAndOffset M pc).2 0 3 b 10 0 _ _ _ q3 q4 hθ
      have d1 : decide (pc._data._rotateMode = RotateMode.ChainScale) = false := by simp [hnc]
      have d2 : decide (pc._rotateMix > 0) = true := by rw [hrm]; simp
      rw [d1, d2]
      refine ⟨_, _, _, hstep, ?_⟩
      have hang : wrapAngle M ((if (tipAndOffset M pc).1 = true
          then M.atan2 (0 - 0) (10 + 12 - 10) - M.atan2 b._c b._a
          else M.atan2 (0 - 0) (10 + 12 - 10) - M.atan2 b._c b._a + (tipAndOffset M pc).2)) *
            pc._rotateMix = Real.pi / 2 := by
        rw [htip, ha, hc, hrm]
        simp only [Bool.false_eq_true, if_false, sub_self]
        rw [Exact.atan2_zero_nonneg M hM _ (by norm_num), Exact.atan2_zero_nonneg M hM _ le_rfl]
        unfold wrapAngle
        rw [hM.PI_eq]
        have hpi := Real.pi_pos
        rw [if_neg (by linarith), if_neg (by linarith)]
        ring
      simp only [hang]
      simp only [hM.cos_eq, hM.sin_eq, Real.cos_pi_div_two, Real.sin_pi_div_two, ha, hc]
      refine ⟨by ring, by ring, by ring, by ring⟩)
  refine ⟨_, bone', hupd, rfl, rfl, hpos, hspacing, hrm, htm, rfl, ?_, ?_, ?_, ?_, ?_⟩
  · exact hg.1
  · exact hg.2.1
  · rw [hg.2.2.1]
    rw [hb] at hbone
    cases hbone
    rfl
  · rw [hg.2.2.2]
    rw [hb] at hbone
    cases hbone
    rfl
  · show (sp[0]?).getD (fresh 0) = 0
    rw [h0]
    rfl


section Lemmas
variable {K : Type} [LinearOrderedField K]

/-- The entries the segment loop appends are not negative, do not decrease, and the last one is
the running `curveLength`. -/
theorem segmentsLoop_chain (M : MathUtil K) (hsqrt : ∀ x, 0 ≤ M.sqrt x) (dddfx dddfy : K) :
    ∀ (n : Nat) (f : FD K) (acc : List K), List.Chain' (· ≤ ·) acc →
      (∀ v, v ∈ acc → 0 ≤ v) → acc.getLast? = some f.curveLength →
      List.Chain' (· ≤ ·) (segmentsLoop M dddfx dddfy n f acc).2 ∧
      (∀ v, v ∈ (segmentsLoop M dddfx dddfy n f acc).2 → 0 ≤ v) ∧
      (segmentsLoop M dddfx dddfy n f acc).2.getLast? =
        some (segmentsLoop M dddfx dddfy n f acc).1.curveLength := by
  intro n
  induction n with
  | zero => intro f acc h1 h2 h3; exact ⟨h1, h2, h3⟩
  | succ n ih =>
    intro f acc h1 h2 h3
    rw [segmentsLoop]
    have h0 : 0 ≤ f.curveLength := h2 _ (List.mem_of_getLast?_eq_some h3)
    apply ih
    · refine List.Chain'.append h1 (List.chain'_singleton _) ?_
      intro x hx y hy
      rw [h3] at hx
      simp only [Option.mem_def, Option.some.injEq] at hx
      simp only [List.head?_cons, Option.mem_def, Option.some.injEq] at hy
      rw [← hx, ← hy]
      exact le_add_of_nonneg_right (hsqrt _)
    · intro v hv
      rcases List.mem_append.mp hv with h | h
      · exact h2 v h
      · simp only [List.mem_singleton] at h
        rw [h]
        exact add_nonneg h0 (hsqrt _)
    · simp

/-- Index form of a chain. -/
theorem chain_getElem? (l : List K) (h : List.Chain' (· ≤ ·) l) (j : Nat) (u v : K)
    (hu : l[j]? = some u) (hv : l[j + 1]? = some v) : u ≤ v := by
  induction l generalizing j with
  | nil => simp at hu
  | cons a rest ih =>
    cases j with
    | zero =>
      cases rest with
      | nil => simp at hv
      | cons b rest' =>
        simp only [List.getElem?_cons_zero, List.getElem?_cons_succ, Option.some.injEq] at hu hv
        rw [← hu, ← hv]
        exact (List.chain'_cons.mp h).1
    | succ j =>
      simp only [List.getElem?_cons_succ] at hu hv
      exact ih (List.Chain'.tail h) j hu hv

/-- The sub-segment table is not negative and does not decrease. -/
theorem segmentLengths_mono (M : MathUtil K) (hsqrt : ∀ x, 0 ≤ M.sqrt x) (sixth : K)
    (c : Ctrl K) :
    (∀ (j : Nat) (v : K), (segmentLengths M sixth c).1[j]? = some v → 0 ≤ v) ∧
    (∀ (j : Nat) (u v : K), (segmentLengths M sixth c).1[j]? = some u →
      (segmentLengths M sixth c).1[j + 1]? = some v → u ≤ v) := by
  have key : List.Chain' (· ≤ ·) (segmentLengths M sixth c).1 ∧
      ∀ v, v ∈ (segmentLengths M sixth c).1 → 0 ≤ v := by
    unfold segmentLengths
    dsimp only
    obtain ⟨h1, h2, h3⟩ := segmentsLoop_chain M hsqrt
      (((c.cx1 - c.cx2) * 3 - c.x1 + c.x2) * (6 / 1000))
      (((c.cy1 - c.cy2) * 3 - c.y1 + c.y2) * (6 / 1000)) 7
      ⟨(c.cx1 - c.x1) * (3 / 10) + (c.x1 - c.cx1 * 2 + c.cx2) * (3 / 100) +
          ((c.cx1 - c.cx2) * 3 - c.x1 + c.x2) * (6 / 1000) * sixth,
        (c.cy1 - c.y1) * (3 / 10) + (c.y1 - c.cy1 * 2 + c.cy2) * (3 / 100) +
          ((c.cy1 - c.cy2) * 3 - c.y1 + c.y2) * (6 / 1000) * sixth,
        (c.x1 - c.cx1 * 2 + c.cx2) * (3 / 100) * 2 +
          ((c.cx1 - c.cx2) * 3 - c.x1 + c.x2) * (6 / 1000),
        (c.y1 - c.cy1 * 2 + c.cy2) * (3 / 100) * 2 +
          ((c.cy1 - c.cy2) * 3 - c.y1 + c.y2) * (6 / 1000),
        M.sqrt (((c.cx1 - c.x1) * (3 / 10) + (c.x1 - c.cx1 * 2 + c.cx2) * (3 / 100) +
            ((c.cx1 - c.cx2) * 3 - c.x1 + c.x2) * (6 / 1000) * sixth) *
          ((c.cx1 - c.x1) * (3 / 10) + (c.x1 - c.cx1 * 2 + c.cx2) * (3 / 100) +
            ((c.cx1 - c.cx2) * 3 - c.x1 + c.x2) * (6 / 1000) * sixth) +
          ((c.cy1 - c.y1) * (3 / 10) + (c.y1 - c.cy1 * 2 + c.cy2) * (3 / 100) +
            ((c.cy1 - c.cy2) * 3 - c.y1 + c.y2) * (6 / 1000) * sixth) *
          ((c.cy1 - c.y1) * (3 / 10) + (c.y1 - c.cy1 * 2 + c.cy2) * (3 / 100) +
            ((c.cy1 - c.cy2) * 3 - c.y1 + c.y2) * (6 / 1000) * sixth))⟩
      [_] (List.chain'_singleton _)
      (fun v hv => by
        simp only [List.mem_singleton] at hv
        rw [hv]
        exact hsqrt _)
      rfl
    have h0 := h2 _ (List.mem_of_getLast?_eq_some h3)
    constructor
    · refine List.Chain'.append h1 ?_ ?_
      · refine List.chain'_cons.mpr ⟨le_add_of_nonneg_right (hsqrt _), List.chain'_singleton _⟩
      · intro x hx y hy
        rw [h3] at hx
        simp only [Option.mem_def, Option.some.injEq] at hx
        simp only [List.head?_cons, Option.mem_def, Option.some.injEq] at hy
        rw [← hx, ← hy]
        exact le_add_of_nonneg_right (hsqrt _)
    · intro v hv
      rcases List.mem_append.mp hv with h | h
      · exact h2 v h
      · simp only [List.mem_cons, List.mem_singleton, List.not_mem_nil, or_false] at h
        rcases h with h | h
        · rw [h]; exact add_nonneg h0 (hsqrt _)
        · rw [h]; exact add_nonneg (add_nonneg h0 (hsqrt _)) (hsqrt _)
  refine ⟨fun j v hv => key.2 v (List.getElem?_mem hv), fun j u v hu hv =>
    chain_getElem? _ key.1 j u v hu hv⟩

end Lemmas

section Lemmas
variable {K : Type} [LinearOrderedField K]

theorem curvePoint_eq_bezier (p x1 cx1 cx2 x2 : K) :
    curvePoint p x1 cx1 cx2 x2 = bezier p x1 cx1 cx2 x2 := by
  unfold curvePoint bezier
  ring

theorem curvePoint_sub_curveLower (p x1 cx1 cx2 x2 : K) :
    curvePoint p x1 cx1 cx2 x2 - curveLower p x1 cx1 cx2 =
      p / 3 * bezierDeriv p x1 cx1 cx2 x2 := by
  unfold curvePoint curveLower bezierDeriv
  ring

theorem clampP_eq_max (M : MathUtil K) (p : K) (h : M.isnan p = false) :
    clampP M p = max p EPSILON := by
  unfold clampP
  rw [h]
  simp only [Bool.false_eq_true, or_false]
  by_cases hp : p < EPSILON
  · rw [if_pos hp, max_eq_right hp.le]
  · rw [if_neg hp, max_eq_left (not_lt.mp hp)]

end Lemmas

section Lemmas
variable {K : Type} [LinearOrderedField K]

/-- The rotate step turns the bone by `relativeRotation * rotateMix`. -/
theorem rotateStep_eq (M : MathUtil K) (P spaces : List K) (tangents tip : Bool)
    (rm off : K) (i p : Nat) (dx dy : K) (bone : Bone K) (bx bY θ : K)
    (hθ : angleSource M P spaces tangents i p dx dy = some θ) :
    rotateStep M P spaces tangents tip rm off i p dx dy bone bx bY =
      some ({ bone with
          _a := M.cos (relativeRotation M tip off θ bone * rm) * bone._a -
            M.sin (relativeRotation M tip off θ bone * rm) * bone._c,
          _b := M.cos (relativeRotation M tip off θ bone * rm) * bone._b -
            M.sin (relativeRotation M tip off θ bone * rm) * bone._d,
          _c := M.sin (relativeRotation M tip off θ bone * rm) * bone._a +
            M.cos (relativeRotation M tip off θ bone * rm) * bone._c,
          _d := M.sin (relativeRotation M tip off θ bone * rm) * bone._b +
            M.cos (relativeRotation M tip off θ bone * rm) * bone._d },
        if tip then bx + (bone.dataLength * (M.cos (θ - M.atan2 bone._c bone._a) * bone._a -
            M.sin (θ - M.atan2 bone._c bone._a) * bone._c) - dx) * rm else bx,
        if tip then bY + (bone.dataLength * (M.sin (θ - M.atan2 bone._c bone._a) * bone._a +
            M.cos (θ - M.atan2 bone._c bone._a) * bone._c) - dy) * rm else bY) := by
  unfold angleSource at hθ
  unfold rotateStep relativeRotation
  simp only [Option.bind_eq_bind, Option.pure_def] at hθ ⊢
  rw [hθ]
  rfl

theorem Exact.atan2_range (M : MathUtil ℝ) (hM : M.Exact) (y x : ℝ) :
    -Real.pi < M.atan2 y x ∧ M.atan2 y x ≤ Real.pi := by
  rw [hM.atan2_eq]
  exact ⟨Complex.neg_pi_lt_arg _, Complex.arg_le_pi _⟩

theorem Exact.tipAndOffset_abs (M : MathUtil ℝ) (hM : M.Exact) (pc : PathConstraint ℝ)
    (hoff : |pc._data._offsetRotation| ≤ 180) : |(tipAndOffset M pc).2| ≤ Real.pi := by
  have hpi := Real.pi_pos
  unfold tipAndOffset
  simp only
  split_ifs with h0 h1
  · rw [h0, abs_zero]; exact hpi.le
  · show |pc._data._offsetRotation * M.DegRad| ≤ Real.pi
    rw [hM.DegRad_eq, abs_mul, abs_of_pos (by positivity : (0 : ℝ) < Real.pi / 180)]
    calc |pc._data._offsetRotation| * (Real.pi / 180) ≤ 180 * (Real.pi / 180) := by gcongr
      _ = Real.pi := by ring
  · show |pc._data._offsetRotation * -M.DegRad| ≤ Real.pi
    rw [hM.DegRad_eq, abs_mul, abs_neg, abs_of_pos (by positivity : (0 : ℝ) < Real.pi / 180)]
    calc |pc._data._offsetRotation| * (Real.pi / 180) ≤ 180 * (Real.pi / 180) := by gcongr
      _ = Real.pi := by ring

/-- The single wrap step brings every value of `(-3 pi, 3 pi)` into `[-pi, pi]`. -/
theorem Exact.wrapAngle_range (M : MathUtil ℝ) (hM : M.Exact) (r : ℝ)
    (h1 : -(3 * Real.pi) < r) (h2 : r < 3 * Real.pi) :
    -Real.pi ≤ wrapAngle M r ∧ wrapAngle M r ≤ Real.pi := by
  unfold wrapAngle
  rw [hM.PI_eq, hM.PI_2_eq]
  split_ifs with h3 h4
  · constructor <;> linarith
  · constructor <;> linarith
  · constructor <;> linarith

end Lemmas

section Lemmas
variable {K : Type} [LinearOrderedField K]

theorem addCurveLength_chords (M : MathUtil K) (pl : K) (c : Ctrl K) :
    addCurveLength M (1 / 6) pl c = pl + chord M c 0 (1 / 4) + chord M c (1 / 4) (2 / 4) +
      chord M c (2 / 4) (3 / 4) + chord M c (3 / 4) (4 / 4) := by
  unfold addCurveLength chord bezier
  dsimp only
  congr 1
  · congr 1
    · congr 1
      · congr 2
        ring
      · congr 1
        ring
    · congr 1
      ring
  · congr 1
    ring

theorem chord_of_diff (M : MathUtil K) (c : Ctrl K) (s t dfx dfy : K)
    (hx : dfx = bezier t c.x1 c.cx1 c.cx2 c.x2 - bezier s c.x1 c.cx1 c.cx2 c.x2)
    (hy : dfy = bezier t c.y1 c.cy1 c.cy2 c.y2 - bezier s c.y1 c.cy1 c.cy2 c.y2) :
    M.sqrt (dfx * dfx + dfy * dfy) = chord M c s t := by
  unfold chord
  rw [← hx, ← hy]
  congr 1
  ring

/-- The forward-difference loop of the sub-segment table, started in the state of step `k`,
appends the direct chord sums of the steps `k + 2 .. k + n + 1`. -/
theorem segmentsLoop_chords (M : MathUtil K) (c : Ctrl K) :
    ∀ (n k : Nat) (f : FD K) (acc : List K),
      f.dfx = bezier (((k : K) + 1) / 10) c.x1 c.cx1 c.cx2 c.x2 -
        bezier ((k : K) / 10) c.x1 c.cx1 c.cx2 c.x2 →
      f.dfy = bezier (((k : K) + 1) / 10) c.y1 c.cy1 c.cy2 c.y2 -
        bezier ((k : K) / 10) c.y1 c.cy1 c.cy2 c.y2 →
      f.ddfx = bezier (((k : K) + 2) / 10) c.x1 c.cx1 c.cx2 c.x2 -
        2 * bezier (((k : K) + 1) / 10) c.x1 c.cx1 c.cx2 c.x2 +
        bezier ((k : K) / 10) c.x1 c.cx1 c.cx2 c.x2 →
      f.ddfy = bezier (((k : K) + 2) / 10) c.y1 c.cy1 c.cy2 c.y2 -
        2 * bezier (((k : K) + 1) / 10) c.y1 c.cy1 c.cy2 c.y2 +
        bezier ((k : K) / 10) c.y1 c.cy1 c.cy2 c.y2 →
      f.curveLength = chordSum M c 10 (k + 1) →
      ∃ g : FD K,
        segmentsLoop M (((c.cx1 - c.cx2) * 3 - c.x1 + c.x2) * (6 / 1000))
          (((c.cy1 - c.cy2) * 3 - c.y1 + c.y2) * (6 / 1000)) n f acc =
          (g, acc ++ (List.range n).map (fun (j : Nat) => chordSum M c 10 (k + j + 2))) ∧
        g.dfx = bezier ((((k + n : Nat) : K) + 1) / 10) c.x1 c.cx1 c.cx2 c.x2 -
          bezier (((k + n : Nat) : K) / 10) c.x1 c.cx1 c.cx2 c.x2 ∧
        g.dfy = bezier ((((k + n : Nat) : K) + 1) / 10) c.y1 c.cy1 c.cy2 c.y2 -
          bezier (((k + n : Nat) : K) / 10) c.y1 c.cy1 c.cy2 c.y2 ∧
        g.ddfx = bezier ((((k + n : Nat) : K) + 2) / 10) c.x1 c.cx1 c.cx2 c.x2 -
          2 * bezier ((((k + n : Nat) : K) + 1) / 10) c.x1 c.cx1 c.cx2 c.x2 +
          bezier (((k + n : Nat) : K) / 10) c.x1 c.cx1 c.cx2 c.x2 ∧
        g.ddfy = bezier ((((k + n : Nat) : K) + 2) / 10) c.y1 c.cy1 c.cy2 c.y2 -
          2 * bezier ((((k + n : Nat) : K) + 1) / 10) c.y1 c.cy1 c.cy2 c.y2 +
          bezier (((k + n : Nat) : K) / 10) c.y1 c.cy1 c.cy2 c.y2 ∧
        g.curveLength = chordSum M c 10 (k + n + 1) := by
  intro n
  induction n with
  | zero =>
    intro k f acc h1 h2 h3 h4 h5
    exact ⟨f, by simp [segmentsLoop], h1, h2, h3, h4, h5⟩
  | succ n ih =>
    intro k f acc h1 h2 h3 h4 h5
    rw [segmentsLoop]
    have e1 : f.dfx + f.ddfx = bezier ((((k + 1 : Nat) : K) + 1) / 10) c.x1 c.cx1 c.cx2 c.x2 -
        bezier (((k + 1 : Nat) : K) / 10) c.x1 c.cx1 c.cx2 c.x2 := by
      rw [h1, h3]; push_cast; unfold bezier; ring
    have e2 : f.dfy + f.ddfy = bezier ((((k + 1 : Nat) : K) + 1) / 10) c.y1 c.cy1 c.cy2 c.y2 -
        bezier (((k + 1 : Nat) : K) / 10) c.y1 c.cy1 c.cy2 c.y2 := by
      rw [h2, h4]; push_cast; unfold bezier; ring
    have e3 : f.ddfx + ((c.cx1 - c.cx2) * 3 - c.x1 + c.x2) * (6 / 1000) =
        bezier ((((k + 1 : Nat) : K) + 2) / 10) c.x1 c.cx1 c.cx2 c.x2 -
        2 * bezier ((((k + 1 : Nat) : K) + 1) / 10) c.x1 c.cx1 c.cx2 c.x2 +
        bezier (((k + 1 : Nat) : K) / 10) c.x1 c.cx1 c.cx2 c.x2 := by
      rw [h3]; push_cast; unfold bezier; ring
    have e4 : f.ddfy + ((c.cy1 - c.cy2) * 3 - c.y1 + c.y2) * (6 / 1000) =
        bezier ((((k + 1 : Nat) : K) + 2) / 10) c.y1 c.cy1 c.cy2 c.y2 -
        2 * bezier ((((k + 1 : Nat) : K) + 1) / 10) c.y1 c.cy1 c.cy2 c.y2 +
        bezier (((k + 1 : Nat) : K) / 10) c.y1 c.cy1 c.cy2 c.y2 := by
      rw [h4]; push_cast; unfold bezier; ring
    have e5 : f.curveLength + M.sqrt ((f.dfx + f.ddfx) * (f.dfx + f.ddfx) +
        (f.dfy + f.ddfy) * (f.dfy + f.ddfy)) = chordSum M c 10 (k + 1 + 1) := by
      rw [chordSum, h5]
      congr 1
      apply chord_of_diff
      · rw [e1]; push_cast; rfl
      · rw [e2]; push_cast; rfl
    obtain ⟨g, hg, g1, g2, g3, g4, g5⟩ := ih (k + 1)
      ⟨f.dfx + f.ddfx, f.dfy + f.ddfy,
        f.ddfx + ((c.cx1 - c.cx2) * 3 - c.x1 + c.x2) * (6 / 1000),
        f.ddfy + ((c.cy1 - c.cy2) * 3 - c.y1 + c.y2) * (6 / 1000),
        f.curveLength + M.sqrt ((f.dfx + f.ddfx) * (f.dfx + f.ddfx) +
          (f.dfy + f.ddfy) * (f.dfy + f.ddfy))⟩
      (acc ++ [f.curveLength + M.sqrt ((f.dfx + f.ddfx) * (f.dfx + f.ddfx) +
          (f.dfy + f.ddfy) * (f.dfy + f.ddfy))]) e1 e2 e3 e4 e5
    have hk : k + 1 + n = k + (n + 1) := by omega
    rw [hk] at g1 g2 g3 g4 g5
    refine ⟨g, ?_, g1, g2, g3, g4, g5⟩
    rw [hg, e5, List.range_succ_eq_map, List.map_cons, List.map_map, List.append_assoc]
    congr 2
    rw [List.singleton_append]
    congr 1
    apply List.map_congr_left
    intro j _
    show chordSum M c 10 (k + 1 + j + 2) = chordSum M c 10 (k + (j + 1) + 2)
    congr 1
    omega


end Lemmas

section Lemmas
variable {K : Type} [LinearOrderedField K]

/-- With `rotateMix = 0` the chain-scale step multiplies by 1: when it returns, it returns the
bone it was given. -/
theorem scaleStep_zero_mix (M : MathUtil K) (div : K → K → K) (lengths : List K) (scale : Bool)
    (i : Nat) (dx dy : K) (bone b : Bone K)
    (h : scaleStep M div lengths scale 0 i dx dy bone = some b) : b = bone := by
  unfold scaleStep at h
  cases scale with
  | false => exact (Option.some.inj h).symm
  | true =>
    simp only [if_true] at h
    cases hl : lengths[i]? with
    | none => rw [hl] at h; cases h
    | some l =>
      rw [hl] at h
      simp only [Option.some_bind, Option.bind_eq_bind, Option.pure_def] at h
      split_ifs at h
      · rw [← Option.some.inj h]
        simp
      · exact (Option.some.inj h).symm

/-- The bone loop with `rotateMix = 0`, whenever it returns: every bone is moved toward the
sample of its index by `translateMix`, its flag is cleared, and nothing else changes. -/
theorem boneLoop_zero_mix (M : MathUtil K) (div : K → K → K)
    (positions spaces lengths : List K) (scale tangents tip : Bool)
    (translateMix offsetRotation : K) :
    ∀ (bones bones' : List (Bone K)) (i p : Nat) (boneX boneY : K), p = 3 * i + 3 →
      positions[3 * i]? = some boneX → positions[3 * i + 1]? = some boneY →
      boneLoop M div positions spaces lengths scale false tangents tip 0
          translateMix offsetRotation bones i p boneX boneY = some bones' →
      bones'.length = bones.length ∧
      ∀ j bone, bones[j]? = some bone → ∃ X Y,
        positions[3 * (i + j)]? = some X ∧ positions[3 * (i + j) + 1]? = some Y ∧
        bones'[j]? = some { bone with
          _worldX := bone._worldX + (X - bone._worldX) * translateMix,
          _worldY := bone._worldY + (Y - bone._worldY) * translateMix,
          _appliedValid := false } := by
  intro bones
  induction bones with
  | nil =>
    intro bones' i p boneX boneY _ _ _ h
    rw [boneLoop] at h
    rw [← Option.some.inj h]
    exact ⟨rfl, fun j bone hj => by simp at hj⟩
  | cons bone rest ih =>
    intro bones' i p boneX boneY hp hx hy h
    rw [boneLoop] at h
    unfold boneStep at h
    simp only [Option.bind_eq_bind, Option.pure_def, Bool.false_eq_true, if_false] at h
    cases hxp : positions[p]? with
    | none => rw [hxp] at h; cases h
    | some x =>
      cases hyp : positions[p + 1]? with
      | none => rw [hxp, hyp] at h; cases h
      | some y =>
        rw [hxp, hyp] at h
        simp only [Option.some_bind] at h
        cases hs : scaleStep M div lengths scale 0 i (x - boneX) (y - boneY)
          { bone with _worldX := bone._worldX + (boneX - bone._worldX) * translateMix,
                      _worldY := bone._worldY + (boneY - bone._worldY) * translateMix } with
        | none => rw [hs] at h; cases h
        | some b =>
          have hb := scaleStep_zero_mix M div lengths scale i _ _ _ b hs
          rw [hs] at h
          simp only [Option.some_bind] at h
          cases hr : boneLoop M div positions spaces lengths scale false tangents tip 0
            translateMix offsetRotation rest (i + 1) (p + 3) x y with
          | none => rw [hr] at h; cases h
          | some rest' =>
            rw [hr] at h
            simp only [Option.some_bind] at h
            obtain ⟨hl, hrest⟩ := ih rest' (i + 1) (p + 3) x y (by omega)
              (by rw [← hxp]; congr 1; omega) (by rw [← hyp]; congr 1; omega) hr
            rw [← Option.some.inj h]
            refine ⟨by simp [hl], ?_⟩
            intro j bn hj
            cases j with
            | zero =>
              simp only [List.getElem?_cons_zero, Option.some.injEq] at hj
              refine ⟨boneX, boneY, hx, hy, ?_⟩
              simp only [List.getElem?_cons_zero, hb, ← hj]
            | succ j =>
              simp only [List.getElem?_cons_succ] at hj ⊢
              obtain ⟨X, Y, h1, h2, h3⟩ := hrest j bn hj
              refine ⟨X, Y, ?_, ?_, h3⟩
              · rw [← h1]; congr 1; omega
              · rw [← h2]; congr 1; omega

/-- The sampler changes scratch buffers only: the bones, the data and the target of the
constraint it returns are those it was given. -/
theorem computeWorldPositions_frame (M : MathUtil K) (fresh : Nat → K) (pc pc2 : PathConstraint K)
    (path : PathAttachment K) (sc : Nat) (tangents pp ps : Bool) (positions : List K)
    (h : computeWorldPositions M fresh pc path sc tangents pp ps = some (positions, pc2)) :
    pc2._bones = pc._bones ∧ pc2._data = pc._data ∧ pc2._target = pc._target ∧
      pc2._lengths = pc._lengths := by
  unfold computeWorldPositions at h
  simp only [Option.bind_eq_bind, Option.pure_def] at h
  cases hc : path.constantSpeed with
  | false =>
    simp only [hc, Bool.not_false, if_true, Option.bind_eq_some] at h
    obtain ⟨_, _, _, _, _, _, _, _, h⟩ := h
    rw [← (Prod.mk.inj (Option.some.inj h)).2]
    exact ⟨rfl, rfl, rfl, rfl⟩
  | true =>
    simp only [hc, Bool.not_true, Bool.false_eq_true, if_false, Option.bind_eq_some] at h
    obtain ⟨⟨_, _, _⟩, _, ⟨_, _, _⟩, _, _, _, _, _, h⟩ := h
    rw [← (Prod.mk.inj (Option.some.inj h)).2]
    exact ⟨rfl, rfl, rfl, rfl⟩

/-- A call of `update` that does not skip and returns went through the three stages. -/
theorem updateWith_some_inv (M : MathUtil K) (div : K → K → K) (fresh : Nat → K)
    (pc pc' : PathConstraint K) (att : PathAttachment K)
    (hA : pc._target.attachment = some (Attachment.path att))
    (hmix : 0 < pc._translateMix ∨ 0 < pc._rotateMix)
    (h : updateWith M div fresh pc = some pc') :
    ∃ (sp ln positions : List K) (pc2 : PathConstraint K) (bx bY : K) (bones : List (Bone K)),
      computeSpaces M div fresh pc = some (sp, ln) ∧
      computeWorldPositions M fresh { pc with _spaces := sp, _lengths := ln } att
        (if pc._data._rotateMode = RotateMode.Tangent then pc._bones.length
          else pc._bones.length + 1)
        (decide (pc._data._rotateMode = RotateMode.Tangent))
        (decide (pc._data._positionMode = PositionMode.Percent))
        (decide (pc._data._spacingMode = SpacingMode.Percent)) = some (positions, pc2) ∧
      positions[0]? = some bx ∧ positions[1]? = some bY ∧
      boneLoop M div positions pc2._spaces pc2._lengths
        (decide (pc._data._rotateMode = RotateMode.ChainScale)) (decide (pc._rotateMix > 0))
        (decide (pc._data._rotateMode = RotateMode.Tangent)) (tipAndOffset M pc2).1
        pc._rotateMix pc._translateMix (tipAndOffset M pc2).2 pc2._bones 0 3 bx bY = some bones ∧
      pc' = { pc2 with _bones := bones } := by
  unfold updateWith at h
  rw [hA] at h
  have hskip : (!decide (pc._translateMix > 0) && !decide (pc._rotateMix > 0)) = false := by
    rcases hmix with h | h <;> simp [h]
  simp only [hskip, Bool.false_eq_true, if_false, Option.bind_eq_bind, Option.pure_def] at h
  cases hsp : computeSpaces M div fresh pc with
  | none => rw [hsp] at h; cases h
  | some r =>
    obtain ⟨sp, ln⟩ := r
    rw [hsp] at h
    simp only [Option.some_bind] at h
    cases hcw : computeWorldPositions M fresh { pc with _spaces := sp, _lengths := ln } att
        (if pc._data._rotateMode = RotateMode.Tangent then pc._bones.length
          else pc._bones.length + 1)
        (decide (pc._data._rotateMode = RotateMode.Tangent))
        (decide (pc._data._positionMode = PositionMode.Percent))
        (decide (pc._data._spacingMode = SpacingMode.Percent)) with
    | none =>
      exfalso
      simp only [decide_eq_true_eq] at h
      rw [hcw] at h
      cases h
    | some r2 =>
      obtain ⟨positions, pc2⟩ := r2
      simp only [decide_eq_true_eq] at h
      rw [hcw] at h
      simp only [Option.some_bind] at h
      cases hx : positions[0]? with
      | none => rw [hx] at h; cases h
      | some bx =>
        cases hy : positions[1]? with
        | none => rw [hx, hy] at h; cases h
        | some bY =>
          rw [hx, hy] at h
          simp only [Option.some_bind] at h
          cases hbl : boneLoop M div positions pc2._spaces pc2._lengths
            (decide (pc._data._rotateMode = RotateMode.ChainScale)) (decide (pc._rotateMix > 0))
            (decide (pc._data._rotateMode = RotateMode.Tangent)) (tipAndOffset M pc2).1
            pc._rotateMix pc._translateMix (tipAndOffset M pc2).2 pc2._bones 0 3 bx bY with
          | none => rw [hbl] at h; cases h
          | some bones =>
            rw [hbl] at h
            exact ⟨sp, ln, positions, pc2, bx, bY, bones, rfl, hcw, hx, hy, hbl,
              (Option.some.inj h).symm⟩

end Lemmas

section Lemmas
variable {K : Type} [LinearOrderedField K]

theorem tipAndOffset_chain (M : MathUtil K) (pc : PathConstraint K)
    (hmode : pc._data._rotateMode = RotateMode.Chain) (hoff : pc._data._offsetRotation = 0) :
    tipAndOffset M pc = (true, 0) := by
  unfold tipAndOffset
  simp only [hoff, if_true, hmode, decide_True]

end Lemmas

section Lemmas

/-- One call of `update` on `tipPc`: the samples are `(10, 0)`, `(22, 0)` and `(34, 0)`; the
running point after bone 0 is the tip `(20, 0)` of the bone, and bone 1 is moved there. -/
theorem tip_chain_two_bones (M : MathUtil ℝ) (hM : M.Exact) :
    ∃ (P segs sp ln : List ℝ) (b0 b1 : Bone ℝ),
      update M (fun _ => 0) (tipPc ℝ) = some { tipPc ℝ with _spaces := sp, _lengths := ln, _positions := P, _world := worldOf (straightPath ℝ), _curves := curvesOf M (straightPath ℝ), _segments := segs, _bones := [b0, b1] } ∧
      P[3]? = some 22 ∧ P[4]? = some 0 ∧ b0._worldX = 10 ∧ b0._worldY = 0 ∧
      b1._worldX = 20 ∧ b1._worldY = 0 := by
  have hsqrt : ∀ x, 0 ≤ M.sqrt x := fun x => by rw [hM.sqrt_eq]; exact Real.sqrt_nonneg x
  have hS := straightPath_isStraight
  have hspc : computeSpaces M (fun x y => x / y) (fun _ => 0) (tipPc ℝ) =
      some ([0, 12, 12], []) := by
    simp [computeSpaces, tipPc, Vector.setSize, fillSpaces, List.range_succ]
  have htip : tipAndOffset M (tipPc ℝ) = (true, 0) := tipAndOffset_chain M _ rfl rfl
  obtain ⟨sp', ln', ws, segs, bones', hsp', hwl, hgood, hbl, hupd, hbones⟩ :=
    update_char M hsqrt (fun _ => 0) (tipPc ℝ) (straightPath ℝ) rfl rfl (by decide)
    (fun h => by cases h) (Or.inl (by show (0 : ℝ) < 1; exact one_pos))
    (fun i s => s.position = 10 + (([0, 12, 12] : List ℝ).take i).sum ∧ (i = 0 → s.curve = 0) ∧
      (s.curve = 0 ∨ ∃ v, (curvesOf M (straightPath ℝ))[s.curve - 1]? = some v ∧
        v < s.position))
    (fun i w => 0 ≤ 10 + (([0, 12, 12] : List ℝ).take (i + 1)).sum →
      10 + (([0, 12, 12] : List ℝ).take (i + 1)).sum ≤ (fun k : Nat => 30 * (k : ℝ)) 3 →
      (∀ k, k < 3 → 10 + (([0, 12, 12] : List ℝ).take (i + 1)).sum ≤
          (fun k : Nat => 30 * (k : ℝ)) (k + 1) →
        (k = 0 ∨ (fun k : Nat => 30 * (k : ℝ)) k <
          10 + (([0, 12, 12] : List ℝ).take (i + 1)).sum) →
        EPSILON * ((fun k : Nat => 30 * (k : ℝ)) (k + 1) - (fun k : Nat => 30 * (k : ℝ)) k) ≤
          10 + (([0, 12, 12] : List ℝ).take (i + 1)).sum - (fun k : Nat => 30 * (k : ℝ)) k) →
      w.1 = 0 + (10 + (([0, 12, 12] : List ℝ).take (i + 1)).sum) * 1 ∧
      w.2.1 = 0 + (10 + (([0, 12, 12] : List ℝ).take (i + 1)).sum) * 0)
    (fun P j x y => P[3]? = some 22 ∧ P[4]? = some 0 ∧ (j = 0 → x = 10 ∧ y = 0) ∧
      (j = 1 → x = 20 ∧ y = 0))
    (fun P j b b' => P[3]? = some 22 ∧ P[4]? = some 0 ∧
      (j = 0 → b'._worldX = 10 ∧ b'._worldY = 0) ∧ (j = 1 → b'._worldX = 20 ∧ b'._worldY = 0))
    (by
      intro sp' ln' hsp'
      rw [hspc] at hsp'
      cases hsp'
      constructor
      · intro c
        refine ⟨?_, fun _ => rfl, Or.inl rfl⟩
        simp [positionIn, tipPc]
      · intro i s w s1 space _ hspace hinv _ hout
        have hspace' : ([0, 12, 12] : List ℝ)[i]? = some space := hspace
        exact hS.samples M hM _ 10 [0, 12, 12]
          (fun j u hu => by
            match j, hu with
            | 0, hu =>
              simp only [Nat.zero_add, List.getElem?_cons_succ, List.getElem?_cons_zero,
                Option.some.injEq] at hu
              rw [← hu]; norm_num
            | 1, hu =>
              simp only [List.getElem?_cons_succ, List.getElem?_cons_zero,
                Option.some.injEq] at hu
              rw [← hu]; norm_num
            | (j + 2), hu => simp at hu)
          i space s w s1 hspace' hinv hout)
    (by
      intro sp' ln' ws hsp' hwl hgood
      rw [hspc] at hsp'
      cases hsp'
      have hsc : (if (tipPc ℝ)._data._rotateMode = RotateMode.Tangent then (tipPc ℝ)._bones.length
          else (tipPc ℝ)._bones.length + 1) = 3 := rfl
      rw [hsc] at hwl ⊢
      set P := applyWrites ws 0 (Vector.setSize (fun _ => (0 : ℝ)) (tipPc ℝ)._positions
        (3 * 3 + 2)) with hP
      have hPl : P.length = 11 := by
        rw [hP, applyWrites_length, Vector.setSize_length]
      have hl0 : 0 < ws.length := by rw [hwl]; decide
      have hl1 : 1 < ws.length := by rw [hwl]; decide
      have hw0 : ws[0]? = some ws[0] := List.getElem?_eq_getElem hl0
      have hw1 : ws[1]? = some ws[1] := List.getElem?_eq_getElem hl1
      obtain ⟨p0, p1, -⟩ := applyWrites_getElem? ws 0
        (Vector.setSize (fun _ => (0 : ℝ)) (tipPc ℝ)._positions (3 * 3 + 2)) 0 _ hw0
        (by rw [Vector.setSize_length, hwl]; omega)
      obtain ⟨p3, p4, -⟩ := applyWrites_getElem? ws 0
        (Vector.setSize (fun _ => (0 : ℝ)) (tipPc ℝ)._positions (3 * 3 + 2)) 1 _ hw1
        (by rw [Vector.setSize_length, hwl]; omega)
      rw [← hP] at p0 p1 p3 p4
      have e1 : (10 : ℝ) + (([0, 12, 12] : List ℝ).take (0 + 1)).sum = 10 := by simp
      have e2 : (10 : ℝ) + (([0, 12, 12] : List ℝ).take (1 + 1)).sum = 22 := by
        simp; norm_num
      have g0 := hgood 0 _ hw0
      have g1 := hgood 1 _ hw1
      beta_reduce at g0 g1
      rw [e1] at g0
      rw [e2] at g1
      obtain ⟨a0, b0⟩ := g0 (by norm_num) (by norm_num)
        (straight_resolved_first 10 (by norm_num) (by norm_num))
      obtain ⟨a1, b1⟩ := g1 (by norm_num) (by norm_num)
        (straight_resolved_first 22 (by norm_num) (by norm_num))
      rw [a0] at p0
      rw [b0] at p1
      rw [a1] at p3
      rw [b1] at p4
      have q0 : P[0]? = some 10 := by simpa using p0
      have q1 : P[1]? = some 0 := by simpa using p1
      have q3 : P[3]? = some 22 := by simpa using p3
      have q4 : P[4]? = some 0 := by simpa using p4
      have q6 : P[6]? = some (P.getD 6 0) := getElem?_eq_some_getD P 6 (by rw [hPl]; decide)
      have q7 : P[7]? = some (P.getD 7 0) := getElem?_eq_some_getD P 7 (by rw [hPl]; decide)
      have hsi : spacesIn [0, 12, 12] 3
          (decide ((tipPc ℝ)._data._spacingMode = SpacingMode.Percent))
          (lengthOf M (straightPath ℝ)) = [0, 12, 12] := rfl
      have d1 : decide ((tipPc ℝ)._data._rotateMode = RotateMode.ChainScale) = false := rfl
      have d2 : decide ((tipPc ℝ)._rotateMix > 0) = true := by
        show decide ((1 : ℝ) > 0) = true
        simp
      have d3 : decide ((tipPc ℝ)._data._rotateMode = RotateMode.Tangent) = false := rfl
      have hrm : (tipPc ℝ)._rotateMix = 1 := rfl
      have htm : (tipPc ℝ)._translateMix = 1 := rfl
      rw [hsi, d1, d2, d3, htip, hrm, htm]
      constructor
      · rw [List.getD_eq_getElem?_getD, List.getD_eq_getElem?_getD, q0, q1]
        exact ⟨q3, q4, fun _ => ⟨rfl, rfl⟩, fun h => by cases h⟩
      · intro j b x y hj hxy
        obtain ⟨-, -, hj0, hj1⟩ := hxy
        match j, hj, hj0, hj1 with
        | 0, hj, hj0, _ =>
          obtain ⟨hx, hy⟩ := hj0 rfl
          subst hx hy
          have hb : b = ⟨0, 0, 1, 0, 0, 1, true, 10⟩ := by
            have : (tipPc ℝ)._bones[0]? = some ⟨0, 0, 1, 0, 0, 1, true, 10⟩ := rfl
            rw [this] at hj
            exact (Option.some.inj hj).symm
          have hθ : angleSource M P [0, 12, 12] false 0 (3 * (0 + 1)) (22 - 10) (0 - 0) =
              some (M.atan2 (0 - 0) (22 - 10)) := by
            unfold angleSource
            simp only [Bool.false_eq_true, if_false, Nat.zero_add, List.getElem?_cons_succ,
              List.getElem?_cons_zero, Option.bind_eq_bind, Option.some_bind]
            rw [if_neg (by simp only [EPSILON]; norm_num)]
            rfl
          have hstep := boneStep_rotate M (fun x y => x / y) P [0, 12, 12] [] false true
            1 1 0 0 (3 * (0 + 1)) b 10 0 22 0 _ q3 q4 hθ
          refine ⟨_, _, _, hstep, ⟨q3, q4, fun h => absurd h (by decide), fun _ => ?_⟩,
            ⟨q3, q4, fun _ => ?_, fun h => by cases h⟩⟩
          · simp only [if_true, hb, sub_self]
            rw [Exact.atan2_zero_nonneg M hM _ (by norm_num),
              Exact.atan2_zero_nonneg M hM _ zero_le_one]
            simp only [sub_self, hM.cos_eq, hM.sin_eq, Real.cos_zero, Real.sin_zero]
            constructor <;> norm_num
          · simp only [hb]
            constructor <;> norm_num
        | 1, hj, _, hj1 =>
          obtain ⟨hx, hy⟩ := hj1 rfl
          subst hx hy
          have hb : b = ⟨0, 0, 1, 0, 0, 1, true, 10⟩ := by
            have : (tipPc ℝ)._bones[1]? = some ⟨0, 0, 1, 0, 0, 1, true, 10⟩ := rfl
            rw [this] at hj
            exact (Option.some.inj hj).symm
          have hθ : angleSource M P [0, 12, 12] false 1 (3 * (1 + 1)) (P.getD 6 0 - 20)
              (P.getD 7 0 - 0) = some (M.atan2 (P.getD 7 0 - 0) (P.getD 6 0 - 20)) := by
            unfold angleSource
            simp only [Bool.false_eq_true, if_false, List.getElem?_cons_succ,
              List.getElem?_cons_zero, Option.bind_eq_bind, Option.some_bind]
            rw [if_neg (by simp only [EPSILON]; norm_num)]
            rfl
          have hstep := boneStep_rotate M (fun x y => x / y) P [0, 12, 12] [] false true
            1 1 0 1 (3 * (1 + 1)) b 20 0 _ _ _ q6 q7 hθ
          refine ⟨_, _, _, hstep, ⟨q3, q4, fun h => absurd h (by decide), fun h => by cases h⟩,
            ⟨q3, q4, fun h => absurd h (by decide), fun _ => ?_⟩⟩
          simp only [hb]
          constructor <;> norm_num
        | (j + 2), hj, _, _ =>
          exfalso
          have : (tipPc ℝ)._bones[j + 2]? = none := rfl
          rw [this] at hj
          cases hj)
  rw [hspc] at hsp'
  cases hsp'
  have hb0 : (tipPc ℝ)._bones[0]? = some ⟨0, 0, 1, 0, 0, 1, true, 10⟩ := rfl
  have hb1 : (tipPc ℝ)._bones[1]? = some ⟨0, 0, 1, 0, 0, 1, true, 10⟩ := rfl
  obtain ⟨b0, hb0', hg0⟩ := hbones 0 _ hb0
  obtain ⟨b1, hb1', hg1⟩ := hbones 1 _ hb1
  have hbs : bones' = [b0, b1] := by
    have hbl2 : bones'.length = 2 := hbl
    match hq : bones', hbl2, hb0', hb1' with
    | [x, y], _, hx, hy =>
      simp only [List.getElem?_cons_zero, List.getElem?_cons_succ, Option.some.injEq] at hx hy
      rw [hx, hy]
  rw [hbs] at hupd
  exact ⟨_, segs, _, _, b0, b1, hupd, hg0.1, hg0.2.1, (hg0.2.2.1 rfl).1, (hg0.2.2.1 rfl).2,
    (hg1.2.2.2 rfl).1, (hg1.2.2.2 rfl).2⟩

end Lemmas

section Lemmas
variable {K : Type} [LinearOrderedField K]

theorem scan_skip (p : K) : ∀ (m : Nat) (l : List K) (k : Nat),
    (∀ j v, j < m → l[j]? = some v → v < p) → m ≤ l.length →
    scan p l k = scan p (l.drop m) (k + m) := by
  intro m
  induction m with
  | zero => intro l k _ _; rfl
  | succ m ih =>
    intro l k h hl
    match l, hl with
    | a :: l', hl =>
      have ha : a < p := h 0 a (by omega) (List.getElem?_cons_zero)
      rw [scan, if_pos ha, ih l' (k + 1)
        (fun j v hj hv => h (j + 1) v (by omega) (by rw [List.getElem?_cons_succ]; exact hv))
        (by simpa using hl)]
      simp only [List.drop_succ_cons]
      congr 1
      omega

/-- A table whose adjacent entries do not decrease is monotone. -/
theorem adjacent_mono (l : List K)
    (h : ∀ (j : Nat) (u v : K), l[j]? = some u → l[j + 1]? = some v → u ≤ v) :
    ∀ (d a : Nat) (u v : K), l[a]? = some u → l[a + d]? = some v → u ≤ v := by
  intro d
  induction d with
  | zero =>
    intro a u v hu hv
    rw [Nat.add_zero, hu] at hv
    exact le_of_eq (Option.some.inj hv)
  | succ d ih =>
    intro a u v hu hv
    have hlt : a + d < l.length := by
      by_contra hcon
      rw [List.getElem?_eq_none (by omega)] at hv
      cases hv
    have hw : l[a + d]? = some l[a + d] := List.getElem?_eq_getElem hlt
    exact le_trans (ih a u _ hu hw) (h (a + d) _ v hw hv)

/-- A search that starts at an index below which every entry is smaller than `p` finds what
the search from index 0 finds. -/
theorem search_restart (table : List K) (p : K) (start k : Nat)
    (hmono : ∀ (j : Nat) (u v : K), table[j]? = some u → table[j + 1]? = some v → u ≤ v)
    (hstart : start = 0 ∨ ∃ v, table[start - 1]? = some v ∧ v < p)
    (h : search table p start = some k) : search table p 0 = some k := by
  rcases hstart with h0 | ⟨v, hv, hvp⟩
  · rw [h0] at h; exact h
  · by_cases h0 : start = 0
    · rw [h0] at h; exact h
    · obtain ⟨h1, h2, -, -⟩ := search_some table p start k h
      unfold search at h ⊢
      rw [List.drop_zero, scan_skip p start table 0 ?_ (by omega), Nat.zero_add]
      · exact h
      · intro j u hj hu
        have e : j + (start - 1 - j) = start - 1 := by omega
        have := adjacent_mono table hmono (start - 1 - j) j u v hu (by rw [e]; exact hv)
        exact lt_of_le_of_lt this hvp

/-- The curve parameter does not decrease with the distance. -/
theorem curveParam_mono (curves : List K)
    (hmono : ∀ (j : Nat) (u v : K), curves[j]? = some u → curves[j + 1]? = some v → u ≤ v)
    (hnn : ∀ (j : Nat) (v : K), curves[j]? = some v → 0 ≤ v)
    (r p : K) (k : Nat) (q0 q : K) (hr : curveParam curves r k = some q0)
    (hp : curveParam curves p k = some q) (hrp : r ≤ p) : q0 ≤ q := by
  unfold curveParam at hr hp
  cases hl : curves[k]? with
  | none => rw [hl] at hr; cases hr
  | some len =>
    rw [hl] at hr hp
    simp only [Option.some_bind, Option.bind_eq_bind, Option.pure_def] at hr hp
    by_cases hk : k = 0
    · rw [if_pos hk] at hr hp
      rw [← Option.some.inj hr, ← Option.some.inj hp]
      exact div_le_div_of_nonneg_right hrp (hnn k len hl)
    · rw [if_neg hk] at hr hp
      cases hq : curves[k - 1]? with
      | none => rw [hq] at hr; cases hr
      | some prev =>
        rw [hq] at hr hp
        simp only [Option.some_bind] at hr hp
        rw [← Option.some.inj hr, ← Option.some.inj hp]
        have hle : prev ≤ len := hmono (k - 1) prev len hq (by
          have e : k - 1 + 1 = k := by omega
          rw [e]; exact hl)
        exact div_le_div_of_nonneg_right (by linarith) (by linarith)

theorem curves_adjacent (M : MathUtil K) (hsqrt : ∀ x, 0 ≤ M.sqrt x) (world curves : List K)
    (n : Nat) (hcurves : curves = (List.range n).map (fun k => pathLengthUpTo M world (k + 1))) :
    (∀ (j : Nat) (u v : K), curves[j]? = some u → curves[j + 1]? = some v → u ≤ v) ∧
    (∀ (j : Nat) (v : K), curves[j]? = some v → 0 ≤ v) := by
  have hget : ∀ (j : Nat) (v : K), curves[j]? = some v → v = pathLengthUpTo M world (j + 1) := by
    intro j v hv
    rw [hcurves, List.getElem?_map] at hv
    by_cases hj : j < n
    · rw [List.getElem?_range hj] at hv
      exact (Option.some.inj hv).symm
    · rw [List.getElem?_eq_none (by simp; omega)] at hv
      cases hv
  constructor
  · intro j u v hu hv
    rw [hget j u hu, hget (j + 1) v hv]
    exact pathLengthUpTo_mono M hsqrt world (j + 1)
  · intro j v hv
    rw [hget j v hv]
    exact pathLengthUpTo_nonneg M hsqrt world (j + 1)

/-- An iteration of the caching sampler whose cached indices are behind the resolved distance
of the sample writes what the from-scratch iteration writes, and leaves cached indices that
are behind that distance. -/
theorem StepOutcome.restart (M : MathUtil K) (hsqrt : ∀ x, 0 ≤ M.sqrt x)
    (closed tangents : Bool) (world curves : List K) (n : Nat)
    (hcurves : curves = (List.range n).map (fun k => pathLengthUpTo M world (k + 1)))
    (i : Nat) (space r : K) (s : Cursor K) (w : K × K × Option K) (s1 : Cursor K)
    (hb : s.Behind M closed world curves r)
    (hr : r ≤ (if closed then wrap M (s.position + space) (pathLengthUpTo M world n)
      else s.position + space))
    (hout : StepOutcome M closed tangents world curves n i space s w s1)
    (t : Cursor K) (ht : t.core = (s.position, 0, 0, NONE)) :
    (∃ t1, StepOutcome M closed tangents world curves n i space t w t1) ∧
    s1.position = s.position + space ∧
    (s1.Behind M closed world curves r ∨
      s1.Behind M closed world curves
        (if closed then wrap M (s.position + space) (pathLengthUpTo M world n)
          else s.position + space)) := by
  simp only [Cursor.core, Prod.mk.injEq] at ht
  obtain ⟨t1, t2, t3, t4⟩ := ht
  obtain ⟨cmono, cnn⟩ := curves_adjacent M hsqrt world curves n hcurves
  unfold StepOutcome at hout
  rcases hout with ⟨hc, hlt, hw, hs1⟩ | ⟨hc, hnlt, hgt, hw, hs1⟩ |
    ⟨p, k, q, j, u, hp, hrange, hk, hkn, hq, hq1, hj, hj9, hu, hw, hs1⟩
  · refine ⟨⟨_, Or.inl ⟨hc, by rw [t1]; exact hlt, by rw [t1]; exact hw, rfl⟩⟩, ?_, Or.inl ?_⟩
    · rw [hs1]
    · rw [hs1]; exact hb
  · refine ⟨⟨_, Or.inr (Or.inl ⟨hc, by rw [t1]; exact hnlt, by rw [t1]; exact hgt,
      by rw [t1]; exact hw, rfl⟩)⟩, ?_, Or.inl ?_⟩
    · rw [hs1]
    · rw [hs1]; exact hb
  · rw [← hp] at hr
    have hk0 : search curves p 0 = some k := by
      cases hcl : closed with
      | true => rw [hcl] at hk; exact hk
      | false =>
        rw [hcl] at hk
        simp only [Bool.false_eq_true, if_false] at hk
        refine search_restart curves p s.curve k cmono ?_ hk
        rcases hb.1 hcl with h0 | ⟨v, hv, hvr⟩
        · exact Or.inl h0
        · exact Or.inr ⟨v, hv, lt_of_lt_of_le hvr hr⟩
    obtain ⟨smono⟩ : Nonempty (∀ (j : Nat) (u v : K), (segmentsOf M world k).1[j]? = some u →
        (segmentsOf M world k).1[j + 1]? = some v → u ≤ v) :=
      ⟨(segmentLengths_mono M hsqrt SIXTH (ctrlAt world k)).2⟩
    have hcl0 : 0 ≤ (segmentsOf M world k).2 :=
      (segmentLengths_spec M hsqrt SIXTH (ctrlAt world k)).2.2
    have hj0 : search (segmentsOf M world k).1 (q * (segmentsOf M world k).2) 0 = some j := by
      by_cases hkp : (k : Int) ≠ s.prevCurve
      · rw [if_pos hkp] at hj; exact hj
      · rw [if_neg hkp] at hj
        refine search_restart _ _ s.segment j smono ?_ hj
        rcases hb.2 k (not_not.mp hkp).symm with h0 | ⟨v, q0, hv, hq0, hvq⟩
        · exact Or.inl h0
        · refine Or.inr ⟨v, hv, lt_of_lt_of_le hvq ?_⟩
          exact mul_le_mul_of_nonneg_right (curveParam_mono curves cmono cnn r p k q0 q hq0 hq hr)
            hcl0
    have hne : (k : Int) ≠ NONE := by
      unfold NONE
      omega
    refine ⟨⟨_, Or.inr (Or.inr ⟨p, k, q, j, u, by rw [t1]; exact hp,
      by rw [t1]; exact hrange, ?_, hkn, hq, hq1, ?_, hj9, hu, hw, rfl⟩)⟩, ?_, Or.inr ?_⟩
    · rw [t2]
      simp only [ite_self]
      exact hk0
    · rw [t4, if_pos hne]
      exact hj0
    · rw [hs1]
    · rw [← hp, hs1]
      constructor
      · intro _
        obtain ⟨-, -, -, hall⟩ := search_some curves p 0 k hk0
        by_cases hz : k = 0
        · exact Or.inl hz
        · exact Or.inr (hall (k - 1) (Nat.zero_le _) (by omega))
      · intro k' hk'
        have hkk : k' = k := by
          have : (k : Int) = (k' : Int) := hk'
          omega
        subst hkk
        obtain ⟨-, -, -, hall⟩ := search_some _ _ 0 j hj0
        by_cases hz : j = 0
        · exact Or.inl hz
        · obtain ⟨v, hv, hvq⟩ := hall (j - 1) (Nat.zero_le _) (by omega)
          exact Or.inr ⟨v, q, hv, hq, hvq⟩

/-- The from-scratch variant of the sampler returns the buffer it started from with one triple
written per sample; what the triples are is determined step by step by `StepOutcome` from the
reset cursor. -/
theorem computeWorldPositionsScratch_char (M : MathUtil K) (hsqrt : ∀ x, 0 ≤ M.sqrt x)
    (fresh : Nat → K) (pc : PathConstraint K) (path : PathAttachment K) (sc : Nat)
    (tangents pp ps : Bool) (hn : 1 ≤ curveCountOf path)
    (hwrap : path.closed = true → ∀ x, wrap M x (lengthOf M path) ≤ lengthOf M path)
    (hsp : sc ≤ pc._spaces.length)
    (Inv : Nat → Cursor K → Prop) (Good : Nat → K × K × Option K → Prop)
    (hinit : ∀ c, Inv 0 ⟨positionIn pc._position pp (lengthOf M path), 0, 0, NONE, 0, c,
      pc._segments, Vector.setSize fresh pc._positions (sc * 3 + 2)⟩)
    (hpres : ∀ i s w s1 space, i < sc →
      (spacesIn pc._spaces sc ps (lengthOf M path))[i]? = some space → Inv i s →
      StepOutcome M path.closed tangents (worldOf path) (curvesOf M path) (curveCountOf path)
        i space { s with curve := 0, segment := 0, prevCurve := NONE } w s1 →
      Inv (i + 1) s1 ∧ Good i w) :
    ∃ (ws : List (K × K × Option K)) (segs : List K), ws.length = sc ∧
      (∀ m w, ws[m]? = some w → Good m w) ∧
      computeWorldPositionsScratch M fresh pc path sc tangents pp ps =
        some (applyWrites ws 0 (Vector.setSize fresh pc._positions (sc * 3 + 2)),
          { pc with _spaces := spacesIn pc._spaces sc ps (lengthOf M path),
                    _positions := applyWrites ws 0 (Vector.setSize fresh pc._positions (sc * 3 + 2)),
                    _world := worldOf path, _curves := curvesOf M path, _segments := segs }) := by
  -- the world buffer
  have hwv : ∃ vlAdj : Int, worldVertices fresh pc path
      = some (worldOf path, vlAdj, (curveCountOf path : Int)) ∧
      (path.closed = false → vlAdj = ((worldOf path).length : Int)) ∧
      curveCountOf path * 6 + 2 ≤ (worldOf path).length := by
    cases hclosed : path.closed with
    | true =>
      have h6 : 6 ≤ path.worldVerticesLength := by
        unfold curveCountOf at hn
        rw [hclosed] at hn
        simp only [if_true] at hn
        omega
      refine ⟨(path.worldVerticesLength : Int) + 2, ?_, ?_, ?_⟩
      · rw [worldVertices_closed fresh pc path hclosed h6]
        unfold curveCountOf
        rw [hclosed]
        simp only [if_true, Int.natCast_ediv, Nat.cast_ofNat]
        rfl
      · intro h; cases h
      · unfold curveCountOf worldOf
        rw [hclosed]
        simp only [if_true, List.length_append, List.length_map, List.length_range,
          List.length_cons, List.length_nil]
        omega
    | false =>
      have h12 : 12 ≤ path.worldVerticesLength := by
        unfold curveCountOf at hn
        rw [hclosed] at hn
        simp only [Bool.false_eq_true, if_false] at hn
        omega
      refine ⟨(path.worldVerticesLength : Int) - 4, ?_, ?_, ?_⟩
      · rw [worldVertices_open fresh pc path hclosed (by omega)]
        unfold curveCountOf
        rw [hclosed]
        simp only [Bool.false_eq_true, if_false]
        congr 3
        have : 1 ≤ path.worldVerticesLength / 6 := by omega
        rw [Int.ofNat_sub this]
        simp
      · intro _
        unfold worldOf
        rw [hclosed]
        simp only [Bool.false_eq_true, if_false, List.length_map, List.length_range]
        omega
      · unfold curveCountOf worldOf
        rw [hclosed]
        simp only [Bool.false_eq_true, if_false, List.length_map, List.length_range]
        omega
  obtain ⟨vlAdj, hwv, hvl, hworld⟩ := hwv
  obtain ⟨c, hcl⟩ := curveLengths_spec M fresh pc (worldOf path) (curveCountOf path) hworld
  have hspl := spacesIn_length pc._spaces sc ps (lengthOf M path)
  -- the loop
  have hcl0 : 0 < (curvesOf M path).length := by
    unfold curvesOf
    simp only [List.length_map, List.length_range]
    omega
  obtain ⟨ws, sfin, hlen, -, hgood, hall⟩ := sampleLoop_char
    (scratchStep M path.closed tangents (worldOf path) (curvesOf M path)
      (spacesIn pc._spaces sc ps (lengthOf M path)) (lengthOf M path) vlAdj) sc
    Inv Good
    (by
      intro i o s hinv hi
      have hex : ∃ space, (spacesIn pc._spaces sc ps (lengthOf M path))[i]? = some space :=
        ⟨_, List.getElem?_eq_getElem (by omega)⟩
      obtain ⟨space, hspace⟩ := hex
      obtain ⟨w, s1, -, hout, hall⟩ := sampleStep_char M hsqrt path.closed tangents
        (worldOf path) (curvesOf M path) (spacesIn pc._spaces sc ps (lengthOf M path))
        (curveCountOf path) hn rfl hworld vlAdj hvl hwrap i o space hspace
        { s with curve := 0, segment := 0, prevCurve := NONE }
        ⟨hcl0, fun h => absurd rfl h⟩
      obtain ⟨hinv1, hg⟩ := hpres i s w s1 space hi hspace hinv hout
      refine ⟨w, s1, hinv1, hg, ?_⟩
      intro P S hP _
      exact hall P S hP (fun h => absurd rfl h))
    sc 0 0
    ⟨positionIn pc._position pp (lengthOf M path), 0, 0, NONE, 0, c, pc._segments,
      Vector.setSize fresh pc._positions (sc * 3 + 2)⟩
    (hinit c)
    (by omega)
  obtain ⟨S', hloop, -⟩ := hall (Vector.setSize fresh pc._positions (sc * 3 + 2)) pc._segments
    (by rw [Vector.setSize_length]; omega) (fun _ => rfl)
  refine ⟨ws, S', hlen, ?_, ?_⟩
  · intro m w h
    have := hgood m w h
    rwa [Nat.zero_add] at this
  · unfold computeWorldPositionsScratch
    simp only [Option.bind_eq_bind]
    rw [hwv]
    simp only [Option.some_bind, Option.bind_eq_bind]
    rw [hcl]
    simp only [Option.some_bind]
    rw [scaleSpaces_eq pc._spaces sc ps _ hsp]
    simp only [Option.some_bind]
    have hloop' : sampleLoop
        (scratchStep M path.closed tangents (worldOf path)
          (List.map (fun k => pathLengthUpTo M (worldOf path) (k + 1))
            (List.range (curveCountOf path)))
          (spacesIn pc._spaces sc ps (pathLengthUpTo M (worldOf path) (curveCountOf path)))
          (pathLengthUpTo M (worldOf path) (curveCountOf path)) vlAdj) sc 0 0
        ⟨if pp = true then pc._position * pathLengthUpTo M (worldOf path) (curveCountOf path)
          else pc._position, 0, 0, NONE, 0, c, pc._segments,
          Vector.setSize fresh pc._positions (sc * 3 + 2)⟩ = _ := hloop
    rw [hloop']
    rfl

end Lemmas

section Lemmas
variable {K : Type} [LinearOrderedField K]

/-- Under resolved distances that do not decrease from one sample to the next, the caching
sampler and its from-scratch variant return, and write the same triples. -/
theorem sampler_matches_scratch (M : MathUtil K) (hsqrt : ∀ x, 0 ≤ M.sqrt x)
    (fresh : Nat → K) (pc : PathConstraint K) (path : PathAttachment K) (sc : Nat)
    (tangents pp ps : Bool) (hcs : path.constantSpeed = true) (hn : 1 ≤ curveCountOf path)
    (hwrap : path.closed = true → ∀ x, wrap M x (lengthOf M path) ≤ lengthOf M path)
    (hsp : sc ≤ pc._spaces.length)
    (hmono : ∀ i, i + 1 < sc →
      resolvedDistance M path.closed (lengthOf M path)
          (positionIn pc._position pp (lengthOf M path))
          (spacesIn pc._spaces sc ps (lengthOf M path)) i ≤
        resolvedDistance M path.closed (lengthOf M path)
          (positionIn pc._position pp (lengthOf M path))
          (spacesIn pc._spaces sc ps (lengthOf M path)) (i + 1)) :
    ∃ (ws : List (K × K × Option K)) (segs segs' : List K), ws.length = sc ∧
      (∀ m w, ws[m]? = some w → ∃ (s s1 : Cursor K) (space : K),
        s.core = (positionIn pc._position pp (lengthOf M path) +
          ((spacesIn pc._spaces sc ps (lengthOf M path)).take m).sum, 0, 0, NONE) ∧
        (spacesIn pc._spaces sc ps (lengthOf M path))[m]? = some space ∧
        StepOutcome M path.closed tangents (worldOf path) (curvesOf M path) (curveCountOf path)
          m space s w s1) ∧
      computeWorldPositions M fresh pc path sc tangents pp ps =
        some (applyWrites ws 0 (Vector.setSize fresh pc._positions (sc * 3 + 2)),
          { pc with _spaces := spacesIn pc._spaces sc ps (lengthOf M path),
                    _positions := applyWrites ws 0 (Vector.setSize fresh pc._positions (sc * 3 + 2)),
                    _world := worldOf path, _curves := curvesOf M path, _segments := segs }) ∧
      computeWorldPositionsScratch M fresh pc path sc tangents pp ps =
        some (applyWrites ws 0 (Vector.setSize fresh pc._positions (sc * 3 + 2)),
          { pc with _spaces := spacesIn pc._spaces sc ps (lengthOf M path),
                    _positions := applyWrites ws 0 (Vector.setSize fresh pc._positions (sc * 3 + 2)),
                    _world := worldOf path, _curves := curvesOf M path, _segments := segs' }) := by
  set pos := positionIn pc._position pp (lengthOf M path) with hpos
  set spaces := spacesIn pc._spaces sc ps (lengthOf M path) with hspaces
  set ρ := resolvedDistance M path.closed (lengthOf M path) pos spaces with hρ
  have hmono' : ∀ d a, a + d < sc → ρ a ≤ ρ (a + d) := by
    intro d
    induction d with
    | zero => intro a _; exact le_rfl
    | succ d ih =>
      intro a ha
      exact le_trans (ih a (by omega)) (hmono (a + d) (by omega))
  have hsum : ∀ (i : Nat) (space : K), spaces[i]? = some space →
      pos + (spaces.take i).sum + space = pos + (spaces.take (i + 1)).sum := by
    intro i space hspace
    have hil : i < spaces.length := by
      by_contra hcon
      rw [List.getElem?_eq_none (by omega)] at hspace
      cases hspace
    rw [List.sum_take_succ spaces i hil]
    rw [List.getElem?_eq_getElem hil] at hspace
    cases hspace
    ring
  have hres : ∀ (i : Nat) (space : K), spaces[i]? = some space →
      (if path.closed = true then wrap M (pos + (spaces.take i).sum + space)
          (pathLengthUpTo M (worldOf path) (curveCountOf path))
        else pos + (spaces.take i).sum + space) = ρ i := by
    intro i space hspace
    rw [hsum i space hspace]
    rfl
  obtain ⟨ws, segs, hwl, hgood, hcw⟩ := computeWorldPositions_char M hsqrt fresh pc path sc
    tangents pp ps hcs hn hwrap hsp
    (fun i s => s.position = pos + (spaces.take i).sum ∧
      ∃ r, (∀ m, i ≤ m → m < sc → r ≤ ρ m) ∧
        s.Behind M path.closed (worldOf path) (curvesOf M path) r)
    (fun i w => ∃ (s s1 : Cursor K) (space : K),
        s.core = (pos + (spaces.take i).sum, 0, 0, NONE) ∧ spaces[i]? = some space ∧
        StepOutcome M path.closed tangents (worldOf path) (curvesOf M path) (curveCountOf path)
          i space s w s1)
    (by
      intro c
      refine ⟨by simp, ρ 0, ?_, ?_, ?_⟩
      · intro m _ hm
        have := hmono' m 0 (by omega)
        rwa [Nat.zero_add] at this
      · intro _; exact Or.inl rfl
      · intro k hk
        exfalso
        have : NONE = (k : Int) := hk
        unfold NONE at this
        omega)
    (by
      intro i s w s1 space hi hspace ⟨hp, r, hr, hb⟩ _ hout
      have hri := hres i space hspace
      rw [← hp] at hri
      obtain ⟨⟨t1, ht1⟩, hp1, hb1⟩ := StepOutcome.restart M hsqrt path.closed tangents
        (worldOf path) (curvesOf M path) (curveCountOf path) rfl i space r s w s1 hb
        (by rw [hri]; exact hr i le_rfl hi) hout
        { s with curve := 0, segment := 0, prevCurve := NONE } rfl
      refine ⟨⟨by rw [hp1, hp]; exact hsum i space hspace, ?_⟩,
        ⟨_, t1, space, by rw [← hp]; rfl, hspace, ht1⟩⟩
      rcases hb1 with hb1 | hb1
      · exact ⟨r, fun m hm1 hm2 => hr m (by omega) hm2, hb1⟩
      · rw [hri] at hb1
        refine ⟨ρ i, fun m hm1 hm2 => ?_, hb1⟩
        have := hmono' (m - i) i (by omega)
        have e : i + (m - i) = m := by omega
        rwa [e] at this)
  obtain ⟨ws', segs', hwl', hgood', hcw'⟩ := computeWorldPositionsScratch_char M hsqrt fresh pc
    path sc tangents pp ps hn hwrap hsp
    (fun i s => s.position = pos + (spaces.take i).sum)
    (fun i w => ∃ (s s1 : Cursor K) (space : K),
        s.core = (pos + (spaces.take i).sum, 0, 0, NONE) ∧ spaces[i]? = some space ∧
        StepOutcome M path.closed tangents (worldOf path) (curvesOf M path) (curveCountOf path)
          i space s w s1)
    (by intro c; simp)
    (by
      intro i s w s1 space hi hspace hp hout
      have hri := hres i space hspace
      rw [← hp] at hri
      obtain ⟨-, hp1, -⟩ := StepOutcome.restart M hsqrt path.closed tangents
        (worldOf path) (curvesOf M path) (curveCountOf path) rfl i space (ρ i)
        { s with curve := 0, segment := 0, prevCurve := NONE } w s1
        ⟨fun _ => Or.inl rfl, fun k hk => by
          exfalso
          have : NONE = (k : Int) := hk
          unfold NONE at this
          omega⟩
        (by rw [← hri]) hout
        { s with curve := 0, segment := 0, prevCurve := NONE } rfl
      refine ⟨by show s1.position = _; rw [hp1]; show s.position + space = _; rw [hp]; exact hsum i space hspace,
        ⟨_, s1, space, by rw [← hp]; rfl, hspace, hout⟩⟩)
  have hws : ws' = ws := by
    apply List.ext_getElem?
    intro m
    by_cases hm : m < sc
    · have e1 : ws[m]? = some ws[m] := List.getElem?_eq_getElem (by omega)
      have e2 : ws'[m]? = some ws'[m] := List.getElem?_eq_getElem (by omega)
      obtain ⟨sA, sA1, spA, hcA, hsA, hoA⟩ := hgood m _ e1
      obtain ⟨sB, sB1, spB, hcB, hsB, hoB⟩ := hgood' m _ e2
      rw [hsA] at hsB
      cases hsB
      rw [e1, e2]
      congr 1
      exact (StepOutcome.functional M _ _ _ _ _ m spA sB sA _ _ sB1 sA1 hoB hoA
        (by rw [hcA, hcB])).1
    · rw [List.getElem?_eq_none (by omega), List.getElem?_eq_none (by omega)]
  rw [hws] at hcw'
  exact ⟨ws, segs, segs', hwl, hgood, hcw, hcw'⟩

end Lemmas

section Lemmas

/-- One iteration of the caching sampler on a straight path whose cached curve `k0` starts
beyond the distance of the sample: the search keeps curve `k0`, the curve parameter is
negative, and the sample is taken at the clamped parameter `EPSILON` of curve `k0`. -/
theorem StraightPath.stale_step (M : MathUtil ℝ) (hM : M.Exact)
    {path : PathAttachment ℝ} {n : Nat} {x0 y0 ux uy : ℝ}
    {e : Nat → ℝ} (hS : StraightPath path n x0 y0 ux uy e)
    (tangents : Bool) (i : Nat) (space : ℝ) (s : Cursor ℝ) (w : ℝ × ℝ × Option ℝ)
    (s1 : Cursor ℝ) (k0 : Nat) (hk0 : 0 < k0) (hc : s.curve = k0)
    (hlen : e k0 < e (k0 + 1)) (h0 : 0 ≤ s.position + space)
    (hlt : s.position + space < e k0) (hle : s.position + space ≤ e n)
    (hout : StepOutcome M false tangents (worldOf path) (curvesOf M path) n i space s w s1) :
    s1.position = s.position + space ∧ s1.curve = k0 ∧
    w.1 = x0 + (e k0 + EPSILON * (e (k0 + 1) - e k0)) * ux ∧
    w.2.1 = y0 + (e k0 + EPSILON * (e (k0 + 1) - e k0)) * uy := by
  have hsq := hM.sqrt_eq
  rcases hout with ⟨-, hneg, -, -⟩ | ⟨-, -, hgt, -, -⟩ | ⟨p, k, q, j, t, hp, -, hsearch, hkn, hq,
    -, hj, hj9, ht, hw, hs1⟩
  · exact absurd hneg (not_lt.mpr h0)
  · rw [hS.pathLengthUpTo_eq M hsq n (le_refl _)] at hgt
    exact absurd hgt (not_lt.mpr hle)
  · simp only [Bool.false_eq_true, if_false] at hp hsearch
    subst hp
    rw [hc] at hsearch
    obtain ⟨hsk, -, -, hbelow⟩ := search_some _ _ _ _ hsearch
    have hk : k = k0 := by
      by_contra hne
      obtain ⟨v, hv, hvp⟩ := hbelow k0 le_rfl (by omega)
      rw [hS.curvesOf_getElem? M hsq k0 (by omega)] at hv
      cases hv
      linarith
    subst hk
    have hqe : q = (s.position + space - e k) / (e (k + 1) - e k) := by
      refine curveParam_of_table _ _ k (e k) (e (k + 1)) q (hS.curvesOf_getElem? M hsq k hkn)
        (fun h => by omega) (fun m hm => ?_) hq
      rw [hS.curvesOf_getElem? M hsq m (by omega), hm]
    have hpos : 0 < e (k + 1) - e k := sub_pos.mpr hlen
    have hqneg : q < 0 := by
      rw [hqe]
      exact div_neg_of_neg_of_pos (by linarith) hpos
    rw [hS.segmentsOf_eq M hsq k hkn] at ht
    simp only at ht
    rw [segmentParam_even _ _ (by positivity) j hj9] at ht
    cases ht
    have ht1 : q * (10 * ((e (k + 1) - e k) * (1 / 10))) / ((e (k + 1) - e k) * (1 / 10)) *
        (1 / 10) = q := by
      field_simp
      ring
    have hclamp : clampP M (q * (10 * ((e (k + 1) - e k) * (1 / 10))) /
        ((e (k + 1) - e k) * (1 / 10)) * (1 / 10)) = EPSILON := by
      rw [ht1]
      unfold clampP
      rw [if_pos (Or.inl (lt_trans hqneg EPSILON_pos))]
    rw [hw, hs1, hS.ctrlAt_eq k hkn]
    unfold curveTriple
    simp only
    rw [hclamp, curvePoint_even, curvePoint_even]
    refine ⟨trivial, trivial, ?_, ?_⟩ <;> ring

/-- The two samplers on `backwardPc`: the sample of index 1, at distance 20, is written at
`x = 30 + 30 * EPSILON` by the caching sampler, which keeps the cached curve 1, and at `x = 20`
by the from-scratch variant. -/
theorem backward_sample (M : MathUtil ℝ) (hM : M.Exact) :
    ∃ (P1 P2 : List ℝ) (pc1 pc2 : PathConstraint ℝ),
      computeWorldPositions M (fun _ => 0) (backwardPc ℝ) (straightPath ℝ) 2 true false false =
        some (P1, pc1) ∧
      computeWorldPositionsScratch M (fun _ => 0) (backwardPc ℝ) (straightPath ℝ) 2 true false
        false = some (P2, pc2) ∧
      P1[3]? = some (30 + EPSILON * 30) ∧ P2[3]? = some 20 := by
  have hsqrt : ∀ x, 0 ≤ M.sqrt x := fun x => by rw [hM.sqrt_eq]; exact Real.sqrt_nonneg x
  have hsq := hM.sqrt_eq
  have hS := straightPath_isStraight
  have hsp0 : (spacesIn (backwardPc ℝ)._spaces 2 false (lengthOf M (straightPath ℝ)))[0]? =
      some 0 := rfl
  have hsp1 : (spacesIn (backwardPc ℝ)._spaces 2 false (lengthOf M (straightPath ℝ)))[1]? =
      some (-20 : ℝ) := rfl
  have hcc : curveCountOf (straightPath ℝ) = 3 := hS.curveCountOf_eq
  obtain ⟨ws, segs, hwl, hgood, hcw⟩ := computeWorldPositions_char M hsqrt (fun _ => 0)
    (backwardPc ℝ) (straightPath ℝ) 2 true false false rfl (by decide) (fun h => by cases h)
    (by show 2 ≤ 2; exact le_rfl)
    (fun i s => (i = 0 → s.position = 40 ∧ s.curve = 0) ∧
      (i = 1 → s.position = 40 ∧ s.curve = 1))
    (fun i w => i = 1 → w.1 = 30 + EPSILON * 30)
    (by
      intro c
      exact ⟨fun _ => ⟨rfl, rfl⟩, fun h => absurd h (by decide)⟩)
    (by
      intro i s w s1 space hi hspace hinv _ hout
      rw [hcc] at hout
      have hout' : StepOutcome M false true (worldOf (straightPath ℝ))
        (curvesOf M (straightPath ℝ)) 3 i space s w s1 := hout
      match i, hi, hspace, hinv, hout' with
      | 0, _, hspace, hinv, hout =>
        rw [hsp0] at hspace
        cases hspace
        obtain ⟨hp, hc⟩ := hinv.1 rfl
        refine ⟨⟨fun h => absurd h (by decide), fun _ => ?_⟩, fun h => absurd h (by decide)⟩
        rcases hout with ⟨-, hneg, -, -⟩ | ⟨-, -, hgt, -, -⟩ |
          ⟨p, k, q, j, t, hp', -, hsearch, hkn, -, -, -, -, -, -, hs1⟩
        · rw [hp] at hneg; norm_num at hneg
        · rw [hS.pathLengthUpTo_eq M hsq 3 (le_refl _), hp] at hgt
          norm_num at hgt
        · simp only [Bool.false_eq_true, if_false] at hp' hsearch
          rw [hp] at hp'
          subst hp'
          obtain ⟨-, -, ⟨v, hv, hpv⟩, hbelow⟩ := search_some _ _ _ _ hsearch
          rw [hS.curvesOf_getElem? M hsq k hkn] at hv
          cases hv
          have hk : k = 1 := by
            interval_cases k
            · norm_num at hpv
            · rfl
            · obtain ⟨v, hv, hvp⟩ := hbelow 1 (by omega) (by omega)
              rw [hS.curvesOf_getElem? M hsq 1 (by omega)] at hv
              cases hv
              norm_num at hvp
          rw [hs1, hk, hp]
          exact ⟨by norm_num, rfl⟩
      | 1, _, hspace, hinv, hout =>
        rw [hsp1] at hspace
        cases hspace
        obtain ⟨hp, hc⟩ := hinv.2 rfl
        obtain ⟨-, -, hw, -⟩ := hS.stale_step M hM true 1 (-20) s w s1 1 (by decide) hc
          (by norm_num) (by rw [hp]; norm_num) (by rw [hp]; norm_num) (by rw [hp]; norm_num)
          hout
        refine ⟨⟨fun h => absurd h (by decide), fun h => absurd h (by decide)⟩, fun _ => ?_⟩
        rw [hw]
        norm_num)
  obtain ⟨ws', segs', hwl', hgood', hcw'⟩ := computeWorldPositionsScratch_char M hsqrt
    (fun _ => 0) (backwardPc ℝ) (straightPath ℝ) 2 true false false (by decide)
    (fun h => by cases h) (by show 2 ≤ 2; exact le_rfl)
    (fun i s => (i = 0 → s.position = 40) ∧ (i = 1 → s.position = 40))
    (fun i w => i = 1 → w.1 = 20)
    (by
      intro c
      exact ⟨fun _ => rfl, fun h => absurd h (by decide)⟩)
    (by
      intro i s w s1 space hi hspace hinv hout
      rw [hcc] at hout
      have hout' : StepOutcome M false true (worldOf (straightPath ℝ))
        (curvesOf M (straightPath ℝ)) 3 i space
        { s with curve := 0, segment := 0, prevCurve := NONE } w s1 := hout
      match i, hi, hspace, hinv, hout' with
      | 0, _, hspace, hinv, hout =>
        rw [hsp0] at hspace
        cases hspace
        have hp := hinv.1 rfl
        obtain ⟨h1, -, -⟩ := hS.step M hM true 0 0
          { s with curve := 0, segment := 0, prevCurve := NONE } w s1 (Or.inl rfl) hout
        refine ⟨⟨fun h => absurd h (by decide), fun _ => ?_⟩, fun h => absurd h (by decide)⟩
        rw [h1]
        show s.position + 0 = 40
        rw [hp, add_zero]
      | 1, _, hspace, hinv, hout =>
        rw [hsp1] at hspace
        cases hspace
        have hp := hinv.2 rfl
        obtain ⟨-, -, h3⟩ := hS.step M hM true 1 (-20)
          { s with curve := 0, segment := 0, prevCurve := NONE } w s1 (Or.inl rfl) hout
        have hp' : ({ s with curve := 0, segment := 0, prevCurve := NONE } : Cursor ℝ).position +
            (-20) = 20 := by
          show s.position + (-20) = 20
          rw [hp]; norm_num
        rw [hp'] at h3
        obtain ⟨hw, -⟩ := h3 (by norm_num) (by norm_num)
          (straight_resolved_first 20 (by norm_num) (by norm_num))
        refine ⟨⟨fun h => absurd h (by decide), fun h => absurd h (by decide)⟩, fun _ => ?_⟩
        rw [hw]
        norm_num)
  have hl1 : 1 < ws.length := by rw [hwl]; decide
  have hl1' : 1 < ws'.length := by rw [hwl']; decide
  have hw1 : ws[1]? = some ws[1] := List.getElem?_eq_getElem hl1
  have hw1' : ws'[1]? = some ws'[1] := List.getElem?_eq_getElem hl1'
  obtain ⟨p3, -, -⟩ := applyWrites_getElem? ws 0
    (Vector.setSize (fun _ => (0 : ℝ)) (backwardPc ℝ)._positions (2 * 3 + 2)) 1 _ hw1
    (by rw [Vector.setSize_length, hwl]; omega)
  obtain ⟨p3', -, -⟩ := applyWrites_getElem? ws' 0
    (Vector.setSize (fun _ => (0 : ℝ)) (backwardPc ℝ)._positions (2 * 3 + 2)) 1 _ hw1'
    (by rw [Vector.setSize_length, hwl']; omega)
  rw [hgood 1 _ hw1 rfl] at p3
  rw [hgood' 1 _ hw1' rfl] at p3'
  exact ⟨_, _, _, _, hcw, hcw', p3, p3'⟩

end Lemmas

section Lemmas
variable {K : Type} [LinearOrderedField K]

/-- The first `n + 1` iterations of a sampling loop are the first `n` followed by one more. -/
theorem sampleLoop_snoc {σ : Type} (step : Nat → Nat → σ → Option σ) :
    ∀ (n i o : Nat) (s : σ), sampleLoop step (n + 1) i o s =
      (sampleLoop step n i o s).bind (fun t => step (i + n) (o + 3 * n) t) := by
  intro n
  induction n with
  | zero =>
    intro i o s
    simp only [sampleLoop, Option.bind_eq_bind, Option.some_bind, Nat.add_zero, Nat.mul_zero]
    cases step i o s <;> rfl
  | succ n ih =>
    intro i o s
    rw [sampleLoop]
    simp only [Option.bind_eq_bind]
    cases h : step i o s with
    | none => simp [sampleLoop, h]
    | some t =>
      simp only [Option.some_bind]
      rw [ih (i + 1) (o + 3) t]
      conv_rhs => rw [sampleLoop]
      simp only [Option.bind_eq_bind, h, Option.some_bind]
      congr 1
      funext u
      congr 1 <;> omega

/-- What a search started behind the distance finds: the first entry that reaches `p`; the
entry before it is smaller than `p`, and the normalised parameter lies in `[0, 1]`. -/
theorem search_contains (table : List K) (p : K) (start k : Nat) (hp : 0 ≤ p)
    (hbehind : ∀ j, j < start → ∃ v, table[j]? = some v ∧ v < p)
    (h : search table p start = some k) :
    (k = 0 ∨ ∃ v, table[k - 1]? = some v ∧ v < p) ∧ (∃ v, table[k]? = some v ∧ p ≤ v) ∧
    (∀ j, j < k → ∃ v, table[j]? = some v ∧ v < p) ∧
    ∃ q, curveParam table p k = some q ∧ 0 ≤ q ∧ q ≤ 1 := by
  obtain ⟨h1, h2, ⟨v, hv, hpv⟩, hall⟩ := search_some table p start k h
  have hbelow : ∀ j, j < k → ∃ v, table[j]? = some v ∧ v < p := by
    intro j hj
    by_cases hjs : j < start
    · exact hbehind j hjs
    · exact hall j (by omega) hj
  have hprev : k = 0 ∨ ∃ v, table[k - 1]? = some v ∧ v < p := by
    by_cases hk : k = 0
    · exact Or.inl hk
    · exact Or.inr (hbelow (k - 1) (by omega))
  refine ⟨hprev, ⟨v, hv, hpv⟩, hbelow, ?_⟩
  unfold curveParam
  rw [hv]
  simp only [Option.some_bind, Option.bind_eq_bind, Option.pure_def]
  by_cases hk : k = 0
  · rw [if_pos hk]
    exact ⟨_, rfl, div_nonneg hp (le_trans hp hpv), div_le_one_of_le₀ hpv (le_trans hp hpv)⟩
  · rw [if_neg hk]
    rcases hprev with h0 | ⟨u, hu, hup⟩
    · exact absurd h0 hk
    · rw [hu]
      simp only [Option.some_bind]
      have hd : 0 < v - u := by linarith
      exact ⟨_, rfl, div_nonneg (by linarith) hd.le, div_le_one_of_le₀ (by linarith) hd.le⟩

/-- The world buffer of the constant-speed branch is `worldOf path`, with the adjusted values
of `verticesLength` and `curveCount`. -/
theorem worldVertices_spec (fresh : Nat → K) (pc : PathConstraint K) (path : PathAttachment K)
    (hn : 1 ≤ curveCountOf path) :
    ∃ vlAdj : Int, worldVertices fresh pc path
      = some (worldOf path, vlAdj, (curveCountOf path : Int)) ∧
      (path.closed = false → vlAdj = ((worldOf path).length : Int)) ∧
      curveCountOf path * 6 + 2 ≤ (worldOf path).length := by
  cases hclosed : path.closed with
  | true =>
    have h6 : 6 ≤ path.worldVerticesLength := by
      unfold curveCountOf at hn
      rw [hclosed] at hn
      simp only [if_true] at hn
      omega
    refine ⟨(path.worldVerticesLength : Int) + 2, ?_, ?_, ?_⟩
    · rw [worldVertices_closed fresh pc path hclosed h6]
      unfold curveCountOf
      rw [hclosed]
      simp only [if_true, Int.natCast_ediv, Nat.cast_ofNat]
      rfl
    · intro h; cases h
    · unfold curveCountOf worldOf
      rw [hclosed]
      simp only [if_true, List.length_append, List.length_map, List.length_range,
        List.length_cons, List.length_nil]
      omega
  | false =>
    have h12 : 12 ≤ path.worldVerticesLength := by
      unfold curveCountOf at hn
      rw [hclosed] at hn
      simp only [Bool.false_eq_true, if_false] at hn
      omega
    refine ⟨(path.worldVerticesLength : Int) - 4, ?_, ?_, ?_⟩
    · rw [worldVertices_open fresh pc path hclosed (by omega)]
      unfold curveCountOf
      rw [hclosed]
      simp only [Bool.false_eq_true, if_false]
      congr 3
      have : 1 ≤ path.worldVerticesLength / 6 := by omega
      rw [Int.ofNat_sub this]
      simp
    · intro _
      unfold worldOf
      rw [hclosed]
      simp only [Bool.false_eq_true, if_false, List.length_map, List.length_range]
      omega
    · unfold curveCountOf worldOf
      rw [hclosed]
      simp only [Bool.false_eq_true, if_false, List.length_map, List.length_range]
      omega

end Lemmas

section Lemmas
variable {K : Type} [LinearOrderedField K]

/-- The cursor the caching sampler holds before sample `i`, when the resolved distances do not
decrease: its running distance, its validity, and cached indices that are behind the resolved
distances still to come. -/
theorem sampler_prefix (M : MathUtil K) (hsqrt : ∀ x, 0 ≤ M.sqrt x) (closed tangents : Bool)
    (world curves spaces : List K) (n : Nat) (hn : 1 ≤ n)
    (hcurves : curves = (List.range n).map (fun k => pathLengthUpTo M world (k + 1)))
    (hworld : n * 6 + 2 ≤ world.length) (verticesLength : Int)
    (hvl : closed = false → verticesLength = (world.length : Int))
    (hwrap : closed = true → ∀ x, wrap M x (pathLengthUpTo M world n) ≤ pathLengthUpTo M world n)
    (pos : K) (sc : Nat) (hsc : sc ≤ spaces.length)
    (hmono : ∀ i, i + 1 < sc →
      resolvedDistance M closed (pathLengthUpTo M world n) pos spaces i ≤
        resolvedDistance M closed (pathLengthUpTo M world n) pos spaces (i + 1))
    (i : Nat) (hi : i ≤ sc) (c : Ctrl K) (S0 P0 : List K) (hP0 : sc * 3 + 2 ≤ P0.length)
    (s : Cursor K)
    (hrun : sampleLoop (sampleStep M closed tangents world curves spaces
      (pathLengthUpTo M world n) verticesLength) i 0 0 ⟨pos, 0, 0, NONE, 0, c, S0, P0⟩ = some s) :
    s.position = pos + (spaces.take i).sum ∧ s.Valid M world curves ∧
    ∃ r, (∀ m, i ≤ m → m < sc →
        r ≤ resolvedDistance M closed (pathLengthUpTo M world n) pos spaces m) ∧
      s.Behind M closed world curves r := by
  set ρ := resolvedDistance M closed (pathLengthUpTo M world n) pos spaces with hρ
  have hmono' : ∀ d a, a + d < sc → ρ a ≤ ρ (a + d) := by
    intro d
    induction d with
    | zero => intro a _; exact le_rfl
    | succ d ih =>
      intro a ha
      exact le_trans (ih a (by omega)) (hmono (a + d) (by omega))
  have hsum : ∀ (i : Nat) (space : K), spaces[i]? = some space →
      pos + (spaces.take i).sum + space = pos + (spaces.take (i + 1)).sum := by
    intro i space hspace
    have hil : i < spaces.length := by
      by_contra hcon
      rw [List.getElem?_eq_none (by omega)] at hspace
      cases hspace
    rw [List.sum_take_succ spaces i hil]
    rw [List.getElem?_eq_getElem hil] at hspace
    cases hspace
    ring
  have hres : ∀ (i : Nat) (space : K), spaces[i]? = some space →
      (if closed = true then wrap M (pos + (spaces.take i).sum + space)
          (pathLengthUpTo M world n)
        else pos + (spaces.take i).sum + space) = ρ i := by
    intro i space hspace
    rw [hsum i space hspace]
    rfl
  have hlen : curves.length = n := by rw [hcurves]; simp
  obtain ⟨ws, sfin, -, hinv, -, hall⟩ := sampleLoop_char
    (sampleStep M closed tangents world curves spaces (pathLengthUpTo M world n) verticesLength)
    i
    (fun j s => s.position = pos + (spaces.take j).sum ∧ s.Valid M world curves ∧
      ∃ r, (∀ m, j ≤ m → m < sc → r ≤ ρ m) ∧ s.Behind M closed world curves r)
    (fun _ _ => True)
    (by
      intro j o s ⟨hp, hval, r, hr, hb⟩ hj
      have hex : ∃ space, spaces[j]? = some space :=
        ⟨_, List.getElem?_eq_getElem (by omega)⟩
      obtain ⟨space, hspace⟩ := hex
      obtain ⟨w, s1, hv1, hout, hall⟩ := sampleStep_char M hsqrt closed tangents world curves
        spaces n hn hcurves hworld verticesLength hvl hwrap j o space hspace s hval
      have hri := hres j space hspace
      rw [← hp] at hri
      obtain ⟨-, hp1, hb1⟩ := StepOutcome.restart M hsqrt closed tangents world curves n
        hcurves j space r s w s1 hb (by rw [hri]; exact hr j le_rfl (by omega)) hout
        { s with curve := 0, segment := 0, prevCurve := NONE } rfl
      refine ⟨w, s1, ⟨by rw [hp1, hp]; exact hsum j space hspace, hv1, ?_⟩, trivial, hall⟩
      rcases hb1 with hb1 | hb1
      · exact ⟨r, fun m hm1 hm2 => hr m (by omega) hm2, hb1⟩
      · rw [hri] at hb1
        refine ⟨ρ j, fun m hm1 hm2 => ?_, hb1⟩
        have := hmono' (m - j) j (by omega)
        have e : j + (m - j) = m := by omega
        rwa [e] at this)
    i 0 0 ⟨pos, 0, 0, NONE, 0, c, S0, P0⟩
    ⟨by simp, ⟨by show 0 < curves.length; rw [hlen]; omega, fun h => absurd rfl h⟩, ρ 0,
      fun m _ hm => by
        have := hmono' m 0 (by omega)
        rwa [Nat.zero_add] at this,
      fun _ => Or.inl rfl, fun k hk => by
        exfalso
        have : NONE = (k : Int) := hk
        unfold NONE at this
        omega⟩
    (by omega)
  obtain ⟨S', hloop, hS'⟩ := hall P0 S0 (by omega) (fun h => absurd rfl h)
  have hs : s = { sfin with positions := applyWrites ws 0 P0, segments := S' } := by
    have : some s = some { sfin with positions := applyWrites ws 0 P0, segments := S' } := by
      rw [← hrun, ← hloop]
    exact Option.some.inj this
  rw [Nat.zero_add] at hinv
  obtain ⟨hp, hval, r, hr, hb⟩ := hinv
  rw [hs]
  refine ⟨hp, ⟨hval.curve_lt, ?_⟩, r, hr, hb⟩
  intro hne
  obtain ⟨k, h1, h2, h3, h4, h5, h6⟩ := hval.cached hne
  exact ⟨k, h1, h2, h3, by show S' = _; rw [hS' hne, h4], h5, h6⟩

/-- A sub-segment search started behind the weighted parameter `p` in a table of ten entries
gives a final parameter `t * 0.1` in `[0, 1]`. -/
theorem segment_contains (segs : List K) (hlen : segs.length = 10) (p : K) (start j : Nat)
    (hp : 0 ≤ p) (hbehind : ∀ m, m < start → ∃ v, segs[m]? = some v ∧ v < p)
    (h : search segs p start = some j) :
    ∃ t, segmentParam segs p j = some t ∧ 0 ≤ t * (1 / 10) ∧ t * (1 / 10) ≤ 1 := by
  obtain ⟨-, hj, -, -⟩ := search_some segs p start j h
  obtain ⟨-, -, -, q, hq, hq0, hq1⟩ := search_contains segs p start j hp hbehind h
  unfold curveParam at hq
  unfold segmentParam
  cases hl : segs[j]? with
  | none => rw [hl] at hq; cases hq
  | some len =>
    rw [hl] at hq
    simp only [Option.some_bind, Option.bind_eq_bind, Option.pure_def] at hq ⊢
    by_cases hj0 : j = 0
    · rw [if_pos hj0] at hq ⊢
      cases hq
      exact ⟨_, rfl, by linarith, by linarith⟩
    · rw [if_neg hj0] at hq ⊢
      cases hpv : segs[j - 1]? with
      | none => rw [hpv] at hq; cases hq
      | some prev =>
        rw [hpv] at hq
        simp only [Option.some_bind] at hq ⊢
        cases hq
        have hj9 : (j : K) ≤ 9 := by
          have : j ≤ 9 := by omega
          exact_mod_cast this
        have hj0' : (0 : K) ≤ (j : K) := Nat.cast_nonneg j
        exact ⟨_, rfl, by linarith, by linarith⟩

/-- The searches of one iteration of the caching sampler whose cached indices are behind the
resolved distance `p` of the sample: the curve found contains `p`, the normalised parameter
lies in `[0, 1]`, and so does the final parameter handed to `addCurvePosition`. -/
theorem sample_contains (M : MathUtil K) (hsqrt : ∀ x, 0 ≤ M.sqrt x) (closed : Bool)
    (world curves : List K) (n : Nat)
    (hcurves : curves = (List.range n).map (fun k => pathLengthUpTo M world (k + 1)))
    (hworld : n * 6 + 2 ≤ world.length)
    (s : Cursor K) (hv : s.Valid M world curves) (r p : K) (hb : s.Behind M closed world curves r)
    (hr : r ≤ p) (hp : 0 ≤ p) (t0 : Cursor K) (ht1 : t0.prevCurve = s.prevCurve)
    (ht2 : t0.segments = s.segments) (ht3 : t0.segment = s.segment) (ht4 : t0.c = s.c)
    (ht5 : t0.curveLength = s.curveLength) (ht6 : t0.curve < curves.length)
    (k : Nat) (hk : search curves p (if closed then 0 else s.curve) = some k) :
    (k = 0 ∨ ∃ v, curves[k - 1]? = some v ∧ v < p) ∧ (∃ v, curves[k]? = some v ∧ p ≤ v) ∧
    ∃ q, curveParam curves p k = some q ∧ 0 ≤ q ∧ q ≤ 1 ∧
      ∃ s', loadCurve M world k t0 = some s' ∧
        ∀ j, search s'.segments (q * s'.curveLength) s'.segment = some j →
          ∃ t, segmentParam s'.segments (q * s'.curveLength) j = some t ∧
            0 ≤ t * (1 / 10) ∧ t * (1 / 10) ≤ 1 := by
  obtain ⟨cmono, cnn⟩ := curves_adjacent M hsqrt world curves n hcurves
  have hlen : curves.length = n := by rw [hcurves]; simp
  have hbehind : ∀ j, j < (if closed then 0 else s.curve) → ∃ v, curves[j]? = some v ∧ v < p := by
    intro j hj
    cases hcl : closed with
    | true => rw [hcl] at hj; simp at hj
    | false =>
      rw [hcl] at hj
      simp only [Bool.false_eq_true, if_false] at hj
      rcases hb.1 hcl with h0 | ⟨v, hv', hvr⟩
      · omega
      · have hjl : j < curves.length := by have := hv.curve_lt; omega
        have e : j + (s.curve - 1 - j) = s.curve - 1 := by omega
        exact ⟨_, List.getElem?_eq_getElem hjl, lt_of_le_of_lt
          (adjacent_mono curves cmono (s.curve - 1 - j) j _ v (List.getElem?_eq_getElem hjl)
            (by rw [e]; exact hv')) (lt_of_lt_of_le hvr hr)⟩
  obtain ⟨h1, h2, -, q, hq, hq0, hq1⟩ := search_contains curves p _ k hp hbehind hk
  obtain ⟨-, hkl, -, -⟩ := search_some curves p _ k hk
  refine ⟨h1, h2, q, hq, hq0, hq1, ?_⟩
  have hvt : t0.Valid M world curves := by
    refine ⟨ht6, ?_⟩
    intro hne
    rw [ht1] at hne
    obtain ⟨k', e1, e2, e3, e4, e5, e6⟩ := hv.cached hne
    exact ⟨k', by rw [ht1]; exact e1, e2, by rw [ht4]; exact e3, by rw [ht2]; exact e4,
      by rw [ht5]; exact e5, by rw [ht3]; exact e6⟩
  obtain ⟨-, hload⟩ := loadCurve_char M world curves n hlen hworld t0 hvt k (by omega)
  have hload' := hload t0.positions t0.segments (fun _ => rfl)
  refine ⟨_, hload', ?_⟩
  intro j hj
  simp only at hj ⊢
  have hcl0 : 0 ≤ (segmentsOf M world k).2 :=
    (segmentLengths_spec M hsqrt SIXTH (ctrlAt world k)).2.2
  have hsl : (segmentsOf M world k).1.length = 10 :=
    (segmentLengths_spec M hsqrt SIXTH (ctrlAt world k)).1
  refine segment_contains _ hsl _ _ j (mul_nonneg hq0 hcl0) ?_ hj
  intro m hm
  by_cases hkp : (k : Int) ≠ t0.prevCurve
  · rw [if_pos hkp] at hm
    omega
  · rw [if_neg hkp, ht3] at hm
    rw [ht1] at hkp
    rcases hb.2 k (not_not.mp hkp).symm with h0 | ⟨v, q0, hv', hq0', hvq⟩
    · omega
    · have hsg : s.segment ≤ 9 := by
        have hne : s.prevCurve ≠ NONE := by
          rw [← not_not.mp hkp]; unfold NONE; omega
        obtain ⟨_, _, _, _, _, _, e6⟩ := hv.cached hne
        exact e6
      have hml : m < (segmentsOf M world k).1.length := by omega
      have e : m + (s.segment - 1 - m) = s.segment - 1 := by omega
      refine ⟨_, List.getElem?_eq_getElem hml, lt_of_le_of_lt
        (adjacent_mono _ (segmentLengths_mono M hsqrt SIXTH (ctrlAt world k)).2
          (s.segment - 1 - m) m _ v (List.getElem?_eq_getElem hml) (by rw [e]; exact hv'))
        (lt_of_lt_of_le hvq ?_)⟩
      exact mul_le_mul_of_nonneg_right (curveParam_mono curves cmono cnn r p k q0 q hq0' hq hr)
        hcl0

/-- What a returning call of `ncSampleCurve` did: the search from the cached curve found the
curve the cursor now holds. -/
theorem ncSampleCurve_some (M : MathUtil K) (path : PathAttachment K) (closed : Bool)
    (curveCount verticesLength : Int) (o : Nat) (tangents : Bool) (s s1 : NCursor K) (p : K)
    (h : ncSampleCurve M path closed curveCount verticesLength o tangents s p = some s1) :
    search path.lengths p s.curve = some s1.curve ∧ s1.position = s.position := by
  unfold ncSampleCurve at h
  simp only [Option.bind_eq_bind, Option.bind_eq_some, Option.pure_def] at h
  obtain ⟨k, hk, q, -, s', hs', pos, -, hfin⟩ := h
  have hfin' := Option.some.inj hfin
  unfold ncLoadCurve at hs'
  by_cases hne : (k : Int) ≠ s.prevCurve
  · rw [if_pos hne] at hs'
    simp only [Option.bind_eq_bind, Option.bind_eq_some, Option.pure_def] at hs'
    obtain ⟨w, -, hs''⟩ := hs'
    have e := Option.some.inj hs''
    rw [← hfin', ← e]
    exact ⟨hk, rfl⟩
  · rw [if_neg hne] at hs'
    have e := Option.some.inj hs'
    rw [← hfin', ← e]
    exact ⟨hk, rfl⟩

/-- One returning iteration of the sampling loop of the non-constant-speed branch keeps the
cached curve behind the resolved distances, when these do not decrease. -/
theorem ncSampleStep_inv (M : MathUtil K) (path : PathAttachment K) (closed tangents : Bool)
    (spaces : List K) (pathLength : K) (curveCount verticesLength : Int) (i o : Nat)
    (s s1 : NCursor K) (space r : K) (hspace : spaces[i]? = some space)
    (hb : s.Behind path.lengths closed r)
    (hr : r ≤ (if closed then wrap M (s.position + space) pathLength else s.position + space))
    (h : ncSampleStep M path closed tangents spaces pathLength curveCount verticesLength i o s =
      some s1) :
    s1.position = s.position + space ∧
    (s1.Behind path.lengths closed r ∨
      s1.Behind path.lengths closed
        (if closed then wrap M (s.position + space) pathLength else s.position + space)) := by
  unfold ncSampleStep at h
  rw [hspace] at h
  simp only [Option.bind_eq_bind, Option.some_bind] at h
  cases hcl : closed with
  | true =>
    rw [hcl] at h
    simp only [if_true] at h
    obtain ⟨-, hp⟩ := ncSampleCurve_some M path true curveCount verticesLength o _ _ s1 _ h
    exact ⟨hp, Or.inl (fun hc => by cases hc)⟩
  | false =>
    rw [hcl] at h hr hb
    simp only [Bool.false_eq_true, if_false] at h hr ⊢
    by_cases h0 : s.position + space < 0
    · rw [if_pos h0] at h
      simp only [Option.bind_eq_some, Option.pure_def] at h
      obtain ⟨w, -, pos, -, hfin⟩ := h
      rw [← Option.some.inj hfin]
      exact ⟨rfl, Or.inl hb⟩
    · rw [if_neg h0] at h
      by_cases h1 : s.position + space > pathLength
      · rw [if_pos h1] at h
        simp only [Option.bind_eq_some, Option.pure_def] at h
        obtain ⟨w, -, pos, -, hfin⟩ := h
        rw [← Option.some.inj hfin]
        exact ⟨rfl, Or.inl hb⟩
      · rw [if_neg h1] at h
        obtain ⟨hk, hp⟩ := ncSampleCurve_some M path false curveCount verticesLength o _ _ s1 _ h
        refine ⟨hp, Or.inr ?_⟩
        intro _ j hj
        obtain ⟨-, -, -, hall⟩ := search_some _ _ _ _ hk
        by_cases hjs : j < s.curve
        · obtain ⟨v, hv, hvr⟩ := hb rfl j hjs
          exact ⟨v, hv, lt_of_lt_of_le hvr hr⟩
        · exact hall j (by simpa using hjs) hj

/-- The cursor the sampling loop of the non-constant-speed branch holds before sample `i`, when
the resolved distances do not decrease: its running distance, and a cached curve that is
behind the resolved distances still to come. -/
theorem nc_prefix (M : MathUtil K) (path : PathAttachment K) (closed tangents : Bool)
    (spaces : List K) (pathLength : K) (curveCount verticesLength : Int) (pos : K) (sc : Nat)
    (hmono : ∀ i, i + 1 < sc →
      resolvedDistance M closed pathLength pos spaces i ≤
        resolvedDistance M closed pathLength pos spaces (i + 1))
    (W P : List K) :
    ∀ (i : Nat), i ≤ sc → ∀ (s : NCursor K),
      sampleLoop (ncSampleStep M path closed tangents spaces pathLength curveCount
        verticesLength) i 0 0 ⟨pos, 0, NONE, W, P⟩ = some s →
      s.position = pos + (spaces.take i).sum ∧
      ∃ r, (∀ m, i ≤ m → m < sc → r ≤ resolvedDistance M closed pathLength pos spaces m) ∧
        s.Behind path.lengths closed r := by
  set ρ := resolvedDistance M closed pathLength pos spaces with hρ
  have hmono' : ∀ d a, a + d < sc → ρ a ≤ ρ (a + d) := by
    intro d
    induction d with
    | zero => intro a _; exact le_rfl
    | succ d ih =>
      intro a ha
      exact le_trans (ih a (by omega)) (hmono (a + d) (by omega))
  intro i
  induction i with
  | zero =>
    intro _ s hrun
    rw [sampleLoop] at hrun
    rw [← Option.some.inj hrun]
    refine ⟨by simp, ρ 0, ?_, fun _ j hj => by simp at hj⟩
    intro m _ hm
    have := hmono' m 0 (by omega)
    rwa [Nat.zero_add] at this
  | succ i ih =>
    intro hi s hrun
    rw [sampleLoop_snoc] at hrun
    simp only [Option.bind_eq_some] at hrun
    obtain ⟨t, ht, hstep⟩ := hrun
    obtain ⟨hp, r, hr, hb⟩ := ih (by omega) t ht
    simp only [Nat.zero_add] at hstep
    cases hspace : spaces[i]? with
    | none =>
      unfold ncSampleStep at hstep
      rw [hspace] at hstep
      cases hstep
    | some space =>
      have hil : i < spaces.length := by
        by_contra hcon
        rw [List.getElem?_eq_none (by omega)] at hspace
        cases hspace
      have hsum : t.position + space = pos + (spaces.take (i + 1)).sum := by
        rw [List.sum_take_succ spaces i hil, hp]
        rw [List.getElem?_eq_getElem hil] at hspace
        cases hspace
        ring
      have hri : (if closed then wrap M (t.position + space) pathLength
          else t.position + space) = ρ i := by
        rw [hsum]
        rfl
      obtain ⟨hp1, hb1⟩ := ncSampleStep_inv M path closed tangents spaces pathLength curveCount
        verticesLength i (3 * i) t s space r hspace hb
        (by rw [hri]; exact hr i le_rfl (by omega)) hstep
      refine ⟨by rw [hp1]; exact hsum, ?_⟩
      rcases hb1 with hb1 | hb1
      · exact ⟨r, fun m hm1 hm2 => hr m (by omega) hm2, hb1⟩
      · rw [hri] at hb1
        refine ⟨ρ i, fun m hm1 hm2 => ?_, hb1⟩
        have := hmono' (m - i) i (by omega)
        have e : i + (m - i) = m := by omega
        rwa [e] at this

end Lemmas

section Lemmas

/-- The caching sampler on `backwardPc` before sample 1: the cursor holds curve 1 and distance
40; sample 1 has the resolved distance 20, the search from the cached curve returns curve 1,
whose predecessor in the curve table is 30, and the normalised parameter is `-1 / 3`. -/
theorem backward_cursor (M : MathUtil ℝ) (hM : M.Exact) :
    ∃ (vl : Int) (c : Ctrl ℝ) (s : Cursor ℝ),
      worldVertices (fun _ => 0) (backwardPc ℝ) (straightPath ℝ) =
        some (worldOf (straightPath ℝ), vl, (curveCountOf (straightPath ℝ) : Int)) ∧
      curveLengths M (fun _ => 0) (backwardPc ℝ) (worldOf (straightPath ℝ))
          (curveCountOf (straightPath ℝ) : Int) =
        some (lengthOf M (straightPath ℝ), c, curvesOf M (straightPath ℝ)) ∧
      sampleLoop (sampleStep M (straightPath ℝ).closed true (worldOf (straightPath ℝ))
          (curvesOf M (straightPath ℝ)) [0, -20] (lengthOf M (straightPath ℝ)) vl) 1 0 0
          ⟨40, 0, 0, NONE, 0, c, (backwardPc ℝ)._segments,
            Vector.setSize (fun _ => 0) (backwardPc ℝ)._positions (2 * 3 + 2)⟩ = some s ∧
      s.position + (-20) = 20 ∧ lengthOf M (straightPath ℝ) = 90 ∧
      search (curvesOf M (straightPath ℝ)) 20 s.curve = some 1 ∧
      (curvesOf M (straightPath ℝ))[1 - 1]? = some 30 ∧
      curveParam (curvesOf M (straightPath ℝ)) 20 1 = some (-1 / 3) := by
  have hsqrt : ∀ x, 0 ≤ M.sqrt x := fun x => by rw [hM.sqrt_eq]; exact Real.sqrt_nonneg x
  have hsq := hM.sqrt_eq
  have hS := straightPath_isStraight
  have hcc : curveCountOf (straightPath ℝ) = 3 := hS.curveCountOf_eq
  have hc0 : (curvesOf M (straightPath ℝ))[0]? = some 30 := by
    rw [hS.curvesOf_getElem? M hsq 0 (by decide)]
    norm_num
  have hc1 : (curvesOf M (straightPath ℝ))[1]? = some 60 := by
    rw [hS.curvesOf_getElem? M hsq 1 (by decide)]
    norm_num
  have hL : lengthOf M (straightPath ℝ) = 90 := by
    show pathLengthUpTo M (worldOf (straightPath ℝ)) (curveCountOf (straightPath ℝ)) = 90
    rw [hcc, hS.pathLengthUpTo_eq M hsq 3 (le_refl _)]
    norm_num
  obtain ⟨vl, hwv, hvl, hworld⟩ := worldVertices_spec (fun _ => (0 : ℝ)) (backwardPc ℝ)
    (straightPath ℝ) (by decide)
  obtain ⟨c, hcl⟩ := curveLengths_spec M (fun _ => (0 : ℝ)) (backwardPc ℝ)
    (worldOf (straightPath ℝ)) (curveCountOf (straightPath ℝ)) hworld
  have hlen : 0 < (curvesOf M (straightPath ℝ)).length := by
    unfold curvesOf
    simp only [List.length_map, List.length_range]
    rw [hcc]
    decide
  obtain ⟨w, s1, -, hout, hall⟩ := sampleStep_char M hsqrt (straightPath ℝ).closed true
    (worldOf (straightPath ℝ)) (curvesOf M (straightPath ℝ)) [0, -20]
    (curveCountOf (straightPath ℝ)) (by decide) rfl hworld vl hvl (fun h => by cases h)
    0 0 0 rfl
    ⟨40, 0, 0, NONE, 0, c, (backwardPc ℝ)._segments,
      Vector.setSize (fun _ => 0) (backwardPc ℝ)._positions (2 * 3 + 2)⟩
    ⟨hlen, fun h => absurd rfl h⟩
  obtain ⟨S', hstep, -⟩ := hall (Vector.setSize (fun _ => 0) (backwardPc ℝ)._positions
    (2 * 3 + 2)) (backwardPc ℝ)._segments (by rw [Vector.setSize_length]; omega)
    (fun h => absurd rfl h)
  rw [hcc] at hout
  have hout' : StepOutcome M false true (worldOf (straightPath ℝ))
      (curvesOf M (straightPath ℝ)) 3 0 0
      ⟨40, 0, 0, NONE, 0, c, (backwardPc ℝ)._segments,
        Vector.setSize (fun _ => 0) (backwardPc ℝ)._positions (2 * 3 + 2)⟩ w s1 := hout
  have hs1 : s1.position = 40 ∧ s1.curve = 1 := by
    rcases hout' with ⟨-, hneg, -, -⟩ | ⟨-, -, hgt, -, -⟩ |
      ⟨p, k, q, j, t, hp', -, hsearch, hkn, -, -, -, -, -, -, hs1⟩
    · norm_num at hneg
    · rw [hS.pathLengthUpTo_eq M hsq 3 (le_refl _)] at hgt
      norm_num at hgt
    · simp only [Bool.false_eq_true, if_false] at hp' hsearch
      subst hp'
      obtain ⟨-, -, ⟨v, hv, hpv⟩, hbelow⟩ := search_some _ _ _ _ hsearch
      rw [hS.curvesOf_getElem? M hsq k hkn] at hv
      cases hv
      have hk : k = 1 := by
        interval_cases k
        · norm_num at hpv
        · rfl
        · obtain ⟨v, hv, hvp⟩ := hbelow 1 (by omega) (by omega)
          rw [hc1] at hv
          cases hv
          norm_num at hvp
      rw [hs1, hk]
      exact ⟨by norm_num, rfl⟩
  have hsearch1 : search (curvesOf M (straightPath ℝ)) 20 1 = some 1 := by
    obtain ⟨k, hk, hk1⟩ := search_exists (curvesOf M (straightPath ℝ)) 20 1 1 60 le_rfl hc1
      (by norm_num)
    obtain ⟨hk2, -⟩ := search_some _ _ _ _ hk
    have : k = 1 := by omega
    rw [this] at hk
    exact hk
  have hparam : curveParam (curvesOf M (straightPath ℝ)) 20 1 = some (-1 / 3) := by
    unfold curveParam
    rw [hc1]
    simp only [Option.some_bind, Option.bind_eq_bind, Nat.one_ne_zero, if_false, Nat.sub_self,
      hc0, Option.pure_def]
    congr 1
    norm_num
  refine ⟨vl, c, { s1 with
      positions := write3 (Vector.setSize (fun _ => 0) (backwardPc ℝ)._positions (2 * 3 + 2)) 0
        w.1 w.2.1 w.2.2,
      segments := S' }, hwv, hcl, ?_, ?_, hL, ?_, hc0, hparam⟩
  · rw [sampleLoop_snoc]
    simp only [sampleLoop, Option.some_bind, Option.bind_eq_bind, Nat.add_zero, Nat.mul_zero]
    exact hstep
  · show s1.position + (-20) = 20
    rw [hs1.1]
    norm_num
  · show search _ 20 s1.curve = some 1
    rw [hs1.2]
    exact hsearch1

end Lemmas

section Lemmas
variable {K : Type} [LinearOrderedField K]

end Lemmas

section Lemmas

end Lemmas

section Lemmas
variable {K : Type} [LinearOrderedField K]

end Lemmas

section Lemmas
variable {K : Type} [LinearOrderedField K]

end Lemmas

section Lemmas
variable {K : Type} [LinearOrderedField K]

end Lemmas

section Lemmas
variable {K : Type} [LinearOrderedField K]

/-- A float is not greater than a finite number exactly when it is NaN, `-∞` or a finite
number that is not greater. -/
theorem Flt.gt_fin_false (p : Flt K) (v : K) :
    Flt.gt p (Flt.fin v) = false ↔
      p = Flt.nan ∨ p = Flt.ninf ∨ ∃ x, p = Flt.fin x ∧ x ≤ v := by
  cases p with
  | nan => simp [Flt.gt, Flt.lt]
  | ninf => simp [Flt.gt, Flt.lt]
  | pinf => simp [Flt.gt, Flt.lt]
  | fin x => simp [Flt.gt, Flt.lt]

/-- What a successful scan found. -/
theorem special_scan_some (p : Flt K) : ∀ (l : List K) (k0 k : Nat),
    Special.scan p l k0 = some k →
    k0 ≤ k ∧ ∃ v, l[k - k0]? = some v ∧ Flt.gt p (Flt.fin v) = false := by
  intro l
  induction l with
  | nil => intro k0 k h; simp [Special.scan] at h
  | cons x xs ih =>
    intro k0 k h
    rw [Special.scan] at h
    cases hx : Flt.gt p (Flt.fin x) with
    | true =>
      rw [hx] at h
      simp only [if_true] at h
      obtain ⟨h1, v, hv, hpv⟩ := ih (k0 + 1) k h
      refine ⟨by omega, v, ?_, hpv⟩
      have : k - k0 = (k - (k0 + 1)) + 1 := by omega
      rw [this, List.getElem?_cons_succ]
      exact hv
    | false =>
      rw [hx] at h
      simp only [Bool.false_eq_true, if_false] at h
      cases h
      exact ⟨le_refl _, x, by simp, hx⟩

/-- A scan succeeds when `p` is not greater than some cell. -/
theorem special_scan_exists (p : Flt K) : ∀ (l : List K) (k0 m : Nat) (v : K),
    l[m]? = some v → Flt.gt p (Flt.fin v) = false →
    ∃ k, Special.scan p l k0 = some k ∧ k ≤ k0 + m := by
  intro l
  induction l with
  | nil => intro k0 m v h; simp at h
  | cons x xs ih =>
    intro k0 m v h hpv
    rw [Special.scan]
    cases hx : Flt.gt p (Flt.fin x) with
    | true =>
      simp only [if_true]
      cases m with
      | zero =>
        rw [List.getElem?_cons_zero] at h
        rw [Option.some.inj h, hpv] at hx
        cases hx
      | succ m =>
        rw [List.getElem?_cons_succ] at h
        obtain ⟨k, hk, hle⟩ := ih (k0 + 1) m v h hpv
        exact ⟨k, hk, by omega⟩
    | false =>
      simp only [Bool.false_eq_true, if_false]
      exact ⟨k0, rfl, by omega⟩

/-- What a successful search found: an index from `start` on, inside the table, at whose cell
the loop broke. -/
theorem special_search_some (table : List K) (p : Flt K) (start k : Nat)
    (h : Special.search table p start = some k) :
    start ≤ k ∧ k < table.length ∧ ∃ v, table[k]? = some v ∧ Flt.gt p (Flt.fin v) = false := by
  unfold Special.search at h
  obtain ⟨h1, v, hv, hpv⟩ := special_scan_some p _ _ _ h
  rw [List.getElem?_drop] at hv
  have e : start + (k - start) = k := by omega
  rw [e] at hv
  refine ⟨h1, ?_, v, hv, hpv⟩
  by_contra hcon
  rw [List.getElem?_eq_none (by omega)] at hv
  cases hv

/-- A search stops at or before any cell from `start` on that `p` is not greater than. -/
theorem special_search_exists (table : List K) (p : Flt K) (start m : Nat) (v : K)
    (hm : start ≤ m) (hv : table[m]? = some v) (hpv : Flt.gt p (Flt.fin v) = false) :
    ∃ k, Special.search table p start = some k ∧ k ≤ m := by
  unfold Special.search
  have : (table.drop start)[m - start]? = some v := by
    rw [List.getElem?_drop]
    have e : start + (m - start) = m := by omega
    rw [e]; exact hv
  obtain ⟨k, hk, hle⟩ := special_scan_exists p _ start _ v this hpv
  exact ⟨k, hk, by omega⟩

/-- The wrapped distance of a closed path is not greater than the path length: it is NaN when
the path length is zero, and below the path length otherwise. -/
theorem special_wrap_not_gt (M : MathUtil K) (hfmod : ∀ x y, 0 < y → M.fmod x y < y)
    (x L : K) (hL : 0 ≤ L) : Flt.gt (Special.wrap M x L) (Flt.fin L) = false := by
  unfold Special.wrap Flt.fmod
  by_cases h0 : L = 0
  · simp [h0, Flt.gt, Flt.lt]
  · have hpos : 0 < L := lt_of_le_of_ne hL (Ne.symm h0)
    have hr := hfmod x L hpos
    simp only [h0, if_false]
    by_cases hneg : M.fmod x L < 0
    · have e : Flt.lt (Flt.fin (M.fmod x L)) (Flt.fin (0 : K)) = true := by
        simp [Flt.lt, hneg]
      rw [e]
      simp only [if_true]
      show Flt.gt (Flt.fin (M.fmod x L + L)) (Flt.fin L) = false
      rw [Flt.gt_fin_false]
      exact Or.inr (Or.inr ⟨_, rfl, by linarith⟩)
    · have e : Flt.lt (Flt.fin (M.fmod x L)) (Flt.fin (0 : K)) = false := by
        simp [Flt.lt, hneg]
      rw [e]
      simp only [Bool.false_eq_true, if_false]
      rw [Flt.gt_fin_false]
      exact Or.inr (Or.inr ⟨_, rfl, le_of_lt hr⟩)

/-- A float that is not greater than `b`, divided by `b >= 0`, is not greater than 1. -/
theorem Flt.div_not_gt_one (p : Flt K) (b : K) (hb : 0 ≤ b)
    (hp : Flt.gt p (Flt.fin b) = false) : Flt.gt (p / Flt.fin b) (Flt.fin 1) = false := by
  rw [Flt.gt_fin_false] at hp
  rcases hp with h | h | ⟨x, h, hx⟩
  · rw [h]; rfl
  · rw [h]
    show Flt.gt (if b < 0 then Flt.pinf else Flt.ninf) (Flt.fin 1) = false
    rw [if_neg (not_lt.mpr hb)]
    rfl
  · rw [h]
    show Flt.gt (if b = 0 then (if 0 < x then Flt.pinf else if x < 0 then Flt.ninf
      else Flt.nan) else Flt.fin (x / b)) (Flt.fin 1) = false
    by_cases h0 : b = 0
    · rw [if_pos h0]
      rw [h0] at hx
      rw [if_neg (not_lt.mpr hx)]
      split_ifs <;> rfl
    · rw [if_neg h0]
      have hpos : 0 < b := lt_of_le_of_ne hb (Ne.symm h0)
      rw [Flt.gt_fin_false]
      exact Or.inr (Or.inr ⟨_, rfl, (div_le_one hpos).mpr hx⟩)

/-- Subtracting a finite number on both sides keeps "not greater". -/
theorem Flt.sub_not_gt (p : Flt K) (a b : K) (hp : Flt.gt p (Flt.fin b) = false) :
    Flt.gt (p - Flt.fin a) (Flt.fin (b - a)) = false := by
  rw [Flt.gt_fin_false] at hp
  rcases hp with h | h | ⟨x, h, hx⟩
  · rw [h]; rfl
  · rw [h]; rfl
  · rw [h]
    show Flt.gt (Flt.fin (x - a)) (Flt.fin (b - a)) = false
    rw [Flt.gt_fin_false]
    exact Or.inr (Or.inr ⟨_, rfl, by linarith⟩)

/-- A float that is not greater than 1, multiplied by `c >= 0`, is not greater than `c`. -/
theorem Flt.mul_not_gt (q : Flt K) (c : K) (hc : 0 ≤ c)
    (hq : Flt.gt q (Flt.fin 1) = false) : Flt.gt (q * Flt.fin c) (Flt.fin c) = false := by
  rw [Flt.gt_fin_false] at hq
  rcases hq with h | h | ⟨x, h, hx⟩
  · rw [h]; rfl
  · rw [h]
    show Flt.gt (Flt.scaleInf false c) (Flt.fin c) = false
    unfold Flt.scaleInf
    by_cases h1 : 0 < c
    · rw [if_pos h1]
      rfl
    · rw [if_neg h1, if_neg (not_lt.mpr hc)]
      rfl
  · rw [h]
    show Flt.gt (Flt.fin (x * c)) (Flt.fin c) = false
    rw [Flt.gt_fin_false]
    exact Or.inr (Or.inr ⟨_, rfl, mul_le_of_le_one_left hc hx⟩)

end Lemmas

section Lemmas
variable {K : Type} [LinearOrderedField K]

theorem special_set_some (v : List (Flt K)) (i : Nat) (x : Flt K) (h : i < v.length) :
    Special.set v i x = some (List.set v i x) := by
  unfold Special.set
  rw [if_pos h]

/-- A write of `addCurvePosition` inside the buffer returns and keeps the size of the buffer,
whatever the parameter is. -/
theorem special_addCurvePosition_some (M : MathUtil K) (p : Flt K)
    (x1 y1 cx1 cy1 cx2 cy2 x2 y2 : K) (output : List (Flt K)) (o : Nat) (tangents : Bool)
    (ho : o + 2 < output.length) :
    ∃ out, Special.addCurvePosition M p x1 y1 cx1 cy1 cx2 cy2 x2 y2 output o tangents =
      some out ∧ out.length = output.length := by
  unfold Special.addCurvePosition
  simp only [Option.bind_eq_bind]
  rw [special_set_some _ _ _ (by omega)]
  simp only [Option.some_bind]
  rw [special_set_some _ _ _ (by rw [List.length_set]; omega)]
  simp only [Option.some_bind]
  cases tangents with
  | true =>
    simp only [if_true]
    rw [special_set_some _ _ _ (by rw [List.length_set, List.length_set]; omega)]
    exact ⟨_, rfl, by simp only [List.length_set]⟩
  | false =>
    simp only [Bool.false_eq_true, if_false]
    exact ⟨_, rfl, by simp only [List.length_set]⟩

theorem special_addBeforePosition_some (M : MathUtil K) (p : K) (temp : List K) (i : Nat)
    (output : List (Flt K)) (o : Nat) (ht : i + 3 < temp.length) (ho : o + 2 < output.length) :
    ∃ out, Special.addBeforePosition M p temp i output o = some out ∧
      out.length = output.length := by
  unfold Special.addBeforePosition
  rw [getElem?_eq_some_getD temp i (by omega), getElem?_eq_some_getD temp (i + 1) (by omega),
    getElem?_eq_some_getD temp (i + 2) (by omega), getElem?_eq_some_getD temp (i + 3) (by omega)]
  simp only [Option.some_bind, Option.bind_eq_bind]
  rw [special_set_some _ _ _ (by omega)]
  simp only [Option.some_bind]
  rw [special_set_some _ _ _ (by rw [List.length_set]; omega)]
  simp only [Option.some_bind]
  rw [special_set_some _ _ _ (by rw [List.length_set, List.length_set]; omega)]
  exact ⟨_, rfl, by simp only [List.length_set]⟩

theorem special_addAfterPosition_some (M : MathUtil K) (p : K) (temp : List K) (i : Nat)
    (output : List (Flt K)) (o : Nat) (ht : i + 3 < temp.length) (ho : o + 2 < output.length) :
    ∃ out, Special.addAfterPosition M p temp i output o = some out ∧
      out.length = output.length := by
  unfold Special.addAfterPosition
  rw [getElem?_eq_some_getD temp i (by omega), getElem?_eq_some_getD temp (i + 1) (by omega),
    getElem?_eq_some_getD temp (i + 2) (by omega), getElem?_eq_some_getD temp (i + 3) (by omega)]
  simp only [Option.some_bind, Option.bind_eq_bind]
  rw [special_set_some _ _ _ (by omega)]
  simp only [Option.some_bind]
  rw [special_set_some _ _ _ (by rw [List.length_set]; omega)]
  simp only [Option.some_bind]
  rw [special_set_some _ _ _ (by rw [List.length_set, List.length_set]; omega)]
  exact ⟨_, rfl, by simp only [List.length_set]⟩

/-- Loading curve `k` leaves the cursor with the control points and the sub-segment table of
curve `k`. -/
theorem special_loadCurve_char (M : MathUtil K) (world curves : List K) (n : Nat)
    (_hlen : curves.length = n) (hworld : n * 6 + 2 ≤ world.length)
    (s : Special.Cursor K) (hv : s.Valid M world curves) (k : Nat) (hk : k < n) :
    (if (k : Int) ≠ s.prevCurve then 0 else s.segment) ≤ 9 ∧
    Special.loadCurve M world k s =
      some ⟨s.position, k, if (k : Int) ≠ s.prevCurve then 0 else s.segment, (k : Int),
        (segmentsOf M world k).2, ctrlAt world k, (segmentsOf M world k).1, s.positions⟩ := by
  by_cases hne : (k : Int) ≠ s.prevCurve
  · rw [if_pos hne]
    refine ⟨by omega, ?_⟩
    unfold Special.loadCurve
    dsimp only
    rw [if_pos hne]
    rw [getElem?_eq_some_getD world (k * 6) (by omega),
      getElem?_eq_some_getD world (k * 6 + 1) (by omega),
      getElem?_eq_some_getD world (k * 6 + 2) (by omega),
      getElem?_eq_some_getD world (k * 6 + 3) (by omega),
      getElem?_eq_some_getD world (k * 6 + 4) (by omega),
      getElem?_eq_some_getD world (k * 6 + 5) (by omega),
      getElem?_eq_some_getD world (k * 6 + 6) (by omega),
      getElem?_eq_some_getD world (k * 6 + 7) (by omega)]
    rfl
  · rw [if_neg hne]
    have heq : s.prevCurve = (k : Int) := by
      simp only [ne_eq, not_not] at hne; exact hne.symm
    have hnn : s.prevCurve ≠ NONE := by
      rw [heq]; unfold NONE; omega
    obtain ⟨k', hk1, hk2, hc, hsg, hcl, hseg⟩ := hv.cached hnn
    have hkk : k' = k := by
      rw [heq] at hk1; exact_mod_cast hk1.symm
    subst hkk
    refine ⟨hseg, ?_⟩
    unfold Special.loadCurve
    dsimp only
    rw [if_neg hne]
    show some ({ s with curve := k' } : Special.Cursor K) = _
    congr 1
    cases s
    simp only [Special.Cursor.mk.injEq, true_and]
    exact ⟨heq, hcl, hc, hsg, trivial⟩

theorem special_segmentParam_some (table : List K) (p : Flt K) (j : Nat)
    (hj : j < table.length) : ∃ t, Special.segmentParam table p j = some t := by
  unfold Special.segmentParam
  rw [getElem?_eq_some_getD table j hj]
  simp only [Option.some_bind, Option.bind_eq_bind]
  by_cases h0 : j = 0
  · rw [if_pos h0]; exact ⟨_, rfl⟩
  · rw [if_neg h0, getElem?_eq_some_getD table (j - 1) (by omega)]
    exact ⟨_, rfl⟩

/-- The normalised parameter of a distance that is not greater than the cumulated length of
curve `k` is defined and not greater than 1. -/
theorem special_curveParam_char (M : MathUtil K) (hsqrt : ∀ x, 0 ≤ M.sqrt x)
    (world curves : List K) (n : Nat)
    (hcurves : curves = (List.range n).map (fun k => pathLengthUpTo M world (k + 1)))
    (k : Nat) (hk : k < n) (p : Flt K)
    (hp : Flt.gt p (Flt.fin (pathLengthUpTo M world (k + 1))) = false) :
    ∃ q, Special.curveParam curves p k = some q ∧ Flt.gt q (Flt.fin 1) = false := by
  have hget : ∀ j, j < n → curves[j]? = some (pathLengthUpTo M world (j + 1)) := by
    intro j hj
    rw [hcurves]
    simp [List.getElem?_map, List.getElem?_range hj]
  unfold Special.curveParam
  rw [hget k hk]
  simp only [Option.some_bind, Option.bind_eq_bind]
  cases k with
  | zero =>
    rw [if_pos rfl]
    exact ⟨_, rfl, Flt.div_not_gt_one p _ (pathLengthUpTo_nonneg M hsqrt world 1) hp⟩
  | succ k =>
    rw [if_neg (by omega)]
    have e : k + 1 - 1 = k := by omega
    rw [e, hget k (by omega)]
    simp only [Option.some_bind]
    refine ⟨_, rfl, ?_⟩
    show Flt.gt ((p - Flt.fin (pathLengthUpTo M world (k + 1))) /
      Flt.fin (pathLengthUpTo M world (k + 1 + 1) - pathLengthUpTo M world (k + 1)))
      (Flt.fin 1) = false
    exact Flt.div_not_gt_one _ _
      (sub_nonneg.mpr (pathLengthUpTo_mono M hsqrt world (k + 1)))
      (Flt.sub_not_gt p _ _ hp)

end Lemmas

section Lemmas
variable {K : Type} [LinearOrderedField K]

/-- A sample whose distance is not greater than the path length: the curve search, the load,
the sub-segment search and the write all return, the curve search at an index below the
number of curves and the sub-segment search at an index of at most 9. -/
theorem special_sampleCurve_char (M : MathUtil K) (hsqrt : ∀ x, 0 ≤ M.sqrt x)
    (world curves : List K) (n : Nat) (hn : 1 ≤ n)
    (hcurves : curves = (List.range n).map (fun k => pathLengthUpTo M world (k + 1)))
    (hworld : n * 6 + 2 ≤ world.length) (o : Nat) (tg : Bool) (s : Special.Cursor K)
    (hv : s.Valid M world curves) (ho : o + 2 < s.positions.length) (p : Flt K)
    (hp : Flt.gt p (Flt.fin (pathLengthUpTo M world n)) = false) :
    ∃ (k : Nat) (q : Flt K) (s' : Special.Cursor K) (j : Nat) (r : Special.Cursor K),
      Special.search curves p s.curve = some k ∧ k < n ∧
      Special.curveParam curves p k = some q ∧
      Special.loadCurve M world k s = some s' ∧ s'.segments.length = 10 ∧
      Special.search s'.segments (q * Flt.fin s'.curveLength) s'.segment = some j ∧ j ≤ 9 ∧
      Special.sampleCurve M world curves o tg s p = some r ∧
      r.Valid M world curves ∧ r.positions.length = s.positions.length ∧
      r.position = s.position := by
  have hlen : curves.length = n := by rw [hcurves]; simp
  have hget : ∀ j, j < n → curves[j]? = some (pathLengthUpTo M world (j + 1)) := by
    intro j hj
    rw [hcurves]
    simp [List.getElem?_map, List.getElem?_range hj]
  have hcl := hv.curve_lt
  rw [hlen] at hcl
  have hlast : curves[n - 1]? = some (pathLengthUpTo M world n) := by
    rw [hget (n - 1) (by omega)]
    congr 2; omega
  obtain ⟨k, hk, hkle⟩ := special_search_exists curves p s.curve (n - 1) _ (by omega) hlast hp
  have hkn : k < n := by omega
  obtain ⟨-, -, v, hv1, hpv⟩ := special_search_some curves p s.curve k hk
  rw [hget k hkn] at hv1
  cases hv1
  obtain ⟨q, hq, hq1⟩ := special_curveParam_char M hsqrt world curves n hcurves k hkn p hpv
  obtain ⟨hseg0, hload⟩ := special_loadCurve_char M world curves n hlen hworld s hv k hkn
  obtain ⟨hsl, hs9, hsnn⟩ := segmentLengths_spec M hsqrt SIXTH (ctrlAt world k)
  have hqcl : Flt.gt (q * Flt.fin (segmentsOf M world k).2) (Flt.fin (segmentsOf M world k).2)
      = false := Flt.mul_not_gt q _ hsnn hq1
  obtain ⟨j, hj, hj9⟩ := special_search_exists (segmentsOf M world k).1
    (q * Flt.fin (segmentsOf M world k).2)
    (if (k : Int) ≠ s.prevCurve then 0 else s.segment) 9 _ hseg0 hs9 hqcl
  have hsl' : (segmentsOf M world k).1.length = 10 := hsl
  obtain ⟨t, ht⟩ := special_segmentParam_some (segmentsOf M world k).1
    (q * Flt.fin (segmentsOf M world k).2) j (by omega)
  obtain ⟨out, hout, houtl⟩ := special_addCurvePosition_some M (t * Flt.fin (1 / 10))
    (ctrlAt world k).x1 (ctrlAt world k).y1 (ctrlAt world k).cx1 (ctrlAt world k).cy1
    (ctrlAt world k).cx2 (ctrlAt world k).cy2 (ctrlAt world k).x2 (ctrlAt world k).y2
    s.positions o tg ho
  refine ⟨k, q, _, j, ⟨s.position, k, j, (k : Int), (segmentsOf M world k).2, ctrlAt world k,
    (segmentsOf M world k).1, out⟩, hk, hkn, hq, hload, hsl', hj, hj9, ?_, ?_, houtl, rfl⟩
  · unfold Special.sampleCurve
    simp only [Option.bind_eq_bind]
    rw [hk]
    simp only [Option.some_bind]
    rw [hq]
    simp only [Option.some_bind]
    rw [hload]
    simp only [Option.some_bind]
    rw [hj]
    simp only [Option.some_bind]
    rw [ht]
    simp only [Option.some_bind]
    rw [hout]
    rfl
  · refine ⟨by show k < curves.length; rw [hlen]; exact hkn, ?_⟩
    intro _
    exact ⟨k, rfl, by rw [hlen]; exact hkn, rfl, rfl, rfl, hj9⟩

/-- One iteration of the constant-speed sampling loop with special values returns from any
valid cursor, whatever the spacing entry is; and when the distance is in range (always on a
closed path) its two searches return, the curve search at an index below the number of curves
and the sub-segment search at an index of at most 9. -/
theorem special_sampleStep_char (M : MathUtil K) (hsqrt : ∀ x, 0 ≤ M.sqrt x)
    (hfmod : ∀ x y, 0 < y → M.fmod x y < y) (closed tangents : Bool)
    (world curves spaces : List K) (n : Nat) (hn : 1 ≤ n)
    (hcurves : curves = (List.range n).map (fun k => pathLengthUpTo M world (k + 1)))
    (hworld : n * 6 + 2 ≤ world.length) (verticesLength : Int)
    (hvl : closed = false → verticesLength = (world.length : Int))
    (i o : Nat) (space : K) (hspace : spaces[i]? = some space)
    (s : Special.Cursor K) (hv : s.Valid M world curves) (ho : o + 2 < s.positions.length) :
    (∃ s1, Special.sampleStep M closed tangents world curves spaces (pathLengthUpTo M world n)
        verticesLength i o s = some s1 ∧ s1.Valid M world curves ∧
        s1.positions.length = s.positions.length) ∧
    ((closed = false → 0 ≤ s.position + space ∧ s.position + space ≤ pathLengthUpTo M world n) →
      ∃ (k : Nat) (q : Flt K) (s' : Special.Cursor K) (j : Nat),
        Special.search curves
          (if closed then Special.wrap M (s.position + space) (pathLengthUpTo M world n)
            else Flt.fin (s.position + space))
          (if closed then 0 else s.curve) = some k ∧ k < n ∧
        Special.curveParam curves
          (if closed then Special.wrap M (s.position + space) (pathLengthUpTo M world n)
            else Flt.fin (s.position + space)) k = some q ∧
        Special.loadCurve M world k
          { s with position := s.position + space, curve := if closed then 0 else s.curve } =
          some s' ∧
        s'.segments.length = 10 ∧
        Special.search s'.segments (q * Flt.fin s'.curveLength) s'.segment = some j ∧
        j ≤ 9) := by
  have hlen : curves.length = n := by rw [hcurves]; simp
  have hL0 : 0 ≤ pathLengthUpTo M world n := pathLengthUpTo_nonneg M hsqrt world n
  cases closed with
  | true =>
    have hv0 : Special.Cursor.Valid M world curves
        { s with position := s.position + space, curve := 0 } :=
      ⟨by show 0 < curves.length; rw [hlen]; omega, hv.cached⟩
    obtain ⟨k, q, s', j, r, h1, h2, h3, h4, h5, h6, h7, h8, h9, h10, -⟩ :=
      special_sampleCurve_char M hsqrt world curves n hn hcurves hworld o
        (tangents || decide (i > 0) && decide (space < EPSILON))
        { s with position := s.position + space, curve := 0 } hv0 ho
        (Special.wrap M (s.position + space) (pathLengthUpTo M world n))
        (special_wrap_not_gt M hfmod _ _ hL0)
    constructor
    · refine ⟨r, ?_, h9, h10⟩
      unfold Special.sampleStep
      simp only [hspace, Option.some_bind, Option.bind_eq_bind, if_true]
      exact h8
    · intro _
      simp only [if_true]
      exact ⟨k, q, s', j, h1, h2, h3, h4, h5, h6, h7⟩
  | false =>
    have hvl' := hvl rfl
    simp only [Bool.false_eq_true, if_false]
    by_cases h0 : s.position + space < 0
    · constructor
      · obtain ⟨out, hout, houtl⟩ := special_addBeforePosition_some M (s.position + space)
          world 0 s.positions o (by omega) ho
        refine ⟨{ s with position := s.position + space, positions := out }, ?_,
          ⟨hv.curve_lt, hv.cached⟩, houtl⟩
        unfold Special.sampleStep
        simp only [hspace, Option.some_bind, Option.bind_eq_bind, Bool.false_eq_true, if_false,
          h0, if_true]
        rw [hout]
        rfl
      · intro hr
        exact absurd h0 (not_lt.mpr (hr trivial).1)
    · by_cases h1 : s.position + space > pathLengthUpTo M world n
      · constructor
        · have hidx : toIdx (verticesLength - 4) = some (world.length - 4) := by
            rw [hvl']
            exact toIdx_sub _ 4 (by omega)
          obtain ⟨out, hout, houtl⟩ := special_addAfterPosition_some M
            (s.position + space - pathLengthUpTo M world n) world (world.length - 4)
            s.positions o (by omega) ho
          refine ⟨{ s with position := s.position + space, positions := out }, ?_,
            ⟨hv.curve_lt, hv.cached⟩, houtl⟩
          unfold Special.sampleStep
          simp only [hspace, Option.some_bind, Option.bind_eq_bind, Bool.false_eq_true,
            if_false, h0, h1, if_true]
          rw [hidx]
          simp only [Option.some_bind]
          rw [hout]
          rfl
        · intro hr
          exact absurd h1 (not_lt.mpr (hr trivial).2)
      · have hv0 : Special.Cursor.Valid M world curves
            { s with position := s.position + space } := ⟨hv.curve_lt, hv.cached⟩
        have hp : Flt.gt (Flt.fin (s.position + space))
            (Flt.fin (pathLengthUpTo M world n)) = false := by
          rw [Flt.gt_fin_false]
          exact Or.inr (Or.inr ⟨_, rfl, not_lt.mp h1⟩)
        obtain ⟨k, q, s', j, r, e1, e2, e3, e4, e5, e6, e7, e8, e9, e10, -⟩ :=
          special_sampleCurve_char M hsqrt world curves n hn hcurves hworld o
            (tangents || decide (i > 0) && decide (space < EPSILON))
            { s with position := s.position + space } hv0 ho
            (Flt.fin (s.position + space)) hp
        constructor
        · refine ⟨r, ?_, e9, e10⟩
          unfold Special.sampleStep
          simp only [hspace, Option.some_bind, Option.bind_eq_bind, Bool.false_eq_true,
            if_false, h0, h1]
          exact e8
        · intro _
          exact ⟨k, q, s', j, e1, e2, e3, e4, e5, e6, e7⟩

/-- The constant-speed sampling loop with special values returns from any valid cursor,
whatever the spacing entries are, and leaves a valid cursor and a buffer of unchanged size. -/
theorem special_sampleLoop_char (M : MathUtil K) (hsqrt : ∀ x, 0 ≤ M.sqrt x)
    (hfmod : ∀ x y, 0 < y → M.fmod x y < y) (closed tangents : Bool)
    (world curves spaces : List K) (n : Nat) (hn : 1 ≤ n)
    (hcurves : curves = (List.range n).map (fun k => pathLengthUpTo M world (k + 1)))
    (hworld : n * 6 + 2 ≤ world.length) (verticesLength : Int)
    (hvl : closed = false → verticesLength = (world.length : Int)) :
    ∀ (todo i o : Nat) (s : Special.Cursor K), s.Valid M world curves →
      i + todo ≤ spaces.length → o + 3 * todo + 2 ≤ s.positions.length →
      ∃ sfin, sampleLoop (Special.sampleStep M closed tangents world curves spaces
          (pathLengthUpTo M world n) verticesLength) todo i o s = some sfin ∧
        sfin.Valid M world curves ∧ sfin.positions.length = s.positions.length := by
  intro todo
  induction todo with
  | zero =>
    intro i o s hv _ _
    exact ⟨s, rfl, hv, rfl⟩
  | succ todo ih =>
    intro i o s hv hle hP
    have hex : ∃ space, spaces[i]? = some space := ⟨_, List.getElem?_eq_getElem (by omega)⟩
    obtain ⟨space, hspace⟩ := hex
    obtain ⟨⟨s1, hs1, hv1, hl1⟩, -⟩ := special_sampleStep_char M hsqrt hfmod closed tangents
      world curves spaces n hn hcurves hworld verticesLength hvl i o space hspace s hv
      (by omega)
    obtain ⟨sfin, hsf, hvf, hlf⟩ := ih (i + 1) (o + 3) s1 hv1 (by omega) (by rw [hl1]; omega)
    refine ⟨sfin, ?_, hvf, by rw [hlf, hl1]⟩
    rw [sampleLoop]
    simp only [Option.bind_eq_bind]
    rw [hs1]
    exact hsf

end Lemmas

section Lemmas

/-- The exact `fmod` stays below a positive divisor. -/
theorem Exact.fmod_lt (M : MathUtil ℝ) (hM : M.Exact) (x y : ℝ) (hy : 0 < y) :
    M.fmod x y < y := by
  have h := (Exact.wrap_range M hM x y hy).2
  unfold wrap at h
  by_cases hneg : M.fmod x y < 0
  · linarith
  · simpa [hneg] using h

/-- The path `pointPath` has length zero. -/
theorem pointPath_length (M : MathUtil ℝ) (hM : M.Exact) : lengthOf M (pointPath ℝ) = 0 := by
  have hc : curveCountOf (pointPath ℝ) = 1 := by
    simp [curveCountOf, pointPath]
  have hctrl : ctrlAt (worldOf (pointPath ℝ)) 0 = ⟨5, 0, 5, 0, 5, 0, 5, 0⟩ := by
    simp [ctrlAt, worldOf, pointPath, List.range_succ]
  unfold lengthOf
  rw [hc]
  show addCurveLength M SIXTH 0 (ctrlAt (worldOf (pointPath ℝ)) 0) = 0
  rw [hctrl]
  unfold addCurveLength
  simp only [hM.sqrt_eq]
  norm_num

/-- On a path of length zero the wrapped distance is NaN. -/
theorem special_wrap_zero {K : Type} [LinearOrderedField K] (M : MathUtil K) (x : K) :
    Special.wrap M x 0 = Flt.nan := by
  simp [Special.wrap, Flt.fmod, Flt.lt]

end Lemmas

section Lemmas
variable {K : Type} [LinearOrderedField K]

/-- On a finite distance the scan with special values is the scan over the field. -/
theorem special_scan_fin (x : K) : ∀ (l : List K) (k0 : Nat),
    Special.scan (Flt.fin x) l k0 = scan x l k0 := by
  intro l
  induction l with
  | nil => intro k0; rfl
  | cons a as ih =>
    intro k0
    rw [Special.scan, scan, ih (k0 + 1)]
    by_cases h : x > a
    · have e : Flt.gt (Flt.fin x) (Flt.fin a) = true := by simp [Flt.gt, Flt.lt, h]
      rw [e, if_pos rfl, if_pos h]
    · have e : Flt.gt (Flt.fin x) (Flt.fin a) = false := by simp [Flt.gt, Flt.lt, h]
      rw [e, if_neg h]
      simp

/-- On a finite distance the search with special values is the search over the field. -/
theorem special_search_fin (table : List K) (x : K) (start : Nat) :
    Special.search table (Flt.fin x) start = search table x start := by
  unfold Special.search search
  exact special_scan_fin x _ _

end Lemmas

/-- C1. `update` is a no-op in its skip cases: when the target slot has no attachment, or an
attachment that is not a path attachment, or when `translateMix = 0` and `rotateMix = 0`, the
call returns with the constraint, and so every bone of the chain (world position, `a`, `b`,
`c`, `d`, applied-valid flag), exactly as it was. -/
theorem update_noop_in_skip_cases {K : Type} [LinearOrderedField K] (M : MathUtil K)
    (fresh : Nat → K) (pc : PathConstraint K)
    (h : pc._target.attachment = none ∨ pc._target.attachment = some Attachment.other ∨
      (pc._translateMix = 0 ∧ pc._rotateMix = 0)) :
    update M fresh pc = some pc ∧
      ∀ pc', update M fresh pc = some pc' → pc'._bones = pc._bones :=
  ⟨update_skip M fresh pc h, fun pc' h' => by
    rw [update_skip M fresh pc h] at h'
    cases h'
    rfl⟩

theorem update_noop_in_skip_cases_witness :
    (idlePc._target.attachment = none ∨ idlePc._target.attachment = some Attachment.other ∨
      (idlePc._translateMix = 0 ∧ idlePc._rotateMix = 0)) ∧
    (update plainMath (fun _ => 0) idlePc = some idlePc ∧
      ∀ pc', update plainMath (fun _ => 0) idlePc = some pc' → pc'._bones = idlePc._bones) :=
  ⟨Or.inl rfl, update_noop_in_skip_cases plainMath (fun _ => 0) idlePc (Or.inl rfl)⟩


theorem ncPath_window (K : Type) [LinearOrderedField K] (w : List K) (h : w.length = 8) :
    (ncPath K).computeWorldVertices (0 * 6 + 2) 8 w 0 = some [0, 0, 10, 0, 20, 0, 30, 0] := by
  simp [PathAttachment.computeWorldVertices, h, ncPath, List.range_succ]

theorem ncStep_in_range (M : MathUtil ℝ) (hnan : M.isnan = fun _ => false)
    (spaces : List ℝ) (i o : ℕ) (s : NCursor ℝ) (space : ℝ) (hsp : spaces[i]? = some space)
    (h0 : 0 ≤ s.position + space) (h1 : s.position + space ≤ 30)
    (hE : EPSILON ≤ (s.position + space) / 30)
    (hw : s.world.length = 8) (ho : o + 2 < s.positions.length) (hc : s.curve = 0)
    (hp : s.prevCurve = -1 ∨ s.world = [0, 0, 10, 0, 20, 0, 30, 0]) :
    ∃ pos, ncSampleStep M (ncPath ℝ) false true spaces 30 0 12 i o s =
        some ⟨s.position + space, 0, 0, [0, 0, 10, 0, 20, 0, 30, 0], pos⟩ ∧
      pos.length = s.positions.length ∧
      pos[o]? = some (s.position + space) ∧ pos[o + 1]? = some 0 ∧
      ∀ j, j < o → pos[j]? = s.positions[j]? := by
  have hcl : clampP M ((s.position + space) / 30) = (s.position + space) / 30 := by
    simp [clampP, hnan, not_lt.mpr hE]
  have hx : curvePoint ((s.position + space) / 30) 0 10 20 30 = s.position + space := by
    simp only [curvePoint]; ring
  have hy : curvePoint ((s.position + space) / 30) (0 : ℝ) 0 0 0 = 0 := by
    simp only [curvePoint]; ring
  have hsearch : search (ncPath ℝ).lengths (s.position + space) 0 = some 0 := by
    simp [search, scan, not_lt.mpr h1, ncPath]
  have hparam : curveParam (ncPath ℝ).lengths (s.position + space) 0
      = some ((s.position + space) / 30) := by
    simp [curveParam, ncPath]
  have hload : ncLoadCurve (ncPath ℝ) false 0 12 0
      { position := s.position + space, curve := 0, prevCurve := s.prevCurve,
        world := s.world, positions := s.positions } =
      some ⟨s.position + space, 0, 0, [0, 0, 10, 0, 20, 0, 30, 0], s.positions⟩ := by
    unfold ncLoadCurve
    by_cases hpc : ((0 : ℕ) : ℤ) ≠ s.prevCurve
    · rw [if_pos hpc]
      simp only [Bool.false_and, Bool.false_eq_true, if_false,
        ncPath_window ℝ s.world hw, Option.some_bind, Option.bind_eq_bind, Option.pure_def]
      rfl
    · rw [if_neg hpc]
      have : s.prevCurve = 0 := by
        simp only [ne_eq, not_not] at hpc; exact hpc.symm
      rcases hp with hp | hp
      · rw [hp] at this; norm_num at this
      · simp only [Option.pure_def, this, hp]
  unfold ncSampleStep
  simp only [hsp, Option.some_bind, Option.bind_eq_bind, Bool.false_eq_true,
    if_false, not_lt.mpr h0, not_lt.mpr h1]
  unfold ncSampleCurve
  simp only [hc, hsearch, hparam, hload, Option.some_bind, Option.bind_eq_bind]
  simp only [ncAddCurvePosition, List.getElem?_cons_zero, List.getElem?_cons_succ,
    Option.some_bind, Option.bind_eq_bind, Bool.true_or]
  rw [addCurvePosition_eq M _ _ _ _ _ _ _ _ _ _ _ _ ho]
  simp only [Option.some_bind, Option.pure_def, if_true, hcl, hx, hy]
  refine ⟨_, rfl, by simp, ?_, ?_, ?_⟩
  · simp [List.getElem?_set]; omega
  · simp [List.getElem?_set]; omega
  · intro j hj
    simp [List.getElem?_set]
    have a1 : o + 2 ≠ j := by omega
    have a2 : o + 1 ≠ j := by omega
    have a3 : o ≠ j := by omega
    simp [a1, a2, a3]

theorem ncPc_computeWorldPositions (M : MathUtil ℝ) (hnan : M.isnan = fun _ => false)
    (fresh : ℕ → ℝ) (pc : PathConstraint ℝ) (h1 : pc._position = 6) (h2 : pc._spaces = [0, 15])
    (h3 : pc._positions = []) :
    ∃ pos, computeWorldPositions M fresh pc (ncPath ℝ) 2 true false false =
        some ([0, 0, 10, 0, 20, 0, 30, 0],
          ({ pc with _positions := pos, _world := [0, 0, 10, 0, 20, 0, 30, 0] } : PathConstraint ℝ)) ∧
      pos[0]? = some 6 ∧ pos[1]? = some 0 ∧ pos[3]? = some 21 ∧ pos[4]? = some 0 := by
  unfold computeWorldPositions
  have c1 : (ncPath ℝ).constantSpeed = false := rfl
  have c2 : (ncPath ℝ).closed = false := rfl
  have c3 : (ncPath ℝ).worldVerticesLength = 12 := rfl
  have c4 : (ncPath ℝ).lengths = [30] := rfl
  have hidx : toIdx (0 : ℤ) = some 0 := by
    simp [toIdx]
  have hcc : (((12 : ℕ) : ℤ) / 6 - 2) = 0 := by norm_num
  simp only [c1, c2, c3, c4, h1, h2, h3, Bool.not_false, if_true, Bool.false_eq_true, if_false,
    hidx, Option.some_bind, Option.bind_eq_bind, List.getElem?_cons_zero, Option.pure_def, hcc]
  simp only [sampleLoop, Option.some_bind, Option.bind_eq_bind]
  obtain ⟨pos0, e0, l0, a0, b0, -⟩ := ncStep_in_range M hnan [0, 15] 0 0
    ⟨6, 0, NONE, Vector.setSize fresh pc._world 8, Vector.setSize fresh [] (2 * 3 + 2)⟩ 0 rfl
    (by norm_num) (by norm_num) (by norm_num [EPSILON]) (by simp [Vector.setSize_length])
    (by simp [Vector.setSize_length]) rfl (Or.inl rfl)
  rw [show ((12 : ℕ) : ℤ) = 12 from rfl, e0]
  simp only [Option.some_bind]
  obtain ⟨pos1, e1, l1, a1, b1, f1⟩ := ncStep_in_range M hnan [0, 15] (0 + 1) (0 + 3)
    ⟨6 + 0, 0, 0, [0, 0, 10, 0, 20, 0, 30, 0], pos0⟩ 15 rfl
    (by norm_num) (by norm_num) (by norm_num [EPSILON]) (by simp)
    (by simp [l0, Vector.setSize_length]) rfl (Or.inr rfl)
  rw [e1]
  simp only [Option.some_bind]
  refine ⟨pos1, rfl, ?_, ?_, ?_, ?_⟩
  · rw [f1 0 (by norm_num)]; simpa using a0
  · rw [f1 1 (by norm_num)]; simpa using b0
  · rw [show (3 : ℕ) = 0 + 3 from rfl, a1]; norm_num
  · simpa using b1


theorem ncPc_update (M : MathUtil ℝ) (hnan : M.isnan = fun _ => false) (fresh : ℕ → ℝ) :
    ∃ pc', update M fresh (ncPc ℝ) = some pc' ∧
      pc'._positions[0]? = some 6 ∧ pc'._positions[1]? = some 0 ∧
      pc'._positions[3]? = some 21 ∧ pc'._positions[4]? = some 0 ∧
      pc'._bones.map (fun b => (b._worldX, b._worldY)) = [(0, 0), (0, 20)] := by
  have hsp : computeSpaces M (fun x y => x / y) fresh (ncPc ℝ) = some ([0, 15], []) := by
    simp [computeSpaces, ncPc, Vector.setSize, fillSpaces, List.range_succ]
  obtain ⟨pos, hpos, hp0, hp1, hp3, hp4⟩ := ncPc_computeWorldPositions M hnan fresh
    { ncPc ℝ with _spaces := [0, 15], _lengths := [] } rfl rfl rfl
  have hbl : boneLoop M (fun x y => x / y) [0, 0, 10, 0, 20, 0, 30, 0] [0, 15] [] false false true
      false 0 1 0 (ncPc ℝ)._bones 0 3 0 0 =
      some [⟨0, 0, 1, 0, 0, 1, false, 10⟩, ⟨0, 20, 1, 0, 0, 1, false, 10⟩] := by
    simp [boneLoop, boneStep, scaleStep, ncPc]
  have h := updateWith_eq M (fun x y => x / y) fresh (ncPc ℝ) _ (ncPath ℝ) [0, 15] []
    [0, 0, 10, 0, 20, 0, 30, 0] 0 0 _ rfl (Or.inl (by norm_num [ncPc])) hsp hpos rfl rfl
    (by
      have e1 : (ncPc ℝ)._data._rotateMode = RotateMode.Tangent := rfl
      have e2 : (ncPc ℝ)._rotateMix = 0 := rfl
      have e3 : (ncPc ℝ)._translateMix = 1 := rfl
      simp only [e1, e2, e3, tipAndOffset]
      simpa using hbl)
  exact ⟨_, h, hp0, hp1, hp3, hp4, rfl⟩

/-- C2 (the code at the failing input).  On the open non-constant-speed path `ncPath` with two
bones, Tangent mode, Fixed spacing 15 and position 6, the sampler fills `_positions` with the
samples `(6, 0)` and `(21, 0)`, but the vector that `update` reads is `_world`, the eight
control-point floats of the last curve: bone 0 lands at `(0, 0)` and bone 1 at `(0, 20)`, not
at the sampled points. -/
theorem nonconstant_speed_branch_returns_world_buffer :
    ∃ pc', update (⟨Real.sqrt, fun y x => Complex.arg ⟨x, y⟩, Real.cos, Real.sin,
        fun x y => x - y * ((if 0 ≤ x / y then ⌊x / y⌋ else ⌈x / y⌉ : ℤ) : ℝ), fun _ => false,
        Real.pi, 2 * Real.pi, Real.pi / 180⟩ : MathUtil ℝ) (fun _ => 0) (ncPc ℝ) = some pc' ∧
      pc'._positions[0]? = some 6 ∧ pc'._positions[1]? = some 0 ∧
      pc'._positions[3]? = some 21 ∧ pc'._positions[4]? = some 0 ∧
      pc'._bones.map (fun b => (b._worldX, b._worldY)) = [(0, 0), (0, 20)] :=
  ncPc_update _ rfl _

/-- C3 (evaluation).  On the three-segment straight path from `(0, 0)` to `(90, 0)` with two
bones, Fixed spacing 50, position 0, `translateMix = 1`, `rotateMix = 0`: when cell 0 of the
spacing buffer holds 0, bone 1 lands at distance 50 from the start; when the buffer enters the
call holding `[7, 0]`, `update` leaves cell 0 as it is and bone 1 lands at `x = 57`, not at
`position + 1 * spacing = 50`. -/
theorem straight_path_residual_spacing_offsets_bones :
    (∃ (pc' : PathConstraint ℝ) (bone' : Bone ℝ),
      update (⟨Real.sqrt, fun y x => Complex.arg ⟨x, y⟩, Real.cos, Real.sin,
        fun x y => x - y * ((if 0 ≤ x / y then ⌊x / y⌋ else ⌈x / y⌉ : ℤ) : ℝ), fun _ => false,
        Real.pi, 2 * Real.pi, Real.pi / 180⟩ : MathUtil ℝ) (fun _ => 0) (straightPc ℝ)
        = some pc' ∧
      pc'._bones[1]? = some bone' ∧ bone'._worldX = 50 ∧ bone'._worldY = 0) ∧
    (∃ (pc' : PathConstraint ℝ) (bone' : Bone ℝ),
      update (⟨Real.sqrt, fun y x => Complex.arg ⟨x, y⟩, Real.cos, Real.sin,
        fun x y => x - y * ((if 0 ≤ x / y then ⌊x / y⌋ else ⌈x / y⌉ : ℤ) : ℝ), fun _ => false,
        Real.pi, 2 * Real.pi, Real.pi / 180⟩ : MathUtil ℝ) (fun _ => 0) (residualPc ℝ)
        = some pc' ∧
      pc'._bones[1]? = some bone' ∧ bone'._worldX = 57 ∧ bone'._worldY = 0 ∧
      bone'._worldX ≠ 50) := by
  constructor
  · obtain ⟨pc', h1, -, h2⟩ := straight_path_bones
      (⟨Real.sqrt, fun y x => Complex.arg ⟨x, y⟩, Real.cos, Real.sin,
        fun x y => x - y * ((if 0 ≤ x / y then ⌊x / y⌋ else ⌈x / y⌉ : ℤ) : ℝ), fun _ => false,
        Real.pi, 2 * Real.pi, Real.pi / 180⟩ : MathUtil ℝ)
      ⟨rfl, rfl, rfl, rfl, rfl, rfl, rfl, rfl, rfl⟩ (fun _ => 0) (straightPc ℝ) (straightPath ℝ)
      3 0 0 1 0 (fun k => 30 * (k : ℝ)) straightPath_isStraight (by norm_num) rfl rfl rfl
      (Or.inl rfl) (by simp [straightPc]) rfl rfl 0 rfl
    obtain ⟨bone', h3, h4, h5⟩ := h2 1 _ rfl (by simp [straightPc]) (by simp [straightPc]; norm_num)
      (by
        refine straight_residual_resolved _ ?_ ?_ <;> simp [straightPc] <;> norm_num)
    refine ⟨pc', bone', h1, h3, ?_, ?_⟩
    · rw [h4]; simp [straightPc]
    · rw [h5]; simp [straightPc]
  · obtain ⟨pc', h1, -, h2⟩ := straight_path_bones
      (⟨Real.sqrt, fun y x => Complex.arg ⟨x, y⟩, Real.cos, Real.sin,
        fun x y => x - y * ((if 0 ≤ x / y then ⌊x / y⌋ else ⌈x / y⌉ : ℤ) : ℝ), fun _ => false,
        Real.pi, 2 * Real.pi, Real.pi / 180⟩ : MathUtil ℝ)
      ⟨rfl, rfl, rfl, rfl, rfl, rfl, rfl, rfl, rfl⟩ (fun _ => 0) (residualPc ℝ) (straightPath ℝ)
      3 0 0 1 0 (fun k => 30 * (k : ℝ)) straightPath_isStraight (by norm_num) rfl rfl rfl
      (Or.inl rfl) (by simp [residualPc, straightPc]) rfl rfl 7 rfl
    obtain ⟨bone', h3, h4, h5⟩ := h2 1 _ rfl (by simp [residualPc, straightPc]; norm_num)
      (by simp [residualPc, straightPc]; norm_num)
      (by
        refine straight_residual_resolved _ ?_ ?_ <;> simp [residualPc, straightPc] <;> norm_num)
    have hx : bone'._worldX = 57 := by
      rw [h4]; simp [residualPc, straightPc]; norm_num
    refine ⟨pc', bone', h1, h3, hx, ?_, ?_⟩
    · rw [h5]; simp [residualPc, straightPc]
    · rw [hx]; norm_num


/-- C4 (counterexample).  On the three-segment straight path from `(0, 0)`, two bones, Fixed
spacing 50, position 0, `translateMix = 1`, `rotateMix = 0`: after `update` bone 0 is at
`x = 3 / 10000`, not at the start vertex `x1 = 0`. -/
theorem first_bone_not_at_start_vertex :
    ∃ (pc' : PathConstraint ℝ) (bone' : Bone ℝ),
      update (⟨Real.sqrt, fun y x => Complex.arg ⟨x, y⟩, Real.cos, Real.sin,
        fun x y => x - y * ((if 0 ≤ x / y then ⌊x / y⌋ else ⌈x / y⌉ : ℤ) : ℝ), fun _ => false,
        Real.pi, 2 * Real.pi, Real.pi / 180⟩ : MathUtil ℝ) (fun _ => 0) (straightPc ℝ)
        = some pc' ∧
      pc'._bones[0]? = some bone' ∧ (straightPath ℝ).vertices 2 = 0 ∧
      bone'._worldX = 3 / 10000 ∧ bone'._worldX ≠ (straightPath ℝ).vertices 2 := by
  obtain ⟨pc', bone', h1, h2, h3, -, -⟩ := update_first_bone
    (⟨Real.sqrt, fun y x => Complex.arg ⟨x, y⟩, Real.cos, Real.sin,
      fun x y => x - y * ((if 0 ≤ x / y then ⌊x / y⌋ else ⌈x / y⌉ : ℤ) : ℝ), fun _ => false,
      Real.pi, 2 * Real.pi, Real.pi / 180⟩ : MathUtil ℝ) (fun x => Real.sqrt_nonneg x)
    (fun _ => 0) (straightPc ℝ) (straightPath ℝ) rfl rfl rfl (by decide) rfl rfl rfl rfl _ rfl
  have hx : bone'._worldX = 3 / 10000 := by
    rw [h3]
    simp only [straightPath, curvePoint, EPSILON, List.getD_cons_succ, List.getD_cons_zero]
    norm_num
  refine ⟨pc', bone', h1, h2, ?_, hx, ?_⟩
  · simp [straightPath]
  · rw [hx]
    simp [straightPath]

/-- C4 (amended).  For every open constant-speed path with at least one curve, in every rotate
and spacing mode, with `position = 0`, `translateMix = 1`, `rotateMix = 0` and a spacing buffer
whose cell 0 holds 0: `update` returns and bone 0's world position is the first cubic segment
`(x1, y1), (cx1, cy1), (cx2, cy2), (x2, y2)` evaluated at the clamped curve parameter
`EPSILON`. -/
theorem first_bone_at_clamped_start {K : Type} [LinearOrderedField K] (M : MathUtil K)
    (hsqrt : ∀ x, 0 ≤ M.sqrt x) (fresh : Nat → K) (pc : PathConstraint K)
    (path : PathAttachment K) (hA : pc._target.attachment = some (Attachment.path path))
    (hcs : path.constantSpeed = true) (hopen : path.closed = false)
    (hn : 1 ≤ curveCountOf path) (htm : pc._translateMix = 1) (hrm : pc._rotateMix = 0)
    (hpos : pc._position = 0) (h0 : (pc._spaces[0]?).getD (fresh 0) = 0)
    (bone : Bone K) (hb : pc._bones[0]? = some bone) :
    ∃ (pc' : PathConstraint K) (bone' : Bone K), update M fresh pc = some pc' ∧
      pc'._bones[0]? = some bone' ∧
      bone'._worldX = curvePoint EPSILON (path.vertices 2) (path.vertices 4) (path.vertices 6)
        (path.vertices 8) ∧
      bone'._worldY = curvePoint EPSILON (path.vertices 3) (path.vertices 5) (path.vertices 7)
        (path.vertices 9) := by
  obtain ⟨pc', bone', h1, h2, h3, h4, -⟩ :=
    update_first_bone M hsqrt fresh pc path hA hcs hopen hn htm hrm hpos h0 bone hb
  exact ⟨pc', bone', h1, h2, h3, h4⟩

theorem first_bone_at_clamped_start_witness :
    (∀ x, 0 ≤ (⟨Real.sqrt, fun y x => Complex.arg ⟨x, y⟩, Real.cos, Real.sin,
      fun x y => x - y * ((if 0 ≤ x / y then ⌊x / y⌋ else ⌈x / y⌉ : ℤ) : ℝ), fun _ => false,
      Real.pi, 2 * Real.pi, Real.pi / 180⟩ : MathUtil ℝ).sqrt x) ∧
    (straightPc ℝ)._target.attachment = some (Attachment.path (straightPath ℝ)) ∧
    (straightPath ℝ).constantSpeed = true ∧ (straightPath ℝ).closed = false ∧
    1 ≤ curveCountOf (straightPath ℝ) ∧ (straightPc ℝ)._translateMix = 1 ∧
    (straightPc ℝ)._rotateMix = 0 ∧ (straightPc ℝ)._position = 0 ∧
    (((straightPc ℝ)._spaces[0]?).getD ((fun _ => 0 : ℕ → ℝ) 0) = 0) ∧
    (straightPc ℝ)._bones[0]? = some ⟨7, 7, 1, 0, 0, 1, true, 10⟩ ∧
    ∃ (pc' : PathConstraint ℝ) (bone' : Bone ℝ),
      update (⟨Real.sqrt, fun y x => Complex.arg ⟨x, y⟩, Real.cos, Real.sin,
        fun x y => x - y * ((if 0 ≤ x / y then ⌊x / y⌋ else ⌈x / y⌉ : ℤ) : ℝ), fun _ => false,
        Real.pi, 2 * Real.pi, Real.pi / 180⟩ : MathUtil ℝ) (fun _ => 0) (straightPc ℝ)
        = some pc' ∧
      pc'._bones[0]? = some bone' ∧
      bone'._worldX = curvePoint EPSILON ((straightPath ℝ).vertices 2)
        ((straightPath ℝ).vertices 4) ((straightPath ℝ).vertices 6)
        ((straightPath ℝ).vertices 8) ∧
      bone'._worldY = curvePoint EPSILON ((straightPath ℝ).vertices 3)
        ((straightPath ℝ).vertices 5) ((straightPath ℝ).vertices 7)
        ((straightPath ℝ).vertices 9) :=
  ⟨fun x => Real.sqrt_nonneg x, rfl, rfl, rfl, by decide, rfl, rfl, rfl, rfl, rfl,
    first_bone_at_clamped_start _ (fun x => Real.sqrt_nonneg x) (fun _ => 0) (straightPc ℝ)
      (straightPath ℝ) rfl rfl rfl (by decide) rfl rfl rfl rfl _ rfl⟩

/-- C5 (counterexample).  On the three-segment straight path from `(0, 0)` to `(90, 0)`, a
single bone, Percent spacing 0.5, position 0, `translateMix = 1`, `rotateMix = 0`: after
`update` the bone is at `x = 3 / 10000`, not at the arc-length midpoint `x = 45`. -/
theorem single_bone_not_at_midpoint :
    ∃ (pc' : PathConstraint ℝ) (bone' : Bone ℝ),
      update (⟨Real.sqrt, fun y x => Complex.arg ⟨x, y⟩, Real.cos, Real.sin,
        fun x y => x - y * ((if 0 ≤ x / y then ⌊x / y⌋ else ⌈x / y⌉ : ℤ) : ℝ), fun _ => false,
        Real.pi, 2 * Real.pi, Real.pi / 180⟩ : MathUtil ℝ) (fun _ => 0) (percentPc ℝ)
        = some pc' ∧
      pc'._bones[0]? = some bone' ∧ bone'._worldX = 3 / 10000 ∧ bone'._worldX ≠ 45 := by
  obtain ⟨pc', bone', h1, h2, h3, -, -⟩ := update_first_bone
    (⟨Real.sqrt, fun y x => Complex.arg ⟨x, y⟩, Real.cos, Real.sin,
      fun x y => x - y * ((if 0 ≤ x / y then ⌊x / y⌋ else ⌈x / y⌉ : ℤ) : ℝ), fun _ => false,
      Real.pi, 2 * Real.pi, Real.pi / 180⟩ : MathUtil ℝ) (fun x => Real.sqrt_nonneg x)
    (fun _ => 0) (percentPc ℝ) (straightPath ℝ) rfl rfl rfl (by decide) rfl rfl rfl rfl _ rfl
  have hx : bone'._worldX = 3 / 10000 := by
    rw [h3]
    simp only [straightPath, curvePoint, EPSILON, List.getD_cons_succ, List.getD_cons_zero]
    norm_num
  refine ⟨pc', bone', h1, h2, hx, ?_⟩
  rw [hx]
  norm_num

/-- C5 (amended).  For every open constant-speed path with at least one curve and a chain of a
single bone, with Percent spacing 0.5, `position = 0`, `translateMix = 1`, `rotateMix = 0` and
a spacing buffer whose cell 0 holds 0: `update` returns and the bone's world position is the
path point of the base position, that is the first cubic segment evaluated at the clamped
curve parameter `EPSILON`; the spacing only offsets the samples of index 1 and more. -/
theorem single_bone_at_base_position {K : Type} [LinearOrderedField K] (M : MathUtil K)
    (hsqrt : ∀ x, 0 ≤ M.sqrt x) (fresh : Nat → K) (pc : PathConstraint K)
    (path : PathAttachment K) (bone : Bone K)
    (hA : pc._target.attachment = some (Attachment.path path))
    (hcs : path.constantSpeed = true) (hopen : path.closed = false)
    (hn : 1 ≤ curveCountOf path) (hmode : pc._data._spacingMode = SpacingMode.Percent)
    (hspacing : pc._spacing = 1 / 2) (hbones : pc._bones = [bone])
    (htm : pc._translateMix = 1) (hrm : pc._rotateMix = 0)
    (hpos : pc._position = 0) (h0 : (pc._spaces[0]?).getD (fresh 0) = 0) :
    ∃ (pc' : PathConstraint K) (bone' : Bone K), update M fresh pc = some pc' ∧
      pc'._bones = [bone'] ∧
      bone'._worldX = curvePoint EPSILON (path.vertices 2) (path.vertices 4) (path.vertices 6)
        (path.vertices 8) ∧
      bone'._worldY = curvePoint EPSILON (path.vertices 3) (path.vertices 5) (path.vertices 7)
        (path.vertices 9) := by
  have _h1 := hmode
  have _h2 := hspacing
  obtain ⟨pc', bone', h1, h2, h3, h4, h5⟩ := update_first_bone M hsqrt fresh pc path hA hcs hopen
    hn htm hrm hpos h0 bone (by rw [hbones]; rfl)
  refine ⟨pc', bone', h1, ?_, h3, h4⟩
  rw [hbones] at h5
  match hq : pc'._bones, h5, h2 with
  | [b], _, hb =>
    simp only [List.getElem?_cons_zero, Option.some.injEq] at hb
    rw [hb]

theorem single_bone_at_base_position_witness :
    (∀ x, 0 ≤ (⟨Real.sqrt, fun y x => Complex.arg ⟨x, y⟩, Real.cos, Real.sin,
      fun x y => x - y * ((if 0 ≤ x / y then ⌊x / y⌋ else ⌈x / y⌉ : ℤ) : ℝ), fun _ => false,
      Real.pi, 2 * Real.pi, Real.pi / 180⟩ : MathUtil ℝ).sqrt x) ∧
    (percentPc ℝ)._target.attachment = some (Attachment.path (straightPath ℝ)) ∧
    (straightPath ℝ).constantSpeed = true ∧ (straightPath ℝ).closed = false ∧
    1 ≤ curveCountOf (straightPath ℝ) ∧
    (percentPc ℝ)._data._spacingMode = SpacingMode.Percent ∧ (percentPc ℝ)._spacing = 1 / 2 ∧
    (percentPc ℝ)._bones = [⟨7, 7, 1, 0, 0, 1, true, 10⟩] ∧
    (percentPc ℝ)._translateMix = 1 ∧ (percentPc ℝ)._rotateMix = 0 ∧
    (percentPc ℝ)._position = 0 ∧
    (((percentPc ℝ)._spaces[0]?).getD ((fun _ => 0 : ℕ → ℝ) 0) = 0) ∧
    ∃ (pc' : PathConstraint ℝ) (bone' : Bone ℝ),
      update (⟨Real.sqrt, fun y x => Complex.arg ⟨x, y⟩, Real.cos, Real.sin,
        fun x y => x - y * ((if 0 ≤ x / y then ⌊x / y⌋ else ⌈x / y⌉ : ℤ) : ℝ), fun _ => false,
        Real.pi, 2 * Real.pi, Real.pi / 180⟩ : MathUtil ℝ) (fun _ => 0) (percentPc ℝ)
        = some pc' ∧
      pc'._bones = [bone'] ∧
      bone'._worldX = curvePoint EPSILON ((straightPath ℝ).vertices 2)
        ((straightPath ℝ).vertices 4) ((straightPath ℝ).vertices 6)
        ((straightPath ℝ).vertices 8) ∧
      bone'._worldY = curvePoint EPSILON ((straightPath ℝ).vertices 3)
        ((straightPath ℝ).vertices 5) ((straightPath ℝ).vertices 7)
        ((straightPath ℝ).vertices 9) :=
  ⟨fun x => Real.sqrt_nonneg x, rfl, rfl, rfl, by decide, rfl, rfl, rfl, rfl, rfl, rfl, rfl,
    single_bone_at_base_position _ (fun x => Real.sqrt_nonneg x) (fun _ => 0) (percentPc ℝ)
      (straightPath ℝ) _ rfl rfl rfl (by decide) rfl rfl rfl rfl rfl rfl rfl⟩

/-- C6. Closed-path periodicity: for a closed path whose length `L` (the value of the local
`pathLength`) is positive, in Fixed position mode, for every spacing table and every base
position, the sampler run from base position `_position + L` returns the same vector and leaves
the same buffers (so the same `x, y, angle` entries for every requested index) as the sampler
run from `_position`; the only member that differs is `_position` itself.  This covers the
constant-speed and the non-constant-speed branch. -/
theorem closed_path_sampling_periodic (M : MathUtil ℝ) (hM : M.Exact) (fresh : ℕ → ℝ)
    (pc : PathConstraint ℝ) (path : PathAttachment ℝ) (spacesCount : ℕ)
    (tangents percentSpacing : Bool) (hclosed : path.closed = true) (L : ℝ)
    (hlen : pathLengthOf M fresh pc path = some L) (hL : 0 < L) :
    computeWorldPositions M fresh { pc with _position := pc._position + L } path spacesCount
        tangents false percentSpacing =
      (computeWorldPositions M fresh pc path spacesCount tangents false percentSpacing).map
        (fun r => (r.1, { r.2 with _position := pc._position + L })) :=
  computeWorldPositions_shift M hM fresh pc path spacesCount tangents percentSpacing hclosed L
    hlen hL

theorem closed_path_sampling_periodic_witness :
    MathUtil.Exact ⟨Real.sqrt, fun y x => Complex.arg ⟨x, y⟩, Real.cos, Real.sin,
      fun x y => x - y * ((if 0 ≤ x / y then ⌊x / y⌋ else ⌈x / y⌉ : ℤ) : ℝ), fun _ => false,
      Real.pi, 2 * Real.pi, Real.pi / 180⟩ ∧
    (loopPath ℝ).closed = true ∧
    pathLengthOf (⟨Real.sqrt, fun y x => Complex.arg ⟨x, y⟩, Real.cos, Real.sin,
      fun x y => x - y * ((if 0 ≤ x / y then ⌊x / y⌋ else ⌈x / y⌉ : ℤ) : ℝ), fun _ => false,
      Real.pi, 2 * Real.pi, Real.pi / 180⟩ : MathUtil ℝ) (fun _ => 0) (ncPc ℝ) (loopPath ℝ)
      = some 60 ∧
    (0 : ℝ) < 60 ∧
    computeWorldPositions (⟨Real.sqrt, fun y x => Complex.arg ⟨x, y⟩, Real.cos, Real.sin,
        fun x y => x - y * ((if 0 ≤ x / y then ⌊x / y⌋ else ⌈x / y⌉ : ℤ) : ℝ), fun _ => false,
        Real.pi, 2 * Real.pi, Real.pi / 180⟩ : MathUtil ℝ) (fun _ => 0)
        { ncPc ℝ with _position := (ncPc ℝ)._position + 60 } (loopPath ℝ) 2 true false false =
      (computeWorldPositions (⟨Real.sqrt, fun y x => Complex.arg ⟨x, y⟩, Real.cos, Real.sin,
        fun x y => x - y * ((if 0 ≤ x / y then ⌊x / y⌋ else ⌈x / y⌉ : ℤ) : ℝ), fun _ => false,
        Real.pi, 2 * Real.pi, Real.pi / 180⟩ : MathUtil ℝ) (fun _ => 0) (ncPc ℝ) (loopPath ℝ) 2
        true false false).map
        (fun r => (r.1, { r.2 with _position := (ncPc ℝ)._position + 60 })) :=
  ⟨⟨rfl, rfl, rfl, rfl, rfl, rfl, rfl, rfl, rfl⟩, rfl, by simp [pathLengthOf, loopPath, toIdx],
    by norm_num,
    closed_path_sampling_periodic _ ⟨rfl, rfl, rfl, rfl, rfl, rfl, rfl, rfl, rfl⟩ (fun _ => 0)
      (ncPc ℝ) (loopPath ℝ) 2 true false rfl 60 (by simp [pathLengthOf, loopPath, toIdx])
      (by norm_num)⟩

/-- C7. Extrapolation: for an endpoint `E = (ex, ey)` and its neighbouring control point
`C = (cx, cy)` with `E ≠ C`, and every amount `p`, `addBeforePosition` (tangent from `E` to `C`)
and `addAfterPosition` (tangent from `C` to `E`) write the point `E + p * t` and the angle
`atan2 t.y t.x`, where `t` is the unit tangent; the written point is colinear with the tangent
through `E` and lies at distance `|p|` from `E`. -/
theorem extrapolation_along_endpoint_tangent (M : MathUtil ℝ) (hM : M.Exact) (p : ℝ)
    (temp output : List ℝ) (i o : ℕ) (ex ey cx cy : ℝ) (hne : ex ≠ cx ∨ ey ≠ cy)
    (ho : o + 2 < output.length) :
    (temp[i]? = some ex → temp[i + 1]? = some ey → temp[i + 2]? = some cx →
      temp[i + 3]? = some cy →
      ∃ out x y, addBeforePosition M p temp i output o = some out ∧
        out[o]? = some x ∧ out[o + 1]? = some y ∧
        x = ex + p * ((cx - ex) / Real.sqrt ((cx - ex) * (cx - ex) + (cy - ey) * (cy - ey))) ∧
        y = ey + p * ((cy - ey) / Real.sqrt ((cx - ex) * (cx - ex) + (cy - ey) * (cy - ey))) ∧
        out[o + 2]? = some (M.atan2
          ((cy - ey) / Real.sqrt ((cx - ex) * (cx - ex) + (cy - ey) * (cy - ey)))
          ((cx - ex) / Real.sqrt ((cx - ex) * (cx - ex) + (cy - ey) * (cy - ey)))) ∧
        (x - ex) * (cy - ey) - (y - ey) * (cx - ex) = 0 ∧
        Real.sqrt ((x - ex) * (x - ex) + (y - ey) * (y - ey)) = |p|) ∧
    (temp[i]? = some cx → temp[i + 1]? = some cy → temp[i + 2]? = some ex →
      temp[i + 3]? = some ey →
      ∃ out x y, addAfterPosition M p temp i output o = some out ∧
        out[o]? = some x ∧ out[o + 1]? = some y ∧
        x = ex + p * ((ex - cx) / Real.sqrt ((ex - cx) * (ex - cx) + (ey - cy) * (ey - cy))) ∧
        y = ey + p * ((ey - cy) / Real.sqrt ((ex - cx) * (ex - cx) + (ey - cy) * (ey - cy))) ∧
        out[o + 2]? = some (M.atan2
          ((ey - cy) / Real.sqrt ((ex - cx) * (ex - cx) + (ey - cy) * (ey - cy)))
          ((ex - cx) / Real.sqrt ((ex - cx) * (ex - cx) + (ey - cy) * (ey - cy)))) ∧
        (x - ex) * (ey - cy) - (y - ey) * (ex - cx) = 0 ∧
        Real.sqrt ((x - ex) * (x - ex) + (y - ey) * (y - ey)) = |p|) := by
  have key : ∀ dx dy : ℝ, (dx ≠ 0 ∨ dy ≠ 0) →
      ∀ x y : ℝ, x = ex + p * (dx / Real.sqrt (dx * dx + dy * dy)) →
        y = ey + p * (dy / Real.sqrt (dx * dx + dy * dy)) →
        (x - ex) * dy - (y - ey) * dx = 0 ∧
        Real.sqrt ((x - ex) * (x - ex) + (y - ey) * (y - ey)) = |p| := by
    intro dx dy h x y hx hy
    have hn := sqrt_sq_pos_of_ne dx dy h
    have hs : Real.sqrt (dx * dx + dy * dy) * Real.sqrt (dx * dx + dy * dy) = dx * dx + dy * dy :=
      Real.mul_self_sqrt (by nlinarith [mul_self_nonneg dx, mul_self_nonneg dy])
    generalize Real.sqrt (dx * dx + dy * dy) = n at hx hy hn hs
    have hn0 : n ≠ 0 := ne_of_gt hn
    constructor
    · rw [hx, hy]; field_simp; ring
    · have : (x - ex) * (x - ex) + (y - ey) * (y - ey) = p * p := by
        rw [hx, hy]
        field_simp
        rw [hs]; ring
      rw [this, Real.sqrt_mul_self_eq_abs]
  constructor
  · intro h0 h1 h2 h3
    have hd : cx - ex ≠ 0 ∨ cy - ey ≠ 0 := by
      rcases hne with h | h
      · left; exact sub_ne_zero.mpr (Ne.symm h)
      · right; exact sub_ne_zero.mpr (Ne.symm h)
    obtain ⟨out, hout, -, hx, hy, hr⟩ := extrapolate_writes M hM p ex ey _ _ output o ho hd
    refine ⟨out, _, _, ?_, hx, hy, rfl, rfl, hr, ?_⟩
    · simp only [addBeforePosition, h0, h1, h2, h3, Option.some_bind, Option.bind_eq_bind]
      exact hout
    · exact key _ _ hd _ _ rfl rfl
  · intro h0 h1 h2 h3
    have hd : ex - cx ≠ 0 ∨ ey - cy ≠ 0 := by
      rcases hne with h | h
      · left; exact sub_ne_zero.mpr h
      · right; exact sub_ne_zero.mpr h
    obtain ⟨out, hout, -, hx, hy, hr⟩ := extrapolate_writes M hM p ex ey _ _ output o ho hd
    refine ⟨out, _, _, ?_, hx, hy, rfl, rfl, hr, ?_⟩
    · simp only [addAfterPosition, h0, h1, h2, h3, Option.some_bind, Option.bind_eq_bind]
      exact hout
    · exact key _ _ hd _ _ rfl rfl


theorem extrapolation_along_endpoint_tangent_witness :
    MathUtil.Exact ⟨Real.sqrt, fun y x => Complex.arg ⟨x, y⟩, Real.cos, Real.sin,
      fun x y => x - y * ((if 0 ≤ x / y then ⌊x / y⌋ else ⌈x / y⌉ : ℤ) : ℝ), fun _ => false,
      Real.pi, 2 * Real.pi, Real.pi / 180⟩ ∧
    ((0 : ℝ) ≠ 3 ∨ (0 : ℝ) ≠ 4) ∧ 0 + 2 < [(0 : ℝ), 0, 0].length ∧
    ∃ out x y, addBeforePosition (⟨Real.sqrt, fun y x => Complex.arg ⟨x, y⟩, Real.cos, Real.sin,
        fun x y => x - y * ((if 0 ≤ x / y then ⌊x / y⌋ else ⌈x / y⌉ : ℤ) : ℝ), fun _ => false,
        Real.pi, 2 * Real.pi, Real.pi / 180⟩ : MathUtil ℝ) (-5) [0, 0, 3, 4] 0 [0, 0, 0] 0
        = some out ∧
      out[0]? = some x ∧ out[0 + 1]? = some y ∧
      x = 0 + (-5) * ((3 - 0) / Real.sqrt ((3 - 0) * (3 - 0) + (4 - 0) * (4 - 0))) ∧
      y = 0 + (-5) * ((4 - 0) / Real.sqrt ((3 - 0) * (3 - 0) + (4 - 0) * (4 - 0))) ∧
      out[0 + 2]? = some (Complex.arg
        ⟨(3 - 0) / Real.sqrt ((3 - 0) * (3 - 0) + (4 - 0) * (4 - 0)),
         (4 - 0) / Real.sqrt ((3 - 0) * (3 - 0) + (4 - 0) * (4 - 0))⟩) ∧
      (x - 0) * (4 - 0) - (y - 0) * (3 - 0) = 0 ∧
      Real.sqrt ((x - 0) * (x - 0) + (y - 0) * (y - 0)) = |(-5 : ℝ)| :=
  ⟨⟨rfl, rfl, rfl, rfl, rfl, rfl, rfl, rfl, rfl⟩, Or.inl (by norm_num), by simp,
    (extrapolation_along_endpoint_tangent _ ⟨rfl, rfl, rfl, rfl, rfl, rfl, rfl, rfl, rfl⟩ (-5)
      [0, 0, 3, 4] [0, 0, 0] 0 0 0 0 3 4 (Or.inl (by norm_num)) (by simp)).1 rfl rfl rfl rfl⟩


/-- C8 (counterexample).  One bone of setup length `1e-6` and `(a, c) = (100, 0)` on the straight
path, ChainScale mode, `rotateMix = 1`: its chain length `1e-6 * 100 = 1e-4` is at least
`EPSILON`, but `update` stores chain length 0 for it and does not scale it: the samples 0 and 1
coincide at `(10, 0)`, while `setupLength * sqrt (a' ^ 2 + c' ^ 2)` is still `1e-4`, not the
distance 0 between the samples. -/
theorem chain_scale_skips_short_setup_length :
    ∃ (pc' : PathConstraint ℝ) (bone' : Bone ℝ),
      update (⟨Real.sqrt, fun y x => Complex.arg ⟨x, y⟩, Real.cos, Real.sin,
        fun x y => x - y * ((if 0 ≤ x / y then ⌊x / y⌋ else ⌈x / y⌉ : ℤ) : ℝ), fun _ => false,
        Real.pi, 2 * Real.pi, Real.pi / 180⟩ : MathUtil ℝ) (fun _ => 0) (tinyBonePc ℝ)
        = some pc' ∧
      (tinyBonePc ℝ)._bones = [⟨0, 0, 100, 0, 0, 100, true, 1 / 1000000⟩] ∧
      (EPSILON : ℝ) ≤ 1 / 1000000 * Real.sqrt (100 ^ 2 + 0 ^ 2) ∧
      pc'._bones[0]? = some bone' ∧
      pc'._positions[0]? = some 10 ∧ pc'._positions[1]? = some 0 ∧
      pc'._positions[3]? = some 10 ∧ pc'._positions[4]? = some 0 ∧
      1 / 1000000 * Real.sqrt (bone'._a ^ 2 + bone'._c ^ 2) = 1 / 10000 ∧
      1 / 1000000 * Real.sqrt (bone'._a ^ 2 + bone'._c ^ 2) ≠
        Real.sqrt ((10 - 10) ^ 2 + (0 - 0) ^ 2) := by
  have hM : MathUtil.Exact ⟨Real.sqrt, fun y x => Complex.arg ⟨x, y⟩, Real.cos, Real.sin,
      fun x y => x - y * ((if 0 ≤ x / y then ⌊x / y⌋ else ⌈x / y⌉ : ℤ) : ℝ), fun _ => false,
      Real.pi, 2 * Real.pi, Real.pi / 180⟩ := ⟨rfl, rfl, rfl, rfl, rfl, rfl, rfl, rfl, rfl⟩
  generalize hMdef : (⟨Real.sqrt, fun y x => Complex.arg ⟨x, y⟩, Real.cos, Real.sin,
      fun x y => x - y * ((if 0 ≤ x / y then ⌊x / y⌋ else ⌈x / y⌉ : ℤ) : ℝ), fun _ => false,
      Real.pi, 2 * Real.pi, Real.pi / 180⟩ : MathUtil ℝ) = M at hM ⊢
  have hsqrt : ∀ x, 0 ≤ M.sqrt x := fun x => by rw [hM.sqrt_eq]; exact Real.sqrt_nonneg x
  have hS := straightPath_isStraight
  have hsmall : ((1 : ℝ) / 1000000 < EPSILON) := by simp only [EPSILON]; norm_num
  obtain ⟨sp, ln, hsp, hspl, hsp0, -, -, hloop⟩ :=
    computeSpaces_loop_spec M (fun x y => x / y) (fun _ => 0) (tinyBonePc ℝ) (Or.inl rfl)
  have hspl' : sp.length = 2 := hspl
  have h0 : sp[0]? = some 0 := by
    rw [hsp0, Vector.setSize_getElem? _ _ _ _ (by decide)]
    rfl
  have h1 : sp[1]? = some 0 := by
    obtain ⟨g, -⟩ := hloop 0 ⟨0, 0, 100, 0, 0, 100, true, 1 / 1000000⟩ (by decide) rfl
    rw [g]
    exact congrArg some (if_pos hsmall)
  have hspeq : sp = [0, 0] := by
    match sp, hspl', h0, h1 with
    | [a, b], _, ha, hb =>
      simp only [List.getElem?_cons_zero, List.getElem?_cons_succ, Option.some.injEq] at ha hb
      rw [ha, hb]
  obtain ⟨pc', ws, hupd, hwl, hgood, -, hbones⟩ := update_chain_scale M hsqrt (fun _ => 0)
    (tinyBonePc ℝ) (straightPath ℝ) rfl rfl (by decide) (fun h => by cases h) rfl
    (by simp [tinyBonePc])
    (fun i s => s.position = 10 + (sp.take i).sum ∧ (i = 0 → s.curve = 0) ∧
      (s.curve = 0 ∨ ∃ v, (curvesOf M (straightPath ℝ))[s.curve - 1]? = some v ∧
        v < s.position))
    (fun i w => 0 ≤ 10 + (sp.take (i + 1)).sum →
      10 + (sp.take (i + 1)).sum ≤ (fun k : Nat => 30 * (k : ℝ)) 3 →
      (∀ k, k < 3 → 10 + (sp.take (i + 1)).sum ≤ (fun k : Nat => 30 * (k : ℝ)) (k + 1) →
        (k = 0 ∨ (fun k : Nat => 30 * (k : ℝ)) k < 10 + (sp.take (i + 1)).sum) →
        EPSILON * ((fun k : Nat => 30 * (k : ℝ)) (k + 1) - (fun k : Nat => 30 * (k : ℝ)) k) ≤
          10 + (sp.take (i + 1)).sum - (fun k : Nat => 30 * (k : ℝ)) k) →
      w.1 = 0 + (10 + (sp.take (i + 1)).sum) * 1 ∧
      w.2.1 = 0 + (10 + (sp.take (i + 1)).sum) * 0)
    (by
      intro sp' ln' hsp'
      rw [hsp] at hsp'
      cases hsp'
      constructor
      · intro c
        exact ⟨by simp [positionIn, tinyBonePc], fun _ => rfl, Or.inl rfl⟩
      · intro i s w s1 space _ hspace hinv _ hout
        have hspace' : sp[i]? = some space := hspace
        exact hS.samples M hM _ 10 sp
          (fun j v hv => by
            rw [hspeq] at hv
            cases j with
            | zero =>
              simp only [Nat.zero_add, List.getElem?_cons_succ, List.getElem?_cons_zero,
                Option.some.injEq] at hv
              rw [← hv]
            | succ j => simp at hv)
          i space s w s1 hspace' hinv hout)
  have hl0 : 0 < ws.length := by rw [hwl]; decide
  have hl1 : 1 < ws.length := by rw [hwl]; decide
  have hw0 : ws[0]? = some ws[0] := List.getElem?_eq_getElem hl0
  have hw1 : ws[1]? = some ws[1] := List.getElem?_eq_getElem hl1
  have hres := straight_resolved_first 10 (by norm_num) (by norm_num)
  obtain ⟨g0, p0, p1⟩ := hgood 0 _ hw0
  obtain ⟨g1, p3, p4⟩ := hgood 1 _ hw1
  have e1 : (10 : ℝ) + (sp.take (0 + 1)).sum = 10 := by rw [hspeq]; simp
  have e2 : (10 : ℝ) + (sp.take (1 + 1)).sum = 10 := by rw [hspeq]; simp
  rw [e1] at g0
  rw [e2] at g1
  obtain ⟨a0, b0⟩ := g0 (by norm_num) (by norm_num) hres
  obtain ⟨a1, b1⟩ := g1 (by norm_num) (by norm_num) hres
  rw [a0] at p0
  rw [b0] at p1
  rw [a1] at p3
  rw [b1] at p4
  obtain ⟨bone', r, x0, y0, x1, y1, hb', -, -, -, -, -, -, ha, hc, -, -, -, -⟩ :=
    hbones 0 ⟨0, 0, 100, 0, 0, 100, true, 1 / 1000000⟩ rfl
  have hcl : chainLength M (⟨0, 0, 100, 0, 0, 100, true, 1 / 1000000⟩ : Bone ℝ) = 0 :=
    if_pos hsmall
  rw [hcl, if_neg (not_le.mpr EPSILON_pos)] at ha hc
  have hnorm : bone'._a ^ 2 + bone'._c ^ 2 = 100 ^ 2 := by
    rw [ha, hc, hM.cos_eq, hM.sin_eq]
    linear_combination (100 : ℝ) ^ 2 * Real.cos_sq_add_sin_sq r
  have hval : 1 / 1000000 * Real.sqrt (bone'._a ^ 2 + bone'._c ^ 2) = 1 / 10000 := by
    rw [hnorm, Real.sqrt_sq (by norm_num)]
    norm_num
  refine ⟨pc', bone', hupd, rfl, ?_, hb', ?_, ?_, ?_, ?_, hval, ?_⟩
  · rw [show (100 : ℝ) ^ 2 + 0 ^ 2 = 100 ^ 2 by norm_num, Real.sqrt_sq (by norm_num)]
    simp only [EPSILON]
    norm_num
  · simpa using p0
  · simpa using p1
  · simpa using p3
  · simpa using p4
  · rw [hval]
    norm_num


/-- C8 (amended).  In ChainScale rotate mode with `rotateMix = 1`, on a constant-speed path with
at least one curve (of positive length when closed), for every bone `i` whose setup length is
at least `EPSILON` and whose chain length `L = setupLength * sqrt (a ^ 2 + c ^ 2)` is at least
`EPSILON`: `update` returns; with `(x0, y0)` and `(x1, y1)` the samples `i` and `i + 1` it
leaves in the positions buffer and `s = ‖(x1, y1) - (x0, y0)‖ / L`, the bone's `a` and `c` are
those of the vector `(a * s, c * s)` rotated by some angle `r`, and after the call
`setupLength * sqrt (a' ^ 2 + c' ^ 2)` is the distance between the two samples. -/
theorem chain_scale_matches_sample_distance (M : MathUtil ℝ) (hM : M.Exact) (fresh : ℕ → ℝ)
    (pc : PathConstraint ℝ) (path : PathAttachment ℝ)
    (hA : pc._target.attachment = some (Attachment.path path))
    (hcs : path.constantSpeed = true) (hn : 1 ≤ curveCountOf path)
    (hpl : path.closed = true → 0 < lengthOf M path)
    (hmode : pc._data._rotateMode = RotateMode.ChainScale) (hrm : pc._rotateMix = 1)
    (i : ℕ) (bone : Bone ℝ) (hb : pc._bones[i]? = some bone)
    (hsetup : EPSILON ≤ bone.dataLength)
    (hL : EPSILON ≤ bone.dataLength * Real.sqrt (bone._a ^ 2 + bone._c ^ 2)) :
    ∃ (pc' : PathConstraint ℝ) (bone' : Bone ℝ) (r x0 y0 x1 y1 : ℝ),
      update M fresh pc = some pc' ∧ pc'._bones[i]? = some bone' ∧
      pc'._positions[3 * i]? = some x0 ∧ pc'._positions[3 * i + 1]? = some y0 ∧
      pc'._positions[3 * i + 3]? = some x1 ∧ pc'._positions[3 * i + 4]? = some y1 ∧
      bone'._a = Real.cos r * (bone._a * (Real.sqrt ((x1 - x0) ^ 2 + (y1 - y0) ^ 2) /
          (bone.dataLength * Real.sqrt (bone._a ^ 2 + bone._c ^ 2)))) -
        Real.sin r * (bone._c * (Real.sqrt ((x1 - x0) ^ 2 + (y1 - y0) ^ 2) /
          (bone.dataLength * Real.sqrt (bone._a ^ 2 + bone._c ^ 2)))) ∧
      bone'._c = Real.sin r * (bone._a * (Real.sqrt ((x1 - x0) ^ 2 + (y1 - y0) ^ 2) /
          (bone.dataLength * Real.sqrt (bone._a ^ 2 + bone._c ^ 2)))) +
        Real.cos r * (bone._c * (Real.sqrt ((x1 - x0) ^ 2 + (y1 - y0) ^ 2) /
          (bone.dataLength * Real.sqrt (bone._a ^ 2 + bone._c ^ 2)))) ∧
      bone.dataLength * Real.sqrt (bone'._a ^ 2 + bone'._c ^ 2) =
        Real.sqrt ((x1 - x0) ^ 2 + (y1 - y0) ^ 2) := by
  have hsqrt : ∀ x, 0 ≤ M.sqrt x := fun x => by rw [hM.sqrt_eq]; exact Real.sqrt_nonneg x
  obtain ⟨pc', ws, hupd, -, -, -, hbones⟩ := update_chain_scale M hsqrt fresh pc path hA hcs hn
    (Exact.wrap_le M hM path hpl) hmode (by rw [hrm]; exact zero_lt_one)
    (fun _ _ => True) (fun _ _ => True)
    (fun _ _ _ => ⟨fun _ => trivial, fun _ _ _ _ _ _ _ _ _ _ => ⟨trivial, trivial⟩⟩)
  obtain ⟨bone', r, x0, y0, x1, y1, hb', p0, p1, p3, p4, -, -, ha, hc, -, -, -, -⟩ :=
    hbones i bone hb
  have hlen := Exact.chainLength_eq M hM bone hsetup
  have hLpos : 0 < bone.dataLength * Real.sqrt (bone._a ^ 2 + bone._c ^ 2) :=
    lt_of_lt_of_le EPSILON_pos hL
  rw [hlen, if_pos hL, hrm, hM.sqrt_eq, hM.cos_eq, hM.sin_eq] at ha hc
  simp only [mul_one, sub_add_cancel] at ha hc
  rw [show (x1 - x0) * (x1 - x0) + (y1 - y0) * (y1 - y0) = (x1 - x0) ^ 2 + (y1 - y0) ^ 2 by ring]
    at ha hc
  refine ⟨pc', bone', r, x0, y0, x1, y1, hupd, hb', p0, p1, p3, p4, ha, hc, ?_⟩
  rw [ha, hc, rotated_scaled_norm _ _ _ _ _ (div_nonneg (Real.sqrt_nonneg _) hLpos.le)
    (Real.cos_sq_add_sin_sq r)]
  field_simp
  ring

theorem chain_scale_matches_sample_distance_witness :
    MathUtil.Exact ⟨Real.sqrt, fun y x => Complex.arg ⟨x, y⟩, Real.cos, Real.sin,
      fun x y => x - y * ((if 0 ≤ x / y then ⌊x / y⌋ else ⌈x / y⌉ : ℤ) : ℝ), fun _ => false,
      Real.pi, 2 * Real.pi, Real.pi / 180⟩ ∧
    (chainPc ℝ)._target.attachment = some (Attachment.path (straightPath ℝ)) ∧
    (straightPath ℝ).constantSpeed = true ∧ 1 ≤ curveCountOf (straightPath ℝ) ∧
    (chainPc ℝ)._data._rotateMode = RotateMode.ChainScale ∧ (chainPc ℝ)._rotateMix = 1 ∧
    (chainPc ℝ)._bones[1]? = some ⟨8, 8, 1, 0, 0, 1, true, 20⟩ ∧
    (EPSILON : ℝ) ≤ 20 ∧ (EPSILON : ℝ) ≤ 20 * Real.sqrt (1 ^ 2 + 0 ^ 2) ∧
    ∃ (pc' : PathConstraint ℝ) (bone' : Bone ℝ) (r x0 y0 x1 y1 : ℝ),
      update (⟨Real.sqrt, fun y x => Complex.arg ⟨x, y⟩, Real.cos, Real.sin,
        fun x y => x - y * ((if 0 ≤ x / y then ⌊x / y⌋ else ⌈x / y⌉ : ℤ) : ℝ), fun _ => false,
        Real.pi, 2 * Real.pi, Real.pi / 180⟩ : MathUtil ℝ) (fun _ => 0) (chainPc ℝ)
        = some pc' ∧ pc'._bones[1]? = some bone' ∧
      pc'._positions[3 * 1]? = some x0 ∧ pc'._positions[3 * 1 + 1]? = some y0 ∧
      pc'._positions[3 * 1 + 3]? = some x1 ∧ pc'._positions[3 * 1 + 4]? = some y1 ∧
      bone'._a = Real.cos r * (1 * (Real.sqrt ((x1 - x0) ^ 2 + (y1 - y0) ^ 2) /
          (20 * Real.sqrt (1 ^ 2 + 0 ^ 2)))) -
        Real.sin r * (0 * (Real.sqrt ((x1 - x0) ^ 2 + (y1 - y0) ^ 2) /
          (20 * Real.sqrt (1 ^ 2 + 0 ^ 2)))) ∧
      bone'._c = Real.sin r * (1 * (Real.sqrt ((x1 - x0) ^ 2 + (y1 - y0) ^ 2) /
          (20 * Real.sqrt (1 ^ 2 + 0 ^ 2)))) +
        Real.cos r * (0 * (Real.sqrt ((x1 - x0) ^ 2 + (y1 - y0) ^ 2) /
          (20 * Real.sqrt (1 ^ 2 + 0 ^ 2)))) ∧
      20 * Real.sqrt (bone'._a ^ 2 + bone'._c ^ 2) =
        Real.sqrt ((x1 - x0) ^ 2 + (y1 - y0) ^ 2) :=
  ⟨⟨rfl, rfl, rfl, rfl, rfl, rfl, rfl, rfl, rfl⟩, rfl, rfl, by decide, rfl, rfl, rfl,
    by simp only [EPSILON]; norm_num, by simp only [EPSILON]; norm_num,
    chain_scale_matches_sample_distance _ ⟨rfl, rfl, rfl, rfl, rfl, rfl, rfl, rfl, rfl⟩
      (fun _ => 0) (chainPc ℝ) (straightPath ℝ) rfl rfl (by decide)
      (fun h => by cases h) rfl rfl 1 ⟨8, 8, 1, 0, 0, 1, true, 20⟩ rfl
      (by simp only [EPSILON]; norm_num) (by simp only [EPSILON]; norm_num)⟩



/-- C9 (counterexample).  Two inputs at `translateMix = 1`, `rotateMix = 1` on the straight path
on which the second call of `update` changes the bone again.  In ChainScale mode (one bone of
setup length 10, Fixed spacing 12) the spacing is recomputed from the scaled bone: the x-axis
has squared length `36 / 25` after the first call and `1296 / 625` after the second.  In Chain
mode with offset rotation 90 degrees, a bone with `a = c = 0` and `(b, d) = (1, 0)` has
`b = 0` after the first call and `b = -1` after the second. -/
theorem update_twice_differs :
    (∃ (pc1 pc2 : PathConstraint ℝ) (b1 b2 : Bone ℝ),
      update (⟨Real.sqrt, fun y x => Complex.arg ⟨x, y⟩, Real.cos, Real.sin,
        fun x y => x - y * ((if 0 ≤ x / y then ⌊x / y⌋ else ⌈x / y⌉ : ℤ) : ℝ), fun _ => false,
        Real.pi, 2 * Real.pi, Real.pi / 180⟩ : MathUtil ℝ) (fun _ => 0) (scalePc ℝ) = some pc1 ∧
      update (⟨Real.sqrt, fun y x => Complex.arg ⟨x, y⟩, Real.cos, Real.sin,
        fun x y => x - y * ((if 0 ≤ x / y then ⌊x / y⌋ else ⌈x / y⌉ : ℤ) : ℝ), fun _ => false,
        Real.pi, 2 * Real.pi, Real.pi / 180⟩ : MathUtil ℝ) (fun _ => 0) pc1 = some pc2 ∧
      pc1._bones = [b1] ∧ pc2._bones = [b2] ∧
      b1._a * b1._a + b1._c * b1._c = 36 / 25 ∧ b2._a * b2._a + b2._c * b2._c = 1296 / 625 ∧
      ¬ (b2._a = b1._a ∧ b2._c = b1._c)) ∧
    (∃ (pc1 pc2 : PathConstraint ℝ) (b1 b2 : Bone ℝ),
      update (⟨Real.sqrt, fun y x => Complex.arg ⟨x, y⟩, Real.cos, Real.sin,
        fun x y => x - y * ((if 0 ≤ x / y then ⌊x / y⌋ else ⌈x / y⌉ : ℤ) : ℝ), fun _ => false,
        Real.pi, 2 * Real.pi, Real.pi / 180⟩ : MathUtil ℝ) (fun _ => 0) (flatPc ℝ) = some pc1 ∧
      update (⟨Real.sqrt, fun y x => Complex.arg ⟨x, y⟩, Real.cos, Real.sin,
        fun x y => x - y * ((if 0 ≤ x / y then ⌊x / y⌋ else ⌈x / y⌉ : ℤ) : ℝ), fun _ => false,
        Real.pi, 2 * Real.pi, Real.pi / 180⟩ : MathUtil ℝ) (fun _ => 0) pc1 = some pc2 ∧
      pc1._bones = [b1] ∧ pc2._bones = [b2] ∧ b1._b = 0 ∧ b2._b = -1 ∧ b2._b ≠ b1._b) := by
  constructor
  · obtain ⟨pc1, b1, u1, t1, d1, p1, s1, r1, m1, hb1, l1, n1, c1⟩ := chain_scale_grows
      (⟨Real.sqrt, fun y x => Complex.arg ⟨x, y⟩, Real.cos, Real.sin,
        fun x y => x - y * ((if 0 ≤ x / y then ⌊x / y⌋ else ⌈x / y⌉ : ℤ) : ℝ), fun _ => false,
        Real.pi, 2 * Real.pi, Real.pi / 180⟩ : MathUtil ℝ) ⟨rfl, rfl, rfl, rfl, rfl, rfl, rfl, rfl, rfl⟩ (fun _ => 0) (scalePc ℝ) rfl rfl rfl rfl rfl rfl _ rfl rfl 1 le_rfl
      (by norm_num) (by norm_num) rfl
    obtain ⟨pc2, b2, u2, -, -, -, -, -, -, hb2, -, n2, -⟩ := chain_scale_grows
      (⟨Real.sqrt, fun y x => Complex.arg ⟨x, y⟩, Real.cos, Real.sin,
        fun x y => x - y * ((if 0 ≤ x / y then ⌊x / y⌋ else ⌈x / y⌉ : ℤ) : ℝ), fun _ => false,
        Real.pi, 2 * Real.pi, Real.pi / 180⟩ : MathUtil ℝ) ⟨rfl, rfl, rfl, rfl, rfl, rfl, rfl, rfl, rfl⟩ (fun _ => 0) pc1 (by rw [t1]; rfl) (by rw [d1]; rfl) p1 s1 r1 m1 b1 hb1 l1
      (6 / 5 * 1) (by norm_num) (by norm_num) n1 c1
    refine ⟨pc1, pc2, b1, b2, u1, u2, hb1, hb2, by rw [n1]; norm_num, by rw [n2]; norm_num, ?_⟩
    rintro ⟨e1, e2⟩
    rw [e1, e2, n1] at n2
    norm_num at n2
  · obtain ⟨pc1, b1, u1, t1, d1, p1, s1, r1, m1, hb1, a1, c1, hb, hd, l1⟩ := flat_bone_quarter_turn
      (⟨Real.sqrt, fun y x => Complex.arg ⟨x, y⟩, Real.cos, Real.sin,
        fun x y => x - y * ((if 0 ≤ x / y then ⌊x / y⌋ else ⌈x / y⌉ : ℤ) : ℝ), fun _ => false,
        Real.pi, 2 * Real.pi, Real.pi / 180⟩ : MathUtil ℝ) ⟨rfl, rfl, rfl, rfl, rfl, rfl, rfl, rfl, rfl⟩ (fun _ => 0) (flatPc ℝ) rfl rfl rfl rfl rfl rfl rfl _ rfl rfl rfl rfl
    obtain ⟨pc2, b2, u2, -, -, -, -, -, -, hb2, -, -, hb', -, -⟩ := flat_bone_quarter_turn
      (⟨Real.sqrt, fun y x => Complex.arg ⟨x, y⟩, Real.cos, Real.sin,
        fun x y => x - y * ((if 0 ≤ x / y then ⌊x / y⌋ else ⌈x / y⌉ : ℤ) : ℝ), fun _ => false,
        Real.pi, 2 * Real.pi, Real.pi / 180⟩ : MathUtil ℝ) ⟨rfl, rfl, rfl, rfl, rfl, rfl, rfl, rfl, rfl⟩ (fun _ => 0) pc1 (by rw [t1]; rfl) (by rw [d1]; rfl) (by rw [t1]; rfl) p1 s1 r1
      m1 b1 hb1 a1 c1 l1
    have e1 : b1._b = 0 := by rw [hb]; simp
    have e2 : b2._b = -1 := by rw [hb', hd]
    refine ⟨pc1, pc2, b1, b2, u1, u2, hb1, hb2, e1, e2, ?_⟩
    rw [e1, e2]
    norm_num

/-- C9 (amended).  Idempotence at full mix: for every constant-speed path with at least one curve
(of positive length when closed), every spacing mode and position mode, rotate mode Tangent or
Chain, and every initial pose in which no bone has `a = c = 0`, with `translateMix = 1` and
`rotateMix = 1` (and, in Percent spacing mode, a spacing buffer whose cell 0 holds 0): `update`
returns, `update` applied again to the constraint it returned returns, and the second call
leaves every bone (`worldX`, `worldY`, `a`, `b`, `c`, `d`) as the first call left it. -/
theorem update_idempotent_at_full_mix (M : MathUtil ℝ) (hM : M.Exact) (fresh : ℕ → ℝ)
    (pc : PathConstraint ℝ) (path : PathAttachment ℝ)
    (hA : pc._target.attachment = some (Attachment.path path))
    (hcs : path.constantSpeed = true) (hn : 1 ≤ curveCountOf path)
    (hpl : path.closed = true → 0 < lengthOf M path)
    (hmode : pc._data._rotateMode = RotateMode.Tangent ∨
      pc._data._rotateMode = RotateMode.Chain)
    (htm : pc._translateMix = 1) (hrm : pc._rotateMix = 1)
    (hne : ∀ b, b ∈ pc._bones → b._a ≠ 0 ∨ b._c ≠ 0)
    (h0 : pc._data._spacingMode = SpacingMode.Percent →
      (pc._spaces[0]?).getD (fresh 0) = 0) :
    ∃ pc1 pc2 : PathConstraint ℝ, update M fresh pc = some pc1 ∧
      update M fresh pc1 = some pc2 ∧ pc2._bones = pc1._bones := by
  have hsqrt : ∀ x, 0 ≤ M.sqrt x := fun x => by rw [hM.sqrt_eq]; exact Real.sqrt_nonneg x
  have hwrap := Exact.wrap_le M hM path hpl
  have hnc : pc._data._rotateMode ≠ RotateMode.ChainScale := by
    rcases hmode with h | h <;> rw [h] <;> decide
  have dsc : decide (pc._data._rotateMode = RotateMode.ChainScale) = false := by simp [hnc]
  have drot : decide (pc._rotateMix > 0) = true := by rw [hrm]; simp
  set sc := (if pc._data._rotateMode = RotateMode.Tangent then pc._bones.length
    else pc._bones.length + 1) with hsc
  set L := lengthOf M path with hL
  -- first call
  obtain ⟨sp, ln, hsp, hspl, hsp0, -, -⟩ := computeSpaces_total M (fun x y => x / y) fresh pc
  set spc := spacesIn sp sc (decide (pc._data._spacingMode = SpacingMode.Percent)) L with hspc
  set pos := positionIn pc._position (decide (pc._data._positionMode = PositionMode.Percent)) L
    with hpos
  obtain ⟨ws, segs, hwl, hgood, hcw⟩ := computeWorldPositions_char M hsqrt fresh
    { pc with _spaces := sp, _lengths := ln } path sc
    (decide (pc._data._rotateMode = RotateMode.Tangent))
    (decide (pc._data._positionMode = PositionMode.Percent))
    (decide (pc._data._spacingMode = SpacingMode.Percent)) hcs hn hwrap (by rw [hspl])
    (Reach M path.closed (decide (pc._data._rotateMode = RotateMode.Tangent)) (worldOf path)
      (curvesOf M path) (curveCountOf path) spc pos)
    (Emitted M path.closed (decide (pc._data._rotateMode = RotateMode.Tangent)) (worldOf path)
      (curvesOf M path) (curveCountOf path) spc pos)
    (fun c => Reach.start _ rfl)
    (fun i s w s1 space _ hspace hinv _ hout =>
      ⟨Reach.next i space s w s1 hinv hspace hout, ⟨s, s1, space, hinv, hspace, hout⟩⟩)
  set P := applyWrites ws 0 (Vector.setSize fresh pc._positions (sc * 3 + 2)) with hP
  have hPl : P.length = sc * 3 + 2 := by
    rw [hP, applyWrites_length, Vector.setSize_length]
  have hspcl : spc.length = sc := by rw [hspc, spacesIn_length, hspl]
  set pcm : PathConstraint ℝ := { pc with _spaces := spc, _lengths := ln, _positions := P, _world := worldOf path, _curves := curvesOf M path, _segments := segs } with hpcm
  obtain ⟨bones1, hbl⟩ := boneLoop_rotate_total M (fun x y => x / y) P spc ln
    (decide (pc._data._rotateMode = RotateMode.Tangent)) (tipAndOffset M pcm).1 pc._rotateMix
    pc._translateMix (tipAndOffset M pcm).2 pc._bones (P.getD 0 0) (P.getD 1 0)
    (by
      rw [hPl, hsc]
      by_cases ht : pc._data._rotateMode = RotateMode.Tangent <;> simp [ht])
    (by
      intro ht
      rw [hspcl, hsc]
      have : pc._data._rotateMode ≠ RotateMode.Tangent := by simpa using ht
      simp [this])
  have hupd1 := updateWith_eq M (fun x y => x / y) fresh pc pcm path sp ln P _ _ bones1 hA
    (Or.inl (by rw [htm]; exact zero_lt_one)) hsp hcw (getElem?_eq_some_getD P 0 (by omega))
    (getElem?_eq_some_getD P 1 (by omega)) (by rw [dsc, drot]; exact hbl)
  rw [hrm, htm] at hbl
  obtain ⟨hidem, hlen1, hkeep⟩ := boneLoop_idempotent M hM (fun x y => x / y) P spc ln
    (decide (pc._data._rotateMode = RotateMode.Tangent)) (tipAndOffset M pcm).1
    (tipAndOffset M pcm).2 pc._bones 0 3 (P.getD 0 0) (P.getD 1 0) bones1 hne hbl
  set pc1 : PathConstraint ℝ := { pcm with _bones := bones1 } with hpc1
  -- second call
  have hcell : 0 < sc → (pc1._spaces[0]?).getD (fresh 0) = (pc._spaces[0]?).getD (fresh 0) := by
    intro hz
    show (spc[0]?).getD (fresh 0) = _
    have h00 : sp[0]? = some ((pc._spaces[0]?).getD (fresh 0)) := by
      rw [hsp0, Vector.setSize_getElem? _ _ _ _ hz]
    rw [hspc, spacesIn_getElem? sp sc _ L 0 _ hz h00]
    by_cases hperc : pc._data._spacingMode = SpacingMode.Percent
    · simp [hperc, h0 hperc]
    · simp [hperc]
  obtain ⟨ln2, hsp2⟩ := computeSpaces_congr M (fun x y => x / y) fresh pc pc1 rfl rfl hnc hlen1
    (fun j b hb => by
      obtain ⟨b1, g1, g2, g3⟩ := hkeep j b hb
      exact ⟨b1, g1, g2, g3⟩)
    hcell sp ln hsp
  have hsc1 : (if pc1._data._rotateMode = RotateMode.Tangent then pc1._bones.length
      else pc1._bones.length + 1) = sc := by
    show (if pc._data._rotateMode = RotateMode.Tangent then bones1.length
      else bones1.length + 1) = sc
    rw [hlen1]
  obtain ⟨ws2, segs2, hwl2, hgood2, hcw2⟩ := computeWorldPositions_char M hsqrt fresh
    { pc1 with _spaces := sp, _lengths := ln2 } path sc
    (decide (pc._data._rotateMode = RotateMode.Tangent))
    (decide (pc._data._positionMode = PositionMode.Percent))
    (decide (pc._data._spacingMode = SpacingMode.Percent)) hcs hn hwrap (by rw [hspl])
    (Reach M path.closed (decide (pc._data._rotateMode = RotateMode.Tangent)) (worldOf path)
      (curvesOf M path) (curveCountOf path) spc pos)
    (Emitted M path.closed (decide (pc._data._rotateMode = RotateMode.Tangent)) (worldOf path)
      (curvesOf M path) (curveCountOf path) spc pos)
    (fun c => Reach.start _ rfl)
    (fun i s w s1 space _ hspace hinv _ hout =>
      ⟨Reach.next i space s w s1 hinv hspace hout, ⟨s, s1, space, hinv, hspace, hout⟩⟩)
  have hws : ws2 = ws := by
    apply List.ext_getElem?
    intro m
    by_cases hm : m < sc
    · have e1 : ws[m]? = some ws[m] := List.getElem?_eq_getElem (by omega)
      have e2 : ws2[m]? = some ws2[m] := List.getElem?_eq_getElem (by omega)
      rw [e1, e2, Emitted.unique M _ _ _ _ _ _ _ m _ _ (hgood2 m _ e2) (hgood m _ e1)]
    · rw [List.getElem?_eq_none (by omega), List.getElem?_eq_none (by omega)]
  have hP2 : applyWrites ws2 0 (Vector.setSize fresh pc1._positions (sc * 3 + 2)) = P := by
    show applyWrites ws2 0 (Vector.setSize fresh P (sc * 3 + 2)) = P
    rw [hws, ← hPl, Vector.setSize_self]
    rw [hP]
    exact applyWrites_idem ws _ (by rw [Vector.setSize_length]; omega)
  set pcm2 : PathConstraint ℝ := { pc1 with _spaces := spc, _lengths := ln2, _positions := P, _world := worldOf path, _curves := curvesOf M path, _segments := segs2 } with hpcm2
  have hcw2' : computeWorldPositions M fresh { pc1 with _spaces := sp, _lengths := ln2 } path
      (if pc1._data._rotateMode = RotateMode.Tangent then pc1._bones.length
        else pc1._bones.length + 1)
      (decide (pc1._data._rotateMode = RotateMode.Tangent))
      (decide (pc1._data._positionMode = PositionMode.Percent))
      (decide (pc1._data._spacingMode = SpacingMode.Percent)) = some (P, pcm2) := by
    rw [hsc1]
    refine hcw2.trans ?_
    have e : applyWrites ws2 0 (Vector.setSize fresh
        ({ pc1 with _spaces := sp, _lengths := ln2 } : PathConstraint ℝ)._positions
        (sc * 3 + 2)) = P := hP2
    rw [e]
  have hbl2 : boneLoop M (fun x y => x / y) P pcm2._spaces pcm2._lengths
      (decide (pc1._data._rotateMode = RotateMode.ChainScale)) (decide (pc1._rotateMix > 0))
      (decide (pc1._data._rotateMode = RotateMode.Tangent)) (tipAndOffset M pcm2).1
      pc1._rotateMix pc1._translateMix (tipAndOffset M pcm2).2 pcm2._bones 0 3 (P.getD 0 0)
      (P.getD 1 0) = some bones1 := by
    show boneLoop M (fun x y => x / y) P spc ln2
      (decide (pc._data._rotateMode = RotateMode.ChainScale)) (decide (pc._rotateMix > 0))
      (decide (pc._data._rotateMode = RotateMode.Tangent)) (tipAndOffset M pcm).1
      pc._rotateMix pc._translateMix (tipAndOffset M pcm).2 bones1 0 3 _ _ = some bones1
    rw [dsc, drot, hrm, htm, boneLoop_lengths_irrelevant M _ P spc ln2 ln]
    exact hidem
  have hupd2 := updateWith_eq M (fun x y => x / y) fresh pc1 pcm2 path sp ln2 P _ _ bones1 hA
    (Or.inl (by show 0 < pc._translateMix; rw [htm]; exact zero_lt_one)) hsp2 hcw2'
    (getElem?_eq_some_getD P 0 (by omega)) (getElem?_eq_some_getD P 1 (by omega)) hbl2
  exact ⟨pc1, { pcm2 with _bones := bones1 }, hupd1, hupd2, rfl⟩


theorem update_idempotent_at_full_mix_witness :
    MathUtil.Exact ⟨Real.sqrt, fun y x => Complex.arg ⟨x, y⟩, Real.cos, Real.sin,
      fun x y => x - y * ((if 0 ≤ x / y then ⌊x / y⌋ else ⌈x / y⌉ : ℤ) : ℝ), fun _ => false,
      Real.pi, 2 * Real.pi, Real.pi / 180⟩ ∧
    (fullMixPc ℝ)._target.attachment = some (Attachment.path (straightPath ℝ)) ∧
    (straightPath ℝ).constantSpeed = true ∧ 1 ≤ curveCountOf (straightPath ℝ) ∧
    (fullMixPc ℝ)._data._rotateMode = RotateMode.Chain ∧
    (fullMixPc ℝ)._translateMix = 1 ∧ (fullMixPc ℝ)._rotateMix = 1 ∧
    (∀ b, b ∈ (fullMixPc ℝ)._bones → b._a ≠ 0 ∨ b._c ≠ 0) ∧
    (((fullMixPc ℝ)._spaces[0]?).getD ((fun _ => 0 : ℕ → ℝ) 0) = 0) ∧
    ∃ pc1 pc2 : PathConstraint ℝ,
      update (⟨Real.sqrt, fun y x => Complex.arg ⟨x, y⟩, Real.cos, Real.sin,
        fun x y => x - y * ((if 0 ≤ x / y then ⌊x / y⌋ else ⌈x / y⌉ : ℤ) : ℝ), fun _ => false,
        Real.pi, 2 * Real.pi, Real.pi / 180⟩ : MathUtil ℝ) (fun _ => 0) (fullMixPc ℝ) = some pc1 ∧
      update (⟨Real.sqrt, fun y x => Complex.arg ⟨x, y⟩, Real.cos, Real.sin,
        fun x y => x - y * ((if 0 ≤ x / y then ⌊x / y⌋ else ⌈x / y⌉ : ℤ) : ℝ), fun _ => false,
        Real.pi, 2 * Real.pi, Real.pi / 180⟩ : MathUtil ℝ) (fun _ => 0) pc1 = some pc2 ∧ pc2._bones = pc1._bones :=
  ⟨⟨rfl, rfl, rfl, rfl, rfl, rfl, rfl, rfl, rfl⟩, rfl, rfl, by decide, rfl, rfl, rfl,
    fun b hb => by
      simp only [fullMixPc, List.mem_cons, List.mem_singleton, List.not_mem_nil, or_false] at hb
      rcases hb with rfl | rfl
      · exact Or.inl (by norm_num)
      · exact Or.inr (by norm_num),
    rfl,
    update_idempotent_at_full_mix _ ⟨rfl, rfl, rfl, rfl, rfl, rfl, rfl, rfl, rfl⟩ (fun _ => 0) (fullMixPc ℝ) (straightPath ℝ) rfl rfl
      (by decide) (fun h => by cases h) (Or.inr rfl) rfl rfl
      (fun b hb => by
        simp only [fullMixPc, List.mem_cons, List.mem_singleton, List.not_mem_nil, or_false]
          at hb
        rcases hb with rfl | rfl
        · exact Or.inl (by norm_num)
        · exact Or.inr (by norm_num))
      (fun _ => rfl)⟩

/-- C10. Degenerate bones never cause a division by a near-zero length.  The divisions of the
spacing calculator and of the chain-scale step are the parameter `div` of the embedding: if two
division functions agree on every divisor that is at least `EPSILON`, then the spacing
calculator, the chain-scale step and the whole update return the same result with either, so
no division by a setup length or chain length below `EPSILON` is performed; and in Length
spacing or ChainScale mode every processed bone whose setup length is below `EPSILON` gets
`_spaces[i + 1] = 0` and (in ChainScale) `_lengths[i] = 0`. -/
theorem degenerate_bones_never_divide {K : Type} [LinearOrderedField K] (M : MathUtil K)
    (div1 div2 : K → K → K) (hdiv : ∀ x y, EPSILON ≤ y → div1 x y = div2 x y)
    (fresh : Nat → K) (pc : PathConstraint K)
    (hmode : pc._data._rotateMode = RotateMode.ChainScale ∨
      pc._data._spacingMode = SpacingMode.Length) :
    computeSpaces M div1 fresh pc = computeSpaces M div2 fresh pc ∧
    (∀ lengths scale rotateMix i dx dy bone,
      scaleStep M div1 lengths scale rotateMix i dx dy bone =
        scaleStep M div2 lengths scale rotateMix i dx dy bone) ∧
    updateWith M div1 fresh pc = updateWith M div2 fresh pc ∧
    ∃ sp ln, computeSpaces M div1 fresh pc = some (sp, ln) ∧
      ∀ i bone, i + 1 < (if pc._data._rotateMode = RotateMode.Tangent then pc._bones.length
          else pc._bones.length + 1) →
        pc._bones[i]? = some bone → bone.dataLength < EPSILON →
        sp[i + 1]? = some 0 ∧
        (pc._data._rotateMode = RotateMode.ChainScale → ln[i]? = some 0) := by
  refine ⟨computeSpaces_div_congr M div1 div2 hdiv fresh pc,
    fun lengths scale rotateMix i dx dy bone =>
      scaleStep_div_congr M div1 div2 hdiv lengths scale rotateMix i dx dy bone,
    updateWith_div_congr M div1 div2 hdiv fresh pc, ?_⟩
  obtain ⟨sp, ln, heq, -, -, -, -, hw⟩ := computeSpaces_loop_spec M div1 fresh pc hmode
  refine ⟨sp, ln, heq, ?_⟩
  intro i bone hi hb hd
  obtain ⟨h1, h2⟩ := hw i bone hi hb
  constructor
  · rw [h1]; simp [boneSpace, hd]
  · intro h
    rw [h2 h]; simp [chainLength, hd]

theorem degenerate_bones_never_divide_witness :
    (∀ x y : ℚ, EPSILON ≤ y →
      (fun x y => x / y) x y = (fun x y => if EPSILON ≤ y then x / y else 0) x y) ∧
    (degeneratePc._data._rotateMode = RotateMode.ChainScale ∨
      degeneratePc._data._spacingMode = SpacingMode.Length) ∧
    (computeSpaces plainMath (fun x y => x / y) (fun _ => 0) degeneratePc =
        computeSpaces plainMath (fun x y => if EPSILON ≤ y then x / y else 0) (fun _ => 0)
          degeneratePc ∧
      (∀ lengths scale rotateMix i dx dy bone,
        scaleStep plainMath (fun x y => x / y) lengths scale rotateMix i dx dy bone =
          scaleStep plainMath (fun x y => if EPSILON ≤ y then x / y else 0) lengths scale
            rotateMix i dx dy bone) ∧
      updateWith plainMath (fun x y => x / y) (fun _ => 0) degeneratePc =
        updateWith plainMath (fun x y => if EPSILON ≤ y then x / y else 0) (fun _ => 0)
          degeneratePc ∧
      ∃ sp ln, computeSpaces plainMath (fun x y => x / y) (fun _ => 0) degeneratePc
          = some (sp, ln) ∧
        ∀ i bone, i + 1 < (if degeneratePc._data._rotateMode = RotateMode.Tangent then
            degeneratePc._bones.length else degeneratePc._bones.length + 1) →
          degeneratePc._bones[i]? = some bone → bone.dataLength < EPSILON →
          sp[i + 1]? = some 0 ∧
          (degeneratePc._data._rotateMode = RotateMode.ChainScale → ln[i]? = some 0)) :=
  ⟨fun x y h => by simp [h], Or.inl rfl,
    degenerate_bones_never_divide plainMath (fun x y => x / y)
      (fun x y => if EPSILON ≤ y then x / y else 0) (fun x y h => by simp [h]) (fun _ => 0)
      degeneratePc (Or.inl rfl)⟩


/-- C11 (the code at the failing input).  The constraint `residualPc` enters `update` with the
spacing buffer `[7, 0]` (two bones, Tangent mode, Fixed spacing 50).  The spacing calculator
writes cell 1 only: it returns `[7, 50]`, so cell 0 is 7, not 0, and the percent-spacing
scaling of the sampler by a path length 90 turns the cell into 630. -/
theorem spacing_entry_zero_keeps_residual :
    computeSpaces plainMath (fun x y => x / y) (fun _ => 0) (residualPc ℚ) =
      some ([7, 50], []) ∧
    scaleSpaces ([7, 50] : List ℚ) 2 90 = some [630, 4500] := by
  constructor
  · simp [computeSpaces, residualPc, straightPc, Vector.setSize, fillSpaces, List.range_succ]
  · simp [scaleSpaces]
    norm_num


/-- C12. For every world-vertex buffer of a constant-speed path with `n` curves, the curve-length
loop returns `pathLength` and a table `_curves` of `n` entries that are not negative and do not
decrease, the last of which is `pathLength`; and for every cubic segment the ten entries of the
sub-segment table are not negative and do not decrease, and the last is `curveLength`.  The
square root is assumed not to return a negative value. -/
theorem length_tables_monotone {K : Type} [LinearOrderedField K] (M : MathUtil K)
    (hsqrt : ∀ x, 0 ≤ M.sqrt x) (fresh : Nat → K) (pc : PathConstraint K) (world : List K)
    (n : Nat) (hw : n * 6 + 2 ≤ world.length) (c : Ctrl K) :
    (∃ (c' : Ctrl K) (pathLength : K) (curves : List K),
      curveLengths M fresh pc world (n : Int) = some (pathLength, c', curves) ∧
      curves.length = n ∧ 0 ≤ pathLength ∧
      (∀ (i : Nat) (v : K), curves[i]? = some v → 0 ≤ v) ∧
      (∀ (i : Nat) (u v : K), curves[i]? = some u → curves[i + 1]? = some v → u ≤ v) ∧
      (∀ m : Nat, n = m + 1 → curves[m]? = some pathLength)) ∧
    ((segmentLengths M SIXTH c).1.length = 10 ∧
      (∀ (j : Nat) (v : K), (segmentLengths M SIXTH c).1[j]? = some v → 0 ≤ v) ∧
      (∀ (j : Nat) (u v : K), (segmentLengths M SIXTH c).1[j]? = some u →
        (segmentLengths M SIXTH c).1[j + 1]? = some v → u ≤ v) ∧
      (segmentLengths M SIXTH c).1[9]? = some (segmentLengths M SIXTH c).2) := by
  constructor
  · obtain ⟨c', hc⟩ := curveLengths_spec M fresh pc world n hw
    have hget : ∀ (i : Nat) (v : K),
        ((List.range n).map (fun k => pathLengthUpTo M world (k + 1)))[i]? = some v →
        i < n ∧ v = pathLengthUpTo M world (i + 1) := by
      intro i v hv
      have hi : i < n := by
        by_contra hcon
        rw [List.getElem?_eq_none (by simp; omega)] at hv
        cases hv
      rw [List.getElem?_map, List.getElem?_range hi] at hv
      simp only [Option.map_some', Option.some.injEq] at hv
      exact ⟨hi, hv.symm⟩
    refine ⟨c', _, _, hc, by simp, pathLengthUpTo_nonneg M hsqrt world n, ?_, ?_, ?_⟩
    · intro i v hv
      rw [(hget i v hv).2]
      exact pathLengthUpTo_nonneg M hsqrt world _
    · intro i u v hu hv
      rw [(hget i u hu).2, (hget (i + 1) v hv).2]
      exact pathLengthUpTo_mono M hsqrt world _
    · intro m hm
      rw [List.getElem?_map, List.getElem?_range (by omega), hm]
      rfl
  · obtain ⟨h1, h2, -⟩ := segmentLengths_spec M hsqrt SIXTH c
    obtain ⟨h3, h4⟩ := segmentLengths_mono M hsqrt SIXTH c
    exact ⟨h1, h3, h4, h2⟩

theorem length_tables_monotone_witness :
    (∀ x, 0 ≤ (⟨Real.sqrt, fun y x => Complex.arg ⟨x, y⟩, Real.cos, Real.sin,
      fun x y => x - y * ((if 0 ≤ x / y then ⌊x / y⌋ else ⌈x / y⌉ : ℤ) : ℝ), fun _ => false,
      Real.pi, 2 * Real.pi, Real.pi / 180⟩ : MathUtil ℝ).sqrt x) ∧
    3 * 6 + 2 ≤ (worldOf (straightPath ℝ)).length ∧
    (∃ (c' : Ctrl ℝ) (pathLength : ℝ) (curves : List ℝ),
      curveLengths (⟨Real.sqrt, fun y x => Complex.arg ⟨x, y⟩, Real.cos, Real.sin,
        fun x y => x - y * ((if 0 ≤ x / y then ⌊x / y⌋ else ⌈x / y⌉ : ℤ) : ℝ), fun _ => false,
        Real.pi, 2 * Real.pi, Real.pi / 180⟩ : MathUtil ℝ) (fun _ => 0) (straightPc ℝ)
        (worldOf (straightPath ℝ)) ((3 : Nat) : Int) = some (pathLength, c', curves) ∧
      curves.length = 3 ∧ 0 ≤ pathLength ∧
      (∀ (i : Nat) (v : ℝ), curves[i]? = some v → 0 ≤ v) ∧
      (∀ (i : Nat) (u v : ℝ), curves[i]? = some u → curves[i + 1]? = some v → u ≤ v) ∧
      (∀ m : Nat, 3 = m + 1 → curves[m]? = some pathLength)) ∧
    ((segmentLengths (⟨Real.sqrt, fun y x => Complex.arg ⟨x, y⟩, Real.cos, Real.sin,
        fun x y => x - y * ((if 0 ≤ x / y then ⌊x / y⌋ else ⌈x / y⌉ : ℤ) : ℝ), fun _ => false,
        Real.pi, 2 * Real.pi, Real.pi / 180⟩ : MathUtil ℝ) SIXTH
        (ctrlAt (worldOf (straightPath ℝ)) 1)).1.length = 10) :=
  ⟨fun x => Real.sqrt_nonneg x, by simp [worldOf, straightPath],
    (length_tables_monotone _ (fun x => Real.sqrt_nonneg x) (fun _ => 0) (straightPc ℝ)
      (worldOf (straightPath ℝ)) 3 (by simp [worldOf, straightPath])
      (ctrlAt (worldOf (straightPath ℝ)) 1)).1,
    (length_tables_monotone _ (fun x => Real.sqrt_nonneg x) (fun _ => 0) (straightPc ℝ)
      (worldOf (straightPath ℝ)) 3 (by simp [worldOf, straightPath])
      (ctrlAt (worldOf (straightPath ℝ)) 1)).2.1⟩


/-- C13 (counterexample).  One bone of setup length `1e-6` and `(a, c) = (100, 0)` in ChainScale
mode with Fixed spacing 50: its scaled length `L = 1e-6 * 100 = 1e-4` is not below `EPSILON`,
yet the spacing calculator stores `spaces[1] = 0` and `lengths[0] = 0`, not
`spacing * L / setupLength = 5000` and `L`. -/
theorem spacing_guard_is_on_setup_length :
    ∃ sp ln : List ℝ,
      computeSpaces (⟨Real.sqrt, fun y x => Complex.arg ⟨x, y⟩, Real.cos, Real.sin,
        fun x y => x - y * ((if 0 ≤ x / y then ⌊x / y⌋ else ⌈x / y⌉ : ℤ) : ℝ), fun _ => false,
        Real.pi, 2 * Real.pi, Real.pi / 180⟩ : MathUtil ℝ) (fun x y => x / y) (fun _ => 0)
        (tinyBonePc ℝ) = some (sp, ln) ∧
      (tinyBonePc ℝ)._bones = [⟨0, 0, 100, 0, 0, 100, true, 1 / 1000000⟩] ∧
      ¬ (1 / 1000000 * Real.sqrt (100 ^ 2 + 0 ^ 2) < (EPSILON : ℝ)) ∧
      sp[1]? = some 0 ∧ ln[0]? = some 0 ∧
      (0 : ℝ) ≠ 50 * (1 / 1000000 * Real.sqrt (100 ^ 2 + 0 ^ 2)) / (1 / 1000000) ∧
      (0 : ℝ) ≠ 1 / 1000000 * Real.sqrt (100 ^ 2 + 0 ^ 2) := by
  have hsmall : ((1 : ℝ) / 1000000 < EPSILON) := by simp only [EPSILON]; norm_num
  have hs : Real.sqrt (100 ^ 2 + 0 ^ 2) = 100 := by
    rw [show (100 : ℝ) ^ 2 + 0 ^ 2 = 100 ^ 2 by norm_num, Real.sqrt_sq (by norm_num)]
  obtain ⟨sp, ln, hsp, -, -, -, -, hloop⟩ := computeSpaces_loop_spec
    (⟨Real.sqrt, fun y x => Complex.arg ⟨x, y⟩, Real.cos, Real.sin,
      fun x y => x - y * ((if 0 ≤ x / y then ⌊x / y⌋ else ⌈x / y⌉ : ℤ) : ℝ), fun _ => false,
      Real.pi, 2 * Real.pi, Real.pi / 180⟩ : MathUtil ℝ) (fun x y => x / y) (fun _ => 0)
    (tinyBonePc ℝ) (Or.inl rfl)
  obtain ⟨g1, g2⟩ := hloop 0 ⟨0, 0, 100, 0, 0, 100, true, 1 / 1000000⟩ (by decide) rfl
  refine ⟨sp, ln, hsp, rfl, ?_, ?_, ?_, ?_, ?_⟩
  · rw [hs]
    simp only [EPSILON]
    norm_num
  · rw [g1]
    exact congrArg some (if_pos hsmall)
  · rw [g2 rfl]
    exact congrArg some (if_pos hsmall)
  · rw [hs]; norm_num
  · rw [hs]; norm_num

/-- C13 (amended).  Spacing calculator in Length spacing mode or ChainScale rotate mode, over the
reals with the exact square root: the call returns, and for each processed bone `i` with
`L = setupLength * sqrt (a ^ 2 + c ^ 2)`: if `setupLength < EPSILON` then `spaces[i + 1] = 0` and
(ChainScale) `lengths[i] = 0`; otherwise
`spaces[i + 1] = (setupLength + spacing if Length mode, else spacing) * L / setupLength` and
(ChainScale) `lengths[i] = L`. -/
theorem spacing_calculator_entries (M : MathUtil ℝ) (hM : M.Exact) (fresh : ℕ → ℝ)
    (pc : PathConstraint ℝ)
    (hmode : pc._data._rotateMode = RotateMode.ChainScale ∨
      pc._data._spacingMode = SpacingMode.Length) :
    ∃ sp ln : List ℝ, computeSpaces M (fun x y => x / y) fresh pc = some (sp, ln) ∧
      ∀ (i : ℕ) (bone : Bone ℝ),
        i + 1 < (if pc._data._rotateMode = RotateMode.Tangent then pc._bones.length
          else pc._bones.length + 1) →
        pc._bones[i]? = some bone →
        (bone.dataLength < EPSILON → sp[i + 1]? = some 0 ∧
          (pc._data._rotateMode = RotateMode.ChainScale → ln[i]? = some 0)) ∧
        (¬ bone.dataLength < EPSILON →
          sp[i + 1]? = some ((if pc._data._spacingMode = SpacingMode.Length
              then bone.dataLength + pc._spacing else pc._spacing) *
            (bone.dataLength * Real.sqrt (bone._a ^ 2 + bone._c ^ 2)) / bone.dataLength) ∧
          (pc._data._rotateMode = RotateMode.ChainScale →
            ln[i]? = some (bone.dataLength * Real.sqrt (bone._a ^ 2 + bone._c ^ 2)))) := by
  obtain ⟨sp, ln, hsp, -, -, -, -, hloop⟩ :=
    computeSpaces_loop_spec M (fun x y => x / y) fresh pc hmode
  refine ⟨sp, ln, hsp, ?_⟩
  intro i bone hi hb
  obtain ⟨g1, g2⟩ := hloop i bone hi hb
  constructor
  · intro hlt
    refine ⟨?_, fun h => ?_⟩
    · rw [g1]
      exact congrArg some (if_pos hlt)
    · rw [g2 h]
      exact congrArg some (if_pos hlt)
  · intro hge
    have hcl := Exact.chainLength_eq M hM bone (not_lt.mp hge)
    have hcl' : M.sqrt (bone.dataLength * bone._a * (bone.dataLength * bone._a) +
        bone.dataLength * bone._c * (bone.dataLength * bone._c)) =
        bone.dataLength * Real.sqrt (bone._a ^ 2 + bone._c ^ 2) := by
      rw [← hcl]
      unfold chainLength
      rw [if_neg hge]
    refine ⟨?_, fun h => ?_⟩
    · rw [g1]
      unfold boneSpace
      rw [if_neg hge]
      simp only [hcl']
      by_cases hL : pc._data._spacingMode = SpacingMode.Length <;> simp [hL]
    · rw [g2 h, hcl]

theorem spacing_calculator_entries_witness :
    MathUtil.Exact ⟨Real.sqrt, fun y x => Complex.arg ⟨x, y⟩, Real.cos, Real.sin,
      fun x y => x - y * ((if 0 ≤ x / y then ⌊x / y⌋ else ⌈x / y⌉ : ℤ) : ℝ), fun _ => false,
      Real.pi, 2 * Real.pi, Real.pi / 180⟩ ∧
    ((chainPc ℝ)._data._rotateMode = RotateMode.ChainScale ∨
      (chainPc ℝ)._data._spacingMode = SpacingMode.Length) ∧
    ∃ sp ln : List ℝ,
      computeSpaces (⟨Real.sqrt, fun y x => Complex.arg ⟨x, y⟩, Real.cos, Real.sin,
        fun x y => x - y * ((if 0 ≤ x / y then ⌊x / y⌋ else ⌈x / y⌉ : ℤ) : ℝ), fun _ => false,
        Real.pi, 2 * Real.pi, Real.pi / 180⟩ : MathUtil ℝ) (fun x y => x / y) (fun _ => 0)
        (chainPc ℝ) = some (sp, ln) ∧
      ∀ (i : ℕ) (bone : Bone ℝ),
        i + 1 < (if (chainPc ℝ)._data._rotateMode = RotateMode.Tangent
          then (chainPc ℝ)._bones.length else (chainPc ℝ)._bones.length + 1) →
        (chainPc ℝ)._bones[i]? = some bone →
        (bone.dataLength < EPSILON → sp[i + 1]? = some 0 ∧
          ((chainPc ℝ)._data._rotateMode = RotateMode.ChainScale → ln[i]? = some 0)) ∧
        (¬ bone.dataLength < EPSILON →
          sp[i + 1]? = some ((if (chainPc ℝ)._data._spacingMode = SpacingMode.Length
              then bone.dataLength + (chainPc ℝ)._spacing else (chainPc ℝ)._spacing) *
            (bone.dataLength * Real.sqrt (bone._a ^ 2 + bone._c ^ 2)) / bone.dataLength) ∧
          ((chainPc ℝ)._data._rotateMode = RotateMode.ChainScale →
            ln[i]? = some (bone.dataLength * Real.sqrt (bone._a ^ 2 + bone._c ^ 2)))) :=
  ⟨⟨rfl, rfl, rfl, rfl, rfl, rfl, rfl, rfl, rfl⟩, Or.inl rfl,
    spacing_calculator_entries _ ⟨rfl, rfl, rfl, rfl, rfl, rfl, rfl, rfl, rfl⟩ (fun _ => 0)
      (chainPc ℝ) (Or.inl rfl)⟩


/-- C14. Bezier evaluation over the reals (no value is a NaN, `atan2` is exact): with
`q = max p EPSILON`, `addCurvePosition` writes the point `B(q)` and, when an angle is requested,
the angle `atan2 (dy, dx)` of the vector `(dx, dy) = (q / 3) * B'(q)`; the vector the code
forms, the point minus the quadratic evaluation, is that vector, and its angle is the angle of
`B'(q)`. -/
theorem bezier_evaluation (M : MathUtil ℝ) (hM : M.Exact)
    (p x1 y1 cx1 cy1 cx2 cy2 x2 y2 : ℝ) (output : List ℝ) (o : ℕ) (tangents : Bool)
    (ho : o + 2 < output.length) :
    addCurvePosition M p x1 y1 cx1 cy1 cx2 cy2 x2 y2 output o tangents =
      some (write3 output o (bezier (max p EPSILON) x1 cx1 cx2 x2)
        (bezier (max p EPSILON) y1 cy1 cy2 y2)
        (if tangents then
          some (M.atan2 (max p EPSILON / 3 * bezierDeriv (max p EPSILON) y1 cy1 cy2 y2)
            (max p EPSILON / 3 * bezierDeriv (max p EPSILON) x1 cx1 cx2 x2))
        else none)) ∧
    curvePoint (max p EPSILON) x1 cx1 cx2 x2 - curveLower (max p EPSILON) x1 cx1 cx2 =
      max p EPSILON / 3 * bezierDeriv (max p EPSILON) x1 cx1 cx2 x2 ∧
    curvePoint (max p EPSILON) y1 cy1 cy2 y2 - curveLower (max p EPSILON) y1 cy1 cy2 =
      max p EPSILON / 3 * bezierDeriv (max p EPSILON) y1 cy1 cy2 y2 ∧
    M.atan2 (max p EPSILON / 3 * bezierDeriv (max p EPSILON) y1 cy1 cy2 y2)
        (max p EPSILON / 3 * bezierDeriv (max p EPSILON) x1 cx1 cx2 x2) =
      M.atan2 (bezierDeriv (max p EPSILON) y1 cy1 cy2 y2)
        (bezierDeriv (max p EPSILON) x1 cx1 cx2 x2) := by
  have hq : clampP M p = max p EPSILON := clampP_eq_max M p (by rw [hM.isnan_eq])
  have hpos : (0 : ℝ) < max p EPSILON := lt_of_lt_of_le EPSILON_pos (le_max_right _ _)
  refine ⟨?_, curvePoint_sub_curveLower _ _ _ _ _, curvePoint_sub_curveLower _ _ _ _ _, ?_⟩
  · rw [addCurvePosition_eq M _ _ _ _ _ _ _ _ _ _ _ _ ho, hq, curvePoint_sub_curveLower,
      curvePoint_sub_curveLower, curvePoint_eq_bezier, curvePoint_eq_bezier]
    cases tangents <;> rfl
  · have h := Exact.atan2_scale M hM (bezierDeriv (max p EPSILON) x1 cx1 cx2 x2)
      (bezierDeriv (max p EPSILON) y1 cy1 cy2 y2) (3 / max p EPSILON) (by positivity)
    rw [← h]
    congr 1 <;> field_simp <;> ring

theorem bezier_evaluation_witness :
    MathUtil.Exact ⟨Real.sqrt, fun y x => Complex.arg ⟨x, y⟩, Real.cos, Real.sin,
      fun x y => x - y * ((if 0 ≤ x / y then ⌊x / y⌋ else ⌈x / y⌉ : ℤ) : ℝ), fun _ => false,
      Real.pi, 2 * Real.pi, Real.pi / 180⟩ ∧
    0 + 2 < ([0, 0, 0] : List ℝ).length ∧
    addCurvePosition (⟨Real.sqrt, fun y x => Complex.arg ⟨x, y⟩, Real.cos, Real.sin,
        fun x y => x - y * ((if 0 ≤ x / y then ⌊x / y⌋ else ⌈x / y⌉ : ℤ) : ℝ), fun _ => false,
        Real.pi, 2 * Real.pi, Real.pi / 180⟩ : MathUtil ℝ) (1 / 2) 0 0 0 3 3 3 3 0 [0, 0, 0] 0
        true =
      some (write3 [0, 0, 0] 0 (bezier (max (1 / 2) EPSILON) 0 0 3 3)
        (bezier (max (1 / 2) EPSILON) 0 3 3 0)
        (if true = true then
          some ((⟨Real.sqrt, fun y x => Complex.arg ⟨x, y⟩, Real.cos, Real.sin,
            fun x y => x - y * ((if 0 ≤ x / y then ⌊x / y⌋ else ⌈x / y⌉ : ℤ) : ℝ),
            fun _ => false, Real.pi, 2 * Real.pi, Real.pi / 180⟩ : MathUtil ℝ).atan2
            (max (1 / 2) EPSILON / 3 * bezierDeriv (max (1 / 2) EPSILON) 0 3 3 0)
            (max (1 / 2) EPSILON / 3 * bezierDeriv (max (1 / 2) EPSILON) 0 0 3 3))
        else none)) :=
  ⟨⟨rfl, rfl, rfl, rfl, rfl, rfl, rfl, rfl, rfl⟩, by decide,
    (bezier_evaluation _ ⟨rfl, rfl, rfl, rfl, rfl, rfl, rfl, rfl, rfl⟩ (1 / 2) 0 0 0 3 3 3 3 0
      [0, 0, 0] 0 true (by decide)).1⟩

/-- C15 (counterexample). The single wrap step does not always bring the relative rotation into
`(-pi, pi]`.  With an offset rotation of 720 degrees (constraint `turnsPc`, target bone of
positive determinant), sampled angle 0 and a bone along the x-axis, `r` is `4 pi` before the wrap
and `2 pi` after it; and with offset rotation 0 in Chain mode, sampled angle 0 and a bone whose
x-axis is `(-1, 0)`, `r` is `-pi`, on which the wrap does nothing. -/
theorem single_wrap_leaves_the_interval :
    relativeRotation (⟨Real.sqrt, fun y x => Complex.arg ⟨x, y⟩, Real.cos, Real.sin,
        fun x y => x - y * ((if 0 ≤ x / y then ⌊x / y⌋ else ⌈x / y⌉ : ℤ) : ℝ), fun _ => false,
        Real.pi, 2 * Real.pi, Real.pi / 180⟩ : MathUtil ℝ)
      (tipAndOffset (⟨Real.sqrt, fun y x => Complex.arg ⟨x, y⟩, Real.cos, Real.sin,
        fun x y => x - y * ((if 0 ≤ x / y then ⌊x / y⌋ else ⌈x / y⌉ : ℤ) : ℝ), fun _ => false,
        Real.pi, 2 * Real.pi, Real.pi / 180⟩ : MathUtil ℝ) (turnsPc ℝ)).1
      (tipAndOffset (⟨Real.sqrt, fun y x => Complex.arg ⟨x, y⟩, Real.cos, Real.sin,
        fun x y => x - y * ((if 0 ≤ x / y then ⌊x / y⌋ else ⌈x / y⌉ : ℤ) : ℝ), fun _ => false,
        Real.pi, 2 * Real.pi, Real.pi / 180⟩ : MathUtil ℝ) (turnsPc ℝ)).2
      0 ⟨0, 0, 1, 0, 0, 1, true, 10⟩ = 2 * Real.pi ∧
    ¬ (2 * Real.pi ≤ Real.pi) ∧
    relativeRotation (⟨Real.sqrt, fun y x => Complex.arg ⟨x, y⟩, Real.cos, Real.sin,
        fun x y => x - y * ((if 0 ≤ x / y then ⌊x / y⌋ else ⌈x / y⌉ : ℤ) : ℝ), fun _ => false,
        Real.pi, 2 * Real.pi, Real.pi / 180⟩ : MathUtil ℝ)
      (tipAndOffset (⟨Real.sqrt, fun y x => Complex.arg ⟨x, y⟩, Real.cos, Real.sin,
        fun x y => x - y * ((if 0 ≤ x / y then ⌊x / y⌋ else ⌈x / y⌉ : ℤ) : ℝ), fun _ => false,
        Real.pi, 2 * Real.pi, Real.pi / 180⟩ : MathUtil ℝ) (fullMixPc ℝ)).1
      (tipAndOffset (⟨Real.sqrt, fun y x => Complex.arg ⟨x, y⟩, Real.cos, Real.sin,
        fun x y => x - y * ((if 0 ≤ x / y then ⌊x / y⌋ else ⌈x / y⌉ : ℤ) : ℝ), fun _ => false,
        Real.pi, 2 * Real.pi, Real.pi / 180⟩ : MathUtil ℝ) (fullMixPc ℝ)).2
      0 ⟨0, 0, -1, 0, 0, 1, true, 10⟩ = -Real.pi ∧
    ¬ (-Real.pi < -Real.pi) := by
  have hpi := Real.pi_pos
  have e1 : Complex.arg ⟨1, 0⟩ = 0 := by
    have : (⟨1, 0⟩ : ℂ) = ((1 : ℝ) : ℂ) := rfl
    rw [this]
    exact Complex.arg_ofReal_of_nonneg zero_le_one
  have e2 : Complex.arg ⟨-1, 0⟩ = Real.pi := by
    have : (⟨-1, 0⟩ : ℂ) = (((-1 : ℝ)) : ℂ) := rfl
    rw [this]
    exact Complex.arg_ofReal_of_neg (by norm_num)
  refine ⟨?_, by linarith, ?_, lt_irrefl _⟩
  · have ht : tipAndOffset (⟨Real.sqrt, fun y x => Complex.arg ⟨x, y⟩, Real.cos, Real.sin,
        fun x y => x - y * ((if 0 ≤ x / y then ⌊x / y⌋ else ⌈x / y⌉ : ℤ) : ℝ), fun _ => false,
        Real.pi, 2 * Real.pi, Real.pi / 180⟩ : MathUtil ℝ) (turnsPc ℝ) =
        (false, 720 * (Real.pi / 180)) := by
      simp [tipAndOffset, turnsPc, flatPc]
    rw [ht]
    simp only [relativeRotation, wrapAngle, e1, Bool.false_eq_true, if_false]
    rw [if_pos (by linarith)]
    ring
  · have ht : tipAndOffset (⟨Real.sqrt, fun y x => Complex.arg ⟨x, y⟩, Real.cos, Real.sin,
        fun x y => x - y * ((if 0 ≤ x / y then ⌊x / y⌋ else ⌈x / y⌉ : ℤ) : ℝ), fun _ => false,
        Real.pi, 2 * Real.pi, Real.pi / 180⟩ : MathUtil ℝ) (fullMixPc ℝ) = (true, 0) := by
      simp [tipAndOffset, fullMixPc]
    rw [ht]
    simp only [relativeRotation, wrapAngle, e2, if_true]
    rw [if_neg (by linarith), if_neg (by linarith)]
    ring

/-- C15 (amended). Over the reals with the exact math library: for every constraint whose
configured offset rotation is at most 180 degrees in absolute value, every bone reaching the
rotate step, every running point, and every positions buffer whose angle cells hold values of
`(-pi, pi]` (the range of `atan2`), the rotate step of bone `i` turns the bone by
`r * rotateMix` where the relative rotation `r`, taken after the single wrap step, lies in
`[-pi, pi]`. -/
theorem single_wrap_range (M : MathUtil ℝ) (hM : M.Exact) (pc : PathConstraint ℝ)
    (hoff : |pc._data._offsetRotation| ≤ 180)
    (P spaces : List ℝ) (tangents : Bool) (rm : ℝ) (i : ℕ) (dx dy : ℝ) (bone : Bone ℝ)
    (bx bY θ : ℝ)
    (hcells : ∀ (j : ℕ) (v : ℝ), P[3 * j + 2]? = some v → -Real.pi < v ∧ v ≤ Real.pi)
    (hθ : angleSource M P spaces tangents i (3 * (i + 1)) dx dy = some θ) :
    (∃ X Y,
      rotateStep M P spaces tangents (tipAndOffset M pc).1 rm (tipAndOffset M pc).2 i
          (3 * (i + 1)) dx dy bone bx bY =
        some ({ bone with
          _a := M.cos (relativeRotation M (tipAndOffset M pc).1 (tipAndOffset M pc).2 θ bone *
              rm) * bone._a -
            M.sin (relativeRotation M (tipAndOffset M pc).1 (tipAndOffset M pc).2 θ bone * rm) *
              bone._c,
          _b := M.cos (relativeRotation M (tipAndOffset M pc).1 (tipAndOffset M pc).2 θ bone *
              rm) * bone._b -
            M.sin (relativeRotation M (tipAndOffset M pc).1 (tipAndOffset M pc).2 θ bone * rm) *
              bone._d,
          _c := M.sin (relativeRotation M (tipAndOffset M pc).1 (tipAndOffset M pc).2 θ bone *
              rm) * bone._a +
            M.cos (relativeRotation M (tipAndOffset M pc).1 (tipAndOffset M pc).2 θ bone * rm) *
              bone._c,
          _d := M.sin (relativeRotation M (tipAndOffset M pc).1 (tipAndOffset M pc).2 θ bone *
              rm) * bone._b +
            M.cos (relativeRotation M (tipAndOffset M pc).1 (tipAndOffset M pc).2 θ bone * rm) *
              bone._d }, X, Y)) ∧
    -Real.pi ≤ relativeRotation M (tipAndOffset M pc).1 (tipAndOffset M pc).2 θ bone ∧
    relativeRotation M (tipAndOffset M pc).1 (tipAndOffset M pc).2 θ bone ≤ Real.pi := by
  have hpi := Real.pi_pos
  refine ⟨⟨_, _, rotateStep_eq M P spaces tangents _ rm _ i _ dx dy bone bx bY θ hθ⟩, ?_⟩
  have hrange : -Real.pi < θ ∧ θ ≤ Real.pi := by
    unfold angleSource at hθ
    by_cases ht : tangents = true
    · rw [if_pos ht] at hθ
      exact hcells i θ (by rw [← hθ]; congr 1)
    · rw [if_neg ht] at hθ
      cases hs : spaces[i + 1]? with
      | none => rw [hs] at hθ; simp at hθ
      | some sp =>
        rw [hs] at hθ
        simp only [Option.bind_eq_bind, Option.some_bind, Option.pure_def] at hθ
        by_cases hsp : sp < EPSILON
        · rw [if_pos hsp] at hθ
          exact hcells (i + 1) θ hθ
        · rw [if_neg hsp] at hθ
          rw [← Option.some.inj hθ]
          exact Exact.atan2_range M hM _ _
  have hat := Exact.atan2_range M hM bone._c bone._a
  have ho := abs_le.mp (Exact.tipAndOffset_abs M hM pc hoff)
  unfold relativeRotation
  simp only
  apply Exact.wrapAngle_range M hM
  · split_ifs <;> linarith [ho.1, ho.2, hat.1, hat.2, hrange.1, hrange.2]
  · split_ifs <;> linarith [ho.1, ho.2, hat.1, hat.2, hrange.1, hrange.2]

theorem single_wrap_range_witness :
    MathUtil.Exact (⟨Real.sqrt, fun y x => Complex.arg ⟨x, y⟩, Real.cos, Real.sin,
        fun x y => x - y * ((if 0 ≤ x / y then ⌊x / y⌋ else ⌈x / y⌉ : ℤ) : ℝ), fun _ => false,
        Real.pi, 2 * Real.pi, Real.pi / 180⟩ : MathUtil ℝ) ∧
    |(flatPc ℝ)._data._offsetRotation| ≤ 180 ∧
    (∀ (j : ℕ) (v : ℝ), ([0, 0, 0, 12, 0, 0, 0, 0] : List ℝ)[3 * j + 2]? = some v →
      -Real.pi < v ∧ v ≤ Real.pi) ∧
    angleSource (⟨Real.sqrt, fun y x => Complex.arg ⟨x, y⟩, Real.cos, Real.sin,
        fun x y => x - y * ((if 0 ≤ x / y then ⌊x / y⌋ else ⌈x / y⌉ : ℤ) : ℝ), fun _ => false,
        Real.pi, 2 * Real.pi, Real.pi / 180⟩ : MathUtil ℝ)
      [0, 0, 0, 12, 0, 0, 0, 0] [0, 12] false 0 (3 * (0 + 1)) 12 0 = some (Complex.arg ⟨12, 0⟩) ∧
    -Real.pi ≤ relativeRotation (⟨Real.sqrt, fun y x => Complex.arg ⟨x, y⟩, Real.cos, Real.sin,
        fun x y => x - y * ((if 0 ≤ x / y then ⌊x / y⌋ else ⌈x / y⌉ : ℤ) : ℝ), fun _ => false,
        Real.pi, 2 * Real.pi, Real.pi / 180⟩ : MathUtil ℝ)
      (tipAndOffset (⟨Real.sqrt, fun y x => Complex.arg ⟨x, y⟩, Real.cos, Real.sin,
        fun x y => x - y * ((if 0 ≤ x / y then ⌊x / y⌋ else ⌈x / y⌉ : ℤ) : ℝ), fun _ => false,
        Real.pi, 2 * Real.pi, Real.pi / 180⟩ : MathUtil ℝ) (flatPc ℝ)).1
      (tipAndOffset (⟨Real.sqrt, fun y x => Complex.arg ⟨x, y⟩, Real.cos, Real.sin,
        fun x y => x - y * ((if 0 ≤ x / y then ⌊x / y⌋ else ⌈x / y⌉ : ℤ) : ℝ), fun _ => false,
        Real.pi, 2 * Real.pi, Real.pi / 180⟩ : MathUtil ℝ) (flatPc ℝ)).2 (Complex.arg ⟨12, 0⟩) ⟨0, 0, 0, 1, 0, 0, true, 10⟩ ∧
    relativeRotation (⟨Real.sqrt, fun y x => Complex.arg ⟨x, y⟩, Real.cos, Real.sin,
        fun x y => x - y * ((if 0 ≤ x / y then ⌊x / y⌋ else ⌈x / y⌉ : ℤ) : ℝ), fun _ => false,
        Real.pi, 2 * Real.pi, Real.pi / 180⟩ : MathUtil ℝ)
      (tipAndOffset (⟨Real.sqrt, fun y x => Complex.arg ⟨x, y⟩, Real.cos, Real.sin,
        fun x y => x - y * ((if 0 ≤ x / y then ⌊x / y⌋ else ⌈x / y⌉ : ℤ) : ℝ), fun _ => false,
        Real.pi, 2 * Real.pi, Real.pi / 180⟩ : MathUtil ℝ) (flatPc ℝ)).1
      (tipAndOffset (⟨Real.sqrt, fun y x => Complex.arg ⟨x, y⟩, Real.cos, Real.sin,
        fun x y => x - y * ((if 0 ≤ x / y then ⌊x / y⌋ else ⌈x / y⌉ : ℤ) : ℝ), fun _ => false,
        Real.pi, 2 * Real.pi, Real.pi / 180⟩ : MathUtil ℝ) (flatPc ℝ)).2 (Complex.arg ⟨12, 0⟩) ⟨0, 0, 0, 1, 0, 0, true, 10⟩ ≤
        Real.pi := by
  have hoff : |(flatPc ℝ)._data._offsetRotation| ≤ 180 := by
    show |(90 : ℝ)| ≤ 180
    rw [abs_of_pos (by norm_num)]
    norm_num
  have hcells : ∀ (j : ℕ) (v : ℝ), ([0, 0, 0, 12, 0, 0, 0, 0] : List ℝ)[3 * j + 2]? = some v →
      -Real.pi < v ∧ v ≤ Real.pi := by
    intro j v h
    have hpi := Real.pi_pos
    match j, h with
    | 0, h =>
      simp at h
      subst h
      constructor <;> linarith
    | 1, h =>
      simp at h
      subst h
      constructor <;> linarith
    | 2, h => simp at h
    | (j + 3), h =>
      rw [List.getElem?_eq_none (by simp only [List.length_cons, List.length_nil]; omega)] at h
      cases h
  have hθ : angleSource (⟨Real.sqrt, fun y x => Complex.arg ⟨x, y⟩, Real.cos, Real.sin,
        fun x y => x - y * ((if 0 ≤ x / y then ⌊x / y⌋ else ⌈x / y⌉ : ℤ) : ℝ), fun _ => false,
        Real.pi, 2 * Real.pi, Real.pi / 180⟩ : MathUtil ℝ)
      [0, 0, 0, 12, 0, 0, 0, 0] [0, 12] false 0 (3 * (0 + 1)) 12 0 =
      some (Complex.arg ⟨12, 0⟩) := by
    simp [angleSource, EPSILON]
    norm_num
  exact ⟨⟨rfl, rfl, rfl, rfl, rfl, rfl, rfl, rfl, rfl⟩, hoff, hcells, hθ,
    (single_wrap_range _ ⟨rfl, rfl, rfl, rfl, rfl, rfl, rfl, rfl, rfl⟩ (flatPc ℝ) hoff
      [0, 0, 0, 12, 0, 0, 0, 0] [0, 12] false 1 0 12 0 ⟨0, 0, 0, 1, 0, 0, true, 10⟩ 12 0 _
      hcells hθ).2⟩

/-- C16 (counterexample). Two bones of setup length 10 along the x-axis in Chain mode with
offset rotation 0, `rotateMix = translateMix = 1`, Fixed spacing 12 and position 10 on the
straight path from `(0, 0)` to `(90, 0)`: the sampled position of index 1 is `(22, 0)`, but the
projection is applied after bone 0, which is not the last bone, so the running point is the
tip `(20, 0)` of bone 0 and bone 1 is moved to `(20, 0)`, not to sample 1. -/
theorem tip_projection_on_non_last_bone :
    ∃ (pc' : PathConstraint ℝ) (b0 b1 : Bone ℝ),
      update (⟨Real.sqrt, fun y x => Complex.arg ⟨x, y⟩, Real.cos, Real.sin,
        fun x y => x - y * ((if 0 ≤ x / y then ⌊x / y⌋ else ⌈x / y⌉ : ℤ) : ℝ), fun _ => false,
        Real.pi, 2 * Real.pi, Real.pi / 180⟩ : MathUtil ℝ) (fun _ => 0) (tipPc ℝ) = some pc' ∧
      pc'._bones = [b0, b1] ∧ pc'._positions[3]? = some 22 ∧ pc'._positions[4]? = some 0 ∧
      b0._worldX = 10 ∧ b0._worldY = 0 ∧ b1._worldX = 20 ∧ b1._worldY = 0 := by
  obtain ⟨P, segs, sp, ln, b0, b1, hu, h3, h4, h5, h6, h7, h8⟩ :=
    tip_chain_two_bones (⟨Real.sqrt, fun y x => Complex.arg ⟨x, y⟩, Real.cos, Real.sin,
        fun x y => x - y * ((if 0 ≤ x / y then ⌊x / y⌋ else ⌈x / y⌉ : ℤ) : ℝ), fun _ => false,
        Real.pi, 2 * Real.pi, Real.pi / 180⟩ : MathUtil ℝ) ⟨rfl, rfl, rfl, rfl, rfl, rfl, rfl, rfl, rfl⟩
  exact ⟨_, b0, b1, hu, rfl, h3, h4, h5, h6, h7, h8⟩

/-- C16 (amended). In Chain rotate mode with zero offset rotation and `rotateMix > 0` the tip
flag is set for the whole bone loop, so the projection is applied for every bone, last or not:
the step of bone `i`, reached with the running point `(bx, by)`, translates the bone toward
`(bx, by)` and hands on the running point
`sample + (length * rotated axis - (sample - (bx, by))) * rotateMix`, where `sample` is the
sampled position of index `i + 1`, `length` the bone's setup length and the rotated axis is the
bone's x-axis `(a, c)` turned by `r = θ - atan2 (c, a)`. -/
theorem tip_projection_for_every_bone {K : Type} [LinearOrderedField K] (M : MathUtil K)
    (pc : PathConstraint K) (P spaces lengths : List K) (i : Nat) (bone : Bone K)
    (bx bY x y θ : K)
    (hmode : pc._data._rotateMode = RotateMode.Chain) (hoff : pc._data._offsetRotation = 0)
    (hrm : 0 < pc._rotateMix)
    (hx : P[3 * (i + 1)]? = some x) (hy : P[3 * (i + 1) + 1]? = some y)
    (hθ : angleSource M P spaces false i (3 * (i + 1)) (x - bx) (y - bY) = some θ) :
    (tipAndOffset M pc).1 = true ∧
    ∃ bone' : Bone K,
      boneStep M (fun x y => x / y) P spaces lengths
        (decide (pc._data._rotateMode = RotateMode.ChainScale)) (decide (pc._rotateMix > 0))
        (decide (pc._data._rotateMode = RotateMode.Tangent)) (tipAndOffset M pc).1
        pc._rotateMix pc._translateMix (tipAndOffset M pc).2 i (3 * (i + 1)) bone bx bY =
        some (bone',
          x + (bone.dataLength * (M.cos (θ - M.atan2 bone._c bone._a) * bone._a -
            M.sin (θ - M.atan2 bone._c bone._a) * bone._c) - (x - bx)) * pc._rotateMix,
          y + (bone.dataLength * (M.sin (θ - M.atan2 bone._c bone._a) * bone._a +
            M.cos (θ - M.atan2 bone._c bone._a) * bone._c) - (y - bY)) * pc._rotateMix) ∧
      bone'._worldX = bone._worldX + (bx - bone._worldX) * pc._translateMix ∧
      bone'._worldY = bone._worldY + (bY - bone._worldY) * pc._translateMix := by
  have ht := tipAndOffset_chain M pc hmode hoff
  have d1 : decide (pc._data._rotateMode = RotateMode.ChainScale) = false := by
    rw [hmode]; decide
  have d2 : decide (pc._rotateMix > 0) = true := by simp [hrm]
  have d3 : decide (pc._data._rotateMode = RotateMode.Tangent) = false := by
    rw [hmode]; decide
  rw [ht, d1, d2, d3]
  have h := boneStep_rotate M (fun x y => x / y) P spaces lengths false true
    pc._rotateMix pc._translateMix 0 i (3 * (i + 1)) bone bx bY x y θ hx hy hθ
  simp only [if_true] at h
  exact ⟨rfl, _, h, rfl, rfl⟩

theorem tip_projection_for_every_bone_witness :
    (tipPc ℝ)._data._rotateMode = RotateMode.Chain ∧ (tipPc ℝ)._data._offsetRotation = 0 ∧
    0 < (tipPc ℝ)._rotateMix ∧
    ([10, 0, 0, 22, 0, 0, 34, 0, 0, 0, 0] : List ℝ)[3 * (0 + 1)]? = some 22 ∧
    ([10, 0, 0, 22, 0, 0, 34, 0, 0, 0, 0] : List ℝ)[3 * (0 + 1) + 1]? = some 0 ∧
    angleSource (⟨Real.sqrt, fun y x => Complex.arg ⟨x, y⟩, Real.cos, Real.sin,
        fun x y => x - y * ((if 0 ≤ x / y then ⌊x / y⌋ else ⌈x / y⌉ : ℤ) : ℝ), fun _ => false,
        Real.pi, 2 * Real.pi, Real.pi / 180⟩ : MathUtil ℝ)
      [10, 0, 0, 22, 0, 0, 34, 0, 0, 0, 0] [0, 12, 12] false 0 (3 * (0 + 1)) (22 - 10) (0 - 0) =
      some (Complex.arg ⟨22 - 10, 0 - 0⟩) ∧
    (tipAndOffset (⟨Real.sqrt, fun y x => Complex.arg ⟨x, y⟩, Real.cos, Real.sin,
        fun x y => x - y * ((if 0 ≤ x / y then ⌊x / y⌋ else ⌈x / y⌉ : ℤ) : ℝ), fun _ => false,
        Real.pi, 2 * Real.pi, Real.pi / 180⟩ : MathUtil ℝ) (tipPc ℝ)).1 = true := by
  have hrm : 0 < (tipPc ℝ)._rotateMix := by
    show (0 : ℝ) < 1
    exact one_pos
  have hθ : angleSource (⟨Real.sqrt, fun y x => Complex.arg ⟨x, y⟩, Real.cos, Real.sin,
        fun x y => x - y * ((if 0 ≤ x / y then ⌊x / y⌋ else ⌈x / y⌉ : ℤ) : ℝ), fun _ => false,
        Real.pi, 2 * Real.pi, Real.pi / 180⟩ : MathUtil ℝ)
      [10, 0, 0, 22, 0, 0, 34, 0, 0, 0, 0] [0, 12, 12] false 0 (3 * (0 + 1)) (22 - 10) (0 - 0) =
      some (Complex.arg ⟨22 - 10, 0 - 0⟩) := by
    simp [angleSource, EPSILON]
    norm_num
  exact ⟨rfl, rfl, hrm, rfl, rfl, hθ,
    (tip_projection_for_every_bone (⟨Real.sqrt, fun y x => Complex.arg ⟨x, y⟩, Real.cos, Real.sin,
        fun x y => x - y * ((if 0 ≤ x / y then ⌊x / y⌋ else ⌈x / y⌉ : ℤ) : ℝ), fun _ => false,
        Real.pi, 2 * Real.pi, Real.pi / 180⟩ : MathUtil ℝ) (tipPc ℝ) [10, 0, 0, 22, 0, 0, 34, 0, 0, 0, 0]
      [0, 12, 12] [] 0 ⟨0, 0, 1, 0, 0, 1, true, 10⟩ 10 0 22 0 _ rfl rfl hrm rfl rfl hθ).1⟩

/-- C17. Reading the literal `0.16666667` as `1 / 6`: for every cubic segment (control points
`c`, Bezier curve `B = bezier`) and every math library, the amount the forward-difference code
adds to the running path length is the direct chord sum `sum k = 1..4 of
||B(k / 4) - B((k - 1) / 4)||`, entry `j` (`0 <= j <= 9`) of the sub-segment table is
`sum k = 1..j + 1 of ||B(k / 10) - B((k - 1) / 10)||`, and `curveLength` is the last of these
sums. -/
theorem forward_difference_is_chord_sum {K : Type} [LinearOrderedField K] (M : MathUtil K)
    (pathLength : K) (c : Ctrl K) :
    addCurveLength M (1 / 6) pathLength c = pathLength + chordSum M c 4 4 ∧
    (segmentLengths M (1 / 6) c).1 =
      (List.range 10).map (fun (j : Nat) => chordSum M c 10 (j + 1)) ∧
    (∀ j, j ≤ 9 → (segmentLengths M (1 / 6) c).1[j]? = some (chordSum M c 10 (j + 1))) ∧
    (segmentLengths M (1 / 6) c).2 = chordSum M c 10 10 := by
  have key : segmentLengths M (1 / 6) c =
      ((List.range 10).map (fun (j : Nat) => chordSum M c 10 (j + 1)), chordSum M c 10 10) := by
    unfold segmentLengths
    dsimp only
    set dfx0 := (c.cx1 - c.x1) * (3 / 10) + (c.x1 - c.cx1 * 2 + c.cx2) * (3 / 100) +
        ((c.cx1 - c.cx2) * 3 - c.x1 + c.x2) * (6 / 1000) * (1 / 6) with hdfx0
    set dfy0 := (c.cy1 - c.y1) * (3 / 10) + (c.y1 - c.cy1 * 2 + c.cy2) * (3 / 100) +
        ((c.cy1 - c.cy2) * 3 - c.y1 + c.y2) * (6 / 1000) * (1 / 6) with hdfy0
    set ddfx0 := (c.x1 - c.cx1 * 2 + c.cx2) * (3 / 100) * 2 +
        ((c.cx1 - c.cx2) * 3 - c.x1 + c.x2) * (6 / 1000) with hddfx0
    set ddfy0 := (c.y1 - c.cy1 * 2 + c.cy2) * (3 / 100) * 2 +
        ((c.cy1 - c.cy2) * 3 - c.y1 + c.y2) * (6 / 1000) with hddfy0
    have d1 : dfx0 = bezier ((((0 : Nat) : K) + 1) / 10) c.x1 c.cx1 c.cx2 c.x2 -
          bezier (((0 : Nat) : K) / 10) c.x1 c.cx1 c.cx2 c.x2 := by
      rw [hdfx0]; push_cast; unfold bezier; ring
    have d2 : dfy0 = bezier ((((0 : Nat) : K) + 1) / 10) c.y1 c.cy1 c.cy2 c.y2 -
          bezier (((0 : Nat) : K) / 10) c.y1 c.cy1 c.cy2 c.y2 := by
      rw [hdfy0]; push_cast; unfold bezier; ring
    have d3 : ddfx0 = bezier ((((0 : Nat) : K) + 2) / 10) c.x1 c.cx1 c.cx2 c.x2 -
          2 * bezier ((((0 : Nat) : K) + 1) / 10) c.x1 c.cx1 c.cx2 c.x2 +
          bezier (((0 : Nat) : K) / 10) c.x1 c.cx1 c.cx2 c.x2 := by
      rw [hddfx0]; push_cast; unfold bezier; ring
    have d4 : ddfy0 = bezier ((((0 : Nat) : K) + 2) / 10) c.y1 c.cy1 c.cy2 c.y2 -
          2 * bezier ((((0 : Nat) : K) + 1) / 10) c.y1 c.cy1 c.cy2 c.y2 +
          bezier (((0 : Nat) : K) / 10) c.y1 c.cy1 c.cy2 c.y2 := by
      rw [hddfy0]; push_cast; unfold bezier; ring
    have d5 : M.sqrt (dfx0 * dfx0 + dfy0 * dfy0) = chordSum M c 10 (0 + 1) := by
      rw [chordSum, chordSum, zero_add]
      apply chord_of_diff
      · rw [d1]; push_cast; norm_num
      · rw [d2]; push_cast; norm_num
    obtain ⟨g, hg, g1, g2, g3, g4, g5⟩ := segmentsLoop_chords M c 7 0
      ⟨dfx0, dfy0, ddfx0, ddfy0, M.sqrt (dfx0 * dfx0 + dfy0 * dfy0)⟩
      [M.sqrt (dfx0 * dfx0 + dfy0 * dfy0)] d1 d2 d3 d4 d5
    rw [d5] at hg ⊢
    rw [hg]
    dsimp only
    have e8x : g.dfx + g.ddfx = bezier (9 / 10) c.x1 c.cx1 c.cx2 c.x2 -
        bezier (8 / 10) c.x1 c.cx1 c.cx2 c.x2 := by
      rw [g1, g3]; push_cast; unfold bezier; ring
    have e8y : g.dfy + g.ddfy = bezier (9 / 10) c.y1 c.cy1 c.cy2 c.y2 -
        bezier (8 / 10) c.y1 c.cy1 c.cy2 c.y2 := by
      rw [g2, g4]; push_cast; unfold bezier; ring
    have e9x : g.dfx + g.ddfx + (g.ddfx + ((c.cx1 - c.cx2) * 3 - c.x1 + c.x2) * (6 / 1000)) =
        bezier (10 / 10) c.x1 c.cx1 c.cx2 c.x2 - bezier (9 / 10) c.x1 c.cx1 c.cx2 c.x2 := by
      rw [g1, g3]; push_cast; unfold bezier; ring
    have e9y : g.dfy + g.ddfy + (g.ddfy + ((c.cy1 - c.cy2) * 3 - c.y1 + c.y2) * (6 / 1000)) =
        bezier (10 / 10) c.y1 c.cy1 c.cy2 c.y2 - bezier (9 / 10) c.y1 c.cy1 c.cy2 c.y2 := by
      rw [g2, g4]; push_cast; unfold bezier; ring
    have c9 : chordSum M c 10 9 = g.curveLength +
        M.sqrt ((g.dfx + g.ddfx) * (g.dfx + g.ddfx) + (g.dfy + g.ddfy) * (g.dfy + g.ddfy)) := by
      rw [chordSum, g5]
      congr 1
      symm
      apply chord_of_diff
      · rw [e8x]; push_cast; norm_num
      · rw [e8y]; push_cast; norm_num
    have c10 : chordSum M c 10 10 = chordSum M c 10 9 +
        M.sqrt ((g.dfx + g.ddfx + (g.ddfx + ((c.cx1 - c.cx2) * 3 - c.x1 + c.x2) * (6 / 1000))) *
          (g.dfx + g.ddfx + (g.ddfx + ((c.cx1 - c.cx2) * 3 - c.x1 + c.x2) * (6 / 1000))) +
          (g.dfy + g.ddfy + (g.ddfy + ((c.cy1 - c.cy2) * 3 - c.y1 + c.y2) * (6 / 1000))) *
          (g.dfy + g.ddfy + (g.ddfy + ((c.cy1 - c.cy2) * 3 - c.y1 + c.y2) * (6 / 1000)))) := by
      rw [chordSum]
      congr 1
      symm
      apply chord_of_diff
      · rw [e9x]; push_cast; norm_num
      · rw [e9y]; push_cast; norm_num
    rw [← c9, ← c10]
    simp [List.range_succ]
  refine ⟨?_, congrArg Prod.fst key, ?_, congrArg Prod.snd key⟩
  · rw [addCurveLength_chords]
    simp only [chordSum]
    push_cast
    norm_num
    ring
  · intro j hj
    rw [congrArg Prod.fst key]
    rw [List.getElem?_map, List.getElem?_range (by omega)]
    rfl

/-- C18. Translate-only update, in every rotate mode (ChainScale included) and for every pose:
when `rotateMix = 0` and `translateMix > 0`, every call of `update` that returns leaves, for
every bone, `a`, `b`, `c`, `d` (and the setup length) as they were, moves the world position to
`old + (target - old) * translateMix`, where the target of bone `j` is the point of index `j`
of the vector the sampler returned, and clears the applied-valid flag; and on a constant-speed
path with at least one curve (the wrapped distance of a closed path not exceeding the path
length, the square root not negative) the call does return. -/
theorem translate_only_keeps_orientation {K : Type} [LinearOrderedField K] (M : MathUtil K)
    (fresh : Nat → K) (pc : PathConstraint K) (path : PathAttachment K)
    (hA : pc._target.attachment = some (Attachment.path path))
    (htm : 0 < pc._translateMix) (hrm : pc._rotateMix = 0) :
    (∀ pc', update M fresh pc = some pc' →
      ∃ (sp ln positions : List K) (pc2 : PathConstraint K),
        computeSpaces M (fun x y => x / y) fresh pc = some (sp, ln) ∧
        computeWorldPositions M fresh { pc with _spaces := sp, _lengths := ln } path
          (if pc._data._rotateMode = RotateMode.Tangent then pc._bones.length
            else pc._bones.length + 1)
          (decide (pc._data._rotateMode = RotateMode.Tangent))
          (decide (pc._data._positionMode = PositionMode.Percent))
          (decide (pc._data._spacingMode = SpacingMode.Percent)) = some (positions, pc2) ∧
        pc'._bones.length = pc._bones.length ∧
        ∀ (j : Nat) (bone : Bone K), pc._bones[j]? = some bone →
          ∃ (bone' : Bone K) (X Y : K), pc'._bones[j]? = some bone' ∧
            positions[3 * j]? = some X ∧ positions[3 * j + 1]? = some Y ∧
            bone'._a = bone._a ∧ bone'._b = bone._b ∧ bone'._c = bone._c ∧ bone'._d = bone._d ∧
            bone'._worldX = bone._worldX + (X - bone._worldX) * pc._translateMix ∧
            bone'._worldY = bone._worldY + (Y - bone._worldY) * pc._translateMix ∧
            bone'._appliedValid = false ∧ bone'.dataLength = bone.dataLength) ∧
    ((∀ x, 0 ≤ M.sqrt x) → path.constantSpeed = true → 1 ≤ curveCountOf path →
      (path.closed = true → ∀ x, wrap M x (lengthOf M path) ≤ lengthOf M path) →
      ∃ pc', update M fresh pc = some pc') := by
  constructor
  · intro pc' hu
    obtain ⟨sp, ln, positions, pc2, bx, bY, bones, hsp, hcw, hx, hy, hbl, hpc'⟩ :=
      updateWith_some_inv M (fun x y => x / y) fresh pc pc' path hA (Or.inl htm) hu
    obtain ⟨hb2, -, -, -⟩ := computeWorldPositions_frame M fresh _ pc2 path _ _ _ _ positions hcw
    have hdec : decide (pc._rotateMix > 0) = false := by
      rw [hrm]; simp
    rw [hdec, hrm, hb2] at hbl
    obtain ⟨hlen, hbones⟩ := boneLoop_zero_mix M (fun x y => x / y) positions pc2._spaces
      pc2._lengths _ _ _ pc._translateMix _ pc._bones bones 0 3 bx bY rfl hx hy hbl
    refine ⟨sp, ln, positions, pc2, hsp, hcw, by rw [hpc']; exact hlen, ?_⟩
    intro j bone hj
    obtain ⟨X, Y, h1, h2, h3⟩ := hbones j bone hj
    rw [Nat.zero_add] at h1 h2
    refine ⟨{ bone with
        _worldX := bone._worldX + (X - bone._worldX) * pc._translateMix,
        _worldY := bone._worldY + (Y - bone._worldY) * pc._translateMix,
        _appliedValid := false }, X, Y, by rw [hpc']; exact h3, h1, h2, rfl, rfl, rfl, rfl, rfl,
      rfl, rfl, rfl⟩
  · intro hsqrt hcs hn hwrap
    obtain ⟨pc', ws, h, -⟩ := update_translate_only M hsqrt fresh pc path hA hcs hn hwrap htm
      (by rw [hrm]; exact lt_irrefl 0) (fun _ _ => True) (fun _ _ => True)
      (fun _ _ _ => ⟨fun _ => trivial, fun _ _ _ _ _ _ _ _ _ _ => ⟨trivial, trivial⟩⟩)
    exact ⟨pc', h⟩

theorem translate_only_keeps_orientation_witness :
    (chainTranslatePc ℝ)._target.attachment = some (Attachment.path (straightPath ℝ)) ∧
    0 < (chainTranslatePc ℝ)._translateMix ∧ (chainTranslatePc ℝ)._rotateMix = 0 ∧
    (chainTranslatePc ℝ)._data._rotateMode = RotateMode.ChainScale ∧
    ∃ pc', update (⟨Real.sqrt, fun y x => Complex.arg ⟨x, y⟩, Real.cos, Real.sin,
        fun x y => x - y * ((if 0 ≤ x / y then ⌊x / y⌋ else ⌈x / y⌉ : ℤ) : ℝ), fun _ => false,
        Real.pi, 2 * Real.pi, Real.pi / 180⟩ : MathUtil ℝ) (fun _ => 0) (chainTranslatePc ℝ) = some pc' :=
  ⟨rfl, by show (0 : ℝ) < 1; exact one_pos, rfl, rfl,
    (translate_only_keeps_orientation (⟨Real.sqrt, fun y x => Complex.arg ⟨x, y⟩, Real.cos, Real.sin,
        fun x y => x - y * ((if 0 ≤ x / y then ⌊x / y⌋ else ⌈x / y⌉ : ℤ) : ℝ), fun _ => false,
        Real.pi, 2 * Real.pi, Real.pi / 180⟩ : MathUtil ℝ) (fun _ => 0) (chainTranslatePc ℝ) (straightPath ℝ) rfl
      (by show (0 : ℝ) < 1; exact one_pos) rfl).2 (fun x => Real.sqrt_nonneg x) rfl (by decide)
      (fun h => by cases h)⟩

/-- C19 (counterexample). On the open straight path from `(0, 0)` to `(90, 0)` (three curves
of length 30) with base position 40 and spacing buffer `[0, -20]`, the sample of index 1 has
distance 20, on curve 0.  The caching sampler starts its curve search at the cached curve 1,
stays there with a negative parameter, which `addCurvePosition` clamps to `EPSILON`, and
writes `x = 30 + 3 / 10000`; the from-scratch variant writes `x = 20`. -/
theorem caching_changes_backward_sample :
    ∃ (P1 P2 : List ℝ) (pc1 pc2 : PathConstraint ℝ),
      computeWorldPositions (⟨Real.sqrt, fun y x => Complex.arg ⟨x, y⟩, Real.cos, Real.sin,
        fun x y => x - y * ((if 0 ≤ x / y then ⌊x / y⌋ else ⌈x / y⌉ : ℤ) : ℝ), fun _ => false,
        Real.pi, 2 * Real.pi, Real.pi / 180⟩ : MathUtil ℝ) (fun _ => 0) (backwardPc ℝ) (straightPath ℝ) 2 true false
        false = some (P1, pc1) ∧
      computeWorldPositionsScratch (⟨Real.sqrt, fun y x => Complex.arg ⟨x, y⟩, Real.cos, Real.sin,
        fun x y => x - y * ((if 0 ≤ x / y then ⌊x / y⌋ else ⌈x / y⌉ : ℤ) : ℝ), fun _ => false,
        Real.pi, 2 * Real.pi, Real.pi / 180⟩ : MathUtil ℝ) (fun _ => 0) (backwardPc ℝ) (straightPath ℝ) 2 true
        false false = some (P2, pc2) ∧
      P1[3]? = some (30 + 3 / 10000) ∧ P2[3]? = some 20 ∧ P1 ≠ P2 := by
  obtain ⟨P1, P2, pc1, pc2, h1, h2, h3, h4⟩ :=
    backward_sample (⟨Real.sqrt, fun y x => Complex.arg ⟨x, y⟩, Real.cos, Real.sin,
        fun x y => x - y * ((if 0 ≤ x / y then ⌊x / y⌋ else ⌈x / y⌉ : ℤ) : ℝ), fun _ => false,
        Real.pi, 2 * Real.pi, Real.pi / 180⟩ : MathUtil ℝ) ⟨rfl, rfl, rfl, rfl, rfl, rfl, rfl, rfl, rfl⟩
  have e : (30 : ℝ) + EPSILON * 30 = 30 + 3 / 10000 := by
    simp only [EPSILON]
    norm_num
  rw [e] at h3
  refine ⟨P1, P2, pc1, pc2, h1, h2, h3, h4, ?_⟩
  intro h
  rw [h, h4] at h3
  norm_num at h3

/-- C19 (amended). For every constant-speed path (open or closed) with at least one curve,
every base position and every spacing table for which the resolved distance of each sample
(the running distance, wrapped into the path when the path is closed) is not smaller than that
of the previous sample: the caching sampler and the from-scratch variant both return, and they
return the same positions buffer.  The square root is assumed not to return a negative value,
and the wrapped distance not to exceed the path length. -/
theorem caching_agrees_with_scratch {K : Type} [LinearOrderedField K] (M : MathUtil K)
    (hsqrt : ∀ x, 0 ≤ M.sqrt x) (fresh : Nat → K) (pc : PathConstraint K)
    (path : PathAttachment K) (sc : Nat) (tangents pp ps : Bool)
    (hcs : path.constantSpeed = true) (hn : 1 ≤ curveCountOf path)
    (hwrap : path.closed = true → ∀ x, wrap M x (lengthOf M path) ≤ lengthOf M path)
    (hsp : sc ≤ pc._spaces.length)
    (hmono : ∀ i, i + 1 < sc →
      resolvedDistance M path.closed (lengthOf M path)
          (positionIn pc._position pp (lengthOf M path))
          (spacesIn pc._spaces sc ps (lengthOf M path)) i ≤
        resolvedDistance M path.closed (lengthOf M path)
          (positionIn pc._position pp (lengthOf M path))
          (spacesIn pc._spaces sc ps (lengthOf M path)) (i + 1)) :
    ∃ (positions : List K) (pc1 pc2 : PathConstraint K),
      computeWorldPositions M fresh pc path sc tangents pp ps = some (positions, pc1) ∧
      computeWorldPositionsScratch M fresh pc path sc tangents pp ps = some (positions, pc2) ∧
      pc1._positions = positions ∧ pc2._positions = positions := by
  obtain ⟨ws, segs, segs', -, -, h1, h2⟩ := sampler_matches_scratch M hsqrt fresh pc path sc
    tangents pp ps hcs hn hwrap hsp hmono
  exact ⟨_, _, _, h1, h2, rfl, rfl⟩

theorem caching_agrees_with_scratch_witness :
    (∀ x, 0 ≤ (⟨Real.sqrt, fun y x => Complex.arg ⟨x, y⟩, Real.cos, Real.sin,
        fun x y => x - y * ((if 0 ≤ x / y then ⌊x / y⌋ else ⌈x / y⌉ : ℤ) : ℝ), fun _ => false,
        Real.pi, 2 * Real.pi, Real.pi / 180⟩ : MathUtil ℝ).sqrt x) ∧
    (straightPath ℝ).constantSpeed = true ∧ 1 ≤ curveCountOf (straightPath ℝ) ∧
    2 ≤ (forwardPc ℝ)._spaces.length ∧
    (∀ i, i + 1 < 2 →
      resolvedDistance (⟨Real.sqrt, fun y x => Complex.arg ⟨x, y⟩, Real.cos, Real.sin,
        fun x y => x - y * ((if 0 ≤ x / y then ⌊x / y⌋ else ⌈x / y⌉ : ℤ) : ℝ), fun _ => false,
        Real.pi, 2 * Real.pi, Real.pi / 180⟩ : MathUtil ℝ) (straightPath ℝ).closed (lengthOf (⟨Real.sqrt, fun y x => Complex.arg ⟨x, y⟩, Real.cos, Real.sin,
        fun x y => x - y * ((if 0 ≤ x / y then ⌊x / y⌋ else ⌈x / y⌉ : ℤ) : ℝ), fun _ => false,
        Real.pi, 2 * Real.pi, Real.pi / 180⟩ : MathUtil ℝ) (straightPath ℝ))
          (positionIn (forwardPc ℝ)._position false (lengthOf (⟨Real.sqrt, fun y x => Complex.arg ⟨x, y⟩, Real.cos, Real.sin,
        fun x y => x - y * ((if 0 ≤ x / y then ⌊x / y⌋ else ⌈x / y⌉ : ℤ) : ℝ), fun _ => false,
        Real.pi, 2 * Real.pi, Real.pi / 180⟩ : MathUtil ℝ) (straightPath ℝ)))
          (spacesIn (forwardPc ℝ)._spaces 2 false (lengthOf (⟨Real.sqrt, fun y x => Complex.arg ⟨x, y⟩, Real.cos, Real.sin,
        fun x y => x - y * ((if 0 ≤ x / y then ⌊x / y⌋ else ⌈x / y⌉ : ℤ) : ℝ), fun _ => false,
        Real.pi, 2 * Real.pi, Real.pi / 180⟩ : MathUtil ℝ) (straightPath ℝ))) i ≤
        resolvedDistance (⟨Real.sqrt, fun y x => Complex.arg ⟨x, y⟩, Real.cos, Real.sin,
        fun x y => x - y * ((if 0 ≤ x / y then ⌊x / y⌋ else ⌈x / y⌉ : ℤ) : ℝ), fun _ => false,
        Real.pi, 2 * Real.pi, Real.pi / 180⟩ : MathUtil ℝ) (straightPath ℝ).closed (lengthOf (⟨Real.sqrt, fun y x => Complex.arg ⟨x, y⟩, Real.cos, Real.sin,
        fun x y => x - y * ((if 0 ≤ x / y then ⌊x / y⌋ else ⌈x / y⌉ : ℤ) : ℝ), fun _ => false,
        Real.pi, 2 * Real.pi, Real.pi / 180⟩ : MathUtil ℝ) (straightPath ℝ))
          (positionIn (forwardPc ℝ)._position false (lengthOf (⟨Real.sqrt, fun y x => Complex.arg ⟨x, y⟩, Real.cos, Real.sin,
        fun x y => x - y * ((if 0 ≤ x / y then ⌊x / y⌋ else ⌈x / y⌉ : ℤ) : ℝ), fun _ => false,
        Real.pi, 2 * Real.pi, Real.pi / 180⟩ : MathUtil ℝ) (straightPath ℝ)))
          (spacesIn (forwardPc ℝ)._spaces 2 false (lengthOf (⟨Real.sqrt, fun y x => Complex.arg ⟨x, y⟩, Real.cos, Real.sin,
        fun x y => x - y * ((if 0 ≤ x / y then ⌊x / y⌋ else ⌈x / y⌉ : ℤ) : ℝ), fun _ => false,
        Real.pi, 2 * Real.pi, Real.pi / 180⟩ : MathUtil ℝ) (straightPath ℝ))) (i + 1)) ∧
    ∃ (positions : List ℝ) (pc1 pc2 : PathConstraint ℝ),
      computeWorldPositions (⟨Real.sqrt, fun y x => Complex.arg ⟨x, y⟩, Real.cos, Real.sin,
        fun x y => x - y * ((if 0 ≤ x / y then ⌊x / y⌋ else ⌈x / y⌉ : ℤ) : ℝ), fun _ => false,
        Real.pi, 2 * Real.pi, Real.pi / 180⟩ : MathUtil ℝ) (fun _ => 0) (forwardPc ℝ) (straightPath ℝ) 2 true false
        false = some (positions, pc1) ∧
      computeWorldPositionsScratch (⟨Real.sqrt, fun y x => Complex.arg ⟨x, y⟩, Real.cos, Real.sin,
        fun x y => x - y * ((if 0 ≤ x / y then ⌊x / y⌋ else ⌈x / y⌉ : ℤ) : ℝ), fun _ => false,
        Real.pi, 2 * Real.pi, Real.pi / 180⟩ : MathUtil ℝ) (fun _ => 0) (forwardPc ℝ) (straightPath ℝ) 2 true
        false false = some (positions, pc2) ∧
      pc1._positions = positions ∧ pc2._positions = positions := by
  have hmono : ∀ i, i + 1 < 2 →
      resolvedDistance (⟨Real.sqrt, fun y x => Complex.arg ⟨x, y⟩, Real.cos, Real.sin,
        fun x y => x - y * ((if 0 ≤ x / y then ⌊x / y⌋ else ⌈x / y⌉ : ℤ) : ℝ), fun _ => false,
        Real.pi, 2 * Real.pi, Real.pi / 180⟩ : MathUtil ℝ) (straightPath ℝ).closed (lengthOf (⟨Real.sqrt, fun y x => Complex.arg ⟨x, y⟩, Real.cos, Real.sin,
        fun x y => x - y * ((if 0 ≤ x / y then ⌊x / y⌋ else ⌈x / y⌉ : ℤ) : ℝ), fun _ => false,
        Real.pi, 2 * Real.pi, Real.pi / 180⟩ : MathUtil ℝ) (straightPath ℝ))
          (positionIn (forwardPc ℝ)._position false (lengthOf (⟨Real.sqrt, fun y x => Complex.arg ⟨x, y⟩, Real.cos, Real.sin,
        fun x y => x - y * ((if 0 ≤ x / y then ⌊x / y⌋ else ⌈x / y⌉ : ℤ) : ℝ), fun _ => false,
        Real.pi, 2 * Real.pi, Real.pi / 180⟩ : MathUtil ℝ) (straightPath ℝ)))
          (spacesIn (forwardPc ℝ)._spaces 2 false (lengthOf (⟨Real.sqrt, fun y x => Complex.arg ⟨x, y⟩, Real.cos, Real.sin,
        fun x y => x - y * ((if 0 ≤ x / y then ⌊x / y⌋ else ⌈x / y⌉ : ℤ) : ℝ), fun _ => false,
        Real.pi, 2 * Real.pi, Real.pi / 180⟩ : MathUtil ℝ) (straightPath ℝ))) i ≤
        resolvedDistance (⟨Real.sqrt, fun y x => Complex.arg ⟨x, y⟩, Real.cos, Real.sin,
        fun x y => x - y * ((if 0 ≤ x / y then ⌊x / y⌋ else ⌈x / y⌉ : ℤ) : ℝ), fun _ => false,
        Real.pi, 2 * Real.pi, Real.pi / 180⟩ : MathUtil ℝ) (straightPath ℝ).closed (lengthOf (⟨Real.sqrt, fun y x => Complex.arg ⟨x, y⟩, Real.cos, Real.sin,
        fun x y => x - y * ((if 0 ≤ x / y then ⌊x / y⌋ else ⌈x / y⌉ : ℤ) : ℝ), fun _ => false,
        Real.pi, 2 * Real.pi, Real.pi / 180⟩ : MathUtil ℝ) (straightPath ℝ))
          (positionIn (forwardPc ℝ)._position false (lengthOf (⟨Real.sqrt, fun y x => Complex.arg ⟨x, y⟩, Real.cos, Real.sin,
        fun x y => x - y * ((if 0 ≤ x / y then ⌊x / y⌋ else ⌈x / y⌉ : ℤ) : ℝ), fun _ => false,
        Real.pi, 2 * Real.pi, Real.pi / 180⟩ : MathUtil ℝ) (straightPath ℝ)))
          (spacesIn (forwardPc ℝ)._spaces 2 false (lengthOf (⟨Real.sqrt, fun y x => Complex.arg ⟨x, y⟩, Real.cos, Real.sin,
        fun x y => x - y * ((if 0 ≤ x / y then ⌊x / y⌋ else ⌈x / y⌉ : ℤ) : ℝ), fun _ => false,
        Real.pi, 2 * Real.pi, Real.pi / 180⟩ : MathUtil ℝ) (straightPath ℝ))) (i + 1) := by
    intro i hi
    have hi0 : i = 0 := by omega
    subst hi0
    simp [resolvedDistance, positionIn, spacesIn, forwardPc, straightPc, straightPath]
  exact ⟨fun x => Real.sqrt_nonneg x, rfl, by decide, by decide, hmono,
    caching_agrees_with_scratch (⟨Real.sqrt, fun y x => Complex.arg ⟨x, y⟩, Real.cos, Real.sin,
        fun x y => x - y * ((if 0 ≤ x / y then ⌊x / y⌋ else ⌈x / y⌉ : ℤ) : ℝ), fun _ => false,
        Real.pi, 2 * Real.pi, Real.pi / 180⟩ : MathUtil ℝ) (fun x => Real.sqrt_nonneg x) (fun _ => 0) (forwardPc ℝ)
      (straightPath ℝ) 2 true false false rfl (by decide) (fun h => by cases h) (by decide)
      hmono⟩

/-- C20 (counterexample). On the open straight path from `(0, 0)` to `(90, 0)` (curve table
`[30, 60, 90]`, path length 90) with base position 40 and spacing buffer `[0, -20]`: before
sample 1 the cursor of the sampling loop holds the cached curve 1; sample 1 has the resolved
distance 20, which lies in `[0, 90]`; the search from the cached curve returns curve 1 although
`curves[0] = 30` is not smaller than 20, and the normalised parameter is `-1 / 3`, outside
`[0, 1]`. -/
theorem search_keeps_cached_curve :
    ∃ (vl : Int) (c : Ctrl ℝ) (s : Cursor ℝ),
      worldVertices (fun _ => 0) (backwardPc ℝ) (straightPath ℝ) =
        some (worldOf (straightPath ℝ), vl, (curveCountOf (straightPath ℝ) : Int)) ∧
      curveLengths (⟨Real.sqrt, fun y x => Complex.arg ⟨x, y⟩, Real.cos, Real.sin,
        fun x y => x - y * ((if 0 ≤ x / y then ⌊x / y⌋ else ⌈x / y⌉ : ℤ) : ℝ), fun _ => false,
        Real.pi, 2 * Real.pi, Real.pi / 180⟩ : MathUtil ℝ) (fun _ => 0) (backwardPc ℝ) (worldOf (straightPath ℝ))
          (curveCountOf (straightPath ℝ) : Int) =
        some (lengthOf (⟨Real.sqrt, fun y x => Complex.arg ⟨x, y⟩, Real.cos, Real.sin,
        fun x y => x - y * ((if 0 ≤ x / y then ⌊x / y⌋ else ⌈x / y⌉ : ℤ) : ℝ), fun _ => false,
        Real.pi, 2 * Real.pi, Real.pi / 180⟩ : MathUtil ℝ) (straightPath ℝ), c, curvesOf (⟨Real.sqrt, fun y x => Complex.arg ⟨x, y⟩, Real.cos, Real.sin,
        fun x y => x - y * ((if 0 ≤ x / y then ⌊x / y⌋ else ⌈x / y⌉ : ℤ) : ℝ), fun _ => false,
        Real.pi, 2 * Real.pi, Real.pi / 180⟩ : MathUtil ℝ) (straightPath ℝ)) ∧
      sampleLoop (sampleStep (⟨Real.sqrt, fun y x => Complex.arg ⟨x, y⟩, Real.cos, Real.sin,
        fun x y => x - y * ((if 0 ≤ x / y then ⌊x / y⌋ else ⌈x / y⌉ : ℤ) : ℝ), fun _ => false,
        Real.pi, 2 * Real.pi, Real.pi / 180⟩ : MathUtil ℝ) (straightPath ℝ).closed true (worldOf (straightPath ℝ))
          (curvesOf (⟨Real.sqrt, fun y x => Complex.arg ⟨x, y⟩, Real.cos, Real.sin,
        fun x y => x - y * ((if 0 ≤ x / y then ⌊x / y⌋ else ⌈x / y⌉ : ℤ) : ℝ), fun _ => false,
        Real.pi, 2 * Real.pi, Real.pi / 180⟩ : MathUtil ℝ) (straightPath ℝ)) [0, -20] (lengthOf (⟨Real.sqrt, fun y x => Complex.arg ⟨x, y⟩, Real.cos, Real.sin,
        fun x y => x - y * ((if 0 ≤ x / y then ⌊x / y⌋ else ⌈x / y⌉ : ℤ) : ℝ), fun _ => false,
        Real.pi, 2 * Real.pi, Real.pi / 180⟩ : MathUtil ℝ) (straightPath ℝ)) vl) 1 0 0
          ⟨40, 0, 0, NONE, 0, c, (backwardPc ℝ)._segments,
            Vector.setSize (fun _ => 0) (backwardPc ℝ)._positions (2 * 3 + 2)⟩ = some s ∧
      s.position + (-20) = 20 ∧ lengthOf (⟨Real.sqrt, fun y x => Complex.arg ⟨x, y⟩, Real.cos, Real.sin,
        fun x y => x - y * ((if 0 ≤ x / y then ⌊x / y⌋ else ⌈x / y⌉ : ℤ) : ℝ), fun _ => false,
        Real.pi, 2 * Real.pi, Real.pi / 180⟩ : MathUtil ℝ) (straightPath ℝ) = 90 ∧
      search (curvesOf (⟨Real.sqrt, fun y x => Complex.arg ⟨x, y⟩, Real.cos, Real.sin,
        fun x y => x - y * ((if 0 ≤ x / y then ⌊x / y⌋ else ⌈x / y⌉ : ℤ) : ℝ), fun _ => false,
        Real.pi, 2 * Real.pi, Real.pi / 180⟩ : MathUtil ℝ) (straightPath ℝ)) 20 s.curve = some 1 ∧
      (curvesOf (⟨Real.sqrt, fun y x => Complex.arg ⟨x, y⟩, Real.cos, Real.sin,
        fun x y => x - y * ((if 0 ≤ x / y then ⌊x / y⌋ else ⌈x / y⌉ : ℤ) : ℝ), fun _ => false,
        Real.pi, 2 * Real.pi, Real.pi / 180⟩ : MathUtil ℝ) (straightPath ℝ))[1 - 1]? = some 30 ∧ ¬ ((30 : ℝ) < 20) ∧
      curveParam (curvesOf (⟨Real.sqrt, fun y x => Complex.arg ⟨x, y⟩, Real.cos, Real.sin,
        fun x y => x - y * ((if 0 ≤ x / y then ⌊x / y⌋ else ⌈x / y⌉ : ℤ) : ℝ), fun _ => false,
        Real.pi, 2 * Real.pi, Real.pi / 180⟩ : MathUtil ℝ) (straightPath ℝ)) 20 1 = some (-1 / 3) ∧
      ¬ ((0 : ℝ) ≤ -1 / 3) := by
  obtain ⟨vl, c, s, h1, h2, h3, h4, h5, h6, h7, h8⟩ :=
    backward_cursor (⟨Real.sqrt, fun y x => Complex.arg ⟨x, y⟩, Real.cos, Real.sin,
        fun x y => x - y * ((if 0 ≤ x / y then ⌊x / y⌋ else ⌈x / y⌉ : ℤ) : ℝ), fun _ => false,
        Real.pi, 2 * Real.pi, Real.pi / 180⟩ : MathUtil ℝ) ⟨rfl, rfl, rfl, rfl, rfl, rfl, rfl, rfl, rfl⟩
  exact ⟨vl, c, s, h1, h2, h3, h4, h5, h6, h7, by norm_num, h8, by norm_num⟩

/-- C20 (amended). When the resolved distances of the samples do not decrease from one sample
to the next, the searches find the containing segment.  Constant-speed branch (a path with at
least one curve): with the world buffer, the path length and the curve table the sampler
computes, for every sample `i`, the cursor `s` the sampling loop holds before it and a resolved
distance `p` with `0 <= p <= pathLength`, the curve `k` the search returns satisfies
`(k = 0 or curves[k - 1] < p)` and `p <= curves[k]`, the normalised parameter lies in `[0, 1]`,
and after the load of curve `k` the final parameter `t * 0.1` that the sub-segment search
yields lies in `[0, 1]`.  Non-constant-speed branch: for every lengths table and every
`pathLength`, the curve the search returns satisfies the same two inequalities and the
normalised parameter lies in `[0, 1]`.  Division is the division of the field. -/
theorem search_finds_containing_segment {K : Type} [LinearOrderedField K] (M : MathUtil K)
    (hsqrt : ∀ x, 0 ≤ M.sqrt x) (fresh : Nat → K) (pc : PathConstraint K)
    (path : PathAttachment K) (sc : Nat) (tangents pp ps : Bool)
    (hsp : sc ≤ pc._spaces.length) :
    (path.constantSpeed = true → 1 ≤ curveCountOf path →
      (path.closed = true → ∀ x, wrap M x (lengthOf M path) ≤ lengthOf M path) →
      (∀ i, i + 1 < sc →
        resolvedDistance M path.closed (lengthOf M path)
            (positionIn pc._position pp (lengthOf M path))
            (spacesIn pc._spaces sc ps (lengthOf M path)) i ≤
          resolvedDistance M path.closed (lengthOf M path)
            (positionIn pc._position pp (lengthOf M path))
            (spacesIn pc._spaces sc ps (lengthOf M path)) (i + 1)) →
      ∃ (vl : Int) (c : Ctrl K),
        worldVertices fresh pc path = some (worldOf path, vl, (curveCountOf path : Int)) ∧
        curveLengths M fresh pc (worldOf path) (curveCountOf path : Int) =
          some (lengthOf M path, c, curvesOf M path) ∧
        ∀ (i : Nat) (s : Cursor K) (space : K), i < sc →
          sampleLoop (sampleStep M path.closed tangents (worldOf path) (curvesOf M path)
            (spacesIn pc._spaces sc ps (lengthOf M path)) (lengthOf M path) vl) i 0 0
            ⟨positionIn pc._position pp (lengthOf M path), 0, 0, NONE, 0, c, pc._segments,
              Vector.setSize fresh pc._positions (sc * 3 + 2)⟩ = some s →
          (spacesIn pc._spaces sc ps (lengthOf M path))[i]? = some space →
          (if path.closed then wrap M (s.position + space) (lengthOf M path)
            else s.position + space) =
            resolvedDistance M path.closed (lengthOf M path)
              (positionIn pc._position pp (lengthOf M path))
              (spacesIn pc._spaces sc ps (lengthOf M path)) i ∧
          ∀ (p : K), p = resolvedDistance M path.closed (lengthOf M path)
              (positionIn pc._position pp (lengthOf M path))
              (spacesIn pc._spaces sc ps (lengthOf M path)) i →
            0 ≤ p → p ≤ lengthOf M path →
            ∀ k, search (curvesOf M path) p (if path.closed then 0 else s.curve) = some k →
              (k = 0 ∨ ∃ v, (curvesOf M path)[k - 1]? = some v ∧ v < p) ∧
              (∃ v, (curvesOf M path)[k]? = some v ∧ p ≤ v) ∧
              ∃ q, curveParam (curvesOf M path) p k = some q ∧ 0 ≤ q ∧ q ≤ 1 ∧
                ∃ s', loadCurve M (worldOf path) k
                    { s with position := s.position + space,
                             curve := if path.closed then 0 else s.curve } = some s' ∧
                  ∀ j, search s'.segments (q * s'.curveLength) s'.segment = some j →
                    ∃ t, segmentParam s'.segments (q * s'.curveLength) j = some t ∧
                      0 ≤ t * (1 / 10) ∧ t * (1 / 10) ≤ 1) ∧
    (∀ (pathLength : K) (curveCount verticesLength : Int) (W : List K),
      (∀ i, i + 1 < sc →
        resolvedDistance M path.closed pathLength (positionIn pc._position pp pathLength)
            (spacesIn pc._spaces sc ps pathLength) i ≤
          resolvedDistance M path.closed pathLength (positionIn pc._position pp pathLength)
            (spacesIn pc._spaces sc ps pathLength) (i + 1)) →
      ∀ (i : Nat) (s : NCursor K) (space : K), i < sc →
        sampleLoop (ncSampleStep M path path.closed tangents
          (spacesIn pc._spaces sc ps pathLength) pathLength curveCount verticesLength) i 0 0
          ⟨positionIn pc._position pp pathLength, 0, NONE, W,
            Vector.setSize fresh pc._positions (sc * 3 + 2)⟩ = some s →
        (spacesIn pc._spaces sc ps pathLength)[i]? = some space →
        (if path.closed then wrap M (s.position + space) pathLength else s.position + space) =
          resolvedDistance M path.closed pathLength (positionIn pc._position pp pathLength)
            (spacesIn pc._spaces sc ps pathLength) i ∧
        ∀ (p : K), p = resolvedDistance M path.closed pathLength
            (positionIn pc._position pp pathLength) (spacesIn pc._spaces sc ps pathLength) i →
          0 ≤ p → p ≤ pathLength →
          ∀ k, search path.lengths p (if path.closed then 0 else s.curve) = some k →
            (k = 0 ∨ ∃ v, path.lengths[k - 1]? = some v ∧ v < p) ∧
            (∃ v, path.lengths[k]? = some v ∧ p ≤ v) ∧
            ∃ q, curveParam path.lengths p k = some q ∧ 0 ≤ q ∧ q ≤ 1) := by
  have hsum : ∀ (spaces : List K) (pos : K) (i : Nat) (space x : K), spaces[i]? = some space →
      x = pos + (spaces.take i).sum → x + space = pos + (spaces.take (i + 1)).sum := by
    intro spaces pos i space x hspace hx
    have hil : i < spaces.length := by
      by_contra hcon
      rw [List.getElem?_eq_none (by omega)] at hspace
      cases hspace
    rw [List.sum_take_succ spaces i hil, hx]
    rw [List.getElem?_eq_getElem hil] at hspace
    cases hspace
    ring
  constructor
  · intro _ hn hwrap hmono
    obtain ⟨vl, hwv, hvl, hworld⟩ := worldVertices_spec fresh pc path hn
    obtain ⟨c, hcl⟩ := curveLengths_spec M fresh pc (worldOf path) (curveCountOf path) hworld
    refine ⟨vl, c, hwv, hcl, ?_⟩
    intro i s space hi hrun hspace
    have hspl := spacesIn_length pc._spaces sc ps (lengthOf M path)
    obtain ⟨hp, hval, r, hr, hb⟩ := sampler_prefix M hsqrt path.closed tangents (worldOf path)
      (curvesOf M path) (spacesIn pc._spaces sc ps (lengthOf M path)) (curveCountOf path) hn rfl
      hworld vl hvl hwrap (positionIn pc._position pp (lengthOf M path)) sc
      (by rw [hspl]; exact hsp) hmono i (by omega) c pc._segments
      (Vector.setSize fresh pc._positions (sc * 3 + 2))
      (by rw [Vector.setSize_length]) s hrun
    have hres : (if path.closed then wrap M (s.position + space) (lengthOf M path)
        else s.position + space) =
        resolvedDistance M path.closed (lengthOf M path)
          (positionIn pc._position pp (lengthOf M path))
          (spacesIn pc._spaces sc ps (lengthOf M path)) i := by
      rw [hsum _ _ i space _ hspace hp]
      rfl
    refine ⟨hres, ?_⟩
    intro p hpe hp0 _ k hk
    have hlt : (if path.closed then 0 else s.curve) < (curvesOf M path).length := by
      split_ifs
      · unfold curvesOf
        simp only [List.length_map, List.length_range]
        omega
      · exact hval.curve_lt
    exact sample_contains M hsqrt path.closed (worldOf path) (curvesOf M path)
      (curveCountOf path) rfl hworld s hval r p hb (by rw [hpe]; exact hr i le_rfl hi) hp0
      { s with position := s.position + space, curve := if path.closed then 0 else s.curve }
      rfl rfl rfl rfl rfl hlt k hk
  · intro pathLength curveCount verticesLength W hmono i s space hi hrun hspace
    obtain ⟨hp, r, hr, hb⟩ := nc_prefix M path path.closed tangents
      (spacesIn pc._spaces sc ps pathLength) pathLength curveCount verticesLength
      (positionIn pc._position pp pathLength) sc hmono W
      (Vector.setSize fresh pc._positions (sc * 3 + 2)) i (by omega) s hrun
    have hres : (if path.closed then wrap M (s.position + space) pathLength
        else s.position + space) =
        resolvedDistance M path.closed pathLength (positionIn pc._position pp pathLength)
          (spacesIn pc._spaces sc ps pathLength) i := by
      rw [hsum _ _ i space _ hspace hp]
      rfl
    refine ⟨hres, ?_⟩
    intro p hpe hp0 _ k hk
    have hbehind : ∀ j, j < (if path.closed then 0 else s.curve) →
        ∃ v, path.lengths[j]? = some v ∧ v < p := by
      intro j hj
      cases hcl : path.closed with
      | true => rw [hcl] at hj; simp at hj
      | false =>
        rw [hcl] at hj
        simp only [Bool.false_eq_true, if_false] at hj
        obtain ⟨v, hv, hvr⟩ := hb hcl j hj
        exact ⟨v, hv, lt_of_lt_of_le hvr (by rw [hpe]; exact hr i le_rfl hi)⟩
    obtain ⟨h1, h2, -, h3⟩ := search_contains path.lengths p _ k hp0 hbehind hk
    exact ⟨h1, h2, h3⟩

theorem search_finds_containing_segment_witness :
    (∀ x, 0 ≤ (⟨Real.sqrt, fun y x => Complex.arg ⟨x, y⟩, Real.cos, Real.sin,
        fun x y => x - y * ((if 0 ≤ x / y then ⌊x / y⌋ else ⌈x / y⌉ : ℤ) : ℝ), fun _ => false,
        Real.pi, 2 * Real.pi, Real.pi / 180⟩ : MathUtil ℝ).sqrt x) ∧
    2 ≤ (ncPc ℝ)._spaces.length ∧
    ∃ q, curveParam (ncPath ℝ).lengths (6 : ℝ) 0 = some q ∧ 0 ≤ q ∧ q ≤ 1 := by
  have hmono : ∀ i, i + 1 < 2 →
      resolvedDistance (⟨Real.sqrt, fun y x => Complex.arg ⟨x, y⟩, Real.cos, Real.sin,
        fun x y => x - y * ((if 0 ≤ x / y then ⌊x / y⌋ else ⌈x / y⌉ : ℤ) : ℝ), fun _ => false,
        Real.pi, 2 * Real.pi, Real.pi / 180⟩ : MathUtil ℝ) (ncPath ℝ).closed 30 (positionIn (ncPc ℝ)._position false 30)
          (spacesIn (ncPc ℝ)._spaces 2 false 30) i ≤
        resolvedDistance (⟨Real.sqrt, fun y x => Complex.arg ⟨x, y⟩, Real.cos, Real.sin,
        fun x y => x - y * ((if 0 ≤ x / y then ⌊x / y⌋ else ⌈x / y⌉ : ℤ) : ℝ), fun _ => false,
        Real.pi, 2 * Real.pi, Real.pi / 180⟩ : MathUtil ℝ) (ncPath ℝ).closed 30 (positionIn (ncPc ℝ)._position false 30)
          (spacesIn (ncPc ℝ)._spaces 2 false 30) (i + 1) := by
    intro i hi
    have hi0 : i = 0 := by omega
    subst hi0
    simp [resolvedDistance, positionIn, spacesIn, ncPc, ncPath]
  have hp : (6 : ℝ) = resolvedDistance (⟨Real.sqrt, fun y x => Complex.arg ⟨x, y⟩, Real.cos, Real.sin,
        fun x y => x - y * ((if 0 ≤ x / y then ⌊x / y⌋ else ⌈x / y⌉ : ℤ) : ℝ), fun _ => false,
        Real.pi, 2 * Real.pi, Real.pi / 180⟩ : MathUtil ℝ) (ncPath ℝ).closed 30
      (positionIn (ncPc ℝ)._position false 30) (spacesIn (ncPc ℝ)._spaces 2 false 30) 0 := by
    simp [resolvedDistance, positionIn, spacesIn, ncPc, ncPath]
  have hsearch : search (ncPath ℝ).lengths (6 : ℝ)
      (if (ncPath ℝ).closed then 0
        else (⟨positionIn (ncPc ℝ)._position false 30, 0, NONE, [],
          Vector.setSize (fun _ => 0) (ncPc ℝ)._positions (2 * 3 + 2)⟩ : NCursor ℝ).curve) =
      some 0 := by
    simp [search, scan, ncPath]
    norm_num
  exact ⟨fun x => Real.sqrt_nonneg x, by decide,
    ((((search_finds_containing_segment (⟨Real.sqrt, fun y x => Complex.arg ⟨x, y⟩, Real.cos, Real.sin,
        fun x y => x - y * ((if 0 ≤ x / y then ⌊x / y⌋ else ⌈x / y⌉ : ℤ) : ℝ), fun _ => false,
        Real.pi, 2 * Real.pi, Real.pi / 180⟩ : MathUtil ℝ) (fun x => Real.sqrt_nonneg x) (fun _ => 0)
      (ncPc ℝ) (ncPath ℝ) 2 true false false (by decide)).2 30 0 12 [] hmono 0
      ⟨positionIn (ncPc ℝ)._position false 30, 0, NONE, [],
        Vector.setSize (fun _ => 0) (ncPc ℝ)._positions (2 * 3 + 2)⟩ 0 (by decide) rfl rfl).2
      6 hp (by norm_num) (by norm_num) 0 hsearch).2).2⟩

/-- C22. The unbounded search loops of the constant-speed sampler stop in bounds, in the
embedding with the special values of the local `p` (`fmod` by zero is NaN, a division by zero
is NaN or an infinity, a comparison with NaN is false).  For every path with at least one
curve, closed or open and of any length, zero included, every base position and every
spacing buffer, with a `sqrt` that is not negative and an `fmod` that stays below a positive
divisor: the constant-speed branch of `computeWorldPositions` returns; the curve table has
`curveCount` entries; and for every sample `i` the sampling loop reaches the sample with a
cursor `s`, the iteration for the sample returns, and when the distance is in range (always
on a closed path, `0 <= p <= pathLength` on an open one) the curve search from the start
index of the code returns an index `k < curveCount`, the normalised parameter is defined, the
load of curve `k` returns with a sub-segment table of 10 entries, and the sub-segment search
returns an index `j <= 9`.  Out of range the iteration runs no search. -/
theorem search_loops_stay_in_bounds {K : Type} [LinearOrderedField K] (M : MathUtil K)
    (hsqrt : ∀ x, 0 ≤ M.sqrt x) (hfmod : ∀ x y, 0 < y → M.fmod x y < y) (fresh : Nat → K)
    (pc : PathConstraint K) (path : PathAttachment K) (sc : Nat) (tangents pp ps : Bool)
    (hn : 1 ≤ curveCountOf path) (hsp : sc ≤ pc._spaces.length) :
    (∃ r, Special.constantSpeedBranch M fresh pc path sc tangents pp ps = some r) ∧
    (curvesOf M path).length = curveCountOf path ∧
    ∃ (vl : Int) (c : Ctrl K),
      worldVertices fresh pc path = some (worldOf path, vl, (curveCountOf path : Int)) ∧
      curveLengths M fresh pc (worldOf path) (curveCountOf path : Int) =
        some (lengthOf M path, c, curvesOf M path) ∧
      ∀ (i : Nat), i < sc →
        ∃ (s : Special.Cursor K) (space : K),
          sampleLoop (Special.sampleStep M path.closed tangents (worldOf path) (curvesOf M path)
            (spacesIn pc._spaces sc ps (lengthOf M path)) (lengthOf M path) vl) i 0 0
            ⟨positionIn pc._position pp (lengthOf M path), 0, 0, NONE, 0, c, pc._segments,
              (Vector.setSize fresh pc._positions (sc * 3 + 2)).map Flt.fin⟩ = some s ∧
          (spacesIn pc._spaces sc ps (lengthOf M path))[i]? = some space ∧
          (∃ s1, Special.sampleStep M path.closed tangents (worldOf path) (curvesOf M path)
            (spacesIn pc._spaces sc ps (lengthOf M path)) (lengthOf M path) vl i (3 * i) s =
            some s1) ∧
          ((path.closed = false →
              0 ≤ s.position + space ∧ s.position + space ≤ lengthOf M path) →
            ∃ (k : Nat) (q : Flt K) (s' : Special.Cursor K) (j : Nat),
              Special.search (curvesOf M path)
                (if path.closed then Special.wrap M (s.position + space) (lengthOf M path)
                  else Flt.fin (s.position + space))
                (if path.closed then 0 else s.curve) = some k ∧ k < curveCountOf path ∧
              Special.curveParam (curvesOf M path)
                (if path.closed then Special.wrap M (s.position + space) (lengthOf M path)
                  else Flt.fin (s.position + space)) k = some q ∧
              Special.loadCurve M (worldOf path) k
                { s with position := s.position + space,
                         curve := if path.closed then 0 else s.curve } = some s' ∧
              s'.segments.length = 10 ∧
              Special.search s'.segments (q * Flt.fin s'.curveLength) s'.segment = some j ∧
              j ≤ 9) := by
  obtain ⟨vl, hwv, hvl, hworld⟩ := worldVertices_spec fresh pc path hn
  obtain ⟨c, hcl⟩ := curveLengths_spec M fresh pc (worldOf path) (curveCountOf path) hworld
  have hspl := spacesIn_length pc._spaces sc ps (lengthOf M path)
  have hcurvesl : (curvesOf M path).length = curveCountOf path := by
    unfold curvesOf
    simp only [List.length_map, List.length_range]
  have hv0 : Special.Cursor.Valid M (worldOf path) (curvesOf M path)
      ⟨positionIn pc._position pp (lengthOf M path), 0, 0, NONE, 0, c, pc._segments,
        (Vector.setSize fresh pc._positions (sc * 3 + 2)).map Flt.fin⟩ :=
    ⟨by show 0 < (curvesOf M path).length; rw [hcurvesl]; omega, fun h => absurd rfl h⟩
  have hP0 : ((Vector.setSize fresh pc._positions (sc * 3 + 2)).map
      (Flt.fin : K → Flt K)).length = sc * 3 + 2 := by
    rw [List.length_map, Vector.setSize_length]
  have hrun : ∀ i, i ≤ sc → ∃ s : Special.Cursor K,
      sampleLoop (Special.sampleStep M path.closed tangents (worldOf path) (curvesOf M path)
        (spacesIn pc._spaces sc ps (lengthOf M path)) (lengthOf M path) vl) i 0 0
        ⟨positionIn pc._position pp (lengthOf M path), 0, 0, NONE, 0, c, pc._segments,
          (Vector.setSize fresh pc._positions (sc * 3 + 2)).map Flt.fin⟩ = some s ∧
      s.Valid M (worldOf path) (curvesOf M path) ∧ s.positions.length = sc * 3 + 2 := by
    intro i hi
    obtain ⟨s, hs, hv, hl⟩ := special_sampleLoop_char M hsqrt hfmod path.closed tangents
      (worldOf path) (curvesOf M path) (spacesIn pc._spaces sc ps (lengthOf M path))
      (curveCountOf path) hn rfl hworld vl hvl i 0 0 _ hv0 (by rw [hspl]; omega)
      (by rw [hP0]; omega)
    exact ⟨s, hs, hv, by rw [hl, hP0]⟩
  refine ⟨?_, hcurvesl, vl, c, hwv, hcl, ?_⟩
  · obtain ⟨s, hs, -, -⟩ := hrun sc le_rfl
    refine ⟨(s.positions, s.segments), ?_⟩
    unfold Special.constantSpeedBranch
    simp only [Option.bind_eq_bind]
    rw [hwv]
    simp only [Option.some_bind]
    have hcl2 : curveLengths M fresh pc (worldOf path) (curveCountOf path : Int) =
        some (lengthOf M path, c, curvesOf M path) := hcl
    rw [hcl2]
    simp only [Option.some_bind]
    rw [scaleSpaces_eq pc._spaces sc ps (lengthOf M path) hsp]
    simp only [Option.some_bind]
    have hs' : sampleLoop (Special.sampleStep M path.closed tangents (worldOf path)
        (curvesOf M path) (spacesIn pc._spaces sc ps (lengthOf M path)) (lengthOf M path) vl)
        sc 0 0 ⟨if pp = true then pc._position * lengthOf M path else pc._position, 0, 0, NONE,
          0, c, pc._segments, (Vector.setSize fresh pc._positions (sc * 3 + 2)).map Flt.fin⟩ =
        some s := hs
    rw [hs']
    rfl
  · intro i hi
    obtain ⟨s, hs, hv, hl⟩ := hrun i (by omega)
    have hex : ∃ space, (spacesIn pc._spaces sc ps (lengthOf M path))[i]? = some space :=
      ⟨_, List.getElem?_eq_getElem (by rw [hspl]; omega)⟩
    obtain ⟨space, hspace⟩ := hex
    obtain ⟨⟨s1, hs1, -, -⟩, hsearch⟩ := special_sampleStep_char M hsqrt hfmod path.closed
      tangents (worldOf path) (curvesOf M path) (spacesIn pc._spaces sc ps (lengthOf M path))
      (curveCountOf path) hn rfl hworld vl hvl i (3 * i) space hspace s hv
      (by rw [hl]; omega)
    exact ⟨s, space, hs, hspace, ⟨s1, hs1⟩, hsearch⟩

theorem search_loops_stay_in_bounds_witness :
    (∀ x, 0 ≤ (⟨Real.sqrt, fun y x => Complex.arg ⟨x, y⟩, Real.cos, Real.sin,
        fun x y => x - y * ((if 0 ≤ x / y then ⌊x / y⌋ else ⌈x / y⌉ : ℤ) : ℝ), fun _ => false,
        Real.pi, 2 * Real.pi, Real.pi / 180⟩ : MathUtil ℝ).sqrt x) ∧
    (∀ x y, 0 < y → (⟨Real.sqrt, fun y x => Complex.arg ⟨x, y⟩, Real.cos, Real.sin,
        fun x y => x - y * ((if 0 ≤ x / y then ⌊x / y⌋ else ⌈x / y⌉ : ℤ) : ℝ), fun _ => false,
        Real.pi, 2 * Real.pi, Real.pi / 180⟩ : MathUtil ℝ).fmod x y < y) ∧
    1 ≤ curveCountOf (pointPath ℝ) ∧ 2 ≤ (pointPc ℝ)._spaces.length ∧
    (pointPath ℝ).closed = true ∧
    lengthOf (⟨Real.sqrt, fun y x => Complex.arg ⟨x, y⟩, Real.cos, Real.sin,
        fun x y => x - y * ((if 0 ≤ x / y then ⌊x / y⌋ else ⌈x / y⌉ : ℤ) : ℝ), fun _ => false,
        Real.pi, 2 * Real.pi, Real.pi / 180⟩ : MathUtil ℝ) (pointPath ℝ) = 0 ∧
    Special.wrap (⟨Real.sqrt, fun y x => Complex.arg ⟨x, y⟩, Real.cos, Real.sin,
        fun x y => x - y * ((if 0 ≤ x / y then ⌊x / y⌋ else ⌈x / y⌉ : ℤ) : ℝ), fun _ => false,
        Real.pi, 2 * Real.pi, Real.pi / 180⟩ : MathUtil ℝ) (3 + 7) (lengthOf (⟨Real.sqrt, fun y x => Complex.arg ⟨x, y⟩, Real.cos, Real.sin,
        fun x y => x - y * ((if 0 ≤ x / y then ⌊x / y⌋ else ⌈x / y⌉ : ℤ) : ℝ), fun _ => false,
        Real.pi, 2 * Real.pi, Real.pi / 180⟩ : MathUtil ℝ) (pointPath ℝ)) = Flt.nan ∧
    (∃ r, Special.constantSpeedBranch (⟨Real.sqrt, fun y x => Complex.arg ⟨x, y⟩, Real.cos, Real.sin,
        fun x y => x - y * ((if 0 ≤ x / y then ⌊x / y⌋ else ⌈x / y⌉ : ℤ) : ℝ), fun _ => false,
        Real.pi, 2 * Real.pi, Real.pi / 180⟩ : MathUtil ℝ) (fun _ => 0) (pointPc ℝ) (pointPath ℝ) 2 true
      false false = some r) ∧
    (curvesOf (⟨Real.sqrt, fun y x => Complex.arg ⟨x, y⟩, Real.cos, Real.sin,
        fun x y => x - y * ((if 0 ≤ x / y then ⌊x / y⌋ else ⌈x / y⌉ : ℤ) : ℝ), fun _ => false,
        Real.pi, 2 * Real.pi, Real.pi / 180⟩ : MathUtil ℝ) (pointPath ℝ)).length = curveCountOf (pointPath ℝ) := by
  have hn : 1 ≤ curveCountOf (pointPath ℝ) := by
    simp [curveCountOf, pointPath]
  have hfmod : ∀ x y : ℝ, 0 < y → (⟨Real.sqrt, fun y x => Complex.arg ⟨x, y⟩, Real.cos, Real.sin,
        fun x y => x - y * ((if 0 ≤ x / y then ⌊x / y⌋ else ⌈x / y⌉ : ℤ) : ℝ), fun _ => false,
        Real.pi, 2 * Real.pi, Real.pi / 180⟩ : MathUtil ℝ).fmod x y < y :=
    Exact.fmod_lt (⟨Real.sqrt, fun y x => Complex.arg ⟨x, y⟩, Real.cos, Real.sin,
        fun x y => x - y * ((if 0 ≤ x / y then ⌊x / y⌋ else ⌈x / y⌉ : ℤ) : ℝ), fun _ => false,
        Real.pi, 2 * Real.pi, Real.pi / 180⟩ : MathUtil ℝ) ⟨rfl, rfl, rfl, rfl, rfl, rfl, rfl, rfl, rfl⟩
  have h := search_loops_stay_in_bounds (⟨Real.sqrt, fun y x => Complex.arg ⟨x, y⟩, Real.cos, Real.sin,
        fun x y => x - y * ((if 0 ≤ x / y then ⌊x / y⌋ else ⌈x / y⌉ : ℤ) : ℝ), fun _ => false,
        Real.pi, 2 * Real.pi, Real.pi / 180⟩ : MathUtil ℝ)
    Real.sqrt_nonneg hfmod (fun _ => 0) (pointPc ℝ) (pointPath ℝ) 2 true false false hn
    (le_refl 2)
  have hzero : lengthOf (⟨Real.sqrt, fun y x => Complex.arg ⟨x, y⟩, Real.cos, Real.sin,
        fun x y => x - y * ((if 0 ≤ x / y then ⌊x / y⌋ else ⌈x / y⌉ : ℤ) : ℝ), fun _ => false,
        Real.pi, 2 * Real.pi, Real.pi / 180⟩ : MathUtil ℝ) (pointPath ℝ) = 0 :=
    pointPath_length _ ⟨rfl, rfl, rfl, rfl, rfl, rfl, rfl, rfl, rfl⟩
  exact ⟨Real.sqrt_nonneg, hfmod, hn, le_refl 2, rfl, hzero,
    by rw [hzero]; exact special_wrap_zero _ _, h.1, h.2.1⟩

end Spine
